import Mathlib

/-!
The physics bridge of gym-ignition.

A shallow embedding of `scenario/plugins/Physics/Physics.cpp`: the registry that
maps scene entities to physics handles, and the phases of one tick
(`CreatePhysicsEntities`, `UpdatePhysics`, `Step`, `UpdateSim`,
`UpdateCollisions`, `RemovePhysicsEntities`).

Conventions of the embedding.

* Doubles are exact integers (`Scalar`); every value the bridge handles is
  copied, negated, summed or compared, never rounded.
* The entity component manager is a record with one partial map per component
  type; `Each` is a left fold over the enumeration order `entities`.
* A `std::unordered_map` that is only searched is a partial function; one that
  is iterated is an association list in insertion order.
* The physics engine is external. What the bridge sends to it is appended to
  the log `calls`; what it answers is read from an `EngineView`.
* A thrown exception or a null dereference sets `fault`; a faulted state skips
  everything that follows.
-/

namespace Physics

/-! ## Scalars, vectors, poses -/

/-- An entity identifier of the component manager. -/
abbrev Entity := Nat

/-- The null entity. -/
def kNullEntity : Entity := 0

/-- A double, in exact arithmetic. -/
abbrev Scalar := Int

/-- A `std::chrono::steady_clock::duration`, as a signed tick count. -/
abbrev Duration := Int

/-- The type `ignition::math::Vector3d`. -/
structure Vector3d where
  x : Scalar
  y : Scalar
  z : Scalar
deriving DecidableEq, Repr

namespace Vector3d

/-- The zero vector. -/
def Zero : Vector3d := ⟨0, 0, 0⟩

/-- Component-wise sum. -/
def add (a b : Vector3d) : Vector3d := ⟨a.x + b.x, a.y + b.y, a.z + b.z⟩

/-- Component-wise difference. -/
def sub (a b : Vector3d) : Vector3d := ⟨a.x - b.x, a.y - b.y, a.z - b.z⟩

/-- Component-wise negation. -/
def neg (a : Vector3d) : Vector3d := ⟨-a.x, -a.y, -a.z⟩

/-- The cross product. -/
def Cross (a b : Vector3d) : Vector3d :=
  ⟨a.y * b.z - a.z * b.y, a.z * b.x - a.x * b.z, a.x * b.y - a.y * b.x⟩

instance : Add Vector3d := ⟨add⟩
instance : Sub Vector3d := ⟨sub⟩
instance : Neg Vector3d := ⟨neg⟩

end Vector3d

/-- Equality of two doubles up to the tolerance `1e-6`. -/
def equalTol (a b : Scalar) : Bool := decide (1000000 * |a - b| ≤ 1)

/-- The comparison `vec3Eql` of the bridge: `Equal` with tolerance `1e-6`. -/
def vec3Eql (a b : Vector3d) : Bool :=
  equalTol a.x b.x && equalTol a.y b.y && equalTol a.z b.z

/-- A rotation, as its 3x3 matrix given by rows. -/
structure Matrix3d where
  r0 : Vector3d
  r1 : Vector3d
  r2 : Vector3d
deriving DecidableEq, Repr

namespace Matrix3d

/-- The identity rotation. -/
def Identity : Matrix3d := ⟨⟨1, 0, 0⟩, ⟨0, 1, 0⟩, ⟨0, 0, 1⟩⟩

/-- The transposed matrix. -/
def transpose (m : Matrix3d) : Matrix3d :=
  ⟨⟨m.r0.x, m.r1.x, m.r2.x⟩, ⟨m.r0.y, m.r1.y, m.r2.y⟩, ⟨m.r0.z, m.r1.z, m.r2.z⟩⟩

/-- The inner product of two vectors. -/
def dot (a b : Vector3d) : Scalar := a.x * b.x + a.y * b.y + a.z * b.z

/-- Matrix times vector. -/
def mulVec (m : Matrix3d) (v : Vector3d) : Vector3d :=
  ⟨dot m.r0 v, dot m.r1 v, dot m.r2 v⟩

/-- Matrix product. -/
def mul (a b : Matrix3d) : Matrix3d :=
  let bt := b.transpose
  ⟨⟨dot a.r0 bt.r0, dot a.r0 bt.r1, dot a.r0 bt.r2⟩,
   ⟨dot a.r1 bt.r0, dot a.r1 bt.r1, dot a.r1 bt.r2⟩,
   ⟨dot a.r2 bt.r0, dot a.r2 bt.r1, dot a.r2 bt.r2⟩⟩

end Matrix3d

/-- The type `ignition::math::Pose3d` (and the Eigen isometry it converts to): a
rigid transform, given by its translation and the matrix of its rotation. -/
structure Pose3d where
  pos : Vector3d
  rot : Matrix3d
deriving DecidableEq, Repr

namespace Pose3d

/-- The product `X_OP * X_PQ` of ignition: the frame Q relative to O. -/
def mul (a b : Pose3d) : Pose3d := ⟨a.pos + a.rot.mulVec b.pos, a.rot.mul b.rot⟩

/-- The sum `a + b` of ignition, which is the product `b * a`. -/
def add (a b : Pose3d) : Pose3d := mul b a

/-- The inverse transform; the inverse of a rotation is its transpose. -/
def Inverse (a : Pose3d) : Pose3d :=
  ⟨-(a.rot.transpose.mulVec a.pos), a.rot.transpose⟩

instance : Mul Pose3d := ⟨mul⟩
instance : Add Pose3d := ⟨add⟩

end Pose3d

/-- The comparison `pose3Eql` of the bridge. The source compares the position
and the X, Y, Z, W components of the quaternion up to `1e-6`; here the rotation
is compared entry by entry. -/
def pose3Eql (a b : Pose3d) : Bool :=
  vec3Eql a.pos b.pos && vec3Eql a.rot.r0 b.rot.r0 && vec3Eql a.rot.r1 b.rot.r1
    && vec3Eql a.rot.r2 b.rot.r2

/-! ## Messages and component data -/

/-- The message `msgs::Wrench`: a force and a torque. -/
structure Wrench where
  force : Vector3d
  torque : Vector3d
deriving DecidableEq, Repr

/-- The wrench a `Clear()` leaves behind. -/
def Wrench.cleared : Wrench := ⟨Vector3d.Zero, Vector3d.Zero⟩

/-- One contribution of `ExternalWorldWrenchCmdWithDuration`: a wrench and the
simulated time at which it expires. -/
structure WrenchWithDuration where
  wrench : Wrench
  expiration : Duration
deriving DecidableEq, Repr

/-- Modelled from the spec: `WrenchWithDuration::expired` is declared in
`ExternalWorldWrenchCmdWithDuration.h`, which is not among the sources. A
contribution has expired once its expiry instant precedes the given time. -/
def WrenchWithDuration.expired (w : WrenchWithDuration) (simTime : Duration) : Bool :=
  decide (w.expiration < simTime)

/-- Modelled from the spec: `LinkWrenchCmd::totalWrench` (same missing header).
It takes no time argument: the stored contributions are summed, each once. -/
def totalWrench (ws : List WrenchWithDuration) : Wrench :=
  ws.foldl (fun acc w => ⟨acc.force + w.wrench.force, acc.torque + w.wrench.torque⟩)
    ⟨Vector3d.Zero, Vector3d.Zero⟩

/-- Modelled from the spec: `LinkWrenchCmd::cleanExpired` (same missing header)
drops every contribution that has expired at the given time. -/
def cleanExpired (ws : List WrenchWithDuration) (simTime : Duration) : List WrenchWithDuration :=
  ws.filter (fun w => !w.expired simTime)

/-- The command `WorldVelocityCmd`: a linear and an angular velocity. -/
structure WorldVelocity where
  linear : Vector3d
  angular : Vector3d
deriving DecidableEq, Repr

/-- The message `msgs::JointWrench` of a contact point. -/
structure JointWrench where
  body_1_name : String
  body_2_name : String
  body_1_wrench : Wrench
  body_2_wrench : Wrench
deriving DecidableEq, Repr

/-- The message `msgs::Contact`: the contact points of one pair of collisions. -/
structure Contact where
  collision1 : Entity
  collision2 : Entity
  position : List Vector3d := []
  normal : List Vector3d := []
  depth : List Scalar := []
  wrench : List JointWrench := []
deriving DecidableEq, Repr

/-- The message `msgs::Contacts`, the data of `ContactSensorData`. -/
abbrev Contacts := List Contact

/-- The mesh description `sdf::Mesh`. -/
structure SdfMesh where
  uri : String
  filePath : String
  scale : Vector3d
deriving DecidableEq, Repr

/-- The data of a `Geometry` component that the bridge looks at. -/
structure Geometry where
  isMesh : Bool
  meshShape : Option SdfMesh
deriving DecidableEq, Repr

/-- The description `sdf::Collision`; `dom` stands for the fields the bridge
passes on untouched. -/
structure SdfCollision where
  dom : Nat
  rawPose : Pose3d
  poseRelativeTo : String
deriving DecidableEq, Repr

/-- The description `sdf::Model` the bridge builds. -/
structure SdfModel where
  name : String
  rawPose : Pose3d
  static : Bool
deriving DecidableEq, Repr

/-- The description `sdf::Link` the bridge builds; an inertial is a token. -/
structure SdfLink where
  name : String
  rawPose : Pose3d
  inertial : Option Nat
deriving DecidableEq, Repr

/-- The description `sdf::Joint` the bridge builds; joint types and axes are
tokens. -/
structure SdfJoint where
  name : String
  type : Nat
  rawPose : Pose3d
  threadPitch : Scalar
  parentLinkName : String
  childLinkName : String
  axis : Option Nat
  axis2 : Option Nat
deriving DecidableEq, Repr

/-- The three values of `ComponentState`. -/
inductive ComponentState
  | NoChange
  | PeriodicChange
  | OneTimeChange
deriving DecidableEq, Repr

/-- The component types whose changed state the bridge sets. -/
inductive ComponentTypeId
  | Pose
  | WorldPose
  | WorldLinearVelocity
  | WorldAngularVelocity
  | WorldLinearAcceleration
  | WorldAngularAcceleration
  | LinearVelocity
  | AngularVelocity
  | LinearAcceleration
  | AngularAcceleration
deriving DecidableEq, Repr

/-! ## Partial maps -/

/-- A searched-only `std::unordered_map`. -/
abbrev FMap (K V : Type) := K → Option V

namespace FMap

/-- The empty map. -/
def empty {K V : Type} : FMap K V := fun _ => none

/-- Assignment through `operator[]`: the key is bound to the value. -/
def set {K V : Type} [DecidableEq K] (m : FMap K V) (k : K) (v : V) : FMap K V :=
  fun k' => if k' = k then some v else m k'

/-- The member `insert`: a key that is already bound keeps its value. -/
def insert {K V : Type} [DecidableEq K] (m : FMap K V) (k : K) (v : V) : FMap K V :=
  fun k' => if k' = k then (match m k with | some old => some old | none => some v) else m k'

/-- The member `erase` by key. -/
def erase {K V : Type} [DecidableEq K] (m : FMap K V) (k : K) : FMap K V :=
  fun k' => if k' = k then none else m k'

end FMap

/-- An iterated `std::unordered_map`, as an association list. -/
abbrev AMap (K V : Type) := List (K × V)

namespace AMap

/-- The member `find`: the value bound to a key. -/
def find {K V : Type} [DecidableEq K] : AMap K V → K → Option V
  | [], _ => none
  | (k', v) :: rest, k => if k' = k then some v else find rest k

/-- The member `insert`: a key that is already bound keeps its value. -/
def insert {K V : Type} [DecidableEq K] (m : AMap K V) (k : K) (v : V) : AMap K V :=
  match find m k with
  | some _ => m
  | none => m ++ [(k, v)]

/-- Access through `operator[]` followed by a mutation of the value: a missing
key is first bound to the default `d`. -/
def upsert {K V : Type} [DecidableEq K] : AMap K V → K → V → (V → V) → AMap K V
  | [], k, d, f => [(k, f d)]
  | (k', v) :: rest, k, d, f =>
    if k' = k then (k', f v) :: rest else (k', v) :: upsert rest k d f

end AMap

/-! ## The entity component manager -/

/-- The entity component manager, as far as the bridge reads and writes it.
`entities` is the order in which `Each` enumerates; an entity requested for
removal is still enumerated. `parentOf` is the entity graph (`ParentEntity(e)`),
which is distinct from the `ParentEntity` component. -/
structure ECM where
  entities : List Entity := []
  parentOf : Entity → Entity := fun _ => kNullEntity
  newlyCreated : Entity → Bool := fun _ => false
  removed : Entity → Bool := fun _ => false
  world : Entity → Bool := fun _ => false
  model : Entity → Bool := fun _ => false
  link : Entity → Bool := fun _ => false
  collision : Entity → Bool := fun _ => false
  joint : Entity → Bool := fun _ => false
  canonicalLink : Entity → Bool := fun _ => false
  name : FMap Entity String := FMap.empty
  gravity : FMap Entity Vector3d := FMap.empty
  pose : FMap Entity Pose3d := FMap.empty
  parentEntity : FMap Entity Entity := FMap.empty
  static : FMap Entity Bool := FMap.empty
  inertial : FMap Entity Nat := FMap.empty
  geometry : FMap Entity Geometry := FMap.empty
  collisionElement : FMap Entity SdfCollision := FMap.empty
  jointType : FMap Entity Nat := FMap.empty
  threadPitch : FMap Entity Scalar := FMap.empty
  parentLinkName : FMap Entity String := FMap.empty
  childLinkName : FMap Entity String := FMap.empty
  jointAxis : FMap Entity Nat := FMap.empty
  jointAxis2 : FMap Entity Nat := FMap.empty
  batterySoC : FMap Entity Scalar := FMap.empty
  simulatedTime : FMap Entity Duration := FMap.empty
  jointPositionReset : FMap Entity (List Scalar) := FMap.empty
  jointVelocityReset : FMap Entity (List Scalar) := FMap.empty
  jointForceCmd : FMap Entity (List Scalar) := FMap.empty
  jointVelocityCmd : FMap Entity (List Scalar) := FMap.empty
  jointForce : FMap Entity (List Scalar) := FMap.empty
  jointPosition : FMap Entity (List Scalar) := FMap.empty
  jointVelocity : FMap Entity (List Scalar) := FMap.empty
  historyOfAppliedJointForces : FMap Entity (List Scalar) := FMap.empty
  externalWorldWrenchCmd : FMap Entity Wrench := FMap.empty
  externalWorldWrenchCmdWithDuration : FMap Entity (List WrenchWithDuration) := FMap.empty
  worldPoseCmd : FMap Entity Pose3d := FMap.empty
  worldVelocityCmd : FMap Entity WorldVelocity := FMap.empty
  worldPose : FMap Entity Pose3d := FMap.empty
  worldLinearVelocity : FMap Entity Vector3d := FMap.empty
  worldAngularVelocity : FMap Entity Vector3d := FMap.empty
  worldLinearAcceleration : FMap Entity Vector3d := FMap.empty
  worldAngularAcceleration : FMap Entity Vector3d := FMap.empty
  linearVelocity : FMap Entity Vector3d := FMap.empty
  angularVelocity : FMap Entity Vector3d := FMap.empty
  linearAcceleration : FMap Entity Vector3d := FMap.empty
  angularAcceleration : FMap Entity Vector3d := FMap.empty
  contactSensorData : FMap Entity Contacts := FMap.empty
  contactSensorDataType : Bool := false
  changed : Entity → ComponentTypeId → ComponentState := fun _ _ => ComponentState.NoChange

namespace ECM

/-- The call `SetChanged(entity, type, state)`. -/
def SetChanged (ecm : ECM) (e : Entity) (t : ComponentTypeId) (st : ComponentState) : ECM :=
  { ecm with changed := fun e' t' => if e' = e ∧ t' = t then st else ecm.changed e' t' }

/-- The call `ChildrenByComponents(parent, tag)`: the children of `parent` in
the entity graph that carry the tag component. -/
def ChildrenByComponents (ecm : ECM) (parent : Entity) (tag : Entity → Bool) : List Entity :=
  ecm.entities.filter (fun c => decide (ecm.parentOf c = parent) && tag c)

/-- The call `EntityByComponents(components::World())`: the first entity that
carries the component, or the null entity. -/
def EntityByComponents (ecm : ECM) (tag : Entity → Bool) : Entity :=
  match ecm.entities.find? tag with
  | some e => e
  | none => kNullEntity

end ECM

/-! ## The physics engine -/

/-- Handles of the physics engine. -/
abbrev WorldPtr := Nat

/-- Handle of a physics model. -/
abbrev ModelPtr := Nat

/-- Handle of a physics link. -/
abbrev LinkPtr := Nat

/-- Handle of a physics shape. -/
abbrev ShapePtr := Nat

/-- Handle of a physics joint. -/
abbrev JointPtr := Nat

/-- Handle of a free group. -/
abbrev FreeGroupPtr := Nat

/-- Every call through which the bridge constructs or changes something in the
physics engine. -/
inductive EngineCall
  | ConstructWorld (name : String) (gravity : Vector3d)
  | ConstructModel (w : WorldPtr) (m : SdfModel)
  | ConstructLink (m : ModelPtr) (l : SdfLink)
  | ConstructCollision (l : LinkPtr) (c : SdfCollision)
  | AttachMeshShape (l : LinkPtr) (name : String) (mesh : Nat) (pose : Pose3d) (scale : Vector3d)
  | ConstructJoint (m : ModelPtr) (j : SdfJoint)
  | SetForce (j : JointPtr) (i : Nat) (v : Scalar)
  | SetVelocityCommand (j : JointPtr) (i : Nat) (v : Scalar)
  | SetVelocity (j : JointPtr) (i : Nat) (v : Scalar)
  | SetPosition (j : JointPtr) (i : Nat) (v : Scalar)
  | AddExternalForce (l : LinkPtr) (f : Vector3d)
  | AddExternalTorque (l : LinkPtr) (t : Vector3d)
  | SetWorldPose (g : FreeGroupPtr) (p : Pose3d)
  | SetWorldLinearVelocity (g : FreeGroupPtr) (v : Vector3d)
  | SetWorldAngularVelocity (g : FreeGroupPtr) (v : Vector3d)
  | Step (w : WorldPtr) (dt : Duration)
  | Remove (m : ModelPtr)
deriving DecidableEq, Repr

/-- The phase of the tick a call to the engine belongs to. -/
inductive CallKind
  | construct
  | command
  | step
  | remove
deriving DecidableEq, Repr

/-- The phase each engine call belongs to. -/
def EngineCall.kind : EngineCall → CallKind
  | .ConstructWorld _ _ => .construct
  | .ConstructModel _ _ => .construct
  | .ConstructLink _ _ => .construct
  | .ConstructCollision _ _ => .construct
  | .AttachMeshShape _ _ _ _ _ => .construct
  | .ConstructJoint _ _ => .construct
  | .Step _ _ => .step
  | .Remove _ => .remove
  | _ => .command

/-- The kinematic data `physics::FrameData3d` of a frame. -/
structure FrameData3d where
  pose : Pose3d
  linearVelocity : Vector3d
  angularVelocity : Vector3d
  linearAcceleration : Vector3d
  angularAcceleration : Vector3d
deriving DecidableEq, Repr

/-- The required part of a raw contact: the two shapes and the point. -/
structure ContactPoint where
  collision1 : ShapePtr
  collision2 : ShapePtr
  point : Vector3d
deriving DecidableEq, Repr

/-- The optional part of a raw contact. -/
structure ExtraContactData where
  force : Vector3d
  normal : Vector3d
  depth : Scalar
deriving DecidableEq, Repr

/-- One element of `GetContactsFromLastStep`: the required data, and the
extended data when the engine provides it. -/
structure ContactComposite where
  point : ContactPoint
  extra : Option ExtraContactData
deriving DecidableEq, Repr

/-- What the engine answers to the queries of the bridge at one moment. -/
structure EngineView where
  GetDegreesOfFreedom : JointPtr → Nat
  FindFreeGroup : ModelPtr → Option FreeGroupPtr
  CanonicalLink : FreeGroupPtr → LinkPtr
  FrameDataRelativeToWorld : LinkPtr → FrameData3d
  Resolve : LinkPtr → Pose3d → FrameData3d
  GetPosition : JointPtr → Nat → Scalar
  GetVelocity : JointPtr → Nat → Scalar
  GetContactsFromLastStep : WorldPtr → List ContactComposite

/-- The physics engine and the mesh manager, as black boxes: the handle a
construction returns and the answers to queries may depend on every call
received so far. `ConstructJoint` answers `none` for a joint that is not
`Valid()`. -/
structure Engine where
  ConstructWorld : List EngineCall → String → Vector3d → WorldPtr
  ConstructModel : List EngineCall → WorldPtr → SdfModel → ModelPtr
  ConstructLink : List EngineCall → ModelPtr → SdfLink → LinkPtr
  ConstructCollision : List EngineCall → LinkPtr → SdfCollision → ShapePtr
  AttachMeshShape : List EngineCall → LinkPtr → String → Nat → Pose3d → Vector3d → ShapePtr
  ConstructJoint : List EngineCall → ModelPtr → SdfJoint → Option JointPtr
  asFullPath : String → String → String
  Load : String → Option Nat
  view : List EngineCall → EngineView

/-! ## The state of the bridge -/

/-- The registry `Physics::Impl`. `engine` tells whether an engine was loaded. -/
structure Impl where
  entityWorldMap : AMap Entity WorldPtr := []
  entityModelMap : FMap Entity ModelPtr := FMap.empty
  entityLinkMap : FMap Entity LinkPtr := FMap.empty
  linkEntityMap : FMap LinkPtr Entity := FMap.empty
  entityCollisionMap : FMap Entity ShapePtr := FMap.empty
  collisionEntityMap : FMap ShapePtr Entity := FMap.empty
  entityJointMap : FMap Entity JointPtr := FMap.empty
  entityOffMap : FMap Entity Bool := FMap.empty
  firstRun : Bool := true
  engine : Bool := true

/-- A hard failure of the C++ code. -/
inductive Fault
  | outOfRange
  | nullDereference
  | assertion
deriving DecidableEq, Repr

/-- The whole state a tick works on: the component manager, the registry, the
log of calls sent to the engine (oldest first) and the failure, if any. -/
structure State where
  ecm : ECM := {}
  impl : Impl := {}
  calls : List EngineCall := []
  fault : Option Fault := none

namespace State

/-- Send calls to the engine. -/
def emit (s : State) (cs : List EngineCall) : State := { s with calls := s.calls ++ cs }

/-- The traversal `Each`: visit the entities in enumeration order; nothing is
visited after a failure. The visitor itself tests for the components. The
entities are those of the store when the traversal starts: a visitor that
removes the component it is visited for does not disturb the traversal here,
which the source does not promise (see its note in `UpdatePhysics`). -/
def each (s : State) (visit : State → Entity → State) : State :=
  s.ecm.entities.foldl (fun st e => if st.fault.isSome then st else visit st e) s

end State

/-- The argument `UpdateInfo` of a tick. -/
structure UpdateInfo where
  dt : Duration
  simTime : Duration
  paused : Bool
deriving DecidableEq, Repr

/-! ## Materialisation: `CreatePhysicsEntities` -/

/-- The visitor `processWorld`. -/
def processWorld (eng : Engine) (s : State) (e : Entity) : State :=
  if s.ecm.world e then
    match s.ecm.name e, s.ecm.gravity e with
    | some name, some gravity =>
      match AMap.find s.impl.entityWorldMap e with
      | some _ => s
      | none =>
        let worldPtrPhys := eng.ConstructWorld s.calls name gravity
        { s with
          impl := { s.impl with
            entityWorldMap := AMap.insert s.impl.entityWorldMap e worldPtrPhys }
          calls := s.calls ++ [EngineCall.ConstructWorld name gravity] }
    | _, _ => s
  else s

/-- The visitor `processModel`. -/
def processModel (eng : Engine) (s : State) (e : Entity) : State :=
  if s.ecm.model e then
    match s.ecm.name e, s.ecm.pose e, s.ecm.parentEntity e with
    | some name, some pose, some parent =>
      match s.impl.entityModelMap e with
      | some _ => s
      | none =>
        match AMap.find s.impl.entityWorldMap parent with
        | none => s
        | some worldPtrPhys =>
          let model : SdfModel := ⟨name, pose, decide (s.ecm.static e = some true)⟩
          let modelPtrPhys := eng.ConstructModel s.calls worldPtrPhys model
          { s with
            impl := { s.impl with
              entityModelMap := FMap.insert s.impl.entityModelMap e modelPtrPhys }
            calls := s.calls ++ [EngineCall.ConstructModel worldPtrPhys model] }
    | _, _, _ => s
  else s

/-- The visitor `processLink`. -/
def processLink (eng : Engine) (s : State) (e : Entity) : State :=
  if s.ecm.link e then
    match s.ecm.name e, s.ecm.pose e, s.ecm.parentEntity e with
    | some name, some pose, some parent =>
      match s.impl.entityLinkMap e with
      | some _ => s
      | none =>
        match s.impl.entityModelMap parent with
        | none => s
        | some modelPtrPhys =>
          let link : SdfLink := ⟨name, pose, s.ecm.inertial e⟩
          let linkPtrPhys := eng.ConstructLink s.calls modelPtrPhys link
          { s with
            impl := { s.impl with
              entityLinkMap := FMap.insert s.impl.entityLinkMap e linkPtrPhys
              linkEntityMap := FMap.insert s.impl.linkEntityMap linkPtrPhys e }
            calls := s.calls ++ [EngineCall.ConstructLink modelPtrPhys link] }
    | _, _, _ => s
  else s

/-- Register a freshly built shape for a collision entity. -/
def registerCollision (s : State) (e : Entity) (collisionPtrPhys : ShapePtr)
    (call : EngineCall) : State :=
  { s with
    impl := { s.impl with
      entityCollisionMap := FMap.insert s.impl.entityCollisionMap e collisionPtrPhys
      collisionEntityMap := FMap.insert s.impl.collisionEntityMap collisionPtrPhys e }
    calls := s.calls ++ [call] }

/-- The visitor `processCollision`. -/
def processCollision (eng : Engine) (s : State) (e : Entity) : State :=
  if s.ecm.collision e then
    match s.ecm.name e, s.ecm.pose e, s.ecm.geometry e, s.ecm.collisionElement e,
      s.ecm.parentEntity e with
    | some name, some pose, some geom, some collElement, some parent =>
      match s.impl.entityCollisionMap e with
      | some _ => s
      | none =>
        match s.impl.entityLinkMap parent with
        | none => s
        | some linkPtrPhys =>
          let collision : SdfCollision := { collElement with rawPose := pose, poseRelativeTo := "" }
          if geom.isMesh then
            match geom.meshShape with
            | none => s
            | some meshSdf =>
              let fullPath := eng.asFullPath meshSdf.uri meshSdf.filePath
              match eng.Load fullPath with
              | none => s
              | some mesh =>
                registerCollision s e
                  (eng.AttachMeshShape s.calls linkPtrPhys name mesh pose meshSdf.scale)
                  (EngineCall.AttachMeshShape linkPtrPhys name mesh pose meshSdf.scale)
          else
            registerCollision s e (eng.ConstructCollision s.calls linkPtrPhys collision)
              (EngineCall.ConstructCollision linkPtrPhys collision)
    | _, _, _, _, _ => s
  else s

/-- The visitor `processJoint`. -/
def processJoint (eng : Engine) (s : State) (e : Entity) : State :=
  if s.ecm.joint e then
    match s.ecm.name e, s.ecm.jointType e, s.ecm.pose e, s.ecm.threadPitch e,
      s.ecm.parentEntity e, s.ecm.parentLinkName e, s.ecm.childLinkName e with
    | some name, some jointType, some pose, some threadPitch, some parentModel,
      some parentLinkName, some childLinkName =>
      match s.impl.entityJointMap e with
      | some _ => s
      | none =>
        match s.impl.entityModelMap parentModel with
        | none => s
        | some modelPtrPhys =>
          let joint : SdfJoint :=
            ⟨name, jointType, pose, threadPitch, parentLinkName, childLinkName,
              s.ecm.jointAxis e, s.ecm.jointAxis2 e⟩
          let s1 := s.emit [EngineCall.ConstructJoint modelPtrPhys joint]
          match eng.ConstructJoint s.calls modelPtrPhys joint with
          | some jointPtrPhys =>
            { s1 with
              impl := { s1.impl with
                entityJointMap := FMap.insert s1.impl.entityJointMap e jointPtrPhys } }
          | none => s1
    | _, _, _, _, _, _, _ => s
  else s

/-- The battery visitor of `CreatePhysicsEntities`: the model that owns a
battery starts as not drained. -/
def processBattery (s : State) (e : Entity) : State :=
  match s.ecm.batterySoC e with
  | some _ =>
    { s with
      impl := { s.impl with
        entityOffMap := FMap.insert s.impl.entityOffMap (s.ecm.parentOf e) false } }
  | none => s

/-- Restrict a visitor to the entities of `Each` (first run) or of `EachNew`
(later runs). -/
def selected (all : Bool) (visit : State → Entity → State) (s : State) (e : Entity) : State :=
  if all || s.ecm.newlyCreated e then visit s e else s

/-- The phase `Physics::Impl::CreatePhysicsEntities`. -/
def CreatePhysicsEntities (eng : Engine) (s : State) : State :=
  if s.fault.isSome then s else
  let all := s.impl.firstRun
  let s := { s with impl := { s.impl with firstRun := false } }
  let s := s.each (selected all (processWorld eng))
  let s := s.each (selected all (processModel eng))
  let s := s.each (selected all (processLink eng))
  let s := s.each (selected all (processCollision eng))
  let s := s.each (selected all (processJoint eng))
  s.each (selected all processBattery)

/-! ## Reaping: `RemovePhysicsEntities` -/

/-- Erase the forward and the reverse entry of one collision entity. -/
def removeCollision (impl : Impl) (childCollision : Entity) : Impl :=
  match impl.entityCollisionMap childCollision with
  | some shape =>
    { impl with
      collisionEntityMap := FMap.erase impl.collisionEntityMap shape
      entityCollisionMap := FMap.erase impl.entityCollisionMap childCollision }
  | none => impl

/-- Erase the entries of one child link: its collisions, then its reverse
entry, then its forward entry. -/
def removeLink (ecm : ECM) (impl : Impl) (childLink : Entity) : Impl :=
  let impl := (ecm.ChildrenByComponents childLink ecm.collision).foldl removeCollision impl
  let impl :=
    match impl.entityLinkMap childLink with
    | some linkPhys => { impl with linkEntityMap := FMap.erase impl.linkEntityMap linkPhys }
    | none => impl
  { impl with entityLinkMap := FMap.erase impl.entityLinkMap childLink }

/-- Erase the entry of one child joint. -/
def removeJoint (impl : Impl) (childJoint : Entity) : Impl :=
  { impl with entityJointMap := FMap.erase impl.entityJointMap childJoint }

/-- The visitor of `EachRemoved<components::Model>`. -/
def removeModel (s : State) (e : Entity) : State :=
  if s.ecm.removed e && s.ecm.model e then
    match s.impl.entityModelMap e with
    | some modelPhys =>
      let impl := (s.ecm.ChildrenByComponents e s.ecm.link).foldl (removeLink s.ecm) s.impl
      let impl := (s.ecm.ChildrenByComponents e s.ecm.joint).foldl removeJoint impl
      { s with
        impl := { impl with entityModelMap := FMap.erase impl.entityModelMap e }
        calls := s.calls ++ [EngineCall.Remove modelPhys] }
    | none => s
  else s

/-- The phase `Physics::Impl::RemovePhysicsEntities`. -/
def RemovePhysicsEntities (s : State) : State :=
  if s.fault.isSome then s else s.each removeModel

/-! ## Commands: `UpdatePhysics` -/

/-- The battery visitor of `UpdatePhysics`: the owning model is off exactly
when the state of charge is not positive. -/
def batteryState (s : State) (e : Entity) : State :=
  match s.ecm.batterySoC e with
  | some bat =>
    { s with
      impl := { s.impl with
        entityOffMap := FMap.set s.impl.entityOffMap (s.ecm.parentOf e) (decide (bat ≤ 0)) } }
  | none => s

/-- The loop `for (i = 0; i < min(data.size(), dofs); ++i) set(i, data[i])`. -/
def overlapCalls (setter : Nat → Scalar → EngineCall) (data : List Scalar) (dofs : Nat) :
    List EngineCall :=
  (List.range (min data.length dofs)).map (fun i => setter i (data.getD i 0))

/-- The calls for a joint of a model that is out of battery. -/
def batteryOffCalls (v : EngineView) (j : JointPtr) : List EngineCall :=
  (List.range (v.GetDegreesOfFreedom j)).flatMap
    (fun i => [EngineCall.SetForce j i 0, EngineCall.SetVelocityCommand j i 0])

/-- The calls for a joint of a model that is not out of battery: velocity
reset, position reset, then the force command or else the velocity command. -/
def jointCommandCalls (v : EngineView) (ecm : ECM) (e : Entity) (j : JointPtr) :
    List EngineCall :=
  let dofs := v.GetDegreesOfFreedom j
  let posReset := ecm.jointPositionReset e
  let velReset := ecm.jointVelocityReset e
  (match velReset with
    | some jointVelocity => overlapCalls (EngineCall.SetVelocity j) jointVelocity dofs
    | none => []) ++
  (match posReset with
    | some jointPosition => overlapCalls (EngineCall.SetPosition j) jointPosition dofs
    | none => []) ++
  (match ecm.jointForceCmd e with
    | some force => overlapCalls (EngineCall.SetForce j) force dofs
    | none =>
      match ecm.jointVelocityCmd e with
      | some velocityCmd =>
        (match velReset with
          | some _ => []
          | none => overlapCalls (EngineCall.SetVelocityCommand j) velocityCmd dofs)
      | none => [])

/-- The visitor of `Each<Joint, Name>` in `UpdatePhysics`. Reading
`entityOffMap[parent]` binds a missing key to `false`. -/
def handleJointState (v : EngineView) (s : State) (e : Entity) : State :=
  if s.ecm.joint e && (s.ecm.name e).isSome then
    match s.impl.entityJointMap e with
    | none => s
    | some j =>
      let parent := s.ecm.parentOf e
      let off := (s.impl.entityOffMap parent).getD false
      let s := { s with
        impl := { s.impl with entityOffMap := FMap.insert s.impl.entityOffMap parent false } }
      if off then s.emit (batteryOffCalls v j)
      else s.emit (jointCommandCalls v s.ecm e j)
  else s

/-- The visitor of `Each<ExternalWorldWrenchCmd>`. -/
def linkWrench (s : State) (e : Entity) : State :=
  match s.ecm.externalWorldWrenchCmd e with
  | some wrench =>
    match s.impl.entityLinkMap e with
    | none => s
    | some l =>
      s.emit [EngineCall.AddExternalForce l wrench.force,
        EngineCall.AddExternalTorque l wrench.torque]
  | none => s

/-- The visitor of `Each<ExternalWorldWrenchCmdWithDuration>`: the total of
the stored contributions is applied, then the expired ones are dropped. -/
def linkWrenchWithDuration (info : UpdateInfo) (s : State) (e : Entity) : State :=
  match s.ecm.externalWorldWrenchCmdWithDuration e with
  | some wrenches =>
    match s.impl.entityLinkMap e with
    | none => s
    | some l =>
      let total := totalWrench wrenches
      let s := s.emit [EngineCall.AddExternalForce l total.force,
        EngineCall.AddExternalTorque l total.torque]
      let simTimeAfterStep := info.simTime
      { s with
        ecm := { s.ecm with
          externalWorldWrenchCmdWithDuration :=
            FMap.set s.ecm.externalWorldWrenchCmdWithDuration e
              (cleanExpired wrenches simTimeAfterStep) } }
  | none => s

/-- The visitor of `Each<Model, WorldPoseCmd>`. -/
def processWorldPoseCmd (v : EngineView) (s : State) (e : Entity) : State :=
  if s.ecm.model e then
    match s.ecm.worldPoseCmd e with
    | some poseCmd =>
      match s.impl.entityModelMap e with
      | none => s
      | some modelPhys =>
        match v.FindFreeGroup modelPhys with
        | none => s
        | some freeGroup =>
          match s.impl.linkEntityMap (v.CanonicalLink freeGroup) with
          | none => s
          | some linkEntity =>
            match s.ecm.pose linkEntity with
            | none => { s with fault := some Fault.nullDereference }
            | some canonicalPose =>
              let s := s.emit [EngineCall.SetWorldPose freeGroup (poseCmd * canonicalPose)]
              if s.ecm.static e = some true then
                match s.ecm.pose e with
                | some old =>
                  let state :=
                    if pose3Eql (poseCmd * canonicalPose) old then ComponentState.NoChange
                    else ComponentState.OneTimeChange
                  { s with
                    ecm := ({ s.ecm with
                      pose := FMap.set s.ecm.pose e (poseCmd * canonicalPose) }).SetChanged e
                        ComponentTypeId.Pose state }
                | none => s
              else s
    | none => s
  else s

/-- The visitor of `Each<Model, WorldVelocityCmd>`. -/
def processWorldVelocityCmd (v : EngineView) (s : State) (e : Entity) : State :=
  if s.ecm.model e then
    match s.ecm.worldVelocityCmd e with
    | some cmd =>
      match s.impl.entityModelMap e with
      | none => s
      | some modelPhys =>
        match v.FindFreeGroup modelPhys with
        | none => s
        | some freeGroup =>
          s.emit [EngineCall.SetWorldLinearVelocity freeGroup cmd.linear,
            EngineCall.SetWorldAngularVelocity freeGroup cmd.angular]
    | none => s
  else s

/-- The visitor that collects the entities carrying a component. -/
def collect (has : ECM → Entity → Bool) (acc : State × List Entity) (e : Entity) :
    State × List Entity :=
  if acc.1.fault.isSome then acc
  else if has acc.1.ecm e then (acc.1, acc.2 ++ [e]) else acc

/-- Remove `WorldPoseCmd` from every collected entity. -/
def removeWorldPoseCmd (s : State) (entitiesWorldCmd : List Entity) : State :=
  entitiesWorldCmd.foldl
    (fun st e => { st with ecm := { st.ecm with worldPoseCmd := FMap.erase st.ecm.worldPoseCmd e } })
    s

/-- Remove `WorldVelocityCmd` from every collected entity. -/
def removeWorldVelocityCmd (s : State) (entitiesWorldCmd : List Entity) : State :=
  entitiesWorldCmd.foldl
    (fun st e =>
      { st with ecm := { st.ecm with worldVelocityCmd := FMap.erase st.ecm.worldVelocityCmd e } })
    s

/-- The clean-up at the end of `UpdatePhysics`: collect, then remove. -/
def clearPendingCommands (s : State) : State :=
  if s.fault.isSome then s else
  let entitiesWorldCmd :=
    (s.ecm.entities.foldl (collect (fun ecm e => (ecm.worldPoseCmd e).isSome)) (s, [])).2
  let s := removeWorldPoseCmd s entitiesWorldCmd
  let entitiesWorldCmd :=
    (s.ecm.entities.foldl (collect (fun ecm e => (ecm.worldVelocityCmd e).isSome)) (s, [])).2
  removeWorldVelocityCmd s entitiesWorldCmd

/-- The phase `Physics::Impl::UpdatePhysics`. -/
def UpdatePhysics (v : EngineView) (info : UpdateInfo) (s : State) : State :=
  if s.fault.isSome then s else
  let s := s.each batteryState
  let s := s.each (handleJointState v)
  let s := s.each linkWrench
  let s := if !info.paused then s.each (linkWrenchWithDuration info) else s
  let s := s.each (processWorldPoseCmd v)
  let s := s.each (processWorldVelocityCmd v)
  clearPendingCommands s

/-! ## Stepping: `Step` -/

/-- The phase `Physics::Impl::Step`: every registered world is stepped by the
given duration. -/
def Step (dt : Duration) (s : State) : State :=
  if s.fault.isSome then s
  else s.emit (s.impl.entityWorldMap.map (fun world => EngineCall.Step world.2 dt))

/-! ## Read-back: `UpdateSim` -/

/-- The changed state after `SetData(data, vec3Eql)` in the read-back. -/
def periodicIfChanged (same : Bool) : ComponentState :=
  if same then ComponentState.NoChange else ComponentState.PeriodicChange

/-- The world-frame outputs of a link, each written only when the component is
already present. -/
def writeWorldOutputs (frameData : FrameData3d) (ecm : ECM) (e : Entity) : ECM :=
  let ecm :=
    match ecm.worldPose e with
    | some old =>
      ({ ecm with worldPose := FMap.set ecm.worldPose e frameData.pose }).SetChanged e
        ComponentTypeId.WorldPose (periodicIfChanged (pose3Eql frameData.pose old))
    | none => ecm
  let ecm :=
    match ecm.worldLinearVelocity e with
    | some old =>
      ({ ecm with
        worldLinearVelocity := FMap.set ecm.worldLinearVelocity e frameData.linearVelocity
        }).SetChanged e ComponentTypeId.WorldLinearVelocity
          (periodicIfChanged (vec3Eql frameData.linearVelocity old))
    | none => ecm
  let ecm :=
    match ecm.worldAngularVelocity e with
    | some old =>
      ({ ecm with
        worldAngularVelocity := FMap.set ecm.worldAngularVelocity e frameData.angularVelocity
        }).SetChanged e ComponentTypeId.WorldAngularVelocity
          (periodicIfChanged (vec3Eql frameData.angularVelocity old))
    | none => ecm
  let ecm :=
    match ecm.worldLinearAcceleration e with
    | some old =>
      ({ ecm with
        worldLinearAcceleration :=
          FMap.set ecm.worldLinearAcceleration e frameData.linearAcceleration
        }).SetChanged e ComponentTypeId.WorldLinearAcceleration
          (periodicIfChanged (vec3Eql frameData.linearAcceleration old))
    | none => ecm
  match ecm.worldAngularAcceleration e with
  | some old =>
    ({ ecm with
      worldAngularAcceleration :=
        FMap.set ecm.worldAngularAcceleration e frameData.angularAcceleration
      }).SetChanged e ComponentTypeId.WorldAngularAcceleration
        (periodicIfChanged (vec3Eql frameData.angularAcceleration old))
  | none => ecm

/-- The body-frame outputs of a link: the world-frame quantity rotated by the
transpose `R_bs` of the world rotation, written only when already present. -/
def writeBodyOutputs (frameData : FrameData3d) (ecm : ECM) (e : Entity) : ECM :=
  let R_bs := frameData.pose.rot.transpose
  let ecm :=
    match ecm.linearVelocity e with
    | some old =>
      let bodyLinVel := R_bs.mulVec frameData.linearVelocity
      ({ ecm with linearVelocity := FMap.set ecm.linearVelocity e bodyLinVel }).SetChanged e
        ComponentTypeId.LinearVelocity (periodicIfChanged (vec3Eql bodyLinVel old))
    | none => ecm
  let ecm :=
    match ecm.angularVelocity e with
    | some old =>
      let bodyAngVel := R_bs.mulVec frameData.angularVelocity
      ({ ecm with angularVelocity := FMap.set ecm.angularVelocity e bodyAngVel }).SetChanged e
        ComponentTypeId.AngularVelocity (periodicIfChanged (vec3Eql bodyAngVel old))
    | none => ecm
  let ecm :=
    match ecm.linearAcceleration e with
    | some old =>
      let bodyLinAccel := R_bs.mulVec frameData.linearAcceleration
      ({ ecm with
        linearAcceleration := FMap.set ecm.linearAcceleration e bodyLinAccel }).SetChanged e
          ComponentTypeId.LinearAcceleration (periodicIfChanged (vec3Eql bodyLinAccel old))
    | none => ecm
  match ecm.angularAcceleration e with
  | some old =>
    let bodyAngAccel := R_bs.mulVec frameData.angularAcceleration
    ({ ecm with
      angularAcceleration := FMap.set ecm.angularAcceleration e bodyAngAccel }).SetChanged e
        ComponentTypeId.AngularAcceleration (periodicIfChanged (vec3Eql bodyAngAccel old))
  | none => ecm

/-- The visitor of `Each<Link, Pose, ParentEntity>` in `UpdateSim`. -/
def updateLinkPose (v : EngineView) (s : State) (e : Entity) : State :=
  if s.ecm.link e then
    match s.ecm.pose e, s.ecm.parentEntity e with
    | some pose, some parent =>
      if s.ecm.static parent = some true then s
      else
        match s.impl.entityLinkMap e with
        | some linkPhys =>
          let frameData := v.FrameDataRelativeToWorld linkPhys
          let worldPose := frameData.pose
          match s.ecm.pose parent with
          | none => s
          | some parentPose =>
            let ecm :=
              if s.ecm.canonicalLink e then
                ({ s.ecm with
                  pose := FMap.set s.ecm.pose parent (pose.Inverse + worldPose) }).SetChanged
                    parent ComponentTypeId.Pose ComponentState.PeriodicChange
              else
                ({ s.ecm with
                  pose := FMap.set s.ecm.pose e (worldPose + parentPose.Inverse) }).SetChanged
                    e ComponentTypeId.Pose ComponentState.PeriodicChange
            let ecm := writeWorldOutputs frameData ecm e
            let ecm := writeBodyOutputs frameData ecm e
            { s with ecm := ecm }
        | none => s
    | _, _ => s
  else s

/-- The visitor of `Each<Joint, Name, JointForce, JointForceCmd>`: the force
command is copied into `JointForce`, and appended to the history when the tick
is not paused. -/
def updateJointForce (info : UpdateInfo) (s : State) (e : Entity) : State :=
  if s.ecm.joint e then
    match s.ecm.name e, s.ecm.jointForce e, s.ecm.jointForceCmd e with
    | some _, some _, some jointForceCmdData =>
      let jointForceData := jointForceCmdData
      let ecm := { s.ecm with jointForce := FMap.set s.ecm.jointForce e jointForceData }
      match ecm.historyOfAppliedJointForces e with
      | some history =>
        if !info.paused then
          { s with
            ecm := { ecm with
              historyOfAppliedJointForces :=
                FMap.set ecm.historyOfAppliedJointForces e
                  (jointForceData.foldl (fun h jointForce => h ++ [jointForce]) history) } }
        else { s with ecm := ecm }
      | none => { s with ecm := ecm }
    | _, _, _ => s
  else s

/-- The function `LinkFrameDataAtOffset`: the frame data of a frame at a pose
offset from a link, resolved by the engine. -/
def LinkFrameDataAtOffset (v : EngineView) (link : LinkPtr) (pose : Pose3d) : FrameData3d :=
  v.Resolve link pose

/-- The visitor of `Each<Pose, WorldPose, ParentEntity>`. -/
def updateOffsetWorldPose (v : EngineView) (s : State) (e : Entity) : State :=
  match s.ecm.pose e, s.ecm.worldPose e, s.ecm.parentEntity e with
  | some pose, some _, some parent =>
    match s.impl.entityLinkMap parent with
    | some linkPhys =>
      let entityFrameData := LinkFrameDataAtOffset v linkPhys pose
      { s with ecm := { s.ecm with worldPose := FMap.set s.ecm.worldPose e entityFrameData.pose } }
    | none => s
  | _, _, _ => s

/-- The visitor of `Each<Pose, WorldLinearVelocity, ParentEntity>`. -/
def updateOffsetWorldLinearVelocity (v : EngineView) (s : State) (e : Entity) : State :=
  match s.ecm.pose e, s.ecm.worldLinearVelocity e, s.ecm.parentEntity e with
  | some pose, some _, some parent =>
    match s.impl.entityLinkMap parent with
    | some linkPhys =>
      let entityFrameData := LinkFrameDataAtOffset v linkPhys pose
      { s with
        ecm := { s.ecm with
          worldLinearVelocity :=
            FMap.set s.ecm.worldLinearVelocity e entityFrameData.linearVelocity } }
    | none => s
  | _, _, _ => s

/-- The visitor of `Each<Pose, AngularVelocity, ParentEntity>`;
`RotateVectorReverse` applies the transposed rotation. -/
def updateOffsetAngularVelocity (v : EngineView) (s : State) (e : Entity) : State :=
  match s.ecm.pose e, s.ecm.angularVelocity e, s.ecm.parentEntity e with
  | some pose, some _, some parent =>
    match s.impl.entityLinkMap parent with
    | some linkPhys =>
      let entityFrameData := LinkFrameDataAtOffset v linkPhys pose
      let entityWorldPose := entityFrameData.pose
      let entityBodyAngularVel :=
        entityWorldPose.rot.transpose.mulVec entityFrameData.angularVelocity
      { s with
        ecm := { s.ecm with
          angularVelocity := FMap.set s.ecm.angularVelocity e entityBodyAngularVel } }
    | none => s
  | _, _, _ => s

/-- The visitor of `Each<Pose, LinearAcceleration, ParentEntity>`. -/
def updateOffsetLinearAcceleration (v : EngineView) (s : State) (e : Entity) : State :=
  match s.ecm.pose e, s.ecm.linearAcceleration e, s.ecm.parentEntity e with
  | some pose, some _, some parent =>
    match s.impl.entityLinkMap parent with
    | some linkPhys =>
      let entityFrameData := LinkFrameDataAtOffset v linkPhys pose
      let entityWorldPose := entityFrameData.pose
      let entityBodyLinearAcc :=
        entityWorldPose.rot.transpose.mulVec entityFrameData.linearAcceleration
      { s with
        ecm := { s.ecm with
          linearAcceleration := FMap.set s.ecm.linearAcceleration e entityBodyLinearAcc } }
    | none => s
  | _, _, _ => s

/-- The visitor of `Each<JointPositionReset>`: the component is removed while
the traversal is running. -/
def clearJointPositionReset (s : State) (e : Entity) : State :=
  match s.ecm.jointPositionReset e with
  | some _ =>
    { s with ecm := { s.ecm with jointPositionReset := FMap.erase s.ecm.jointPositionReset e } }
  | none => s

/-- The visitor of `Each<JointVelocityReset>`. -/
def clearJointVelocityReset (s : State) (e : Entity) : State :=
  match s.ecm.jointVelocityReset e with
  | some _ =>
    { s with ecm := { s.ecm with jointVelocityReset := FMap.erase s.ecm.jointVelocityReset e } }
  | none => s

/-- The call `std::fill(begin, end, 0.0)`. -/
def fillZero (data : List Scalar) : List Scalar := data.map (fun _ => 0)

/-- The visitor of `Each<JointForceCmd>`. -/
def clearJointForceCmd (s : State) (e : Entity) : State :=
  match s.ecm.jointForceCmd e with
  | some force =>
    { s with ecm := { s.ecm with jointForceCmd := FMap.set s.ecm.jointForceCmd e (fillZero force) } }
  | none => s

/-- The visitor of `Each<ExternalWorldWrenchCmd>` in `UpdateSim`. -/
def clearExternalWorldWrenchCmd (s : State) (e : Entity) : State :=
  match s.ecm.externalWorldWrenchCmd e with
  | some _ =>
    { s with
      ecm := { s.ecm with
        externalWorldWrenchCmd := FMap.set s.ecm.externalWorldWrenchCmd e Wrench.cleared } }
  | none => s

/-- The visitor of `Each<JointVelocityCmd>`. -/
def clearJointVelocityCmd (s : State) (e : Entity) : State :=
  match s.ecm.jointVelocityCmd e with
  | some vel =>
    { s with
      ecm := { s.ecm with jointVelocityCmd := FMap.set s.ecm.jointVelocityCmd e (fillZero vel) } }
  | none => s

/-- The call `resize(n)` of a vector of doubles. -/
def resize (data : List Scalar) (n : Nat) : List Scalar :=
  data.take n ++ List.replicate (n - data.length) 0

/-- Resize to the DOF count, then `data[i] = get(i)` for every DOF. -/
def refreshJointData (data : List Scalar) (dofs : Nat) (get : Nat → Scalar) : List Scalar :=
  (List.range dofs).foldl (fun d i => d.set i (get i)) (resize data dofs)

/-- The visitor of `Each<Joint, JointPosition>`. -/
def updateJointPosition (v : EngineView) (s : State) (e : Entity) : State :=
  if s.ecm.joint e then
    match s.ecm.jointPosition e with
    | some jointPos =>
      match s.impl.entityJointMap e with
      | some j =>
        { s with
          ecm := { s.ecm with
            jointPosition := FMap.set s.ecm.jointPosition e
              (refreshJointData jointPos (v.GetDegreesOfFreedom j) (v.GetPosition j)) } }
      | none => s
    | none => s
  else s

/-- The visitor of `Each<Joint, JointVelocity>`. -/
def updateJointVelocity (v : EngineView) (s : State) (e : Entity) : State :=
  if s.ecm.joint e then
    match s.ecm.jointVelocity e with
    | some jointVel =>
      match s.impl.entityJointMap e with
      | some j =>
        { s with
          ecm := { s.ecm with
            jointVelocity := FMap.set s.ecm.jointVelocity e
              (refreshJointData jointVel (v.GetDegreesOfFreedom j) (v.GetVelocity j)) } }
      | none => s
    | none => s
  else s

/-! ## Contacts: `UpdateCollisions` -/

/-- The local struct `AllContactData`: the contact point and the extended data.
The source declares it without initialiser and assigns `extra` only when the
engine gave extended data. -/
structure AllContactData where
  point : ContactPoint
  extra : Option ExtraContactData
deriving DecidableEq, Repr

/-- The contacts of one entity, grouped by the other entity. -/
abbrev EntityContactMap := AMap Entity (List AllContactData)

/-- The statement `entityContactMap[a][b].push_back(data)`. -/
def pushContact (m : AMap Entity EntityContactMap) (a b : Entity) (data : AllContactData) :
    AMap Entity EntityContactMap :=
  AMap.upsert m a [] (fun inner => AMap.upsert inner b [] (fun q => q ++ [data]))

/-- The body of the loop over `allContacts`. A record both of whose shapes are
registered is filed under both pairs. `uninit` is the indeterminate value
that the member `extra` holds when the engine gave no extended data; it is
taken to be null or to point to a readable record, and a dereference of it that
fails is not modelled. -/
def fileContact (impl : Impl) (uninit : Nat → Option ExtraContactData)
    (m : AMap Entity EntityContactMap) (ic : Nat × ContactComposite) :
    AMap Entity EntityContactMap :=
  match impl.collisionEntityMap ic.2.point.collision1,
    impl.collisionEntityMap ic.2.point.collision2 with
  | some coll1, some coll2 =>
    let allContactData : AllContactData :=
      ⟨ic.2.point,
        match ic.2.extra with
        | some extraContactData => some extraContactData
        | none => uninit ic.1⟩
    pushContact (pushContact m coll1 coll2 allContactData) coll2 coll1 allContactData
  | _, _ => m

/-- The map `entityContactMap` after the loop over `allContacts`. -/
def groupContacts (impl : Impl) (uninit : Nat → Option ExtraContactData)
    (allContacts : List ContactComposite) : AMap Entity EntityContactMap :=
  allContacts.enum.foldl (fileContact impl uninit) []

/-- The body of the loop over the contact points of one pair: the position is
added; with extended data also the depth, the wrench and the normal, as they
are when `collEntity1` is the entity of the first shape and negated otherwise.
The two `assert`s are checked. -/
def addContactPoint (impl : Impl) (ecm : ECM) (collEntity1 collEntity2 : Entity)
    (acc : Except Fault Contact) (contact : AllContactData) : Except Fault Contact :=
  match acc with
  | Except.error f => Except.error f
  | Except.ok msg0 =>
    let msg := { msg0 with position := msg0.position ++ [contact.point.point] }
    match contact.extra with
    | none => Except.ok msg
    | some extra =>
      let msg := { msg with depth := msg.depth ++ [extra.depth] }
      match ecm.name collEntity1, ecm.name collEntity2 with
      | some collisionName1, some collisionName2 =>
        match impl.collisionEntityMap contact.point.collision1 with
        | none => Except.error Fault.outOfRange
        | some first =>
          if collEntity1 = first then
            match impl.collisionEntityMap contact.point.collision2 with
            | none => Except.error Fault.outOfRange
            | some second =>
              if collEntity2 = second then
                Except.ok { msg with
                  wrench := msg.wrench ++
                    [⟨collisionName1, collisionName2, ⟨extra.force, Vector3d.Zero⟩,
                      ⟨-extra.force, Vector3d.Zero⟩⟩]
                  normal := msg.normal ++ [extra.normal] }
              else Except.error Fault.assertion
          else if collEntity2 = first then
            Except.ok { msg with
              wrench := msg.wrench ++
                [⟨collisionName1, collisionName2, ⟨-extra.force, Vector3d.Zero⟩,
                  ⟨extra.force, Vector3d.Zero⟩⟩]
              normal := msg.normal ++ [-extra.normal] }
          else Except.error Fault.assertion
      | _, _ => Except.error Fault.nullDereference

/-- The body of the loop over the partners of `collEntity1`: one message per
partner. -/
def addContact (impl : Impl) (ecm : ECM) (collEntity1 : Entity)
    (acc : Except Fault Contacts) (entry : Entity × List AllContactData) :
    Except Fault Contacts :=
  match acc with
  | Except.error f => Except.error f
  | Except.ok contactsComp =>
    match entry.2.foldl (addContactPoint impl ecm collEntity1 entry.1)
        (Except.ok { collision1 := collEntity1, collision2 := entry.1 }) with
    | Except.error f => Except.error f
    | Except.ok contactMsg => Except.ok (contactsComp ++ [contactMsg])

/-- The visitor of `Each<Collision, ContactSensorData>`: the report is replaced
by the one built from the current contacts, or by the empty report. -/
def writeContacts (entityContactMap : AMap Entity EntityContactMap) (s : State)
    (collEntity1 : Entity) : State :=
  if s.ecm.collision collEntity1 then
    match s.ecm.contactSensorData collEntity1 with
    | some _ =>
      match AMap.find entityContactMap collEntity1 with
      | none =>
        { s with
          ecm := { s.ecm with
            contactSensorData := FMap.set s.ecm.contactSensorData collEntity1 [] } }
      | some contactMap =>
        match contactMap.foldl (addContact s.impl s.ecm collEntity1) (Except.ok []) with
        | Except.error f => { s with fault := some f }
        | Except.ok contactsComp =>
          { s with
            ecm := { s.ecm with
              contactSensorData := FMap.set s.ecm.contactSensorData collEntity1 contactsComp } }
    | none => s
  else s

/-- The phase `Physics::Impl::UpdateCollisions`. -/
def UpdateCollisions (v : EngineView) (uninit : Nat → Option ExtraContactData) (s : State) :
    State :=
  if s.fault.isSome then s
  else if !s.ecm.contactSensorDataType then s
  else
    let worldEntity := s.ecm.EntityByComponents s.ecm.world
    if worldEntity = kNullEntity then s
    else
      match AMap.find s.impl.entityWorldMap worldEntity with
      | none => { s with fault := some Fault.outOfRange }
      | some worldPhys =>
        let allContacts := v.GetContactsFromLastStep worldPhys
        let entityContactMap := groupContacts s.impl uninit allContacts
        s.each (writeContacts entityContactMap)

/-- The phase `Physics::Impl::UpdateSim`; its last action is `UpdateCollisions`. -/
def UpdateSim (v : EngineView) (uninit : Nat → Option ExtraContactData) (info : UpdateInfo)
    (s : State) : State :=
  if s.fault.isSome then s else
  let s := s.each (updateLinkPose v)
  let s := s.each (updateJointForce info)
  let s := s.each (updateOffsetWorldPose v)
  let s := s.each (updateOffsetWorldLinearVelocity v)
  let s := s.each (updateOffsetAngularVelocity v)
  let s := s.each (updateOffsetLinearAcceleration v)
  let s := s.each clearJointPositionReset
  let s := s.each clearJointVelocityReset
  let s := s.each clearJointForceCmd
  let s := s.each clearExternalWorldWrenchCmd
  let s := s.each clearJointVelocityCmd
  let s := s.each (updateJointPosition v)
  let s := s.each (updateJointVelocity v)
  UpdateCollisions v uninit s

/-! ## The tick: `Physics::Update` -/

/-- The visitor of `Each<World, SimulatedTime>` at the start of the tick. -/
def setSimulatedTime (info : UpdateInfo) (s : State) (e : Entity) : State :=
  if s.ecm.world e then
    match s.ecm.simulatedTime e with
    | some _ =>
      { s with ecm := { s.ecm with simulatedTime := FMap.set s.ecm.simulatedTime e info.simTime } }
    | none => s
  else s

/-- The system update `Physics::Update`. The engine is queried for its view
once before the commands and once after the step. -/
def Update (eng : Engine) (uninit : Nat → Option ExtraContactData) (info : UpdateInfo)
    (s : State) : State :=
  let s := s.each (setSimulatedTime info)
  if s.impl.engine then
    let s := CreatePhysicsEntities eng s
    let s := UpdatePhysics (eng.view s.calls) info s
    let s := if !info.paused then Step info.dt s else s
    let s := UpdateSim (eng.view s.calls) uninit info s
    RemovePhysicsEntities s
  else s

/-! ## Auxiliary notions of the proofs, and example states -/

/-- The calls `handleJointState` sends for one entity. -/
def jointCalls (v : EngineView) (s : State) (e : Entity) : List EngineCall :=
  if s.ecm.joint e && (s.ecm.name e).isSome then
    match s.impl.entityJointMap e with
    | none => []
    | some j =>
      if (s.impl.entityOffMap (s.ecm.parentOf e)).getD false then batteryOffCalls v j
      else jointCommandCalls v s.ecm e j
  else []

/-- What the joint loop leaves unchanged. -/
def JointFrame (s0 st : State) : Prop :=
  st.fault = s0.fault ∧ st.ecm = s0.ecm ∧ st.impl.entityJointMap = s0.impl.entityJointMap ∧
    ∀ k, (st.impl.entityOffMap k).getD false = (s0.impl.entityOffMap k).getD false

/-- Every entry of the first registry is an entry of the second: no key of any
map has been erased or rebound (the drained flag of a model may change). -/
structure RegistryLE (a b : Impl) : Prop where
  world : ∀ e w, AMap.find a.entityWorldMap e = some w → AMap.find b.entityWorldMap e = some w
  model : ∀ e h, a.entityModelMap e = some h → b.entityModelMap e = some h
  link : ∀ e h, a.entityLinkMap e = some h → b.entityLinkMap e = some h
  linkRev : ∀ h e, a.linkEntityMap h = some e → b.linkEntityMap h = some e
  collision : ∀ e h, a.entityCollisionMap e = some h → b.entityCollisionMap e = some h
  collisionRev : ∀ h e, a.collisionEntityMap h = some e → b.collisionEntityMap h = some e
  joint : ∀ e h, a.entityJointMap e = some h → b.entityJointMap e = some h
  off : ∀ e, a.entityOffMap e ≠ none → b.entityOffMap e ≠ none

/-- The second state continues the first: the registry has only grown and the
engine log has been extended by calls of one kind. -/
def Advance (k : CallKind) (s s' : State) : Prop :=
  RegistryLE s.impl s'.impl ∧ ∃ post, s'.calls = s.calls ++ post ∧ ∀ c ∈ post, c.kind = k

/-- The second log extends the first by calls of one kind. -/
def Logged (k : CallKind) (s s' : State) : Prop :=
  ∃ post, s'.calls = s.calls ++ post ∧ ∀ c ∈ post, c.kind = k

/-- Every reverse entry mirrors a forward entry. -/
def ReverseMapsMirror (impl : Impl) : Prop :=
  (∀ h e, impl.linkEntityMap h = some e → impl.entityLinkMap e = some h) ∧
  (∀ h e, impl.collisionEntityMap h = some e → impl.entityCollisionMap e = some h)

/-- Every forward key that is unbound in the first registry is unbound in the
second, and the model map of the second is the first or an erasure of it. -/
def StaysErased (a b : Impl) : Prop :=
  (∀ e, a.entityModelMap e = none → b.entityModelMap e = none) ∧
  (∀ e, a.entityLinkMap e = none → b.entityLinkMap e = none) ∧
  (∀ e, a.entityCollisionMap e = none → b.entityCollisionMap e = none) ∧
  (∀ e, a.entityJointMap e = none → b.entityJointMap e = none)

/-- The entries of a removed model and of its children are gone. -/
def Reaped (ecm : ECM) (m : Entity) (impl : Impl) : Prop :=
  impl.entityModelMap m = none ∧
    (∀ l ∈ ecm.ChildrenByComponents m ecm.link,
      impl.entityLinkMap l = none ∧
        ∀ c ∈ ecm.ChildrenByComponents l ecm.collision, impl.entityCollisionMap c = none) ∧
    ∀ j ∈ ecm.ChildrenByComponents m ecm.joint, impl.entityJointMap j = none

/-- The calls `linkWrench` sends for one entity. -/
def linkWrenchCalls (s : State) (e : Entity) : List EngineCall :=
  match s.ecm.externalWorldWrenchCmd e, s.impl.entityLinkMap e with
  | some wrench, some l =>
    [EngineCall.AddExternalForce l wrench.force, EngineCall.AddExternalTorque l wrench.torque]
  | _, _ => []

/-- The calls `linkWrenchWithDuration` sends for one entity. -/
def linkWrenchWithDurationCalls (s : State) (e : Entity) : List EngineCall :=
  match s.ecm.externalWorldWrenchCmdWithDuration e, s.impl.entityLinkMap e with
  | some wrenches, some l =>
    [EngineCall.AddExternalForce l (totalWrench wrenches).force,
      EngineCall.AddExternalTorque l (totalWrench wrenches).torque]
  | _, _ => []

/-- The calls that address a free group. -/
def EngineCall.onFreeGroup : EngineCall → Bool
  | .SetWorldPose _ _ => true
  | .SetWorldLinearVelocity _ _ => true
  | .SetWorldAngularVelocity _ _ => true
  | _ => false

/-- The component a visit of `linkWrenchWithDuration` leaves on an entity. -/
def cleanedWrenches (info : UpdateInfo) (s : State) (e : Entity) :
    Option (List WrenchWithDuration) :=
  match s.ecm.externalWorldWrenchCmdWithDuration e, s.impl.entityLinkMap e with
  | some wrenches, some _ => some (cleanExpired wrenches info.simTime)
  | x, _ => x

/-- The calls that address a joint. -/
def EngineCall.onJoint : EngineCall → Bool
  | .SetForce _ _ _ => true
  | .SetVelocityCommand _ _ _ => true
  | .SetVelocity _ _ _ => true
  | .SetPosition _ _ _ => true
  | _ => false

/-- The contacts filed under the pair `(a, b)`. -/
def lookup2 (m : AMap Entity EntityContactMap) (a b : Entity) : Option (List AllContactData) :=
  (AMap.find m a).bind (fun inner => AMap.find inner b)

/-- The keys of the outer map and of every inner map are distinct. -/
def KeysNodup (m : AMap Entity EntityContactMap) : Prop :=
  (m.map Prod.fst).Nodup ∧ ∀ a inner, (a, inner) ∈ m → (inner.map Prod.fst).Nodup

/-- What the grouping of raw contacts guarantees: distinct keys, the same
contacts under `(a, b)` and `(b, a)`, and every contact filed under a pair is a
contact between the two entities of the pair. -/
structure Grouped (impl : Impl) (m : AMap Entity EntityContactMap) : Prop where
  keys : KeysNodup m
  symm : ∀ a b, a ≠ b → lookup2 m a b = lookup2 m b a
  ends : ∀ a b q, lookup2 m a b = some q → ∀ c ∈ q,
    (impl.collisionEntityMap c.point.collision1 = some a ∧
        impl.collisionEntityMap c.point.collision2 = some b) ∨
      (impl.collisionEntityMap c.point.collision1 = some b ∧
        impl.collisionEntityMap c.point.collision2 = some a)

/-- The wrench entry of a contact point with extended data in the report of
`requester`: as given when `requester` is the entity of the first shape, with
the force negated otherwise. -/
def polarisedWrench (impl : Impl) (ecm : ECM) (requester partner : Entity) (c : AllContactData)
    (x : ExtraContactData) : JointWrench :=
  if impl.collisionEntityMap c.point.collision1 = some requester then
    ⟨(ecm.name requester).getD "", (ecm.name partner).getD "", ⟨x.force, Vector3d.Zero⟩,
      ⟨-x.force, Vector3d.Zero⟩⟩
  else
    ⟨(ecm.name requester).getD "", (ecm.name partner).getD "", ⟨-x.force, Vector3d.Zero⟩,
      ⟨x.force, Vector3d.Zero⟩⟩

/-- The normal entry of a contact point with extended data in the report of
`requester`. -/
def polarisedNormal (impl : Impl) (requester : Entity) (c : AllContactData)
    (x : ExtraContactData) : Vector3d :=
  if impl.collisionEntityMap c.point.collision1 = some requester then x.normal else -x.normal

/-- The grouped record of `requester` for one partner, written out: one position
per stored contact point and one depth, wrench and normal per stored contact
point with extended data. -/
def expectedContact (impl : Impl) (ecm : ECM) (requester partner : Entity)
    (q : List AllContactData) : Contact where
  collision1 := requester
  collision2 := partner
  position := q.map (fun c => c.point.point)
  depth := q.filterMap (fun c => c.extra.map (fun x => x.depth))
  wrench := q.filterMap (fun c => c.extra.map (polarisedWrench impl ecm requester partner c))
  normal := q.filterMap (fun c => c.extra.map (polarisedNormal impl requester c))

/-- The report of `requester`, written out from the grouped contacts. -/
def expectedReport (impl : Impl) (ecm : ECM) (m : AMap Entity EntityContactMap)
    (requester : Entity) : Contacts :=
  ((AMap.find m requester).getD []).map
    (fun pq => expectedContact impl ecm requester pq.1 pq.2)

/-- What the loop over the instrumented collisions keeps fixed. -/
def ContactFrame (s st : State) : Prop :=
  st.impl = s.impl ∧ st.ecm.name = s.ecm.name ∧ st.ecm.collision = s.ecm.collision ∧
    ∀ e, (st.ecm.contactSensorData e).isSome = (s.ecm.contactSensorData e).isSome

/-- The record stored for one raw record: its point and, for a record without
extended data, whatever the member `extra` holds. -/
def storedContact (uninit : Nat → Option ExtraContactData) (ic : Nat × ContactComposite) :
    AllContactData :=
  ⟨ic.2.point,
    match ic.2.extra with
    | some extraContactData => some extraContactData
    | none => uninit ic.1⟩

/-- Whether the first shape of a raw record belongs to `a` and the second to
`b`. -/
def filedAs (impl : Impl) (a b : Entity) (cc : ContactComposite) : Bool :=
  decide (impl.collisionEntityMap cc.point.collision1 = some a ∧
    impl.collisionEntityMap cc.point.collision2 = some b)

/-- What one raw record adds to the contacts filed under the pair `(a, b)`. -/
def filedUnder (impl : Impl) (uninit : Nat → Option ExtraContactData) (a b : Entity)
    (ic : Nat × ContactComposite) : List AllContactData :=
  (if filedAs impl a b ic.2 then [storedContact uninit ic] else []) ++
    (if filedAs impl b a ic.2 then [storedContact uninit ic] else [])

/-- No list of contacts filed in the map is empty. -/
def NoEmptyEntry (m : AMap Entity EntityContactMap) : Prop :=
  ∀ a inner, (a, inner) ∈ m → ∀ b q, (b, q) ∈ inner → q ≠ []

/-- An engine whose joints all have two degrees of freedom and which reports
nothing else. -/
def stillView : EngineView where
  GetDegreesOfFreedom := fun _ => 2
  FindFreeGroup := fun _ => none
  CanonicalLink := fun _ => 0
  FrameDataRelativeToWorld := fun _ =>
    ⟨⟨Vector3d.Zero, Matrix3d.Identity⟩, Vector3d.Zero, Vector3d.Zero, Vector3d.Zero,
      Vector3d.Zero⟩
  Resolve := fun _ _ =>
    ⟨⟨Vector3d.Zero, Matrix3d.Identity⟩, Vector3d.Zero, Vector3d.Zero, Vector3d.Zero,
      Vector3d.Zero⟩
  GetPosition := fun _ _ => 0
  GetVelocity := fun _ _ => 0
  GetContactsFromLastStep := fun _ => []

/-- A model (1) with a registered joint (4) that carries a velocity reset and a
velocity command. -/
def resetExample : State where
  ecm :=
    { entities := [1, 4]
      parentOf := fun e => if e = 4 then 1 else 0
      model := fun e => decide (e = 1)
      joint := fun e => decide (e = 4)
      name := fun e => if e = 4 then some "joint" else none
      jointVelocityReset := fun e => if e = 4 then some [3, 4] else none
      jointVelocityCmd := fun e => if e = 4 then some [8, 8] else none }
  impl := { entityJointMap := fun e => if e = 4 then some 9 else none }

/-- A model (1) with a drained battery (2) and a registered joint (4) that
carries a force command. -/
def drainedExample : State where
  ecm :=
    { entities := [1, 2, 4]
      parentOf := fun e => if e = 1 then 0 else 1
      model := fun e => decide (e = 1)
      joint := fun e => decide (e = 4)
      name := fun e => if e = 4 then some "joint" else none
      batterySoC := fun e => if e = 2 then some 0 else none
      jointForceCmd := fun e => if e = 4 then some [7, 7] else none }
  impl := { entityJointMap := fun e => if e = 4 then some 9 else none }

/-- A model (1) with a drained battery (2), a charged battery (3) that is
enumerated later, and a registered joint (4) that carries a force command. -/
def twoBatteriesExample : State where
  ecm :=
    { entities := [1, 2, 3, 4]
      parentOf := fun e => if e = 1 then 0 else 1
      model := fun e => decide (e = 1)
      joint := fun e => decide (e = 4)
      name := fun e => if e = 4 then some "joint" else none
      batterySoC := fun e => if e = 2 then some 0 else if e = 3 then some 5 else none
      jointForceCmd := fun e => if e = 4 then some [7, 7] else none }
  impl := { entityJointMap := fun e => if e = 4 then some 9 else none }

/-- A registered link (5) with one wrench contribution that expired at time 5. -/
def expiredExample : State where
  ecm :=
    { entities := [5]
      link := fun e => decide (e = 5)
      externalWorldWrenchCmdWithDuration := fun e =>
        if e = 5 then some [⟨⟨⟨1, 0, 0⟩, ⟨0, 0, 0⟩⟩, 5⟩] else none }
  impl := { entityLinkMap := fun e => if e = 5 then some 7 else none }

/-- A model (1, requested for removal) with a link (2), a collision of that
link (3) and a joint (4), all registered. -/
def reapExample : State where
  ecm :=
    { entities := [1, 2, 3, 4]
      parentOf := fun e => if e = 2 then 1 else if e = 3 then 2 else if e = 4 then 1 else 0
      removed := fun e => decide (e = 1)
      model := fun e => decide (e = 1)
      link := fun e => decide (e = 2)
      collision := fun e => decide (e = 3)
      joint := fun e => decide (e = 4) }
  impl :=
    { entityModelMap := fun e => if e = 1 then some 10 else none
      entityLinkMap := fun e => if e = 2 then some 20 else none
      linkEntityMap := fun h => if h = 20 then some 2 else none
      entityCollisionMap := fun e => if e = 3 then some 30 else none
      collisionEntityMap := fun h => if h = 30 then some 3 else none
      entityJointMap := fun e => if e = 4 then some 40 else none }

/-- A view that reports the given raw contacts for every world. -/
def contactView (cs : List ContactComposite) : EngineView where
  GetDegreesOfFreedom := fun _ => 0
  FindFreeGroup := fun _ => none
  CanonicalLink := fun _ => 0
  FrameDataRelativeToWorld := fun _ =>
    ⟨⟨Vector3d.Zero, Matrix3d.Identity⟩, Vector3d.Zero, Vector3d.Zero, Vector3d.Zero,
      Vector3d.Zero⟩
  Resolve := fun _ _ =>
    ⟨⟨Vector3d.Zero, Matrix3d.Identity⟩, Vector3d.Zero, Vector3d.Zero, Vector3d.Zero,
      Vector3d.Zero⟩
  GetPosition := fun _ _ => 0
  GetVelocity := fun _ _ => 0
  GetContactsFromLastStep := fun _ => cs

/-- A registered world (1) and two registered, instrumented collisions (3 with
shape 30, 4 with shape 40). -/
def contactExample : State where
  ecm :=
    { entities := [1, 3, 4]
      world := fun e => decide (e = 1)
      collision := fun e => decide (e = 3) || decide (e = 4)
      name := fun e => if e = 3 then some "a" else if e = 4 then some "b" else none
      contactSensorData := fun e => if e = 3 ∨ e = 4 then some [] else none
      contactSensorDataType := true }
  impl :=
    { entityWorldMap := [(1, 100)]
      entityCollisionMap := fun e => if e = 3 then some 30 else if e = 4 then some 40 else none
      collisionEntityMap := fun h => if h = 30 then some 3 else if h = 40 then some 4 else none }

/-- The indeterminate pointer never reads as extended data. -/
def uninitNull : Nat → Option ExtraContactData := fun _ => none

/-- One raw contact between the shapes 30 and 40, with extended data. -/
def oneContact : List ContactComposite :=
  [⟨⟨30, 40, ⟨1, 2, 3⟩⟩, some ⟨⟨5, 0, 0⟩, ⟨0, 0, 1⟩, 2⟩⟩]

/-- Two raw contacts between the shapes 30 and 40: the first with extended
data, the second without. -/
def twoContacts : List ContactComposite :=
  [⟨⟨30, 40, ⟨1, 2, 3⟩⟩, some ⟨⟨5, 0, 0⟩, ⟨0, 0, 1⟩, 2⟩⟩, ⟨⟨30, 40, ⟨4, 5, 6⟩⟩, none⟩]

/-- The indeterminate pointer of the second record still holds the extended
data of the first one. -/
def uninitStale : Nat → Option ExtraContactData :=
  fun i => if i = 1 then some ⟨⟨5, 0, 0⟩, ⟨0, 0, 1⟩, 2⟩ else none

/-- A registered world (1) and one registered, instrumented collision (3 with
shape 30). -/
def selfContactExample : State where
  ecm :=
    { entities := [1, 3]
      world := fun e => decide (e = 1)
      collision := fun e => decide (e = 3)
      name := fun e => if e = 3 then some "a" else none
      contactSensorData := fun e => if e = 3 then some [] else none
      contactSensorDataType := true }
  impl :=
    { entityWorldMap := [(1, 100)]
      entityCollisionMap := fun e => if e = 3 then some 30 else none
      collisionEntityMap := fun h => if h = 30 then some 3 else none }

/-- One raw contact of the shape 30 with itself, with extended data. -/
def selfContact : List ContactComposite :=
  [⟨⟨30, 30, ⟨1, 2, 3⟩⟩, some ⟨⟨5, 0, 0⟩, ⟨0, 0, 1⟩, 2⟩⟩]

/-- An instrumented collision (3) that holds a report from an earlier tick, in
a component manager without world entity. -/
def noWorldExample : State where
  ecm :=
    { entities := [3]
      collision := fun e => decide (e = 3)
      name := fun e => if e = 3 then some "a" else none
      contactSensorData := fun e =>
        if e = 3 then some [⟨3, 4, [⟨1, 2, 3⟩], [], [], []⟩] else none
      contactSensorDataType := true }
  impl :=
    { entityCollisionMap := fun e => if e = 3 then some 30 else none
      collisionEntityMap := fun h => if h = 30 then some 3 else none }

/-- An engine that numbers its handles by the calls received so far, loads no
mesh and always gives the still view. -/
def tickEngine (v : EngineView) : Engine where
  ConstructWorld := fun calls _ _ => 100 + calls.length
  ConstructModel := fun calls _ _ => 200 + calls.length
  ConstructLink := fun calls _ _ => 300 + calls.length
  ConstructCollision := fun calls _ _ => 400 + calls.length
  AttachMeshShape := fun calls _ _ _ _ _ => 500 + calls.length
  ConstructJoint := fun calls _ _ => some (600 + calls.length)
  asFullPath := fun uri _ => uri
  Load := fun _ => none
  view := fun _ => v

/-- A fresh bridge in front of a world (1), a model (2) that is requested for
removal, and a joint of the model (3) with a force command. -/
def tickExample : State where
  ecm :=
    { entities := [1, 2, 3]
      parentOf := fun e => if e = 2 then 1 else if e = 3 then 2 else 0
      removed := fun e => decide (e = 2)
      world := fun e => decide (e = 1)
      model := fun e => decide (e = 2)
      joint := fun e => decide (e = 3)
      name := fun e => if e = 1 then some "w" else if e = 2 then some "m" else
        if e = 3 then some "j" else none
      gravity := fun e => if e = 1 then some ⟨0, 0, -10⟩ else none
      pose := fun e =>
        if e = 2 ∨ e = 3 then some ⟨Vector3d.Zero, Matrix3d.Identity⟩ else none
      parentEntity := fun e => if e = 2 then some 1 else if e = 3 then some 2 else none
      jointType := fun e => if e = 3 then some 0 else none
      threadPitch := fun e => if e = 3 then some 1 else none
      parentLinkName := fun e => if e = 3 then some "a" else none
      childLinkName := fun e => if e = 3 then some "b" else none
      jointForceCmd := fun e => if e = 3 then some [7, 7] else none }

/-- The four per-DOF setters of a joint. -/
inductive Setter
  | velocity
  | position
  | force
  | velocityCommand
deriving DecidableEq, Repr

/-- The engine call of a setter. -/
def Setter.call : Setter → JointPtr → Nat → Scalar → EngineCall
  | .velocity => EngineCall.SetVelocity
  | .position => EngineCall.SetPosition
  | .force => EngineCall.SetForce
  | .velocityCommand => EngineCall.SetVelocityCommand

/-- The setter an engine call belongs to, if any. -/
def EngineCall.setter : EngineCall → Option Setter
  | .SetVelocity _ _ _ => some Setter.velocity
  | .SetPosition _ _ _ => some Setter.position
  | .SetForce _ _ _ => some Setter.force
  | .SetVelocityCommand _ _ _ => some Setter.velocityCommand
  | _ => none

/-- The joint and the index a setter call addresses. -/
def EngineCall.target : EngineCall → Option (JointPtr × Nat)
  | .SetVelocity j i _ => some (j, i)
  | .SetPosition j i _ => some (j, i)
  | .SetForce j i _ => some (j, i)
  | .SetVelocityCommand j i _ => some (j, i)
  | _ => none

/-- The component that feeds a setter: the velocity reset, the position reset,
the force command, the velocity command. -/
def jointInput (ecm : ECM) (e : Entity) : Setter → Option (List Scalar)
  | .velocity => ecm.jointVelocityReset e
  | .position => ecm.jointPositionReset e
  | .force => ecm.jointForceCmd e
  | .velocityCommand => ecm.jointVelocityCmd e

/-- Whether an input of a joint that is not off is applied: the resets and the
force command always, the velocity command only next to no force command and
no velocity reset. -/
def inputApplied (ecm : ECM) (e : Entity) : Setter → Bool
  | .velocityCommand => (ecm.jointForceCmd e).isNone && (ecm.jointVelocityReset e).isNone
  | _ => true

/-- The calls of one setter among the calls sent for a joint. -/
def callsOf (k : Setter) (cs : List EngineCall) : List EngineCall :=
  cs.filter (fun c => decide (c.setter = some k))

/-- A registered joint (4, two DOFs) of model 1 that carries a force command
and a velocity command. -/
def forceAndVelocityExample : State where
  ecm :=
    { entities := [1, 4]
      parentOf := fun e => if e = 4 then 1 else 0
      model := fun e => decide (e = 1)
      joint := fun e => decide (e = 4)
      name := fun e => if e = 4 then some "joint" else none
      jointForceCmd := fun e => if e = 4 then some [7, 7] else none
      jointVelocityCmd := fun e => if e = 4 then some [8, 8] else none }
  impl := { entityJointMap := fun e => if e = 4 then some 9 else none }

/-- A registered joint (4) that carries a force command of three entries; the
engine gives the joint two DOFs. -/
def longForceExample : State where
  ecm :=
    { entities := [1, 4]
      parentOf := fun e => if e = 4 then 1 else 0
      model := fun e => decide (e = 1)
      joint := fun e => decide (e = 4)
      name := fun e => if e = 4 then some "joint" else none
      jointForceCmd := fun e => if e = 4 then some [7, 8, 9] else none }
  impl := { entityJointMap := fun e => if e = 4 then some 9 else none }

/-- The command components that the end of the read-back clears. -/
def clearedFields (x : State) :
    FMap Entity (List Scalar) × FMap Entity (List Scalar) × FMap Entity (List Scalar) ×
      FMap Entity (List Scalar) × FMap Entity Wrench × List Entity × Option Fault :=
  (x.ecm.jointPositionReset, x.ecm.jointVelocityReset, x.ecm.jointForceCmd,
    x.ecm.jointVelocityCmd, x.ecm.externalWorldWrenchCmd, x.ecm.entities, x.fault)

/-- The command components apart from the failure. -/
def commandFields (x : State) :
    FMap Entity (List Scalar) × FMap Entity (List Scalar) × FMap Entity (List Scalar) ×
      FMap Entity (List Scalar) × FMap Entity Wrench :=
  (x.ecm.jointPositionReset, x.ecm.jointVelocityReset, x.ecm.jointForceCmd,
    x.ecm.jointVelocityCmd, x.ecm.externalWorldWrenchCmd)

/-- The parts of the state that the loops of `UpdatePhysics` before the final
clean-up leave alone, apart from poses and change marks. -/
def commandFrame (x : State) :
    List Entity × (Entity → Bool) × FMap Entity Bool × FMap Entity Pose3d ×
      FMap Entity WorldVelocity × FMap Entity ModelPtr × FMap LinkPtr Entity :=
  (x.ecm.entities, x.ecm.model, x.ecm.static, x.ecm.worldPoseCmd, x.ecm.worldVelocityCmd,
    x.impl.entityModelMap, x.impl.linkEntityMap)

/-- The state of `UpdatePhysics` after the wrench loops, before the pose
commands are processed. -/
def beforePoseCommands (v : EngineView) (info : UpdateInfo) (s : State) : State :=
  if (!info.paused) = true then
    (((s.each batteryState).each (handleJointState v)).each linkWrench).each
      (linkWrenchWithDuration info)
  else ((s.each batteryState).each (handleJointState v)).each linkWrench

/-- A registered model (2) with a pose command and a velocity command, an
unregistered model (3) with a pose command and an entity that is no model (4)
with a velocity command; the engine finds no free group. -/
def pendingExample : State where
  ecm :=
    { entities := [2, 3, 4]
      model := fun e => decide (e = 2) || decide (e = 3)
      pose := fun e => if e = 2 ∨ e = 3 then some ⟨Vector3d.Zero, Matrix3d.Identity⟩ else none
      worldPoseCmd := fun e =>
        if e = 2 ∨ e = 3 then some ⟨⟨1, 2, 3⟩, Matrix3d.Identity⟩ else none
      worldVelocityCmd := fun e =>
        if e = 2 ∨ e = 4 then some ⟨⟨1, 0, 0⟩, ⟨0, 0, 1⟩⟩ else none }
  impl := { entityModelMap := fun e => if e = 2 then some 20 else none }

/-- What every visit of the pose-command loop keeps: the frame of the commands
and the pose of every entity that is no model. -/
def PoseLoopInv (s st : State) : Prop :=
  commandFrame st = commandFrame s ∧ ∀ x, s.ecm.model x = false → st.ecm.pose x = s.ecm.pose x

/-- A view in which model 20 has the free group 7, whose canonical link is 30. -/
def groupView : EngineView where
  GetDegreesOfFreedom := fun _ => 0
  FindFreeGroup := fun m => if m = 20 then some 7 else none
  CanonicalLink := fun _ => 30
  FrameDataRelativeToWorld := fun _ =>
    ⟨⟨Vector3d.Zero, Matrix3d.Identity⟩, Vector3d.Zero, Vector3d.Zero, Vector3d.Zero,
      Vector3d.Zero⟩
  Resolve := fun _ _ =>
    ⟨⟨Vector3d.Zero, Matrix3d.Identity⟩, Vector3d.Zero, Vector3d.Zero, Vector3d.Zero,
      Vector3d.Zero⟩
  GetPosition := fun _ _ => 0
  GetVelocity := fun _ _ => 0
  GetContactsFromLastStep := fun _ => []

/-- A registered static model (2) at the origin with the pose command
`(1, 2, 3)`, and its registered link (3), which sits at `(0, 0, 1)` in the
model. -/
def staticExample : State where
  ecm :=
    { entities := [2, 3]
      model := fun e => decide (e = 2)
      link := fun e => decide (e = 3)
      static := fun e => if e = 2 then some true else none
      pose := fun e =>
        if e = 2 then some ⟨Vector3d.Zero, Matrix3d.Identity⟩
        else if e = 3 then some ⟨⟨0, 0, 1⟩, Matrix3d.Identity⟩ else none
      parentEntity := fun e => if e = 3 then some 2 else none
      worldPoseCmd := fun e => if e = 2 then some ⟨⟨1, 2, 3⟩, Matrix3d.Identity⟩ else none }
  impl :=
    { entityModelMap := fun e => if e = 2 then some 20 else none
      entityLinkMap := fun e => if e = 3 then some 30 else none
      linkEntityMap := fun h => if h = 30 then some 3 else none }

/-- The state in which the passes of the materializer start. -/
def createStart (s : State) : State := { s with impl := { s.impl with firstRun := false } }

/-- The state after the pass over the worlds. -/
def afterWorlds (eng : Engine) (s : State) : State :=
  (createStart s).each (selected s.impl.firstRun (processWorld eng))

/-- The state after the pass over the models. -/
def afterModels (eng : Engine) (s : State) : State :=
  (afterWorlds eng s).each (selected s.impl.firstRun (processModel eng))

/-- The state after the pass over the links. -/
def afterLinks (eng : Engine) (s : State) : State :=
  (afterModels eng s).each (selected s.impl.firstRun (processLink eng))

/-- The state after the pass over the collisions. -/
def afterCollisions (eng : Engine) (s : State) : State :=
  (afterLinks eng s).each (selected s.impl.firstRun (processCollision eng))

/-- The state after the pass over the joints. -/
def afterJoints (eng : Engine) (s : State) : State :=
  (afterCollisions eng s).each (selected s.impl.firstRun (processJoint eng))

/-- The forward entry of an entity is what it was, and every reverse entry
with the entity as value was there before. -/
def Kept (fwd : Impl → FMap Entity Nat) (rev : Impl → FMap Nat Entity) (e : Entity)
    (a b : Impl) : Prop :=
  fwd b e = fwd a e ∧ ∀ h, rev b h = some e → rev a h = some e

/-- No reverse map: models and joints are indexed by entity only. -/
def noReverse (_ : Impl) : FMap Nat Entity := FMap.empty

/-- A world (1) and a link (3) whose parent model (2) is not in the store yet;
the bridge has not run. -/
def orphanExample : State where
  ecm :=
    { entities := [1, 3]
      world := fun e => decide (e = 1)
      link := fun e => decide (e = 3)
      name := fun e => if e = 1 then some "w" else if e = 3 then some "l" else none
      gravity := fun e => if e = 1 then some ⟨0, 0, -10⟩ else none
      pose := fun e => if e = 3 then some ⟨Vector3d.Zero, Matrix3d.Identity⟩ else none
      parentEntity := fun e => if e = 3 then some 2 else none }

/-- The store of `orphanExample` one tick later: the model (2) has been created
and is new, the link (3) is no longer new. -/
def adoptedStore : ECM :=
  { entities := [1, 2, 3]
    newlyCreated := fun e => decide (e = 2)
    world := fun e => decide (e = 1)
    model := fun e => decide (e = 2)
    link := fun e => decide (e = 3)
    name := fun e =>
      if e = 1 then some "w" else if e = 2 then some "m" else if e = 3 then some "l" else none
    gravity := fun e => if e = 1 then some ⟨0, 0, -10⟩ else none
    pose := fun e => if e = 2 ∨ e = 3 then some ⟨Vector3d.Zero, Matrix3d.Identity⟩ else none
    parentEntity := fun e => if e = 2 then some 1 else if e = 3 then some 2 else none }

/-- The reverse maps are exactly the inverses of the forward maps. -/
def ExactInverse (impl : Impl) : Prop :=
  (∀ e h, impl.entityLinkMap e = some h ↔ impl.linkEntityMap h = some e) ∧
  (∀ e h, impl.entityCollisionMap e = some h ↔ impl.collisionEntityMap h = some e)

/-- The engine returns a distinct handle for each constructed object: two
links, or two shapes, that are constructed at different moments (after logs of
different lengths) have different handles. -/
def DistinctHandles (eng : Engine) : Prop :=
  (∀ c c' m m' l l', eng.ConstructLink c m l = eng.ConstructLink c' m' l' →
    c.length = c'.length) ∧
  (∀ c c' l l' x x', eng.ConstructCollision c l x = eng.ConstructCollision c' l' x' →
    c.length = c'.length) ∧
  (∀ c c' l l' n n' m m' p p' k k',
    eng.AttachMeshShape c l n m p k = eng.AttachMeshShape c' l' n' m' p' k' →
    c.length = c'.length) ∧
  (∀ c c' l l' x n m p k, eng.ConstructCollision c l x = eng.AttachMeshShape c' l' n m p k →
    c.length = c'.length)

/-- Every handle in a reverse map was returned by a construction that the log
records. -/
def Traced (eng : Engine) (s : State) : Prop :=
  (∀ h e, s.impl.linkEntityMap h = some e →
    ∃ c m l, c.length < s.calls.length ∧ h = eng.ConstructLink c m l) ∧
  (∀ h e, s.impl.collisionEntityMap h = some e →
    ∃ c, c.length < s.calls.length ∧
      ((∃ l x, h = eng.ConstructCollision c l x) ∨
        ∃ l n m p k, h = eng.AttachMeshShape c l n m p k))

/-- The states of the bridge that are reachable from the empty registry: by the
materializer, by the reaper, and by any step in between that leaves the link
and collision maps alone and only extends the log (the other phases of a tick,
a change of the store). -/
inductive Reachable (eng : Engine) : State → Prop
  | empty (ecm : ECM) : Reachable eng { ecm := ecm }
  | create {s : State} : Reachable eng s → Reachable eng (CreatePhysicsEntities eng s)
  | remove {s : State} : Reachable eng s → Reachable eng (RemovePhysicsEntities s)
  | other {s s' : State} : Reachable eng s →
      s'.impl.entityLinkMap = s.impl.entityLinkMap →
      s'.impl.linkEntityMap = s.impl.linkEntityMap →
      s'.impl.entityCollisionMap = s.impl.entityCollisionMap →
      s'.impl.collisionEntityMap = s.impl.collisionEntityMap →
      (∃ post, s'.calls = s.calls ++ post) → Reachable eng s'

/-- The invariant behind the exact inverse: the maps are inverse to each other
and every reverse key is a recorded construction. -/
def InverseInv (eng : Engine) (s : State) : Prop := ExactInverse s.impl ∧ Traced eng s

/-- Every reverse entry of the second registry is one of the first. -/
def RevShrinks (a b : Impl) : Prop :=
  (∀ h e, b.linkEntityMap h = some e → a.linkEntityMap h = some e) ∧
  (∀ h e, b.collisionEntityMap h = some e → a.collisionEntityMap h = some e)

/-- The link and collision maps of a state. -/
def linkMaps (x : State) :
    FMap Entity LinkPtr × FMap LinkPtr Entity × FMap Entity ShapePtr × FMap ShapePtr Entity :=
  (x.impl.entityLinkMap, x.impl.linkEntityMap, x.impl.entityCollisionMap,
    x.impl.collisionEntityMap)

/-- An engine whose handles are all distinct: links are numbered by the length
of the log, shapes by twice that length, mesh shapes by the odd number after. -/
def distinctEngine : Engine where
  ConstructWorld := fun calls _ _ => calls.length
  ConstructModel := fun calls _ _ => calls.length
  ConstructLink := fun calls _ _ => calls.length
  ConstructCollision := fun calls _ _ => 2 * calls.length
  AttachMeshShape := fun calls _ _ _ _ _ => 2 * calls.length + 1
  ConstructJoint := fun calls _ _ => some calls.length
  asFullPath := fun uri _ => uri
  Load := fun _ => none
  view := fun _ => stillView

/-- A store with a world (1), a model (2), a link of the model (3) and a box
collision of the link (4). -/
def sceneStore : ECM :=
  { entities := [1, 2, 3, 4]
    parentOf := fun e => if e = 2 then 1 else if e = 3 then 2 else if e = 4 then 3 else 0
    world := fun e => decide (e = 1)
    model := fun e => decide (e = 2)
    link := fun e => decide (e = 3)
    collision := fun e => decide (e = 4)
    canonicalLink := fun e => decide (e = 3)
    name := fun e =>
      if e = 1 then some "w" else if e = 2 then some "m" else if e = 3 then some "l"
      else if e = 4 then some "c" else none
    gravity := fun e => if e = 1 then some ⟨0, 0, -10⟩ else none
    pose := fun e =>
      if e = 2 ∨ e = 3 ∨ e = 4 then some ⟨Vector3d.Zero, Matrix3d.Identity⟩ else none
    parentEntity := fun e =>
      if e = 2 then some 1 else if e = 3 then some 2 else if e = 4 then some 3 else none
    geometry := fun e => if e = 4 then some ⟨false, none⟩ else none
    collisionElement := fun e =>
      if e = 4 then some ⟨0, ⟨Vector3d.Zero, Matrix3d.Identity⟩, "link"⟩ else none }

/-- The state after one tick on `sceneStore`, with the model then requested for
removal. -/
def sceneRemoval : State :=
  { Update distinctEngine uninitNull ⟨1, 1, false⟩ { ecm := sceneStore } with
    ecm := { sceneStore with removed := fun e => decide (e = 2) } }

/-- The visitors of `UpdateSim` after the pass over the links, in order. -/
def readBackVisitors (v : EngineView) (info : UpdateInfo) : List (State → Entity → State) :=
  [updateJointForce info, updateOffsetWorldPose v, updateOffsetWorldLinearVelocity v,
    updateOffsetAngularVelocity v, updateOffsetLinearAcceleration v, clearJointPositionReset,
    clearJointVelocityReset, clearJointForceCmd, clearExternalWorldWrenchCmd,
    clearJointVelocityCmd, updateJointPosition v, updateJointVelocity v]

/-- The state in which `UpdateSim` enters `UpdateCollisions`. -/
def beforeCollisions (v : EngineView) (info : UpdateInfo) (s : State) : State :=
  (readBackVisitors v info).foldl (fun st visit => st.each visit) (s.each (updateLinkPose v))

/-- A world entity (1) that carries no gravity, in front of a fresh bridge, with
contact data requested. -/
def bareWorldExample : State where
  ecm :=
    { entities := [1]
      world := fun e => decide (e = 1)
      name := fun e => if e = 1 then some "w" else none
      contactSensorDataType := true }

/-- The state `staticExample` after the registered link (3) has lost its pose. -/
def lostPoseExample : State :=
  { staticExample with
    ecm := { staticExample.ecm with
      pose := fun e => if e = 2 then some ⟨Vector3d.Zero, Matrix3d.Identity⟩ else none } }

/-- The state `contactExample` after the registered collision (4) has lost its
name. -/
def lostNameExample : State :=
  { contactExample with
    ecm := { contactExample.ecm with name := fun e => if e = 3 then some "a" else none } }

/-- What the pass over the links reads and writes of the poses: the poses, the
change marks of the poses, and the parts of the store and of the registry that
select the links. -/
def poseView (x : State) :
    FMap Entity Pose3d × (Entity → ComponentState) × Option Fault × (Entity → Bool) ×
      (Entity → Bool) × FMap Entity Entity × FMap Entity Bool × List Entity ×
      FMap Entity LinkPtr :=
  (x.ecm.pose, fun e => x.ecm.changed e ComponentTypeId.Pose, x.fault, x.ecm.link,
    x.ecm.canonicalLink, x.ecm.parentEntity, x.ecm.static, x.ecm.entities,
    x.impl.entityLinkMap)

/-- The write of the pass over the links at the link `e`: the entity whose pose
is overwritten, and the new pose. -/
def linkPoseWrite (v : EngineView) (s : State) (e : Entity) : Option (Entity × Pose3d) :=
  if s.ecm.link e then
    match s.ecm.pose e, s.ecm.parentEntity e with
    | some pose, some parent =>
      if s.ecm.static parent = some true then none
      else
        match s.impl.entityLinkMap e with
        | some linkPhys =>
          match s.ecm.pose parent with
          | none => none
          | some parentPose =>
            if s.ecm.canonicalLink e then
              some (parent, pose.Inverse + (v.FrameDataRelativeToWorld linkPhys).pose)
            else some (e, (v.FrameDataRelativeToWorld linkPhys).pose + parentPose.Inverse)
        | none => none
    | _, _ => none
  else none

/-- The poses and their change marks. -/
def posePart (x : State) : FMap Entity Pose3d × (Entity → ComponentTypeId → ComponentState) :=
  (x.ecm.pose, x.ecm.changed)

/-- The parts of the state that select the links of the pass over the links. -/
def linkFrame (x : State) :
    Option Fault × (Entity → Bool) × (Entity → Bool) × FMap Entity Entity × FMap Entity Bool ×
      List Entity × FMap Entity LinkPtr :=
  (x.fault, x.ecm.link, x.ecm.canonicalLink, x.ecm.parentEntity, x.ecm.static, x.ecm.entities,
    x.impl.entityLinkMap)

/-- The visit of the link `x` may overwrite the pose of `y`: `y` is `x` itself
and `x` is not canonical, or `y` is the parent of the canonical link `x`. -/
def writesPose (ecm : ECM) (x y : Entity) : Bool :=
  ecm.link x &&
    ((decide (x = y) && !ecm.canonicalLink x) ||
      (decide (ecm.parentEntity x = some y) && ecm.canonicalLink x))

/-- A rotation by a quarter turn about the vertical axis. -/
def quarterTurn : Matrix3d := ⟨⟨0, -1, 0⟩, ⟨1, 0, 0⟩, ⟨0, 0, 1⟩⟩

/-- An engine view in which the link 30 is at `(1, 0, 0)` and the link 31 at
`(1, 1, 0)`, both without rotation. -/
def movedView : EngineView where
  GetDegreesOfFreedom := fun _ => 0
  FindFreeGroup := fun _ => none
  CanonicalLink := fun _ => 0
  FrameDataRelativeToWorld := fun h =>
    ⟨⟨if h = 31 then ⟨1, 1, 0⟩ else ⟨1, 0, 0⟩, Matrix3d.Identity⟩, ⟨3, 0, 0⟩, ⟨0, 0, 2⟩,
      ⟨0, 5, 0⟩, ⟨7, 0, 0⟩⟩
  Resolve := fun _ _ =>
    ⟨⟨Vector3d.Zero, Matrix3d.Identity⟩, Vector3d.Zero, Vector3d.Zero, Vector3d.Zero,
      Vector3d.Zero⟩
  GetPosition := fun _ _ => 0
  GetVelocity := fun _ _ => 0
  GetContactsFromLastStep := fun _ => []

/-- A model (2) at the origin with a canonical link (3, handle 30), which sits
at `(0, 0, 1)` in the model turned by a quarter, and a second link (4, handle
31); the canonical link is enumerated first. -/
def linksExample : State where
  ecm :=
    { entities := [2, 3, 4]
      model := fun e => decide (e = 2)
      link := fun e => decide (e = 3) || decide (e = 4)
      canonicalLink := fun e => decide (e = 3)
      pose := fun e =>
        if e = 2 then some ⟨Vector3d.Zero, Matrix3d.Identity⟩
        else if e = 3 then some ⟨⟨0, 0, 1⟩, quarterTurn⟩
        else if e = 4 then some ⟨Vector3d.Zero, Matrix3d.Identity⟩ else none
      parentEntity := fun e => if e = 3 ∨ e = 4 then some 2 else none
      linearVelocity := fun e => if e = 3 then some ⟨9, 9, 9⟩ else none
      angularVelocity := fun e => if e = 3 then some ⟨9, 9, 9⟩ else none }
  impl :=
    { entityModelMap := fun e => if e = 2 then some 20 else none
      entityLinkMap := fun e => if e = 3 then some 30 else if e = 4 then some 31 else none
      linkEntityMap := fun h => if h = 30 then some 3 else if h = 31 then some 4 else none }

/-- The state `linksExample` with the canonical link enumerated last. -/
def lateCanonicalExample : State :=
  { linksExample with ecm := { linksExample.ecm with entities := [2, 4, 3] } }

/-! ## The accessors of `Link`: `Link.cpp` -/

/-- The pose that `Link::position` and `Link::orientation` compute: the
`WorldPose` component for a link that is not canonical, and the pose of the
parent model composed with the pose of the link for a canonical link; `none`
when the accessor throws. -/
def Link.linkPose (ecm : ECM) (linkEntity : Entity) : Option Pose3d :=
  if !ecm.canonicalLink linkEntity then ecm.worldPose linkEntity
  else
    match ecm.parentEntity linkEntity with
    | none => none
    | some parentModelEntity =>
      match ecm.pose parentModelEntity, ecm.pose linkEntity with
      | some W_H_M, some M_H_B => some (W_H_M * M_H_B)
      | _, _ => none

/-- The accessor `Link::position`. -/
def Link.position (ecm : ECM) (linkEntity : Entity) : Option Vector3d :=
  (Link.linkPose ecm linkEntity).map (fun linkPose => linkPose.pos)

/-- The accessor `Link::orientation`: the rotation of the pose. -/
def Link.orientation (ecm : ECM) (linkEntity : Entity) : Option Matrix3d :=
  (Link.linkPose ecm linkEntity).map (fun linkPose => linkPose.rot)

/-- Modelled from the spec: `utils::getComponentData` gives the data of the
component of the entity; here `none` stands for an entity without it. The
accessor `Link::bodyLinearVelocity` reads the component `AngularAcceleration`. -/
def Link.bodyLinearVelocity (ecm : ECM) (linkEntity : Entity) : Option Vector3d :=
  ecm.angularAcceleration linkEntity

/-- The accessor `Link::bodyAngularVelocity`; it reads the component
`AngularAcceleration`. -/
def Link.bodyAngularVelocity (ecm : ECM) (linkEntity : Entity) : Option Vector3d :=
  ecm.angularAcceleration linkEntity

/-- The accessor `Link::bodyLinearAcceleration`. -/
def Link.bodyLinearAcceleration (ecm : ECM) (linkEntity : Entity) : Option Vector3d :=
  ecm.linearAcceleration linkEntity

/-- The accessor `Link::bodyAngularAcceleration`. -/
def Link.bodyAngularAcceleration (ecm : ECM) (linkEntity : Entity) : Option Vector3d :=
  ecm.angularAcceleration linkEntity

/-- The collision entities of a link:
`ChildrenByComponents(linkEntity, Collision(), ParentEntity(linkEntity))`. -/
def Link.collisionEntities (ecm : ECM) (linkEntity : Entity) : List Entity :=
  ecm.ChildrenByComponents linkEntity
    (fun c => ecm.collision c && decide (ecm.parentEntity c = some linkEntity))

/-- The accessor `Link::contactsEnabled`: whether every collision entity of the
link carries `ContactSensorData`. -/
def Link.contactsEnabled (ecm : ECM) (linkEntity : Entity) : Bool :=
  (Link.collisionEntities ecm linkEntity).foldl
    (fun enabled collisionEntity => enabled && (ecm.contactSensorData collisionEntity).isSome)
    true

/-- The method `Link::enableContactDetection`: the component manager afterwards
and the value returned. -/
def Link.enableContactDetection (ecm : ECM) (linkEntity : Entity) (enable : Bool) :
    ECM × Bool :=
  if enable && !Link.contactsEnabled ecm linkEntity then
    ((Link.collisionEntities ecm linkEntity).foldl
      (fun ecm collisionEntity =>
        { ecm with contactSensorData := FMap.set ecm.contactSensorData collisionEntity [] })
      ecm, true)
  else if !enable && Link.contactsEnabled ecm linkEntity then
    ((Link.collisionEntities ecm linkEntity).foldl
      (fun ecm collisionEntity =>
        { ecm with contactSensorData := FMap.erase ecm.contactSensorData collisionEntity })
      ecm, true)
  else (ecm, true)

/-- Modelled from the spec: the type `scenario::base::ContactPoint`, with the
members that `Link::contactWrench` reads. -/
structure BaseContactPoint where
  position : Vector3d
  force : Vector3d
  torque : Vector3d
deriving DecidableEq, Repr

/-- Modelled from the spec: the type `scenario::base::Contact`, the contact
points between two bodies. -/
structure BaseContact where
  bodyA : String
  bodyB : String
  points : List BaseContactPoint
deriving DecidableEq, Repr

/-- The body of the inner loop of `Link::contactWrench`: the assertion on the
torque, the position of the link, and the two accumulations. `position` is the
result of `Link::position`, `none` when it throws. -/
def contactWrenchPoint (position : Option Vector3d) (acc : Option (Vector3d × Vector3d))
    (contactPoint : BaseContactPoint) : Option (Vector3d × Vector3d) :=
  match acc with
  | none => none
  | some (totalForce, totalTorque) =>
    if contactPoint.torque = Vector3d.Zero then
      match position with
      | none => none
      | some o_L =>
        let o_P := contactPoint.position
        let L_o_P := o_P - o_L
        let force := contactPoint.force
        some (totalForce + force, totalTorque + L_o_P.Cross force)
    else none

/-- The method `Link::contactWrench` on the list that `Link::contacts` returns:
the six entries of the result, or `none` on a failure. -/
def Link.contactWrench (position : Option Vector3d) (contacts : List BaseContact) :
    Option (List Scalar) :=
  match contacts.foldl
      (fun acc contact => contact.points.foldl (contactWrenchPoint position) acc)
      (some (Vector3d.Zero, Vector3d.Zero)) with
  | none => none
  | some (totalForce, totalTorque) =>
    some [totalForce.x, totalForce.y, totalForce.z, totalTorque.x, totalTorque.y, totalTorque.z]

/-- The sum of a list of vectors. -/
def sumVectors (vs : List Vector3d) : Vector3d := vs.foldr (fun v acc => v + acc) Vector3d.Zero

/-- The wrench of the claim: the sum of the forces of all contact points, and
the sum of the moments of the forces about the position of the link. -/
def contactWrenchSum (o_L : Vector3d) (contacts : List BaseContact) : List Scalar :=
  let points := contacts.flatMap (fun contact => contact.points)
  let force := sumVectors (points.map (fun p => p.force))
  let torque := sumVectors (points.map (fun p => (p.position - o_L).Cross p.force))
  [force.x, force.y, force.z, torque.x, torque.y, torque.z]

/-! ## Auxiliary notions and example states for the accessors and the read-back -/

/-- A link entity (3) whose body-frame components hold four different
values. -/
def bodyExample : ECM :=
  { entities := [3]
    link := fun e => decide (e = 3)
    linearVelocity := fun e => if e = 3 then some ⟨1, 0, 0⟩ else none
    angularVelocity := fun e => if e = 3 then some ⟨0, 2, 0⟩ else none
    linearAcceleration := fun e => if e = 3 then some ⟨0, 0, 3⟩ else none
    angularAcceleration := fun e => if e = 3 then some ⟨4, 4, 4⟩ else none }

/-- A link (3) without collision entities and a link (5) with the collision
entities 6, which carries contact data, and 7, which does not. -/
def collisionsExample : ECM :=
  { entities := [3, 5, 6, 7]
    parentOf := fun e => if e = 6 ∨ e = 7 then 5 else 0
    link := fun e => decide (e = 3) || decide (e = 5)
    collision := fun e => decide (e = 6) || decide (e = 7)
    parentEntity := fun e => if e = 6 ∨ e = 7 then some 5 else none
    contactSensorData := fun e => if e = 6 then some [] else none }

/-- Two contacts of a link, with three contact points in all. -/
def wrenchExample : List BaseContact :=
  [⟨"a", "b", [⟨⟨1, 0, 0⟩, ⟨0, 0, 5⟩, Vector3d.Zero⟩, ⟨⟨0, 1, 0⟩, ⟨0, 0, 5⟩, Vector3d.Zero⟩]⟩,
    ⟨"a", "c", [⟨⟨0, 0, 1⟩, ⟨2, 0, 0⟩, Vector3d.Zero⟩]⟩]

/-- The component managers before and after agree on what selects the
collision entities of a link. -/
def SameCollisions (a b : ECM) : Prop :=
  b.entities = a.entities ∧ b.parentOf = a.parentOf ∧ b.collision = a.collision ∧
    b.parentEntity = a.parentEntity

/-- The parts of the state that the visit of a joint by the force read-back
reads, together with the failure and the entities. -/
def jointForceFrame (x : State) :
    Option Fault × List Entity × (Entity → Bool) × FMap Entity String ×
      FMap Entity (List Scalar) :=
  (x.fault, x.ecm.entities, x.ecm.joint, x.ecm.name, x.ecm.jointForceCmd)

/-- The applied force and the history of applied forces. -/
def jointForcePart (x : State) : FMap Entity (List Scalar) × FMap Entity (List Scalar) :=
  (x.ecm.jointForce, x.ecm.historyOfAppliedJointForces)

/-- A joint (4) with an applied force, a force command and a history. -/
def forceExample : State where
  ecm :=
    { entities := [1, 4]
      parentOf := fun e => if e = 4 then 1 else 0
      model := fun e => decide (e = 1)
      joint := fun e => decide (e = 4)
      name := fun e => if e = 4 then some "joint" else none
      jointForce := fun e => if e = 4 then some [1] else none
      jointForceCmd := fun e => if e = 4 then some [7, 8] else none
      historyOfAppliedJointForces := fun e => if e = 4 then some [5] else none }
  impl := { entityJointMap := fun e => if e = 4 then some 9 else none }

/-- The parts of the state that the joint read-back reads, together with the
failure and the entities. -/
def jointFrame (x : State) :
    Option Fault × List Entity × (Entity → Bool) × FMap Entity JointPtr :=
  (x.fault, x.ecm.entities, x.ecm.joint, x.impl.entityJointMap)

/-- The positions and velocities of the joints. -/
def jointStatePart (x : State) : FMap Entity (List Scalar) × FMap Entity (List Scalar) :=
  (x.ecm.jointPosition, x.ecm.jointVelocity)

/-- A registered joint (4) with two DOFs and an unregistered joint (5), both
with a position and a velocity of one entry. -/
def jointStateExample : State where
  ecm :=
    { entities := [1, 4, 5]
      model := fun e => decide (e = 1)
      joint := fun e => decide (e = 4) || decide (e = 5)
      jointPosition := fun e => if e = 4 ∨ e = 5 then some [9] else none
      jointVelocity := fun e => if e = 4 ∨ e = 5 then some [9] else none }
  impl := { entityJointMap := fun e => if e = 4 then some 9 else none }

/-- An engine view of joints with two DOFs, at position `10 + i` and velocity
`20 + i` in DOF `i`. -/
def jointView : EngineView where
  GetDegreesOfFreedom := fun _ => 2
  FindFreeGroup := fun _ => none
  CanonicalLink := fun _ => 0
  FrameDataRelativeToWorld := fun _ =>
    ⟨⟨Vector3d.Zero, Matrix3d.Identity⟩, Vector3d.Zero, Vector3d.Zero, Vector3d.Zero,
      Vector3d.Zero⟩
  Resolve := fun _ _ =>
    ⟨⟨Vector3d.Zero, Matrix3d.Identity⟩, Vector3d.Zero, Vector3d.Zero, Vector3d.Zero,
      Vector3d.Zero⟩
  GetPosition := fun _ i => 10 + i
  GetVelocity := fun _ i => 20 + i
  GetContactsFromLastStep := fun _ => []

/-- The four body-frame components of an entity. -/
def bodyAt (x : State) (y : Entity) :
    Option Vector3d × Option Vector3d × Option Vector3d × Option Vector3d :=
  (x.ecm.linearVelocity y, x.ecm.angularVelocity y, x.ecm.linearAcceleration y,
    x.ecm.angularAcceleration y)

/-- The four body-frame components of an entity, as far as it carries them,
computed from the frame data of its link: the transpose of the world rotation
applied to the world-frame quantity. -/
def bodyFrom (fd : FrameData3d) (old : Option Vector3d × Option Vector3d × Option Vector3d ×
    Option Vector3d) : Option Vector3d × Option Vector3d × Option Vector3d × Option Vector3d :=
  (old.1.map (fun _ => fd.pose.rot.transpose.mulVec fd.linearVelocity),
    old.2.1.map (fun _ => fd.pose.rot.transpose.mulVec fd.angularVelocity),
    old.2.2.1.map (fun _ => fd.pose.rot.transpose.mulVec fd.linearAcceleration),
    old.2.2.2.map (fun _ => fd.pose.rot.transpose.mulVec fd.angularAcceleration))

/-- Overwrite the value of a key that is bound; a key that is not bound stays
so. -/
def FMap.refresh {V : Type} (m : FMap Entity V) (e : Entity) (v : V) : FMap Entity V :=
  match m e with
  | some _ => FMap.set m e v
  | none => m

/-- The four body-frame components. -/
def bodyFields (c : ECM) :
    FMap Entity Vector3d × FMap Entity Vector3d × FMap Entity Vector3d × FMap Entity Vector3d :=
  (c.linearVelocity, c.angularVelocity, c.linearAcceleration, c.angularAcceleration)

/-- The four body-frame components after the link `e` has been read back with
the frame data `fd`. -/
def bodyRefreshed (fd : FrameData3d) (c : ECM) (e : Entity) :
    FMap Entity Vector3d × FMap Entity Vector3d × FMap Entity Vector3d × FMap Entity Vector3d :=
  (FMap.refresh c.linearVelocity e (fd.pose.rot.transpose.mulVec fd.linearVelocity),
    FMap.refresh c.angularVelocity e (fd.pose.rot.transpose.mulVec fd.angularVelocity),
    FMap.refresh c.linearAcceleration e (fd.pose.rot.transpose.mulVec fd.linearAcceleration),
    FMap.refresh c.angularAcceleration e (fd.pose.rot.transpose.mulVec fd.angularAcceleration))

/-- What the visitors after the pass over the links keep of a link `L` whose
parent `M` is not registered as a link: the parents, the registry of the links
and the body-frame components of `L`. -/
def BodyKept (s0 : State) (L : Entity)
    (target : Option Vector3d × Option Vector3d × Option Vector3d × Option Vector3d)
    (st : State) : Prop :=
  st.ecm.parentEntity = s0.ecm.parentEntity ∧ st.impl.entityLinkMap = s0.impl.entityLinkMap ∧
    bodyAt st L = target

/-- The state `linksExample` with the model marked as static. -/
def staticLinksExample : State :=
  { linksExample with
    ecm := { linksExample.ecm with static := fun e => if e = 2 then some true else none } }

/-- The component types that the store of the model holds. -/
inductive ComponentKind
  | World
  | Model
  | Link
  | Collision
  | Joint
  | CanonicalLink
  | Name
  | Gravity
  | Pose
  | ParentEntity
  | Static
  | Inertial
  | Geometry
  | CollisionElement
  | JointType
  | ThreadPitch
  | ParentLinkName
  | ChildLinkName
  | JointAxis
  | JointAxis2
  | BatterySoC
  | SimulatedTime
  | JointPositionReset
  | JointVelocityReset
  | JointForceCmd
  | JointVelocityCmd
  | JointForce
  | JointPosition
  | JointVelocity
  | HistoryOfAppliedJointForces
  | ExternalWorldWrenchCmd
  | ExternalWorldWrenchCmdWithDuration
  | WorldPoseCmd
  | WorldVelocityCmd
  | WorldPose
  | WorldLinearVelocity
  | WorldAngularVelocity
  | WorldLinearAcceleration
  | WorldAngularAcceleration
  | LinearVelocity
  | AngularVelocity
  | LinearAcceleration
  | AngularAcceleration
  | ContactSensorData
deriving DecidableEq, Repr

/-- The entity `e` carries a component of the type `t`: the pair `(e, t)` is in
the store. -/
def ECM.has (ecm : ECM) (t : ComponentKind) (e : Entity) : Bool :=
  match t with
  | ComponentKind.World => ecm.world e
  | ComponentKind.Model => ecm.model e
  | ComponentKind.Link => ecm.link e
  | ComponentKind.Collision => ecm.collision e
  | ComponentKind.Joint => ecm.joint e
  | ComponentKind.CanonicalLink => ecm.canonicalLink e
  | ComponentKind.Name => (ecm.name e).isSome
  | ComponentKind.Gravity => (ecm.gravity e).isSome
  | ComponentKind.Pose => (ecm.pose e).isSome
  | ComponentKind.ParentEntity => (ecm.parentEntity e).isSome
  | ComponentKind.Static => (ecm.static e).isSome
  | ComponentKind.Inertial => (ecm.inertial e).isSome
  | ComponentKind.Geometry => (ecm.geometry e).isSome
  | ComponentKind.CollisionElement => (ecm.collisionElement e).isSome
  | ComponentKind.JointType => (ecm.jointType e).isSome
  | ComponentKind.ThreadPitch => (ecm.threadPitch e).isSome
  | ComponentKind.ParentLinkName => (ecm.parentLinkName e).isSome
  | ComponentKind.ChildLinkName => (ecm.childLinkName e).isSome
  | ComponentKind.JointAxis => (ecm.jointAxis e).isSome
  | ComponentKind.JointAxis2 => (ecm.jointAxis2 e).isSome
  | ComponentKind.BatterySoC => (ecm.batterySoC e).isSome
  | ComponentKind.SimulatedTime => (ecm.simulatedTime e).isSome
  | ComponentKind.JointPositionReset => (ecm.jointPositionReset e).isSome
  | ComponentKind.JointVelocityReset => (ecm.jointVelocityReset e).isSome
  | ComponentKind.JointForceCmd => (ecm.jointForceCmd e).isSome
  | ComponentKind.JointVelocityCmd => (ecm.jointVelocityCmd e).isSome
  | ComponentKind.JointForce => (ecm.jointForce e).isSome
  | ComponentKind.JointPosition => (ecm.jointPosition e).isSome
  | ComponentKind.JointVelocity => (ecm.jointVelocity e).isSome
  | ComponentKind.HistoryOfAppliedJointForces => (ecm.historyOfAppliedJointForces e).isSome
  | ComponentKind.ExternalWorldWrenchCmd => (ecm.externalWorldWrenchCmd e).isSome
  | ComponentKind.ExternalWorldWrenchCmdWithDuration =>
    (ecm.externalWorldWrenchCmdWithDuration e).isSome
  | ComponentKind.WorldPoseCmd => (ecm.worldPoseCmd e).isSome
  | ComponentKind.WorldVelocityCmd => (ecm.worldVelocityCmd e).isSome
  | ComponentKind.WorldPose => (ecm.worldPose e).isSome
  | ComponentKind.WorldLinearVelocity => (ecm.worldLinearVelocity e).isSome
  | ComponentKind.WorldAngularVelocity => (ecm.worldAngularVelocity e).isSome
  | ComponentKind.WorldLinearAcceleration => (ecm.worldLinearAcceleration e).isSome
  | ComponentKind.WorldAngularAcceleration => (ecm.worldAngularAcceleration e).isSome
  | ComponentKind.LinearVelocity => (ecm.linearVelocity e).isSome
  | ComponentKind.AngularVelocity => (ecm.angularVelocity e).isSome
  | ComponentKind.LinearAcceleration => (ecm.linearAcceleration e).isSome
  | ComponentKind.AngularAcceleration => (ecm.angularAcceleration e).isSome
  | ComponentKind.ContactSensorData => (ecm.contactSensorData e).isSome

/-- Every pair of an entity and a component type of the first store is a pair
of the second store. -/
def ECM.Within (a b : ECM) : Prop :=
  ∀ (t : ComponentKind) (e : Entity), a.has t e = true → b.has t e = true

/-! ## Theorems -/

theorem each_preserves {P : State → Prop} {visit : State → Entity → State}
    (h : ∀ st e, P st → P (visit st e)) (s : State) (hs : P s) : P (s.each visit) := by
  unfold State.each
  generalize s.ecm.entities = es
  induction es generalizing s with
  | nil => simpa using hs
  | cons e es ih =>
    simp only [List.foldl_cons]
    apply ih
    split
    · exact hs
    · exact h s e hs

theorem each_calls {visit : State → Entity → State} {g : Entity → List EngineCall}
    {I : State → Prop} (hI : ∀ st e, I st → I (visit st e))
    (hg : ∀ st e, I st → (visit st e).calls = st.calls ++ g e)
    (hf : ∀ st, I st → st.fault = none) (s : State) (hs : I s) :
    (s.each visit).calls = s.calls ++ s.ecm.entities.flatMap g := by
  unfold State.each
  generalize s.ecm.entities = es
  induction es generalizing s with
  | nil => simp
  | cons e es ih =>
    simp only [List.foldl_cons, List.flatMap_cons]
    rw [hf s hs]
    simp only [Option.isSome_none, Bool.false_eq_true, if_false]
    rw [ih (visit s e) (hI s e hs), hg s e hs, List.append_assoc]

theorem getD_insert_false (m : FMap Entity Bool) (k k' : Entity) :
    ((FMap.insert m k false) k').getD false = (m k').getD false := by
  unfold FMap.insert
  by_cases hk : k' = k
  · subst hk
    cases h : m k' <;> simp [h]
  · simp [hk]

theorem handleJointState_calls (v : EngineView) (s : State) (e : Entity) :
    (handleJointState v s e).calls = s.calls ++ jointCalls v s e := by
  unfold handleJointState jointCalls
  by_cases h1 : (s.ecm.joint e && (s.ecm.name e).isSome) = true
  · cases hj : s.impl.entityJointMap e with
    | none => simp [h1]
    | some j =>
      by_cases hoff : (s.impl.entityOffMap (s.ecm.parentOf e)).getD false = true
      · simp [h1, hoff, State.emit]
      · simp [h1, hoff, State.emit]
  · simp [h1]

theorem handleJointState_frame (v : EngineView) (s0 st : State) (e : Entity)
    (h : JointFrame s0 st) : JointFrame s0 (handleJointState v st e) := by
  obtain ⟨h1, h2, h3, h4⟩ := h
  unfold handleJointState
  by_cases hc : (st.ecm.joint e && (st.ecm.name e).isSome) = true
  · cases hj : st.impl.entityJointMap e with
    | none => simp only [hc, if_true]; exact ⟨h1, h2, h3, h4⟩
    | some j =>
      by_cases hoff : (st.impl.entityOffMap (st.ecm.parentOf e)).getD false = true
      · simp only [hc, hoff, if_true, State.emit]
        refine ⟨h1, h2, h3, fun k => ?_⟩
        exact (getD_insert_false _ _ _).trans (h4 k)
      · simp only [hc, hoff, if_true, State.emit]
        refine ⟨h1, h2, h3, fun k => ?_⟩
        exact (getD_insert_false _ _ _).trans (h4 k)
  · simp only [hc]; exact ⟨h1, h2, h3, h4⟩

theorem jointCalls_congr (v : EngineView) (s0 st : State) (e : Entity) (h : JointFrame s0 st) :
    jointCalls v st e = jointCalls v s0 e := by
  obtain ⟨_, h2, h3, h4⟩ := h
  unfold jointCalls
  rw [h2, h3, h4]

theorem jointLoop_calls (v : EngineView) (s : State) (hs : s.fault = none) :
    (s.each (handleJointState v)).calls = s.calls ++ s.ecm.entities.flatMap (jointCalls v s) := by
  apply each_calls (I := JointFrame s)
  · exact fun st e h => handleJointState_frame v s st e h
  · intro st e h
    rw [handleJointState_calls, jointCalls_congr v s st e h]
  · intro st h; rw [h.1, hs]
  · exact ⟨rfl, rfl, rfl, fun _ => rfl⟩

theorem RegistryLE.registry_refl (a : Impl) : RegistryLE a a :=
  ⟨fun _ _ h => h, fun _ _ h => h, fun _ _ h => h, fun _ _ h => h, fun _ _ h => h,
    fun _ _ h => h, fun _ _ h => h, fun _ h => h⟩

theorem RegistryLE.registry_trans {a b c : Impl} (h1 : RegistryLE a b) (h2 : RegistryLE b c) :
    RegistryLE a c :=
  ⟨fun e w h => h2.world e w (h1.world e w h), fun e w h => h2.model e w (h1.model e w h),
    fun e w h => h2.link e w (h1.link e w h), fun e w h => h2.linkRev e w (h1.linkRev e w h),
    fun e w h => h2.collision e w (h1.collision e w h),
    fun e w h => h2.collisionRev e w (h1.collisionRev e w h),
    fun e w h => h2.joint e w (h1.joint e w h), fun e h => h2.off e (h1.off e h)⟩

theorem Advance.advance_refl (k : CallKind) (s : State) : Advance k s s :=
  ⟨RegistryLE.registry_refl _, [], by simp, by simp⟩

theorem Advance.advance_trans {k : CallKind} {a b c : State} (h1 : Advance k a b) (h2 : Advance k b c) :
    Advance k a c := by
  obtain ⟨r1, p1, e1, k1⟩ := h1
  obtain ⟨r2, p2, e2, k2⟩ := h2
  refine ⟨r1.registry_trans r2, p1 ++ p2, by rw [e2, e1, List.append_assoc], ?_⟩
  intro c hc
  rcases List.mem_append.mp hc with h | h
  · exact k1 c h
  · exact k2 c h

theorem Advance.of_eq {k : CallKind} {s s' : State} (hi : s'.impl = s.impl)
    (hc : s'.calls = s.calls) : Advance k s s' :=
  ⟨hi ▸ RegistryLE.registry_refl _, [], by simp [hc], by simp⟩

theorem each_advance {k : CallKind} {visit : State → Entity → State}
    (h : ∀ st e, Advance k st (visit st e)) (s : State) : Advance k s (s.each visit) :=
  each_preserves (P := fun st => Advance k s st) (fun st e hst => hst.advance_trans (h st e)) s
    (Advance.advance_refl k s)

theorem each_field {α : Type} (f : State → α) {visit : State → Entity → State}
    (h : ∀ st e, f (visit st e) = f st) (s : State) : f (s.each visit) = f s :=
  each_preserves (P := fun st => f st = f s) (fun st e hst => (h st e).trans hst) s rfl

theorem FMap.fmap_insert_le {K V : Type} [DecidableEq K] (m : FMap K V) (k : K) (v : V) (k' : K)
    (v' : V) (h : m k' = some v') : FMap.insert m k v k' = some v' := by
  unfold FMap.insert
  by_cases hk : k' = k
  · subst hk; simp [h]
  · simp [hk, h]

theorem FMap.insert_ne_none {K V : Type} [DecidableEq K] (m : FMap K V) (k : K) (v : V) (k' : K)
    (h : m k' ≠ none) : FMap.insert m k v k' ≠ none := by
  cases hm : m k' with
  | none => exact absurd hm h
  | some v' => rw [FMap.fmap_insert_le m k v k' v' hm]; simp

theorem FMap.set_ne_none {K V : Type} [DecidableEq K] (m : FMap K V) (k : K) (v : V) (k' : K)
    (h : m k' ≠ none) : FMap.set m k v k' ≠ none := by
  unfold FMap.set
  by_cases hk : k' = k
  · simp [hk]
  · simp [hk, h]

theorem AMap.find_append {K V : Type} [DecidableEq K] (m m' : AMap K V) (k : K) (v : V)
    (h : AMap.find m k = some v) : AMap.find (m ++ m') k = some v := by
  induction m with
  | nil => simp [AMap.find] at h
  | cons p rest ih =>
    obtain ⟨k', v'⟩ := p
    simp only [List.cons_append, AMap.find] at h ⊢
    by_cases hk : k' = k
    · simpa [hk] using h
    · simp only [hk, if_false] at h ⊢; exact ih h

theorem AMap.amap_insert_le {K V : Type} [DecidableEq K] (m : AMap K V) (k : K) (v : V) (k' : K)
    (v' : V) (h : AMap.find m k' = some v') : AMap.find (AMap.insert m k v) k' = some v' := by
  unfold AMap.insert
  cases hf : AMap.find m k with
  | some _ => exact h
  | none => exact AMap.find_append m _ k' v' h

theorem selected_advance {k : CallKind} {visit : State → Entity → State}
    (h : ∀ st e, Advance k st (visit st e)) (all : Bool) (st : State) (e : Entity) :
    Advance k st (selected all visit st e) := by
  unfold selected
  split
  · exact h st e
  · exact Advance.advance_refl k st

theorem processWorld_advance (eng : Engine) (st : State) (e : Entity) :
    Advance CallKind.construct st (processWorld eng st e) := by
  unfold processWorld
  repeat' split
  all_goals first
    | exact Advance.advance_refl _ _
    | (refine ⟨?_, [_], rfl, by simp [EngineCall.kind]⟩
       constructor <;> first
        | exact fun _ _ h => h
        | exact fun _ h => h
        | exact fun _ _ h => AMap.amap_insert_le _ _ _ _ _ h)

theorem processModel_advance (eng : Engine) (st : State) (e : Entity) :
    Advance CallKind.construct st (processModel eng st e) := by
  unfold processModel
  repeat' split
  all_goals first
    | exact Advance.advance_refl _ _
    | (refine ⟨?_, [_], rfl, by simp [EngineCall.kind]⟩
       constructor <;> first
        | exact fun _ _ h => h
        | exact fun _ h => h
        | exact fun _ _ h => AMap.amap_insert_le _ _ _ _ _ h
        | exact fun _ _ h => FMap.fmap_insert_le _ _ _ _ _ h)

theorem processLink_advance (eng : Engine) (st : State) (e : Entity) :
    Advance CallKind.construct st (processLink eng st e) := by
  unfold processLink
  repeat' split
  all_goals first
    | exact Advance.advance_refl _ _
    | (refine ⟨?_, [_], rfl, by simp [EngineCall.kind]⟩
       constructor <;> first
        | exact fun _ _ h => h
        | exact fun _ h => h
        | exact fun _ _ h => AMap.amap_insert_le _ _ _ _ _ h
        | exact fun _ _ h => FMap.fmap_insert_le _ _ _ _ _ h)

theorem registerCollision_advance (st : State) (e : Entity) (p : ShapePtr) (c : EngineCall)
    (hc : c.kind = CallKind.construct) :
    Advance CallKind.construct st (registerCollision st e p c) := by
  unfold registerCollision
  refine ⟨?_, [c], rfl, by simp [hc]⟩
  constructor <;> first
    | exact fun _ _ h => h
    | exact fun _ h => h
    | exact fun _ _ h => FMap.fmap_insert_le _ _ _ _ _ h

theorem processCollision_advance (eng : Engine) (st : State) (e : Entity) :
    Advance CallKind.construct st (processCollision eng st e) := by
  unfold processCollision
  repeat' (first | split | dsimp only)
  all_goals first
    | exact Advance.advance_refl _ _
    | exact registerCollision_advance _ _ _ _ (by rfl)

theorem processJoint_advance (eng : Engine) (st : State) (e : Entity) :
    Advance CallKind.construct st (processJoint eng st e) := by
  unfold processJoint
  repeat' (first | split | dsimp only [State.emit])
  all_goals first
    | exact Advance.advance_refl _ _
    | (refine ⟨?_, [_], rfl, by simp [EngineCall.kind]⟩
       constructor <;> first
        | exact fun _ _ h => h
        | exact fun _ h => h
        | exact fun _ _ h => FMap.fmap_insert_le _ _ _ _ _ h)

theorem processBattery_advance (st : State) (e : Entity) :
    Advance CallKind.construct st (processBattery st e) := by
  unfold processBattery
  repeat' split
  all_goals first
    | exact Advance.advance_refl _ _
    | (refine ⟨?_, [], by simp, by simp⟩
       constructor <;> first
        | exact fun _ _ h => h
        | exact fun _ h => FMap.insert_ne_none _ _ _ _ h)

theorem CreatePhysicsEntities_advance (eng : Engine) (s : State) :
    Advance CallKind.construct s (CreatePhysicsEntities eng s) := by
  unfold CreatePhysicsEntities
  split
  · exact Advance.advance_refl _ _
  · have h0 : Advance CallKind.construct s { s with impl := { s.impl with firstRun := false } } :=
      ⟨⟨fun _ _ h => h, fun _ _ h => h, fun _ _ h => h, fun _ _ h => h, fun _ _ h => h,
        fun _ _ h => h, fun _ _ h => h, fun _ h => h⟩, [], by simp, by simp⟩
    dsimp only
    refine h0.advance_trans ?_
    refine (each_advance (selected_advance (processWorld_advance eng) s.impl.firstRun) _).advance_trans ?_
    refine (each_advance (selected_advance (processModel_advance eng) s.impl.firstRun) _).advance_trans ?_
    refine (each_advance (selected_advance (processLink_advance eng) s.impl.firstRun) _).advance_trans ?_
    refine (each_advance (selected_advance (processCollision_advance eng) s.impl.firstRun) _).advance_trans ?_
    refine (each_advance (selected_advance (processJoint_advance eng) s.impl.firstRun) _).advance_trans ?_
    exact each_advance (selected_advance processBattery_advance s.impl.firstRun) _

theorem batteryState_advance (st : State) (e : Entity) :
    Advance CallKind.command st (batteryState st e) := by
  unfold batteryState
  repeat' (first | split | dsimp only)
  all_goals first
    | exact Advance.advance_refl _ _
    | (refine ⟨?_, [], by simp, by simp⟩
       constructor <;> first
        | exact fun _ _ h => h
        | exact fun _ h => FMap.set_ne_none _ _ _ _ h)

theorem overlapCalls_kind (setter : Nat → Scalar → EngineCall)
    (hk : ∀ i x, (setter i x).kind = CallKind.command) (data : List Scalar) (dofs : Nat) :
    ∀ c ∈ overlapCalls setter data dofs, c.kind = CallKind.command := by
  intro c hc
  unfold overlapCalls at hc
  obtain ⟨i, _, rfl⟩ := List.mem_map.mp hc
  exact hk _ _

theorem batteryOffCalls_kind (v : EngineView) (j : JointPtr) :
    ∀ c ∈ batteryOffCalls v j, c.kind = CallKind.command := by
  intro c hc
  unfold batteryOffCalls at hc
  obtain ⟨i, _, hi⟩ := List.mem_flatMap.mp hc
  simp only [List.mem_cons, List.mem_singleton, List.not_mem_nil, or_false] at hi
  rcases hi with rfl | rfl <;> rfl

theorem jointCommandCalls_kind (v : EngineView) (ecm : ECM) (e : Entity) (j : JointPtr) :
    ∀ c ∈ jointCommandCalls v ecm e j, c.kind = CallKind.command := by
  intro c hc
  unfold jointCommandCalls at hc
  simp only [List.mem_append] at hc
  rcases hc with (hc | hc) | hc
  · split at hc
    · exact overlapCalls_kind (EngineCall.SetVelocity j) (fun _ _ => rfl) _ _ c hc
    · simp at hc
  · split at hc
    · exact overlapCalls_kind (EngineCall.SetPosition j) (fun _ _ => rfl) _ _ c hc
    · simp at hc
  · split at hc
    · exact overlapCalls_kind (EngineCall.SetForce j) (fun _ _ => rfl) _ _ c hc
    · split at hc
      · split at hc
        · simp at hc
        · exact overlapCalls_kind (EngineCall.SetVelocityCommand j) (fun _ _ => rfl) _ _ c hc
      · simp at hc

theorem handleJointState_advance (v : EngineView) (st : State) (e : Entity) :
    Advance CallKind.command st (handleJointState v st e) := by
  unfold handleJointState
  repeat' (first | split | dsimp only [State.emit])
  all_goals first
    | exact Advance.advance_refl _ _
    | (refine ⟨?_, _, rfl, ?_⟩
       · constructor <;> first
          | exact fun _ _ h => h
          | exact fun _ h => FMap.insert_ne_none _ _ _ _ h
       · first
          | exact batteryOffCalls_kind _ _
          | exact jointCommandCalls_kind _ _ _ _)

theorem linkWrench_advance (st : State) (e : Entity) :
    Advance CallKind.command st (linkWrench st e) := by
  unfold linkWrench
  repeat' (first | split | dsimp only [State.emit])
  all_goals first
    | exact Advance.advance_refl _ _
    | exact ⟨RegistryLE.registry_refl _, _, rfl, by simp [EngineCall.kind]⟩

theorem linkWrenchWithDuration_advance (info : UpdateInfo) (st : State) (e : Entity) :
    Advance CallKind.command st (linkWrenchWithDuration info st e) := by
  unfold linkWrenchWithDuration
  repeat' (first | split | dsimp only [State.emit])
  all_goals first
    | exact Advance.advance_refl _ _
    | exact ⟨RegistryLE.registry_refl _, _, rfl, by simp [EngineCall.kind]⟩

theorem processWorldPoseCmd_advance (v : EngineView) (st : State) (e : Entity) :
    Advance CallKind.command st (processWorldPoseCmd v st e) := by
  unfold processWorldPoseCmd
  repeat' (first | split | dsimp only [State.emit])
  all_goals first
    | exact Advance.advance_refl _ _
    | exact ⟨RegistryLE.registry_refl _, _, rfl, by simp [EngineCall.kind]⟩

theorem processWorldVelocityCmd_advance (v : EngineView) (st : State) (e : Entity) :
    Advance CallKind.command st (processWorldVelocityCmd v st e) := by
  unfold processWorldVelocityCmd
  repeat' (first | split | dsimp only [State.emit])
  all_goals first
    | exact Advance.advance_refl _ _
    | exact ⟨RegistryLE.registry_refl _, _, rfl, by simp [EngineCall.kind]⟩

theorem removeWorldPoseCmd_frame (s : State) (es : List Entity) :
    (removeWorldPoseCmd s es).impl = s.impl ∧ (removeWorldPoseCmd s es).calls = s.calls ∧
      (removeWorldPoseCmd s es).fault = s.fault ∧
      (removeWorldPoseCmd s es).ecm.entities = s.ecm.entities := by
  unfold removeWorldPoseCmd
  induction es generalizing s with
  | nil => simp
  | cons e es ih =>
    simp only [List.foldl_cons]
    obtain ⟨h1, h2, h3, h4⟩ := ih { s with ecm := { s.ecm with worldPoseCmd := FMap.erase s.ecm.worldPoseCmd e } }
    exact ⟨h1, h2, h3, h4⟩

theorem removeWorldVelocityCmd_frame (s : State) (es : List Entity) :
    (removeWorldVelocityCmd s es).impl = s.impl ∧ (removeWorldVelocityCmd s es).calls = s.calls ∧
      (removeWorldVelocityCmd s es).fault = s.fault ∧
      (removeWorldVelocityCmd s es).ecm.entities = s.ecm.entities := by
  unfold removeWorldVelocityCmd
  induction es generalizing s with
  | nil => simp
  | cons e es ih =>
    simp only [List.foldl_cons]
    obtain ⟨h1, h2, h3, h4⟩ := ih { s with ecm := { s.ecm with worldVelocityCmd := FMap.erase s.ecm.worldVelocityCmd e } }
    exact ⟨h1, h2, h3, h4⟩

theorem clearPendingCommands_frame (s : State) :
    (clearPendingCommands s).impl = s.impl ∧ (clearPendingCommands s).calls = s.calls ∧
      (clearPendingCommands s).fault = s.fault := by
  unfold clearPendingCommands
  split
  · exact ⟨rfl, rfl, rfl⟩
  · dsimp only
    obtain ⟨a1, a2, a3, _⟩ := removeWorldVelocityCmd_frame
      (removeWorldPoseCmd s
        (s.ecm.entities.foldl (collect (fun ecm e => (ecm.worldPoseCmd e).isSome)) (s, [])).2)
      ((removeWorldPoseCmd s
        (s.ecm.entities.foldl (collect (fun ecm e => (ecm.worldPoseCmd e).isSome)) (s, [])).2).ecm.entities.foldl
          (collect (fun ecm e => (ecm.worldVelocityCmd e).isSome))
          (removeWorldPoseCmd s
            (s.ecm.entities.foldl (collect (fun ecm e => (ecm.worldPoseCmd e).isSome)) (s, [])).2, [])).2
    obtain ⟨b1, b2, b3, _⟩ := removeWorldPoseCmd_frame s
        (s.ecm.entities.foldl (collect (fun ecm e => (ecm.worldPoseCmd e).isSome)) (s, [])).2
    exact ⟨a1.trans b1, a2.trans b2, a3.trans b3⟩

theorem UpdatePhysics_advance (v : EngineView) (info : UpdateInfo) (s : State) :
    Advance CallKind.command s (UpdatePhysics v info s) := by
  unfold UpdatePhysics
  split
  · exact Advance.advance_refl _ _
  · dsimp only
    refine Advance.advance_trans ?_ (Advance.of_eq (clearPendingCommands_frame _).1
      (clearPendingCommands_frame _).2.1)
    refine Advance.advance_trans ?_ (each_advance (processWorldVelocityCmd_advance v) _)
    refine Advance.advance_trans ?_ (each_advance (processWorldPoseCmd_advance v) _)
    refine (each_advance batteryState_advance _).advance_trans ?_
    refine (each_advance (handleJointState_advance v) _).advance_trans ?_
    refine (each_advance linkWrench_advance _).advance_trans ?_
    split
    · exact each_advance (linkWrenchWithDuration_advance info) _
    · exact Advance.advance_refl _ _

theorem Step_advance (dt : Duration) (s : State) : Advance CallKind.step s (Step dt s) := by
  unfold Step
  split
  · exact Advance.advance_refl _ _
  · refine ⟨RegistryLE.registry_refl _, _, rfl, ?_⟩
    intro c hc
    obtain ⟨w, _, rfl⟩ := List.mem_map.mp hc
    rfl

theorem updateLinkPose_frame (v : EngineView) (st : State) (e : Entity) :
    (fun x : State => (x.impl, x.calls)) (updateLinkPose v st e) = (st.impl, st.calls) := by
  unfold updateLinkPose
  repeat' (first | split | dsimp only)

theorem updateJointForce_frame (info : UpdateInfo) (st : State) (e : Entity) :
    (fun x : State => (x.impl, x.calls)) (updateJointForce info st e) = (st.impl, st.calls) := by
  unfold updateJointForce
  repeat' (first | split | dsimp only)

theorem updateOffsetWorldPose_frame (v : EngineView) (st : State) (e : Entity) :
    (fun x : State => (x.impl, x.calls)) (updateOffsetWorldPose v st e) = (st.impl, st.calls) := by
  unfold updateOffsetWorldPose
  repeat' (first | split | dsimp only)

theorem updateOffsetWorldLinearVelocity_frame (v : EngineView) (st : State) (e : Entity) :
    (fun x : State => (x.impl, x.calls)) (updateOffsetWorldLinearVelocity v st e) = (st.impl, st.calls) := by
  unfold updateOffsetWorldLinearVelocity
  repeat' (first | split | dsimp only)

theorem updateOffsetAngularVelocity_frame (v : EngineView) (st : State) (e : Entity) :
    (fun x : State => (x.impl, x.calls)) (updateOffsetAngularVelocity v st e) = (st.impl, st.calls) := by
  unfold updateOffsetAngularVelocity
  repeat' (first | split | dsimp only)

theorem updateOffsetLinearAcceleration_frame (v : EngineView) (st : State) (e : Entity) :
    (fun x : State => (x.impl, x.calls)) (updateOffsetLinearAcceleration v st e) = (st.impl, st.calls) := by
  unfold updateOffsetLinearAcceleration
  repeat' (first | split | dsimp only)

theorem clearJointPositionReset_frame (st : State) (e : Entity) :
    (fun x : State => (x.impl, x.calls)) (clearJointPositionReset st e) = (st.impl, st.calls) := by
  unfold clearJointPositionReset
  repeat' (first | split | dsimp only)

theorem clearJointVelocityReset_frame (st : State) (e : Entity) :
    (fun x : State => (x.impl, x.calls)) (clearJointVelocityReset st e) = (st.impl, st.calls) := by
  unfold clearJointVelocityReset
  repeat' (first | split | dsimp only)

theorem clearJointForceCmd_frame (st : State) (e : Entity) :
    (fun x : State => (x.impl, x.calls)) (clearJointForceCmd st e) = (st.impl, st.calls) := by
  unfold clearJointForceCmd
  repeat' (first | split | dsimp only)

theorem clearExternalWorldWrenchCmd_frame (st : State) (e : Entity) :
    (fun x : State => (x.impl, x.calls)) (clearExternalWorldWrenchCmd st e) = (st.impl, st.calls) := by
  unfold clearExternalWorldWrenchCmd
  repeat' (first | split | dsimp only)

theorem clearJointVelocityCmd_frame (st : State) (e : Entity) :
    (fun x : State => (x.impl, x.calls)) (clearJointVelocityCmd st e) = (st.impl, st.calls) := by
  unfold clearJointVelocityCmd
  repeat' (first | split | dsimp only)

theorem updateJointPosition_frame (v : EngineView) (st : State) (e : Entity) :
    (fun x : State => (x.impl, x.calls)) (updateJointPosition v st e) = (st.impl, st.calls) := by
  unfold updateJointPosition
  repeat' (first | split | dsimp only)

theorem updateJointVelocity_frame (v : EngineView) (st : State) (e : Entity) :
    (fun x : State => (x.impl, x.calls)) (updateJointVelocity v st e) = (st.impl, st.calls) := by
  unfold updateJointVelocity
  repeat' (first | split | dsimp only)

theorem each_frame {visit : State → Entity → State}
    (h : ∀ st e, (fun x : State => (x.impl, x.calls)) (visit st e) = (st.impl, st.calls))
    {s0 : State} (s : State) (hs : s.impl = s0.impl ∧ s.calls = s0.calls) :
    (s.each visit).impl = s0.impl ∧ (s.each visit).calls = s0.calls :=
  each_preserves (P := fun st => st.impl = s0.impl ∧ st.calls = s0.calls)
    (fun st e hst => ⟨(Prod.mk.inj (h st e)).1.trans hst.1, (Prod.mk.inj (h st e)).2.trans hst.2⟩)
    s hs

theorem writeContacts_frame (m : AMap Entity EntityContactMap) (st : State) (e : Entity) :
    (fun x : State => (x.impl, x.calls)) (writeContacts m st e) = (st.impl, st.calls) := by
  unfold writeContacts
  repeat' (first | split | dsimp only)

theorem UpdateCollisions_frame (v : EngineView) (uninit : Nat → Option ExtraContactData)
    (s : State) :
    (UpdateCollisions v uninit s).impl = s.impl ∧ (UpdateCollisions v uninit s).calls = s.calls := by
  unfold UpdateCollisions
  repeat' (first | split | dsimp only)
  all_goals first
    | exact ⟨rfl, rfl⟩
    | exact each_frame (writeContacts_frame _) s ⟨rfl, rfl⟩

theorem UpdateSim_frame (v : EngineView) (uninit : Nat → Option ExtraContactData)
    (info : UpdateInfo) (s : State) :
    (UpdateSim v uninit info s).impl = s.impl ∧ (UpdateSim v uninit info s).calls = s.calls := by
  unfold UpdateSim
  split
  · exact ⟨rfl, rfl⟩
  · dsimp only
    have e := each_frame (updateJointVelocity_frame v) _
      (each_frame (updateJointPosition_frame v) _
      (each_frame clearJointVelocityCmd_frame _
      (each_frame clearExternalWorldWrenchCmd_frame _
      (each_frame clearJointForceCmd_frame _
      (each_frame clearJointVelocityReset_frame _
      (each_frame clearJointPositionReset_frame _
      (each_frame (updateOffsetLinearAcceleration_frame v) _
      (each_frame (updateOffsetAngularVelocity_frame v) _
      (each_frame (updateOffsetWorldLinearVelocity_frame v) _
      (each_frame (updateOffsetWorldPose_frame v) _
      (each_frame (updateJointForce_frame info) _
      (each_frame (updateLinkPose_frame v) s ⟨rfl, rfl⟩))))))))))))
    exact ⟨(UpdateCollisions_frame v uninit _).1.trans e.1,
      (UpdateCollisions_frame v uninit _).2.trans e.2⟩

theorem Logged.logged_refl (k : CallKind) (s : State) : Logged k s s :=
  ⟨[], (List.append_nil _).symm, fun _ h => absurd h (List.not_mem_nil _)⟩

theorem Logged.logged_trans {k : CallKind} {a b c : State} (h1 : Logged k a b) (h2 : Logged k b c) :
    Logged k a c := by
  obtain ⟨p1, e1, k1⟩ := h1
  obtain ⟨p2, e2, k2⟩ := h2
  refine ⟨p1 ++ p2, by rw [e2, e1, List.append_assoc], ?_⟩
  intro c hc
  rcases List.mem_append.mp hc with h | h
  · exact k1 c h
  · exact k2 c h

theorem removeModel_logged (st : State) (e : Entity) :
    Logged CallKind.remove st (removeModel st e) := by
  unfold removeModel
  repeat' (first | split | dsimp only)
  all_goals first
    | exact Logged.logged_refl _ _
    | exact ⟨_, rfl, by simp [EngineCall.kind]⟩

theorem RemovePhysicsEntities_logged (s : State) :
    Logged CallKind.remove s (RemovePhysicsEntities s) := by
  unfold RemovePhysicsEntities
  split
  · exact Logged.logged_refl _ _
  · exact each_preserves (P := fun st => Logged CallKind.remove s st)
      (fun st e hst => hst.logged_trans (removeModel_logged st e)) s (Logged.logged_refl _ s)

theorem setSimulatedTime_frame (info : UpdateInfo) (st : State) (e : Entity) :
    (fun x : State => (x.impl, x.calls)) (setSimulatedTime info st e) = (st.impl, st.calls) := by
  unfold setSimulatedTime
  repeat' (first | split | dsimp only)

theorem Update_eq (eng : Engine) (uninit : Nat → Option ExtraContactData) (info : UpdateInfo)
    (s : State) (he : s.impl.engine = true) :
    Update eng uninit info s =
      RemovePhysicsEntities
        (UpdateSim
          (eng.view
            (if (!info.paused) = true then
              Step info.dt
                (UpdatePhysics
                  (eng.view (CreatePhysicsEntities eng (s.each (setSimulatedTime info))).calls) info
                  (CreatePhysicsEntities eng (s.each (setSimulatedTime info))))
            else
              UpdatePhysics
                (eng.view (CreatePhysicsEntities eng (s.each (setSimulatedTime info))).calls) info
                (CreatePhysicsEntities eng (s.each (setSimulatedTime info)))).calls)
          uninit info
          (if (!info.paused) = true then
            Step info.dt
              (UpdatePhysics
                (eng.view (CreatePhysicsEntities eng (s.each (setSimulatedTime info))).calls) info
                (CreatePhysicsEntities eng (s.each (setSimulatedTime info))))
          else
            UpdatePhysics
              (eng.view (CreatePhysicsEntities eng (s.each (setSimulatedTime info))).calls) info
              (CreatePhysicsEntities eng (s.each (setSimulatedTime info))))) := by
  have h0 := (each_frame (setSimulatedTime_frame info) s ⟨rfl, rfl⟩).1
  unfold Update
  simp only [h0, he, if_true]

/-- The engine log of a tick, split by phase. -/
theorem Update_calls (eng : Engine) (uninit : Nat → Option ExtraContactData) (info : UpdateInfo)
    (s : State) (he : s.impl.engine = true) :
    ∃ a b c d,
      (Update eng uninit info s).calls = s.calls ++ a ++ b ++ c ++ d ∧
      (CreatePhysicsEntities eng (s.each (setSimulatedTime info))).calls = s.calls ++ a ∧
      (UpdatePhysics (eng.view (CreatePhysicsEntities eng (s.each (setSimulatedTime info))).calls)
        info (CreatePhysicsEntities eng (s.each (setSimulatedTime info)))).calls
          = s.calls ++ a ++ b ∧
      (if (!info.paused) = true then
          Step info.dt
            (UpdatePhysics
              (eng.view (CreatePhysicsEntities eng (s.each (setSimulatedTime info))).calls) info
              (CreatePhysicsEntities eng (s.each (setSimulatedTime info))))
        else
          UpdatePhysics
            (eng.view (CreatePhysicsEntities eng (s.each (setSimulatedTime info))).calls) info
            (CreatePhysicsEntities eng (s.each (setSimulatedTime info)))).calls
          = s.calls ++ a ++ b ++ c ∧
      (∀ x ∈ a, x.kind = CallKind.construct) ∧ (∀ x ∈ b, x.kind = CallKind.command) ∧
      (∀ x ∈ c, x.kind = CallKind.step) ∧ (∀ x ∈ d, x.kind = CallKind.remove) := by
  have h0 := (each_frame (setSimulatedTime_frame info) s ⟨rfl, rfl⟩).2
  obtain ⟨_, a, ha, ka⟩ := CreatePhysicsEntities_advance eng (s.each (setSimulatedTime info))
  obtain ⟨_, b, hb, kb⟩ := UpdatePhysics_advance
    (eng.view (CreatePhysicsEntities eng (s.each (setSimulatedTime info))).calls) info
    (CreatePhysicsEntities eng (s.each (setSimulatedTime info)))
  have h3 : Advance CallKind.step
      (UpdatePhysics (eng.view (CreatePhysicsEntities eng (s.each (setSimulatedTime info))).calls)
        info (CreatePhysicsEntities eng (s.each (setSimulatedTime info))))
      (if (!info.paused) = true then
          Step info.dt
            (UpdatePhysics
              (eng.view (CreatePhysicsEntities eng (s.each (setSimulatedTime info))).calls) info
              (CreatePhysicsEntities eng (s.each (setSimulatedTime info))))
        else
          UpdatePhysics
            (eng.view (CreatePhysicsEntities eng (s.each (setSimulatedTime info))).calls) info
            (CreatePhysicsEntities eng (s.each (setSimulatedTime info)))) := by
    split
    · exact Step_advance _ _
    · exact Advance.advance_refl _ _
  obtain ⟨_, c, hc, kc⟩ := h3
  rw [Update_eq eng uninit info s he]
  obtain ⟨d, hd, kd⟩ := RemovePhysicsEntities_logged
    (UpdateSim
      (eng.view
        (if (!info.paused) = true then
          Step info.dt
            (UpdatePhysics
              (eng.view (CreatePhysicsEntities eng (s.each (setSimulatedTime info))).calls) info
              (CreatePhysicsEntities eng (s.each (setSimulatedTime info))))
        else
          UpdatePhysics
            (eng.view (CreatePhysicsEntities eng (s.each (setSimulatedTime info))).calls) info
            (CreatePhysicsEntities eng (s.each (setSimulatedTime info)))).calls)
      uninit info
      (if (!info.paused) = true then
        Step info.dt
          (UpdatePhysics
            (eng.view (CreatePhysicsEntities eng (s.each (setSimulatedTime info))).calls) info
            (CreatePhysicsEntities eng (s.each (setSimulatedTime info))))
      else
        UpdatePhysics
          (eng.view (CreatePhysicsEntities eng (s.each (setSimulatedTime info))).calls) info
          (CreatePhysicsEntities eng (s.each (setSimulatedTime info)))))
  rw [(UpdateSim_frame _ _ _ _).2] at hd
  rw [h0] at ha
  refine ⟨a, b, c, d, ?_, ha, ?_, ?_, ka, kb, kc, kd⟩
  · rw [hd, hc, hb, ha]
  · rw [hb, ha]
  · rw [hc, hb, ha]

theorem StaysErased.erased_refl (a : Impl) : StaysErased a a :=
  ⟨fun _ h => h, fun _ h => h, fun _ h => h, fun _ h => h⟩

theorem StaysErased.erased_trans {a b c : Impl} (h1 : StaysErased a b) (h2 : StaysErased b c) :
    StaysErased a c :=
  ⟨fun e h => h2.1 e (h1.1 e h), fun e h => h2.2.1 e (h1.2.1 e h),
    fun e h => h2.2.2.1 e (h1.2.2.1 e h), fun e h => h2.2.2.2 e (h1.2.2.2 e h)⟩

theorem FMap.erase_self {K V : Type} [DecidableEq K] (m : FMap K V) (k : K) :
    FMap.erase m k k = none := by
  simp [FMap.erase]

theorem FMap.erase_none {K V : Type} [DecidableEq K] (m : FMap K V) (k k' : K)
    (h : m k' = none) : FMap.erase m k k' = none := by
  unfold FMap.erase; split <;> simp [h]

theorem FMap.erase_some {K V : Type} [DecidableEq K] (m : FMap K V) (k k' : K) (v : V)
    (h : FMap.erase m k k' = some v) : k' ≠ k ∧ m k' = some v := by
  unfold FMap.erase at h
  by_cases hk : k' = k
  · simp [hk] at h
  · simp only [hk, if_false] at h; exact ⟨hk, h⟩

theorem FMap.erase_of_ne {K V : Type} [DecidableEq K] (m : FMap K V) (k k' : K)
    (h : k' ≠ k) : FMap.erase m k k' = m k' := by
  simp [FMap.erase, h]

/-- The effect of `removeCollision`. -/
theorem removeCollision_spec (impl : Impl) (c : Entity) (hinv : ReverseMapsMirror impl) :
    ReverseMapsMirror (removeCollision impl c) ∧ StaysErased impl (removeCollision impl c) ∧
      (removeCollision impl c).entityCollisionMap c = none ∧
      (removeCollision impl c).entityModelMap = impl.entityModelMap := by
  unfold removeCollision
  cases hc : impl.entityCollisionMap c with
  | none => exact ⟨hinv, StaysErased.erased_refl _, hc, rfl⟩
  | some shape =>
    refine ⟨⟨hinv.1, ?_⟩, ⟨fun _ h => h, fun _ h => h, ?_, fun _ h => h⟩, ?_, rfl⟩
    · intro h e he
      obtain ⟨hne, hm⟩ := FMap.erase_some _ _ _ _ he
      have hfwd := hinv.2 h e hm
      have hec : e ≠ c := by
        intro heq
        rw [heq, hc] at hfwd
        exact hne (Option.some.inj hfwd).symm
      show FMap.erase impl.entityCollisionMap c e = some h
      rw [FMap.erase_of_ne _ _ _ hec]; exact hfwd
    · intro e he; exact FMap.erase_none _ _ _ he
    · exact FMap.erase_self _ _

/-- Folding `removeCollision` over a list erases every member. -/
theorem removeCollisions_spec (cs : List Entity) (impl : Impl) (hinv : ReverseMapsMirror impl) :
    ReverseMapsMirror (cs.foldl removeCollision impl) ∧
      StaysErased impl (cs.foldl removeCollision impl) ∧
      (∀ c ∈ cs, (cs.foldl removeCollision impl).entityCollisionMap c = none) ∧
      (cs.foldl removeCollision impl).entityModelMap = impl.entityModelMap := by
  induction cs generalizing impl with
  | nil => exact ⟨hinv, StaysErased.erased_refl _, by simp, rfl⟩
  | cons c cs ih =>
    obtain ⟨h1, h2, h3, h4⟩ := removeCollision_spec impl c hinv
    obtain ⟨i1, i2, i3, i4⟩ := ih (removeCollision impl c) h1
    simp only [List.foldl_cons]
    refine ⟨i1, h2.erased_trans i2, ?_, i4.trans h4⟩
    intro c' hc'
    rcases List.mem_cons.mp hc' with rfl | hmem
    · exact i2.2.2.1 _ h3
    · exact i3 c' hmem

/-- The effect of `removeLink`. -/
theorem removeLink_spec (ecm : ECM) (impl : Impl) (l : Entity) (hinv : ReverseMapsMirror impl) :
    ReverseMapsMirror (removeLink ecm impl l) ∧ StaysErased impl (removeLink ecm impl l) ∧
      (removeLink ecm impl l).entityLinkMap l = none ∧
      (∀ c ∈ ecm.ChildrenByComponents l ecm.collision,
        (removeLink ecm impl l).entityCollisionMap c = none) ∧
      (removeLink ecm impl l).entityModelMap = impl.entityModelMap := by
  obtain ⟨h1, h2, h3, h4⟩ :=
    removeCollisions_spec (ecm.ChildrenByComponents l ecm.collision) impl hinv
  unfold removeLink
  dsimp only
  generalize (ecm.ChildrenByComponents l ecm.collision).foldl removeCollision impl = impl1 at *
  cases hl : impl1.entityLinkMap l with
  | none =>
    refine ⟨⟨?_, h1.2⟩, h2.erased_trans ⟨fun _ h => h, ?_, fun _ h => h, fun _ h => h⟩, ?_, h3, h4⟩
    · intro h e he
      have hfwd := h1.1 h e he
      have hel : e ≠ l := by
        intro heq; rw [heq, hl] at hfwd; exact Option.noConfusion hfwd
      show FMap.erase impl1.entityLinkMap l e = some h
      rw [FMap.erase_of_ne _ _ _ hel]; exact hfwd
    · intro e he; exact FMap.erase_none _ _ _ he
    · exact FMap.erase_self _ _
  | some linkPhys =>
    refine ⟨⟨?_, h1.2⟩, h2.erased_trans ⟨fun _ h => h, ?_, fun _ h => h, fun _ h => h⟩, ?_, h3, h4⟩
    · intro h e he
      obtain ⟨hne, hm⟩ := FMap.erase_some _ _ _ _ he
      have hfwd := h1.1 h e hm
      have hel : e ≠ l := by
        intro heq
        rw [heq, hl] at hfwd
        exact hne (Option.some.inj hfwd).symm
      show FMap.erase impl1.entityLinkMap l e = some h
      rw [FMap.erase_of_ne _ _ _ hel]; exact hfwd
    · intro e he; exact FMap.erase_none _ _ _ he
    · exact FMap.erase_self _ _

/-- Folding `removeLink` over a list erases every member and its collisions. -/
theorem removeLinks_spec (ecm : ECM) (ls : List Entity) (impl : Impl)
    (hinv : ReverseMapsMirror impl) :
    ReverseMapsMirror (ls.foldl (removeLink ecm) impl) ∧
      StaysErased impl (ls.foldl (removeLink ecm) impl) ∧
      (∀ l ∈ ls, (ls.foldl (removeLink ecm) impl).entityLinkMap l = none ∧
        ∀ c ∈ ecm.ChildrenByComponents l ecm.collision,
          (ls.foldl (removeLink ecm) impl).entityCollisionMap c = none) ∧
      (ls.foldl (removeLink ecm) impl).entityModelMap = impl.entityModelMap := by
  induction ls generalizing impl with
  | nil => exact ⟨hinv, StaysErased.erased_refl _, by simp, rfl⟩
  | cons l ls ih =>
    obtain ⟨h1, h2, h3, h4, h5⟩ := removeLink_spec ecm impl l hinv
    obtain ⟨i1, i2, i3, i4⟩ := ih (removeLink ecm impl l) h1
    simp only [List.foldl_cons]
    refine ⟨i1, h2.erased_trans i2, ?_, i4.trans h5⟩
    intro l' hl'
    rcases List.mem_cons.mp hl' with rfl | hmem
    · exact ⟨i2.2.1 _ h3, fun c hc => i2.2.2.1 _ (h4 c hc)⟩
    · exact i3 l' hmem

/-- Folding `removeJoint` over a list erases every member. -/
theorem removeJoints_spec (js : List Entity) (impl : Impl) (hinv : ReverseMapsMirror impl) :
    ReverseMapsMirror (js.foldl removeJoint impl) ∧
      StaysErased impl (js.foldl removeJoint impl) ∧
      (∀ j ∈ js, (js.foldl removeJoint impl).entityJointMap j = none) ∧
      (js.foldl removeJoint impl).entityModelMap = impl.entityModelMap := by
  induction js generalizing impl with
  | nil => exact ⟨hinv, StaysErased.erased_refl _, by simp, rfl⟩
  | cons j js ih =>
    have h1 : ReverseMapsMirror (removeJoint impl j) := hinv
    have h2 : StaysErased impl (removeJoint impl j) :=
      ⟨fun _ h => h, fun _ h => h, fun _ h => h, fun e he => FMap.erase_none _ _ _ he⟩
    have h3 : (removeJoint impl j).entityJointMap j = none := FMap.erase_self _ _
    obtain ⟨i1, i2, i3, i4⟩ := ih (removeJoint impl j) h1
    simp only [List.foldl_cons]
    refine ⟨i1, h2.erased_trans i2, ?_, i4⟩
    intro j' hj'
    rcases List.mem_cons.mp hj' with rfl | hmem
    · exact i2.2.2.2 _ h3
    · exact i3 j' hmem

theorem Reaped.mono {ecm : ECM} {m : Entity} {a b : Impl} (h : Reaped ecm m a)
    (hab : StaysErased a b) : Reaped ecm m b :=
  ⟨hab.1 _ h.1, fun l hl => ⟨hab.2.1 _ (h.2.1 l hl).1, fun c hc => hab.2.2.1 _ ((h.2.1 l hl).2 c hc)⟩,
    fun j hj => hab.2.2.2 _ (h.2.2 j hj)⟩

/-- The effect of one visit of the reaper. -/
theorem removeModel_spec (st : State) (e : Entity) (hinv : ReverseMapsMirror st.impl) :
    (removeModel st e).ecm = st.ecm ∧ (removeModel st e).fault = st.fault ∧
      ReverseMapsMirror (removeModel st e).impl ∧ StaysErased st.impl (removeModel st e).impl ∧
      (∀ m, m ≠ e → (removeModel st e).impl.entityModelMap m = st.impl.entityModelMap m) ∧
      (st.ecm.removed e = true → st.ecm.model e = true → st.impl.entityModelMap e ≠ none →
        Reaped st.ecm e (removeModel st e).impl) := by
  unfold removeModel
  by_cases hc : (st.ecm.removed e && st.ecm.model e) = true
  · rw [if_pos hc]
    cases hm : st.impl.entityModelMap e with
    | none =>
      exact ⟨rfl, rfl, hinv, StaysErased.erased_refl _, fun _ _ => rfl, fun _ _ h => absurd rfl h⟩
    | some modelPhys =>
      dsimp only
      obtain ⟨h1, h2, h3, h4⟩ :=
        removeLinks_spec st.ecm (st.ecm.ChildrenByComponents e st.ecm.link) st.impl hinv
      obtain ⟨j1, j2, j3, j4⟩ :=
        removeJoints_spec (st.ecm.ChildrenByComponents e st.ecm.joint) _ h1
      refine ⟨rfl, rfl, j1, ?_, ?_, ?_⟩
      · exact (h2.erased_trans j2).erased_trans
          ⟨fun e' he' => FMap.erase_none _ _ _ he', fun _ h => h, fun _ h => h, fun _ h => h⟩
      · intro m hme
        show FMap.erase _ e m = _
        rw [FMap.erase_of_ne _ _ _ hme, j4, h4]
      · intro _ _ _
        refine ⟨FMap.erase_self _ _, ?_, ?_⟩
        · intro l hl
          exact ⟨j2.2.1 _ (h3 l hl).1, fun c hc => j2.2.2.1 _ ((h3 l hl).2 c hc)⟩
        · exact j3
  · rw [if_neg hc]
    exact ⟨rfl, rfl, hinv, StaysErased.erased_refl _, fun _ _ => rfl,
      fun h1 h2 _ => absurd (by simp [h1, h2]) hc⟩

/-- The reaper, as a fold, keeps its invariants; once a model has been reaped it
stays reaped; a registered model that is visited is reaped. -/
theorem reap_fold (ecm : ECM) (m : Entity) (hrem : ecm.removed m = true)
    (hmodel : ecm.model m = true) (es : List Entity) (st : State) (hecm : st.ecm = ecm)
    (hf : st.fault = none) (hinv : ReverseMapsMirror st.impl)
    (hst : (st.impl.entityModelMap m ≠ none ∧ m ∈ es) ∨ Reaped ecm m st.impl) :
    ReverseMapsMirror (es.foldl (fun x e => if x.fault.isSome then x else removeModel x e) st).impl ∧
      Reaped ecm m (es.foldl (fun x e => if x.fault.isSome then x else removeModel x e) st).impl := by
  induction es generalizing st with
  | nil =>
    rcases hst with ⟨_, hmem⟩ | hdone
    · exact absurd hmem (List.not_mem_nil _)
    · exact ⟨hinv, hdone⟩
  | cons e es ih =>
    simp only [List.foldl_cons, hf, Option.isSome_none, Bool.false_eq_true, if_false]
    obtain ⟨h1, h2, h3, h4, h5, h6⟩ := removeModel_spec st e hinv
    apply ih (removeModel st e) (h1.trans hecm) (h2.trans hf) h3
    rcases hst with ⟨hreg, hmem⟩ | hdone
    · by_cases hme : m = e
      · right
        subst hme
        rw [← hecm]
        exact h6 (hecm ▸ hrem) (hecm ▸ hmodel) hreg
      · left
        refine ⟨by rw [h5 m hme]; exact hreg, ?_⟩
        rcases List.mem_cons.mp hmem with h | h
        · exact absurd h hme
        · exact h
    · right; exact hdone.mono h4

theorem batteryState_frame (st : State) (e : Entity) :
    (fun x : State => (x.ecm, x.calls, x.fault, x.impl.entityJointMap, x.impl.entityLinkMap))
      (batteryState st e) = (st.ecm, st.calls, st.fault, st.impl.entityJointMap,
        st.impl.entityLinkMap) := by
  unfold batteryState
  repeat' (first | split | dsimp only)

theorem handleJointState_frame2 (v : EngineView) (st : State) (e : Entity) :
    (fun x : State => (x.ecm, x.fault, x.impl.entityLinkMap)) (handleJointState v st e)
      = (st.ecm, st.fault, st.impl.entityLinkMap) := by
  unfold handleJointState
  repeat' (first | split | dsimp only [State.emit])

theorem linkWrench_frame (st : State) (e : Entity) :
    (fun x : State => (x.ecm, x.fault, x.impl)) (linkWrench st e)
      = (st.ecm, st.fault, st.impl) := by
  unfold linkWrench
  repeat' (first | split | dsimp only [State.emit])

theorem linkWrench_calls (st : State) (e : Entity) :
    (linkWrench st e).calls = st.calls ++ linkWrenchCalls st e := by
  unfold linkWrench linkWrenchCalls
  cases h1 : st.ecm.externalWorldWrenchCmd e <;> cases h2 : st.impl.entityLinkMap e <;>
    simp [State.emit]

theorem linkWrenchLoop_calls (s : State) (hs : s.fault = none) :
    (s.each linkWrench).calls = s.calls ++ s.ecm.entities.flatMap (linkWrenchCalls s) := by
  apply each_calls (I := fun st => st.fault = none ∧ st.ecm = s.ecm ∧ st.impl = s.impl)
  · intro st e ⟨h1, h2, h3⟩
    have h := linkWrench_frame st e
    simp only [Prod.mk.injEq] at h
    exact ⟨h.2.1.trans h1, h.1.trans h2, h.2.2.trans h3⟩
  · intro st e ⟨_, h2, h3⟩
    rw [linkWrench_calls]
    unfold linkWrenchCalls
    rw [h2, h3]
  · exact fun st h => h.1
  · exact ⟨hs, rfl, rfl⟩

theorem linkWrenchWithDuration_calls (info : UpdateInfo) (st : State) (e : Entity) :
    (linkWrenchWithDuration info st e).calls = st.calls ++ linkWrenchWithDurationCalls st e := by
  unfold linkWrenchWithDuration linkWrenchWithDurationCalls
  cases h1 : st.ecm.externalWorldWrenchCmdWithDuration e <;>
    cases h2 : st.impl.entityLinkMap e <;> simp [State.emit]

theorem linkWrenchWithDuration_frame (info : UpdateInfo) (st : State) (e : Entity) :
    (fun x : State => (x.ecm.entities, x.fault, x.impl)) (linkWrenchWithDuration info st e)
      = (st.ecm.entities, st.fault, st.impl) := by
  unfold linkWrenchWithDuration
  repeat' (first | split | dsimp only [State.emit])

theorem linkWrenchWithDuration_component (info : UpdateInfo) (st : State) (e e' : Entity) :
    (linkWrenchWithDuration info st e).ecm.externalWorldWrenchCmdWithDuration e' =
      if e' = e then cleanedWrenches info st e
      else st.ecm.externalWorldWrenchCmdWithDuration e' := by
  unfold linkWrenchWithDuration cleanedWrenches
  cases h1 : st.ecm.externalWorldWrenchCmdWithDuration e with
  | none =>
    by_cases he : e' = e
    · simp [he, h1]
    · simp [he]
  | some ws =>
    cases h2 : st.impl.entityLinkMap e with
    | none =>
      by_cases he : e' = e
      · simp [he, h1]
      · simp [he]
    | some l =>
      by_cases he : e' = e
      · simp [he, State.emit, FMap.set]
      · simp [he, State.emit, FMap.set]

/-- The loop over the wrenches with duration, entity by entity. -/
theorem linkWrenchWithDurationLoop (info : UpdateInfo) (s0 : State) (es : List Entity)
    (hnd : es.Nodup) (st : State) (hf : st.fault = none) (hi : st.impl = s0.impl)
    (hc : ∀ e ∈ es, st.ecm.externalWorldWrenchCmdWithDuration e =
      s0.ecm.externalWorldWrenchCmdWithDuration e) :
    (es.foldl (fun x e => if x.fault.isSome then x else linkWrenchWithDuration info x e) st).calls
        = st.calls ++ es.flatMap (linkWrenchWithDurationCalls s0) ∧
      ∀ e ∈ es,
        (es.foldl (fun x e => if x.fault.isSome then x else linkWrenchWithDuration info x e)
          st).ecm.externalWorldWrenchCmdWithDuration e = cleanedWrenches info s0 e := by
  induction es generalizing st with
  | nil => simp
  | cons e es ih =>
    have hnd' := (List.nodup_cons.mp hnd)
    have hfr := linkWrenchWithDuration_frame info st e
    simp only [Prod.mk.injEq] at hfr
    simp only [List.foldl_cons, hf, Option.isSome_none, Bool.false_eq_true, if_false,
      List.flatMap_cons]
    have hc' : ∀ e' ∈ es, (linkWrenchWithDuration info st e).ecm.externalWorldWrenchCmdWithDuration e'
        = s0.ecm.externalWorldWrenchCmdWithDuration e' := by
      intro e' he'
      rw [linkWrenchWithDuration_component]
      have hne : e' ≠ e := fun h => hnd'.1 (h ▸ he')
      simp only [hne, if_false]
      exact hc e' (List.mem_cons_of_mem _ he')
    obtain ⟨i1, i2⟩ := ih hnd'.2 (linkWrenchWithDuration info st e) (hfr.2.1.trans hf)
      (hfr.2.2.trans hi) hc'
    have hcalls : linkWrenchWithDurationCalls st e = linkWrenchWithDurationCalls s0 e := by
      unfold linkWrenchWithDurationCalls
      rw [hc e (List.mem_cons_self _ _), hi]
    refine ⟨?_, ?_⟩
    · rw [i1, linkWrenchWithDuration_calls, hcalls, List.append_assoc]
    · intro e' he'
      rcases List.mem_cons.mp he' with rfl | hmem
      · -- the rest of the loop does not visit `e'` again
        have hkeep : ∀ (l : List Entity) (x : State), e' ∉ l →
            (l.foldl (fun x e => if x.fault.isSome then x else linkWrenchWithDuration info x e)
              x).ecm.externalWorldWrenchCmdWithDuration e'
              = x.ecm.externalWorldWrenchCmdWithDuration e' := by
          intro l
          induction l with
          | nil => intro x _; rfl
          | cons a l ihl =>
            intro x hx
            simp only [List.foldl_cons]
            rw [ihl _ (fun h => hx (List.mem_cons_of_mem _ h))]
            split
            · rfl
            · rw [linkWrenchWithDuration_component]
              have : e' ≠ a := fun h => hx (h ▸ List.mem_cons_self _ _)
              simp [this]
        rw [hkeep es _ hnd'.1, linkWrenchWithDuration_component]
        simp only [if_true]
        unfold cleanedWrenches
        rw [hc e' (List.mem_cons_self _ _), hi]
      · exact i2 e' hmem

theorem processWorldPoseCmd_free (v : EngineView) (st : State) (e : Entity) :
    (processWorldPoseCmd v st e).ecm.externalWorldWrenchCmdWithDuration =
        st.ecm.externalWorldWrenchCmdWithDuration ∧
      ∃ post, (processWorldPoseCmd v st e).calls = st.calls ++ post ∧
        ∀ c ∈ post, c.onFreeGroup = true := by
  unfold processWorldPoseCmd
  repeat' (first | split | dsimp only [State.emit])
  all_goals first
    | exact ⟨rfl, [], (List.append_nil _).symm, fun _ h => absurd h (List.not_mem_nil _)⟩
    | exact ⟨rfl, _, rfl, by simp [EngineCall.onFreeGroup]⟩

theorem processWorldVelocityCmd_free (v : EngineView) (st : State) (e : Entity) :
    (processWorldVelocityCmd v st e).ecm.externalWorldWrenchCmdWithDuration =
        st.ecm.externalWorldWrenchCmdWithDuration ∧
      ∃ post, (processWorldVelocityCmd v st e).calls = st.calls ++ post ∧
        ∀ c ∈ post, c.onFreeGroup = true := by
  unfold processWorldVelocityCmd
  repeat' (first | split | dsimp only [State.emit])
  all_goals first
    | exact ⟨rfl, [], (List.append_nil _).symm, fun _ h => absurd h (List.not_mem_nil _)⟩
    | exact ⟨rfl, _, rfl, by simp [EngineCall.onFreeGroup]⟩

/-- A loop whose visits keep the wrenches with duration and send only calls to
free groups does the same as a whole. -/
theorem each_free {visit : State → Entity → State}
    (h : ∀ st e, (visit st e).ecm.externalWorldWrenchCmdWithDuration =
        st.ecm.externalWorldWrenchCmdWithDuration ∧
      ∃ post, (visit st e).calls = st.calls ++ post ∧ ∀ c ∈ post, c.onFreeGroup = true)
    (s : State) :
    (s.each visit).ecm.externalWorldWrenchCmdWithDuration =
        s.ecm.externalWorldWrenchCmdWithDuration ∧
      ∃ post, (s.each visit).calls = s.calls ++ post ∧ ∀ c ∈ post, c.onFreeGroup = true := by
  apply each_preserves (P := fun st => st.ecm.externalWorldWrenchCmdWithDuration =
        s.ecm.externalWorldWrenchCmdWithDuration ∧
      ∃ post, st.calls = s.calls ++ post ∧ ∀ c ∈ post, c.onFreeGroup = true)
  · intro st e ⟨h1, p1, e1, k1⟩
    obtain ⟨h2, p2, e2, k2⟩ := h st e
    refine ⟨h2.trans h1, p1 ++ p2, by rw [e2, e1, List.append_assoc], ?_⟩
    intro c hc
    rcases List.mem_append.mp hc with hc | hc
    · exact k1 c hc
    · exact k2 c hc
  · exact ⟨rfl, [], (List.append_nil _).symm, fun _ h => absurd h (List.not_mem_nil _)⟩

theorem removeWorldPoseCmd_wrenches (s : State) (es : List Entity) :
    (removeWorldPoseCmd s es).ecm.externalWorldWrenchCmdWithDuration =
      s.ecm.externalWorldWrenchCmdWithDuration := by
  unfold removeWorldPoseCmd
  induction es generalizing s with
  | nil => rfl
  | cons e es ih => simp only [List.foldl_cons]; rw [ih]

theorem removeWorldVelocityCmd_wrenches (s : State) (es : List Entity) :
    (removeWorldVelocityCmd s es).ecm.externalWorldWrenchCmdWithDuration =
      s.ecm.externalWorldWrenchCmdWithDuration := by
  unfold removeWorldVelocityCmd
  induction es generalizing s with
  | nil => rfl
  | cons e es ih => simp only [List.foldl_cons]; rw [ih]

theorem clearPendingCommands_wrenches (s : State) :
    (clearPendingCommands s).ecm.externalWorldWrenchCmdWithDuration =
      s.ecm.externalWorldWrenchCmdWithDuration := by
  unfold clearPendingCommands
  split
  · rfl
  · dsimp only
    rw [removeWorldVelocityCmd_wrenches, removeWorldPoseCmd_wrenches]

/-- The engine log of `UpdatePhysics` up to the end of the joint loop. -/
theorem UpdatePhysics_joint_calls (v : EngineView) (info : UpdateInfo) (s : State)
    (hf : s.fault = none) :
    ∃ rest, (UpdatePhysics v info s).calls =
        s.calls ++ s.ecm.entities.flatMap (jointCalls v (s.each batteryState)) ++ rest ∧
      ∀ c ∈ rest, c.kind = CallKind.command := by
  have hB := each_field (fun x : State => (x.ecm, x.calls, x.fault, x.impl.entityJointMap, x.impl.entityLinkMap))
    batteryState_frame s
  simp only [Prod.mk.injEq] at hB
  obtain ⟨b1, b2, b3, _, _⟩ := hB
  have hJ := jointLoop_calls v (s.each batteryState) (b3.trans hf)
  rw [b1, b2] at hJ
  have hrest : Advance CallKind.command ((s.each batteryState).each (handleJointState v))
      (UpdatePhysics v info s) := by
    unfold UpdatePhysics
    rw [if_neg (by simp [hf])]
    dsimp only
    refine Advance.advance_trans ?_ (Advance.of_eq (clearPendingCommands_frame _).1
      (clearPendingCommands_frame _).2.1)
    refine Advance.advance_trans ?_ (each_advance (processWorldVelocityCmd_advance v) _)
    refine Advance.advance_trans ?_ (each_advance (processWorldPoseCmd_advance v) _)
    refine (each_advance linkWrench_advance _).advance_trans ?_
    split
    · exact each_advance (linkWrenchWithDuration_advance info) _
    · exact Advance.advance_refl _ _
  obtain ⟨_, rest, hr, hk⟩ := hrest
  exact ⟨rest, by rw [hr, hJ], hk⟩

/-- The whole engine log of `UpdatePhysics`, loop by loop, and the wrenches with
duration it leaves behind. -/
theorem UpdatePhysics_log (v : EngineView) (info : UpdateInfo) (s : State)
    (hf : s.fault = none) (hnd : s.ecm.entities.Nodup) (hp : info.paused = false) :
    (∃ rest, (UpdatePhysics v info s).calls =
        s.calls ++ s.ecm.entities.flatMap (jointCalls v (s.each batteryState)) ++
          s.ecm.entities.flatMap (linkWrenchCalls s) ++
          s.ecm.entities.flatMap (linkWrenchWithDurationCalls s) ++ rest ∧
      ∀ c ∈ rest, c.onFreeGroup = true) ∧
    ∀ e ∈ s.ecm.entities,
      (UpdatePhysics v info s).ecm.externalWorldWrenchCmdWithDuration e
        = cleanedWrenches info s e := by
  have hB := each_field (fun x : State => (x.ecm, x.calls, x.fault, x.impl.entityJointMap, x.impl.entityLinkMap))
    batteryState_frame s
  simp only [Prod.mk.injEq] at hB
  obtain ⟨b1, b2, b3, _, b5⟩ := hB
  have hJ := jointLoop_calls v (s.each batteryState) (b3.trans hf)
  rw [b1, b2] at hJ
  have hJf := each_field (fun x : State => (x.ecm, x.fault, x.impl.entityLinkMap))
    (handleJointState_frame2 v) (s.each batteryState)
  simp only [Prod.mk.injEq] at hJf
  obtain ⟨j1, j2, j3⟩ := hJf
  have hW := linkWrenchLoop_calls ((s.each batteryState).each (handleJointState v))
    ((j2.trans b3).trans hf)
  have hWf := each_field (fun x : State => (x.ecm, x.fault, x.impl)) linkWrench_frame
    ((s.each batteryState).each (handleJointState v))
  simp only [Prod.mk.injEq] at hWf
  obtain ⟨w1, w2, w3⟩ := hWf
  have hWcalls : linkWrenchCalls ((s.each batteryState).each (handleJointState v))
      = linkWrenchCalls s := by
    funext e; unfold linkWrenchCalls; rw [j1, b1, j3, b5]
  rw [hWcalls, j1, b1] at hW
  have hecm : (((s.each batteryState).each (handleJointState v)).each linkWrench).ecm = s.ecm :=
    (w1.trans j1).trans b1
  have hlink : (((s.each batteryState).each (handleJointState v)).each linkWrench).impl.entityLinkMap
      = s.impl.entityLinkMap := by rw [w3, j3, b5]
  obtain ⟨d1, d2⟩ := linkWrenchWithDurationLoop info
    (((s.each batteryState).each (handleJointState v)).each linkWrench) s.ecm.entities hnd
    (((s.each batteryState).each (handleJointState v)).each linkWrench)
    (((w2.trans j2).trans b3).trans hf) rfl (fun _ _ => rfl)
  have hDcalls : linkWrenchWithDurationCalls
      (((s.each batteryState).each (handleJointState v)).each linkWrench)
      = linkWrenchWithDurationCalls s := by
    funext e; unfold linkWrenchWithDurationCalls; rw [hecm, hlink]
  have hDclean : ∀ e, cleanedWrenches info
      (((s.each batteryState).each (handleJointState v)).each linkWrench) e
      = cleanedWrenches info s e := by
    intro e; unfold cleanedWrenches; rw [hecm, hlink]
  rw [hDcalls] at d1
  have hD : ((((s.each batteryState).each (handleJointState v)).each linkWrench).each
      (linkWrenchWithDuration info)) =
      s.ecm.entities.foldl (fun x e => if x.fault.isSome then x else linkWrenchWithDuration info x e)
        (((s.each batteryState).each (handleJointState v)).each linkWrench) := by
    have h1 : ∀ (x : State) (f : State → Entity → State),
        x.each f = x.ecm.entities.foldl (fun st e => if st.fault.isSome then st else f st e) x :=
      fun _ _ => rfl
    rw [h1, hecm]
  obtain ⟨p1, pp, pe, pk⟩ := each_free (processWorldPoseCmd_free v)
    ((((s.each batteryState).each (handleJointState v)).each linkWrench).each
      (linkWrenchWithDuration info))
  obtain ⟨q1, qp, qe, qk⟩ := each_free (processWorldVelocityCmd_free v)
    (((((s.each batteryState).each (handleJointState v)).each linkWrench).each
      (linkWrenchWithDuration info)).each (processWorldPoseCmd v))
  have hU : UpdatePhysics v info s = clearPendingCommands
      ((((((s.each batteryState).each (handleJointState v)).each linkWrench).each
      (linkWrenchWithDuration info)).each (processWorldPoseCmd v)).each
      (processWorldVelocityCmd v)) := by
    unfold UpdatePhysics
    rw [if_neg (by simp [hf])]
    simp only [hp, Bool.not_false, if_true]
  refine ⟨⟨pp ++ qp, ?_, ?_⟩, ?_⟩
  · rw [hU, (clearPendingCommands_frame _).2.1, qe, pe, hD, d1, hW, hJ]
    simp only [List.append_assoc]
  · intro c hc
    rcases List.mem_append.mp hc with hc | hc
    · exact pk c hc
    · exact qk c hc
  · intro e he
    rw [hU, clearPendingCommands_wrenches, q1, p1, hD, d2 e he, hDclean]

theorem each_offJoint {visit : State → Entity → State}
    (h : ∀ st e, ∃ post, (visit st e).calls = st.calls ++ post ∧ ∀ c ∈ post, c.onJoint = false)
    (s : State) :
    ∃ post, (s.each visit).calls = s.calls ++ post ∧ ∀ c ∈ post, c.onJoint = false := by
  apply each_preserves (P := fun st =>
      ∃ post, st.calls = s.calls ++ post ∧ ∀ c ∈ post, c.onJoint = false)
  · intro st e ⟨p1, e1, k1⟩
    obtain ⟨p2, e2, k2⟩ := h st e
    refine ⟨p1 ++ p2, by rw [e2, e1, List.append_assoc], ?_⟩
    intro c hc
    rcases List.mem_append.mp hc with hc | hc
    · exact k1 c hc
    · exact k2 c hc
  · exact ⟨[], (List.append_nil _).symm, fun _ h => absurd h (List.not_mem_nil _)⟩

theorem linkWrench_offJoint (st : State) (e : Entity) :
    ∃ post, (linkWrench st e).calls = st.calls ++ post ∧ ∀ c ∈ post, c.onJoint = false := by
  unfold linkWrench
  repeat' (first | split | dsimp only [State.emit])
  all_goals first
    | exact ⟨[], (List.append_nil _).symm, fun _ h => absurd h (List.not_mem_nil _)⟩
    | exact ⟨_, rfl, by simp [EngineCall.onJoint]⟩

theorem linkWrenchWithDuration_offJoint (info : UpdateInfo) (st : State) (e : Entity) :
    ∃ post, (linkWrenchWithDuration info st e).calls = st.calls ++ post ∧
      ∀ c ∈ post, c.onJoint = false := by
  unfold linkWrenchWithDuration
  repeat' (first | split | dsimp only [State.emit])
  all_goals first
    | exact ⟨[], (List.append_nil _).symm, fun _ h => absurd h (List.not_mem_nil _)⟩
    | exact ⟨_, rfl, by simp [EngineCall.onJoint]⟩

theorem processWorldPoseCmd_offJoint (v : EngineView) (st : State) (e : Entity) :
    ∃ post, (processWorldPoseCmd v st e).calls = st.calls ++ post ∧
      ∀ c ∈ post, c.onJoint = false := by
  unfold processWorldPoseCmd
  repeat' (first | split | dsimp only [State.emit])
  all_goals first
    | exact ⟨[], (List.append_nil _).symm, fun _ h => absurd h (List.not_mem_nil _)⟩
    | exact ⟨_, rfl, by simp [EngineCall.onJoint]⟩

theorem processWorldVelocityCmd_offJoint (v : EngineView) (st : State) (e : Entity) :
    ∃ post, (processWorldVelocityCmd v st e).calls = st.calls ++ post ∧
      ∀ c ∈ post, c.onJoint = false := by
  unfold processWorldVelocityCmd
  repeat' (first | split | dsimp only [State.emit])
  all_goals first
    | exact ⟨[], (List.append_nil _).symm, fun _ h => absurd h (List.not_mem_nil _)⟩
    | exact ⟨_, rfl, by simp [EngineCall.onJoint]⟩

/-- The engine log of `UpdatePhysics`: the calls of the joint loop, entity by
entity, followed by calls that address no joint. -/
theorem UpdatePhysics_joint_log (v : EngineView) (info : UpdateInfo) (s : State)
    (hf : s.fault = none) :
    ∃ rest, (UpdatePhysics v info s).calls =
        s.calls ++ s.ecm.entities.flatMap (jointCalls v (s.each batteryState)) ++ rest ∧
      ∀ c ∈ rest, c.onJoint = false := by
  have hB := each_field (fun x : State => (x.ecm, x.calls, x.fault, x.impl.entityJointMap,
    x.impl.entityLinkMap)) batteryState_frame s
  simp only [Prod.mk.injEq] at hB
  obtain ⟨b1, b2, b3, _, _⟩ := hB
  have hJ := jointLoop_calls v (s.each batteryState) (b3.trans hf)
  rw [b1, b2] at hJ
  obtain ⟨p1, e1, k1⟩ := each_offJoint linkWrench_offJoint
    ((s.each batteryState).each (handleJointState v))
  have h2 : ∃ post, (if (!info.paused) = true then
        (((s.each batteryState).each (handleJointState v)).each linkWrench).each
          (linkWrenchWithDuration info)
      else ((s.each batteryState).each (handleJointState v)).each linkWrench).calls =
      (((s.each batteryState).each (handleJointState v)).each linkWrench).calls ++ post ∧
      ∀ c ∈ post, c.onJoint = false := by
    split
    · exact each_offJoint (linkWrenchWithDuration_offJoint info) _
    · exact ⟨[], (List.append_nil _).symm, fun _ h => absurd h (List.not_mem_nil _)⟩
  obtain ⟨p2, e2, k2⟩ := h2
  obtain ⟨p3, e3, k3⟩ := each_offJoint (processWorldPoseCmd_offJoint v)
    (if (!info.paused) = true then
        (((s.each batteryState).each (handleJointState v)).each linkWrench).each
          (linkWrenchWithDuration info)
      else ((s.each batteryState).each (handleJointState v)).each linkWrench)
  obtain ⟨p4, e4, k4⟩ := each_offJoint (processWorldVelocityCmd_offJoint v)
    ((if (!info.paused) = true then
        (((s.each batteryState).each (handleJointState v)).each linkWrench).each
          (linkWrenchWithDuration info)
      else ((s.each batteryState).each (handleJointState v)).each linkWrench).each
      (processWorldPoseCmd v))
  have hU : UpdatePhysics v info s = clearPendingCommands
      (((if (!info.paused) = true then
        (((s.each batteryState).each (handleJointState v)).each linkWrench).each
          (linkWrenchWithDuration info)
      else ((s.each batteryState).each (handleJointState v)).each linkWrench).each
      (processWorldPoseCmd v)).each (processWorldVelocityCmd v)) := by
    unfold UpdatePhysics
    rw [if_neg (by simp [hf])]
  refine ⟨p1 ++ p2 ++ p3 ++ p4, ?_, ?_⟩
  · rw [hU, (clearPendingCommands_frame _).2.1, e4, e3, e2, e1, hJ]
    simp only [List.append_assoc]
  · intro c hc
    simp only [List.mem_append] at hc
    rcases hc with ((hc | hc) | hc) | hc
    · exact k1 c hc
    · exact k2 c hc
    · exact k3 c hc
    · exact k4 c hc

/-- After the battery loop, a model is off when one of its batteries is
drained and no battery of the model that is enumerated later is charged. -/
theorem batteryLoop_off (m : Entity) (post : List Entity) (st : State) (hf : st.fault = none)
    (hoff : st.impl.entityOffMap m = some true)
    (hpost : ∀ b ∈ post, st.ecm.parentOf b = m → ∀ x, st.ecm.batterySoC b = some x → x ≤ 0) :
    (post.foldl (fun x e => if x.fault.isSome then x else batteryState x e) st).impl.entityOffMap m
      = some true := by
  induction post generalizing st with
  | nil => exact hoff
  | cons b post ih =>
    simp only [List.foldl_cons, hf, Option.isSome_none, Bool.false_eq_true, if_false]
    have hfr := batteryState_frame st b
    simp only [Prod.mk.injEq] at hfr
    apply ih
    · exact hfr.2.2.1.trans hf
    · unfold batteryState
      cases hb : st.ecm.batterySoC b with
      | none => exact hoff
      | some x =>
        dsimp only
        unfold FMap.set
        by_cases hm : m = st.ecm.parentOf b
        · have := hpost b (List.mem_cons_self _ _) hm.symm x hb
          simp [hm, this]
        · simp [hm, hoff]
    · intro b' hb' hp x hx
      rw [hfr.1] at hp hx
      exact hpost b' (List.mem_cons_of_mem _ hb') hp x hx

theorem batteryLoop_head (pre : List Entity) (st : State) (hf : st.fault = none) :
    (pre.foldl (fun x e => if x.fault.isSome then x else batteryState x e) st).fault = none ∧
      (pre.foldl (fun x e => if x.fault.isSome then x else batteryState x e) st).ecm = st.ecm := by
  induction pre generalizing st with
  | nil => exact ⟨hf, rfl⟩
  | cons b pre ih =>
    simp only [List.foldl_cons, hf, Option.isSome_none, Bool.false_eq_true, if_false]
    have hfr := batteryState_frame st b
    simp only [Prod.mk.injEq] at hfr
    obtain ⟨i1, i2⟩ := ih (batteryState st b) (hfr.2.2.1.trans hf)
    exact ⟨i1, i2.trans hfr.1⟩

theorem batteryState_sets (st : State) (b : Entity) (soc : Scalar)
    (hb : st.ecm.batterySoC b = some soc) :
    (batteryState st b).impl.entityOffMap (st.ecm.parentOf b) = some (decide (soc ≤ 0)) := by
  unfold batteryState
  rw [hb]
  simp [FMap.set]

/-- The drained flag after the battery loop of `UpdatePhysics`. -/
theorem batteryState_marks_off (s : State) (hf : s.fault = none) (m b : Entity) (soc : Scalar)
    (pre post : List Entity) (hent : s.ecm.entities = pre ++ b :: post)
    (hb : s.ecm.batterySoC b = some soc) (hsoc : soc ≤ 0) (hpar : s.ecm.parentOf b = m)
    (hpost : ∀ b' ∈ post, s.ecm.parentOf b' = m → ∀ x, s.ecm.batterySoC b' = some x → x ≤ 0) :
    (s.each batteryState).impl.entityOffMap m = some true := by
  have h1 : s.each batteryState =
      s.ecm.entities.foldl (fun x e => if x.fault.isSome then x else batteryState x e) s := rfl
  rw [h1, hent, List.foldl_append, List.foldl_cons]
  obtain ⟨p1, p2⟩ := batteryLoop_head pre s hf
  rw [if_neg (by simp [p1])]
  have hfr := batteryState_frame
    (pre.foldl (fun x e => if x.fault.isSome then x else batteryState x e) s) b
  simp only [Prod.mk.injEq] at hfr
  apply batteryLoop_off
  · exact hfr.2.2.1.trans p1
  · have h := batteryState_sets _ b soc (p2 ▸ hb)
    rw [p2, hpar] at h
    rw [h]
    simp [hsoc]
  · intro b' hb' hp x hx
    rw [hfr.1, p2] at hp hx
    exact hpost b' hb' hp x hx

theorem AMap.find_upsert {K V : Type} [DecidableEq K] (m : AMap K V) (k : K) (d : V) (f : V → V)
    (k' : K) :
    AMap.find (AMap.upsert m k d f) k' =
      if k' = k then some (f ((AMap.find m k).getD d)) else AMap.find m k' := by
  induction m with
  | nil =>
    by_cases h : k = k'
    · simp [AMap.upsert, AMap.find, h]
    · have h' : ¬ k' = k := fun x => h x.symm
      simp [AMap.upsert, AMap.find, h, h']
  | cons p rest ih =>
    obtain ⟨k0, v0⟩ := p
    by_cases h0 : k0 = k
    · subst h0
      by_cases h1 : k0 = k'
      · subst h1
        simp [AMap.upsert, AMap.find]
      · have h1' : ¬ k' = k0 := fun x => h1 x.symm
        simp [AMap.upsert, AMap.find, h1, h1']
    · by_cases h1 : k0 = k'
      · subst h1
        have : ¬ k = k0 := fun x => h0 x.symm
        simp [AMap.upsert, AMap.find, h0]
      · simp only [AMap.upsert, h0, if_false, AMap.find, h1]
        rw [ih]

theorem AMap.keys_upsert {K V : Type} [DecidableEq K] (m : AMap K V) (k : K) (d : V)
    (f : V → V) :
    (AMap.upsert m k d f).map Prod.fst =
      if k ∈ m.map Prod.fst then m.map Prod.fst else m.map Prod.fst ++ [k] := by
  induction m with
  | nil => simp [AMap.upsert]
  | cons p rest ih =>
    obtain ⟨k0, v0⟩ := p
    by_cases h0 : k0 = k
    · subst h0
      simp [AMap.upsert]
    · have h0' : ¬ k = k0 := fun x => h0 x.symm
      simp only [AMap.upsert, h0, if_false, List.map_cons, ih, List.mem_cons, h0', false_or]
      split <;> simp

theorem AMap.nodup_upsert {K V : Type} [DecidableEq K] (m : AMap K V) (k : K) (d : V)
    (f : V → V) (h : (m.map Prod.fst).Nodup) : ((AMap.upsert m k d f).map Prod.fst).Nodup := by
  rw [AMap.keys_upsert]
  split
  · exact h
  · rename_i hk
    rw [List.nodup_append]
    refine ⟨h, List.nodup_singleton _, ?_⟩
    intro a ha hb
    rw [List.mem_singleton] at hb
    exact hk (hb ▸ ha)

theorem AMap.find_of_mem {K V : Type} [DecidableEq K] (m : AMap K V)
    (h : (m.map Prod.fst).Nodup) (k : K) (v : V) (hm : (k, v) ∈ m) : AMap.find m k = some v := by
  induction m with
  | nil => cases hm
  | cons p rest ih =>
    obtain ⟨k0, v0⟩ := p
    simp only [List.map_cons, List.nodup_cons] at h
    rcases List.mem_cons.mp hm with heq | hmem
    · cases heq
      simp [AMap.find]
    · have hne : k0 ≠ k := by
        intro hk
        apply h.1
        rw [hk]
        exact List.mem_map.mpr ⟨(k, v), hmem, rfl⟩
      simp only [AMap.find, hne, if_false]
      exact ih h.2 hmem

theorem AMap.mem_of_find {K V : Type} [DecidableEq K] (m : AMap K V) (k : K) (v : V)
    (h : AMap.find m k = some v) : (k, v) ∈ m := by
  induction m with
  | nil => cases h
  | cons p rest ih =>
    obtain ⟨k0, v0⟩ := p
    simp only [AMap.find] at h
    by_cases hk : k0 = k
    · simp only [hk, if_true] at h
      cases h
      rw [hk]
      exact List.mem_cons_self _ _
    · simp only [hk, if_false] at h
      exact List.mem_cons_of_mem _ (ih h)

theorem lookup2_pushContact (m : AMap Entity EntityContactMap) (a b : Entity)
    (x : AllContactData) (a' b' : Entity) :
    lookup2 (pushContact m a b x) a' b' =
      if a' = a ∧ b' = b then some ((lookup2 m a b).getD [] ++ [x]) else lookup2 m a' b' := by
  unfold lookup2 pushContact
  rw [AMap.find_upsert]
  by_cases ha : a' = a
  · subst ha
    simp only [if_true, Option.some_bind, true_and]
    rw [AMap.find_upsert]
    by_cases hb : b' = b
    · subst hb
      cases hf : AMap.find m a' <;> simp [AMap.find]
    · cases hf : AMap.find m a' <;> simp [hb, AMap.find]
  · simp [ha]

theorem mem_upsert {K V : Type} [DecidableEq K] (m : AMap K V) (k : K) (d : V) (f : V → V)
    (k' : K) (v' : V) (h : (k', v') ∈ AMap.upsert m k d f) :
    (k', v') ∈ m ∨ (k' = k ∧ v' = f ((AMap.find m k).getD d)) := by
  induction m with
  | nil =>
    simp only [AMap.upsert, List.mem_singleton, Prod.mk.injEq] at h
    right; simpa [AMap.find] using h
  | cons p rest ih =>
    obtain ⟨k0, v0⟩ := p
    by_cases h0 : k0 = k
    · subst h0
      simp only [AMap.upsert, if_true, List.mem_cons, Prod.mk.injEq] at h
      rcases h with ⟨h1, h2⟩ | h
      · right; simp [AMap.find, h1, h2]
      · left; exact List.mem_cons_of_mem _ h
    · simp only [AMap.upsert, h0, if_false, List.mem_cons] at h
      rcases h with h | h
      · left; rw [h]; exact List.mem_cons_self _ _
      · rcases ih h with h | ⟨h1, h2⟩
        · left; exact List.mem_cons_of_mem _ h
        · right; simp [AMap.find, h0, h1, h2]

theorem KeysNodup_pushContact (m : AMap Entity EntityContactMap) (a b : Entity)
    (x : AllContactData) (h : KeysNodup m) : KeysNodup (pushContact m a b x) := by
  unfold pushContact
  refine ⟨AMap.nodup_upsert _ _ _ _ h.1, ?_⟩
  intro a' inner hmem
  rcases mem_upsert _ _ _ _ _ _ hmem with h1 | ⟨_, h2⟩
  · exact h.2 a' inner h1
  · rw [h2]
    apply AMap.nodup_upsert
    cases hf : AMap.find m a with
    | none => simp
    | some inner0 => exact h.2 a inner0 (AMap.mem_of_find _ _ _ hf)

theorem Grouped.nil (impl : Impl) : Grouped impl [] :=
  ⟨⟨by simp, fun _ _ h => by cases h⟩, fun _ _ _ => rfl, fun _ _ _ h => by cases h⟩

theorem mem_getD_of_lookup2 (m : AMap Entity EntityContactMap) (a b : Entity)
    (c : AllContactData) (h : c ∈ (lookup2 m a b).getD []) :
    ∃ q, lookup2 m a b = some q ∧ c ∈ q := by
  cases hl : lookup2 m a b with
  | none => rw [hl] at h; cases h
  | some q => rw [hl] at h; exact ⟨q, rfl, h⟩

theorem Grouped.fileContact (impl : Impl) (uninit : Nat → Option ExtraContactData)
    (m : AMap Entity EntityContactMap) (ic : Nat × ContactComposite) (h : Grouped impl m) :
    Grouped impl (fileContact impl uninit m ic) := by
  unfold Physics.fileContact
  cases h1 : impl.collisionEntityMap ic.2.point.collision1 with
  | none => exact h
  | some e1 =>
    cases h2 : impl.collisionEntityMap ic.2.point.collision2 with
    | none => exact h
    | some e2 =>
      dsimp only
      refine ⟨KeysNodup_pushContact _ _ _ _ (KeysNodup_pushContact _ _ _ _ h.keys), ?_, ?_⟩
      · intro a b hab
        simp only [lookup2_pushContact]
        by_cases c1 : a = e2 ∧ b = e1
        · obtain ⟨rfl, rfl⟩ := c1
          have n1 : ¬ (b = a ∧ a = b) := fun x => hab x.2
          have n2 : ¬ (a = b ∧ b = a) := fun x => hab x.1
          simp only [and_self, if_true, n1, n2, if_false, true_and]
          rw [h.symm a b hab]
        · by_cases c2 : a = e1 ∧ b = e2
          · obtain ⟨rfl, rfl⟩ := c2
            have n1 : ¬ (b = a ∧ a = b) := fun x => hab x.2
            have n2 : ¬ (a = b ∧ b = a) := fun x => hab x.1
            simp only [and_self, if_true, n1, n2, if_false]
            rw [h.symm a b hab]
          · have d1 : ¬ (b = e2 ∧ a = e1) := fun x => c2 ⟨x.2, x.1⟩
            have d2 : ¬ (b = e1 ∧ a = e2) := fun x => c1 ⟨x.2, x.1⟩
            simp only [c1, c2, d1, d2, if_false]
            exact h.symm a b hab
      · intro a b q hq c hc
        simp only [lookup2_pushContact] at hq
        by_cases c1 : a = e2 ∧ b = e1
        · obtain ⟨rfl, rfl⟩ := c1
          simp only [and_self, if_true, Option.some.injEq] at hq
          rw [← hq] at hc
          rcases List.mem_append.mp hc with hc | hc
          · by_cases c2 : a = b
            · subst c2
              simp only [and_self, if_true, Option.getD_some] at hc
              rcases List.mem_append.mp hc with hc | hc
              · obtain ⟨q', hq', hc'⟩ := mem_getD_of_lookup2 _ _ _ _ hc
                exact h.ends _ _ q' hq' c hc'
              · rw [List.mem_singleton] at hc
                subst hc
                exact Or.inl ⟨h1, h2⟩
            · have n : ¬ (a = b ∧ b = a) := fun x => c2 x.1
              simp only [n, if_false] at hc
              obtain ⟨q', hq', hc'⟩ := mem_getD_of_lookup2 _ _ _ _ hc
              exact h.ends _ _ q' hq' c hc'
          · rw [List.mem_singleton] at hc
            subst hc
            exact Or.inr ⟨h1, h2⟩
        · simp only [c1, if_false] at hq
          by_cases c2 : a = e1 ∧ b = e2
          · obtain ⟨rfl, rfl⟩ := c2
            simp only [and_self, if_true, Option.some.injEq] at hq
            rw [← hq] at hc
            rcases List.mem_append.mp hc with hc | hc
            · obtain ⟨q', hq', hc'⟩ := mem_getD_of_lookup2 _ _ _ _ hc
              exact h.ends _ _ q' hq' c hc'
            · rw [List.mem_singleton] at hc
              subst hc
              exact Or.inl ⟨h1, h2⟩
          · simp only [c2, if_false] at hq
            exact h.ends a b q hq c hc

theorem Grouped.foldl (impl : Impl) (uninit : Nat → Option ExtraContactData)
    (ics : List (Nat × ContactComposite)) (m : AMap Entity EntityContactMap)
    (h : Grouped impl m) : Grouped impl (ics.foldl (Physics.fileContact impl uninit) m) := by
  induction ics generalizing m with
  | nil => exact h
  | cons ic ics ih => exact ih _ (h.fileContact impl uninit m ic)

theorem groupContacts_grouped (impl : Impl) (uninit : Nat → Option ExtraContactData)
    (cs : List ContactComposite) : Grouped impl (groupContacts impl uninit cs) :=
  Grouped.foldl impl uninit _ _ (Grouped.nil impl)

theorem find_pushContact_ne_none (m : AMap Entity EntityContactMap) (a b : Entity)
    (x : AllContactData) (e : Entity) (h : AMap.find (pushContact m a b x) e ≠ none) :
    e = a ∨ AMap.find m e ≠ none := by
  unfold pushContact at h
  rw [AMap.find_upsert] at h
  by_cases he : e = a
  · exact Or.inl he
  · simp only [he, if_false] at h
    exact Or.inr h

/-- An entity is a key of the grouped map only if a raw contact between two
registered shapes involves it. -/
theorem fileContacts_keys (impl : Impl) (uninit : Nat → Option ExtraContactData)
    (ics : List (Nat × ContactComposite)) (m : AMap Entity EntityContactMap) (e : Entity)
    (h : AMap.find (ics.foldl (fileContact impl uninit) m) e ≠ none) :
    AMap.find m e ≠ none ∨ ∃ ic ∈ ics,
      impl.collisionEntityMap ic.2.point.collision1 = some e ∨
        impl.collisionEntityMap ic.2.point.collision2 = some e := by
  induction ics generalizing m with
  | nil => exact Or.inl h
  | cons ic ics ih =>
    rcases ih _ h with h' | ⟨ic', hic', hh⟩
    · unfold fileContact at h'
      cases h1 : impl.collisionEntityMap ic.2.point.collision1 with
      | none => rw [h1] at h'; exact Or.inl h'
      | some e1 =>
        cases h2 : impl.collisionEntityMap ic.2.point.collision2 with
        | none => rw [h1, h2] at h'; exact Or.inl h'
        | some e2 =>
          rw [h1, h2] at h'
          dsimp only at h'
          rcases find_pushContact_ne_none _ _ _ _ _ h' with he | h''
          · exact Or.inr ⟨ic, List.mem_cons_self _ _, Or.inr (he ▸ h2)⟩
          · rcases find_pushContact_ne_none _ _ _ _ _ h'' with he | h'''
            · exact Or.inr ⟨ic, List.mem_cons_self _ _, Or.inl (he ▸ h1)⟩
            · exact Or.inl h'''
    · exact Or.inr ⟨ic', List.mem_cons_of_mem _ hic', hh⟩

theorem groupContacts_no_contact (impl : Impl) (uninit : Nat → Option ExtraContactData)
    (cs : List ContactComposite) (e : Entity)
    (h : ∀ cc ∈ cs, impl.collisionEntityMap cc.point.collision1 ≠ some e ∧
      impl.collisionEntityMap cc.point.collision2 ≠ some e) :
    AMap.find (groupContacts impl uninit cs) e = none := by
  by_contra hne
  rcases fileContacts_keys impl uninit cs.enum [] e hne with h' | ⟨ic, hic, hh⟩
  · exact h' rfl
  · have := h ic.2 (List.snd_mem_of_mem_enum hic)
    rcases hh with hh | hh
    · exact this.1 hh
    · exact this.2 hh

theorem addContactPoint_error (impl : Impl) (ecm : ECM) (a b : Entity) (f : Fault)
    (q : List AllContactData) :
    q.foldl (addContactPoint impl ecm a b) (Except.error f) = Except.error f := by
  induction q with
  | nil => rfl
  | cons c q ih => simp only [List.foldl_cons, addContactPoint]; exact ih

theorem addContactPoint_ok (impl : Impl) (ecm : ECM) (a b : Entity) (msg msg' : Contact)
    (c : AllContactData) (h : addContactPoint impl ecm a b (Except.ok msg) c = Except.ok msg') :
    msg' =
      { collision1 := msg.collision1
        collision2 := msg.collision2
        position := msg.position ++ [c.point.point]
        depth := msg.depth ++ (c.extra.map (fun x => x.depth)).toList
        wrench := msg.wrench ++ (c.extra.map (polarisedWrench impl ecm a b c)).toList
        normal := msg.normal ++ (c.extra.map (polarisedNormal impl a c)).toList } := by
  unfold addContactPoint at h
  cases hx : c.extra with
  | none =>
    simp only [hx] at h
    cases h
    simp
  | some x =>
    simp only [hx] at h
    cases hn1 : ecm.name a with
    | none => simp [hn1] at h
    | some n1 =>
      cases hn2 : ecm.name b with
      | none => simp [hn1, hn2] at h
      | some n2 =>
        simp only [hn1, hn2] at h
        cases h1 : impl.collisionEntityMap c.point.collision1 with
        | none => simp [h1] at h
        | some first =>
          simp only [h1] at h
          by_cases ha : a = first
          · simp only [ha, if_true] at h
            cases h2 : impl.collisionEntityMap c.point.collision2 with
            | none => simp [h2] at h
            | some second =>
              simp only [h2] at h
              by_cases hb : b = second
              · simp only [hb, if_true, Except.ok.injEq] at h
                rw [← h]
                subst ha
                subst hb
                simp [polarisedWrench, polarisedNormal, h1, hn1, hn2]
              · simp [hb] at h
          · simp only [ha, if_false] at h
            by_cases hb : b = first
            · simp only [hb, if_true, Except.ok.injEq] at h
              rw [← h]
              have : ¬ first = a := fun x => ha x.symm
              subst hb
              simp [polarisedWrench, polarisedNormal, h1, this, hn1, hn2]
            · simp [hb] at h

theorem toList_append_filterMap {α β : Type} (f : α → Option β) (c : α) (q : List α)
    (l : List β) : l ++ (f c).toList ++ q.filterMap f = l ++ (c :: q).filterMap f := by
  cases h : f c <;> simp [List.filterMap_cons, h]

/-- A record that is built without failure is the expected record. -/
theorem foldl_addContactPoint_ok (impl : Impl) (ecm : ECM) (a b : Entity)
    (q : List AllContactData) (msg rec : Contact)
    (h : q.foldl (addContactPoint impl ecm a b) (Except.ok msg) = Except.ok rec) :
    rec =
      { collision1 := msg.collision1
        collision2 := msg.collision2
        position := msg.position ++ q.map (fun c => c.point.point)
        depth := msg.depth ++ q.filterMap (fun c => c.extra.map (fun x => x.depth))
        wrench := msg.wrench ++
          q.filterMap (fun c => c.extra.map (polarisedWrench impl ecm a b c))
        normal := msg.normal ++ q.filterMap (fun c => c.extra.map (polarisedNormal impl a c)) } := by
  induction q generalizing msg with
  | nil =>
    simp only [List.foldl_nil, Except.ok.injEq] at h
    rw [← h]; simp
  | cons c q ih =>
    simp only [List.foldl_cons] at h
    cases hstep : addContactPoint impl ecm a b (Except.ok msg) c with
    | error f => rw [hstep, addContactPoint_error] at h; cases h
    | ok msg1 =>
      rw [hstep] at h
      have h1 := addContactPoint_ok impl ecm a b msg msg1 c hstep
      have h2 := ih msg1 h
      rw [h2, h1]
      simp only [List.map_cons, List.append_assoc, List.singleton_append, Contact.mk.injEq,
        true_and]
      refine ⟨?_, ?_, ?_⟩
      · rw [← List.append_assoc, toList_append_filterMap
          (fun c : AllContactData => c.extra.map (polarisedNormal impl a c))]
      · rw [← List.append_assoc, toList_append_filterMap
          (fun c : AllContactData => c.extra.map (fun x => x.depth))]
      · rw [← List.append_assoc, toList_append_filterMap
          (fun c : AllContactData => c.extra.map (polarisedWrench impl ecm a b c))]

theorem addContact_error (impl : Impl) (ecm : ECM) (a : Entity) (f : Fault)
    (inner : EntityContactMap) :
    inner.foldl (addContact impl ecm a) (Except.error f) = Except.error f := by
  induction inner with
  | nil => rfl
  | cons c q ih => simp only [List.foldl_cons, addContact]; exact ih

/-- A report that is built without failure is the list of expected records,
one per partner, in the order of the grouped map. -/
theorem foldl_addContact_ok (impl : Impl) (ecm : ECM) (a : Entity) (inner : EntityContactMap)
    (acc r : Contacts)
    (h : inner.foldl (addContact impl ecm a) (Except.ok acc) = Except.ok r) :
    r = acc ++ inner.map (fun pq => expectedContact impl ecm a pq.1 pq.2) := by
  induction inner generalizing acc with
  | nil =>
    simp only [List.foldl_nil, Except.ok.injEq] at h
    rw [← h]; simp
  | cons pq inner ih =>
    simp only [List.foldl_cons] at h
    cases hstep : addContact impl ecm a (Except.ok acc) pq with
    | error f => rw [hstep, addContact_error] at h; cases h
    | ok acc1 =>
      rw [hstep] at h
      have h2 := ih acc1 h
      unfold addContact at hstep
      dsimp only at hstep
      cases hrec : pq.2.foldl (addContactPoint impl ecm a pq.1)
          (Except.ok { collision1 := a, collision2 := pq.1 }) with
      | error f => rw [hrec] at hstep; cases hstep
      | ok rec =>
        rw [hrec] at hstep
        simp only [Except.ok.injEq] at hstep
        have h3 := foldl_addContactPoint_ok impl ecm a pq.1 pq.2 _ rec hrec
        rw [h2, ← hstep, h3]
        simp [expectedContact]

theorem expectedReport_congr (impl : Impl) (ecm ecm' : ECM) (m : AMap Entity EntityContactMap)
    (e : Entity) (h : ecm'.name = ecm.name) :
    expectedReport impl ecm' m e = expectedReport impl ecm m e := by
  unfold expectedReport expectedContact polarisedWrench
  rw [h]

theorem writeContacts_skip (m : AMap Entity EntityContactMap) (st : State) (E : Entity)
    (h : ¬ (st.ecm.collision E = true ∧ (st.ecm.contactSensorData E).isSome = true)) :
    writeContacts m st E = st := by
  unfold writeContacts
  by_cases hc : st.ecm.collision E = true
  · cases hd : st.ecm.contactSensorData E with
    | none => simp [hc]
    | some old => exact absurd ⟨hc, by simp [hd]⟩ h
  · simp [hc]

theorem writeContacts_visit (m : AMap Entity EntityContactMap) (st : State) (E : Entity)
    (hc : st.ecm.collision E = true) (hd : (st.ecm.contactSensorData E).isSome = true) :
    writeContacts m st E =
      match AMap.find m E with
      | none =>
        { st with
          ecm := { st.ecm with contactSensorData := FMap.set st.ecm.contactSensorData E [] } }
      | some contactMap =>
        match contactMap.foldl (addContact st.impl st.ecm E) (Except.ok []) with
        | Except.error f => { st with fault := some f }
        | Except.ok contactsComp =>
          { st with
            ecm := { st.ecm with
              contactSensorData := FMap.set st.ecm.contactSensorData E contactsComp } } := by
  unfold writeContacts
  cases hd' : st.ecm.contactSensorData E with
  | none => rw [hd'] at hd; cases hd
  | some old => rw [if_pos hc]

theorem isSome_set {V : Type} (d : FMap Entity V) (E e : Entity) (x : V)
    (h : (d E).isSome = true) : (FMap.set d E x e).isSome = (d e).isSome := by
  unfold FMap.set
  by_cases he : e = E
  · simp [he, h]
  · simp [he]

/-- One visit of the loop over the instrumented collisions. -/
theorem writeContacts_spec (m : AMap Entity EntityContactMap) (s st : State) (E : Entity)
    (hJ : ContactFrame s st) (hok : (writeContacts m st E).fault = none) :
    ContactFrame s (writeContacts m st E) ∧ st.fault = none ∧
      (s.ecm.collision E = true → (s.ecm.contactSensorData E).isSome = true →
        (writeContacts m st E).ecm.contactSensorData E = some (expectedReport s.impl s.ecm m E)) ∧
      ∀ e, e ≠ E →
        (writeContacts m st E).ecm.contactSensorData e = st.ecm.contactSensorData e := by
  obtain ⟨j1, j2, j3, j4⟩ := hJ
  by_cases hv : st.ecm.collision E = true ∧ (st.ecm.contactSensorData E).isSome = true
  · obtain ⟨hc, hd⟩ := hv
    rw [writeContacts_visit m st E hc hd] at hok ⊢
    cases hf : AMap.find m E with
    | none =>
      rw [hf] at hok
      refine ⟨⟨j1, j2, j3, fun e => (isSome_set _ E e _ hd).trans (j4 e)⟩, hok, ?_, ?_⟩
      · intro _ _
        simp [FMap.set, expectedReport, hf]
      · intro e he
        simp [FMap.set, he]
    | some inner =>
      rw [hf] at hok
      dsimp only at hok ⊢
      cases hr : inner.foldl (addContact st.impl st.ecm E) (Except.ok []) with
      | error f => rw [hr] at hok; cases hok
      | ok r =>
        rw [hr] at hok
        have hrep := foldl_addContact_ok st.impl st.ecm E inner [] r hr
        refine ⟨⟨j1, j2, j3, fun e => (isSome_set _ E e _ hd).trans (j4 e)⟩, hok, ?_, ?_⟩
        · intro _ _
          have : expectedReport s.impl s.ecm m E = r := by
            rw [← expectedReport_congr s.impl s.ecm st.ecm m E j2, ← j1, hrep]
            simp [expectedReport, hf]
          simp [FMap.set, this]
        · intro e he
          simp [FMap.set, he]
  · rw [writeContacts_skip m st E hv] at hok ⊢
    refine ⟨⟨j1, j2, j3, j4⟩, hok, ?_, fun _ _ => rfl⟩
    intro h1 h2
    rw [← j3] at h1
    rw [← j4] at h2
    exact absurd ⟨h1, h2⟩ hv

theorem foldl_faulted (visit : State → Entity → State) (es : List Entity) (st : State)
    (h : st.fault.isSome = true) :
    es.foldl (fun x e => if x.fault.isSome then x else visit x e) st = st := by
  induction es with
  | nil => rfl
  | cons e es ih => simp only [List.foldl_cons, h, if_true]; exact ih

/-- The loop over the instrumented collisions, when it ends without failure. -/
theorem writeContacts_loop (m : AMap Entity EntityContactMap) (s : State) (es : List Entity)
    (st : State) (hJ : ContactFrame s st)
    (hok : (es.foldl (fun x e => if x.fault.isSome then x else writeContacts m x e) st).fault
      = none) :
    (∀ E ∈ es, s.ecm.collision E = true → (s.ecm.contactSensorData E).isSome = true →
      (es.foldl (fun x e => if x.fault.isSome then x else writeContacts m x e)
        st).ecm.contactSensorData E = some (expectedReport s.impl s.ecm m E)) ∧
    (∀ E, st.ecm.contactSensorData E = some (expectedReport s.impl s.ecm m E) →
      (es.foldl (fun x e => if x.fault.isSome then x else writeContacts m x e)
        st).ecm.contactSensorData E = some (expectedReport s.impl s.ecm m E)) ∧
    (∀ E, E ∉ es → (es.foldl (fun x e => if x.fault.isSome then x else writeContacts m x e)
        st).ecm.contactSensorData E = st.ecm.contactSensorData E) := by
  induction es generalizing st with
  | nil => exact ⟨fun _ h => (by cases h), fun _ h => h, fun _ _ => rfl⟩
  | cons e es ih =>
    simp only [List.foldl_cons] at hok ⊢
    by_cases hf : st.fault.isSome = true
    · rw [if_pos hf, foldl_faulted _ _ _ hf] at hok
      rw [hok] at hf
      cases hf
    · rw [if_neg hf] at hok ⊢
      have hstep : (writeContacts m st e).fault = none := by
        by_contra hne
        have hs : (writeContacts m st e).fault.isSome = true := by
          cases hx : (writeContacts m st e).fault with
          | none => exact absurd hx hne
          | some _ => rfl
        rw [foldl_faulted _ _ _ hs] at hok
        exact hne hok
      obtain ⟨w1, _, w3, w4⟩ := writeContacts_spec m s st e hJ hstep
      obtain ⟨i1, i2, i3⟩ := ih (writeContacts m st e) w1 hok
      refine ⟨?_, ?_, ?_⟩
      · intro E hE hc hd
        rcases List.mem_cons.mp hE with rfl | hmem
        · exact i2 E (w3 hc hd)
        · exact i1 E hmem hc hd
      · intro E hE
        apply i2
        by_cases he : E = e
        · subst he
          by_cases hc : s.ecm.collision E = true
          · by_cases hd : (s.ecm.contactSensorData E).isSome = true
            · exact w3 hc hd
            · exfalso
              have := hJ.2.2.2 E
              rw [hE] at this
              exact hd this.symm
          · -- an entity without the collision tag is not touched
            have : writeContacts m st E = st := by
              apply writeContacts_skip
              intro h
              rw [hJ.2.2.1] at h
              exact hc h.1
            rw [this]; exact hE
        · rw [w4 E he]; exact hE
      · intro E hE
        have hne : E ≠ e := fun h => hE (h ▸ List.mem_cons_self _ _)
        rw [i3 E (fun h => hE (List.mem_cons_of_mem _ h)), w4 E hne]

/-- The reports after `UpdateCollisions`, when contact data is requested, the
world entity is registered and no failure occurs. -/
theorem UpdateCollisions_report (v : EngineView) (uninit : Nat → Option ExtraContactData)
    (s : State) (w : WorldPtr) (hf : s.fault = none)
    (hreq : s.ecm.contactSensorDataType = true)
    (hworld : s.ecm.EntityByComponents s.ecm.world ≠ kNullEntity)
    (hreg : AMap.find s.impl.entityWorldMap (s.ecm.EntityByComponents s.ecm.world) = some w)
    (hok : (UpdateCollisions v uninit s).fault = none) :
    (∀ E ∈ s.ecm.entities, s.ecm.collision E = true →
      (s.ecm.contactSensorData E).isSome = true →
      (UpdateCollisions v uninit s).ecm.contactSensorData E =
        some (expectedReport s.impl s.ecm
          (groupContacts s.impl uninit (v.GetContactsFromLastStep w)) E)) ∧
    ∀ E, E ∉ s.ecm.entities →
      (UpdateCollisions v uninit s).ecm.contactSensorData E = s.ecm.contactSensorData E := by
  have hU : UpdateCollisions v uninit s =
      s.ecm.entities.foldl (fun x e => if x.fault.isSome then x else
        writeContacts (groupContacts s.impl uninit (v.GetContactsFromLastStep w)) x e) s := by
    unfold UpdateCollisions
    simp only [hf, hreq, hworld, hreg, Option.isSome_none, Bool.false_eq_true, if_false,
      Bool.not_true]
    rfl
  rw [hU] at hok ⊢
  obtain ⟨h1, _, h3⟩ := writeContacts_loop _ s s.ecm.entities s ⟨rfl, rfl, rfl, fun _ => rfl⟩ hok
  exact ⟨h1, h3⟩

theorem mirror_insert (fwd : FMap Entity Nat) (rev : FMap Nat Entity) (e : Entity) (h : Nat)
    (hfree : fwd e = none) (hm : ∀ h' e', rev h' = some e' → fwd e' = some h') :
    ∀ h' e', FMap.insert rev h e h' = some e' → FMap.insert fwd e h e' = some h' := by
  intro h' e' hr
  unfold FMap.insert at hr ⊢
  by_cases hh : h' = h
  · subst hh
    simp only [if_true] at hr
    cases hrev : rev h' with
    | none =>
      rw [hrev] at hr
      simp only [Option.some.injEq] at hr
      subst hr
      simp [hfree]
    | some e0 =>
      rw [hrev] at hr
      simp only [Option.some.injEq] at hr
      subst hr
      have h0 := hm h' e0 hrev
      have hne : e0 ≠ e := by
        intro heq; rw [heq, hfree] at h0; cases h0
      simp [hne, h0]
  · simp only [hh, if_false] at hr
    have h0 := hm h' e' hr
    have hne : e' ≠ e := by
      intro heq; rw [heq, hfree] at h0; cases h0
    simp [hne, h0]

theorem selected_mirror {visit : State → Entity → State}
    (h : ∀ st e, ReverseMapsMirror st.impl → ReverseMapsMirror (visit st e).impl) (all : Bool)
    (st : State) (e : Entity) (hm : ReverseMapsMirror st.impl) :
    ReverseMapsMirror (selected all visit st e).impl := by
  unfold selected
  split
  · exact h st e hm
  · exact hm

theorem processWorld_mirror (eng : Engine) (st : State) (e : Entity)
    (h : ReverseMapsMirror st.impl) : ReverseMapsMirror (processWorld eng st e).impl := by
  unfold processWorld
  repeat' (first | split | dsimp only)
  all_goals exact h

theorem processModel_mirror (eng : Engine) (st : State) (e : Entity)
    (h : ReverseMapsMirror st.impl) : ReverseMapsMirror (processModel eng st e).impl := by
  unfold processModel
  repeat' (first | split | dsimp only)
  all_goals exact h

theorem processLink_mirror (eng : Engine) (st : State) (e : Entity)
    (h : ReverseMapsMirror st.impl) : ReverseMapsMirror (processLink eng st e).impl := by
  unfold processLink
  repeat' (first | split | dsimp only)
  all_goals first
    | exact h
    | exact ⟨mirror_insert _ _ _ _ (by assumption) h.1, h.2⟩

theorem processCollision_mirror (eng : Engine) (st : State) (e : Entity)
    (h : ReverseMapsMirror st.impl) : ReverseMapsMirror (processCollision eng st e).impl := by
  unfold processCollision
  repeat' (first | split | dsimp only [registerCollision])
  all_goals first
    | exact h
    | exact ⟨h.1, mirror_insert _ _ _ _ (by assumption) h.2⟩

theorem processJoint_mirror (eng : Engine) (st : State) (e : Entity)
    (h : ReverseMapsMirror st.impl) : ReverseMapsMirror (processJoint eng st e).impl := by
  unfold processJoint
  repeat' (first | split | dsimp only [State.emit])
  all_goals exact h

theorem processBattery_mirror (st : State) (e : Entity)
    (h : ReverseMapsMirror st.impl) : ReverseMapsMirror (processBattery st e).impl := by
  unfold processBattery
  repeat' (first | split | dsimp only)
  all_goals exact h

theorem each_mirror {visit : State → Entity → State}
    (h : ∀ st e, ReverseMapsMirror st.impl → ReverseMapsMirror (visit st e).impl) (s : State)
    (hs : ReverseMapsMirror s.impl) : ReverseMapsMirror (s.each visit).impl :=
  each_preserves (P := fun st => ReverseMapsMirror st.impl) h s hs

theorem CreatePhysicsEntities_mirror (eng : Engine) (s : State)
    (h : ReverseMapsMirror s.impl) : ReverseMapsMirror (CreatePhysicsEntities eng s).impl := by
  unfold CreatePhysicsEntities
  split
  · exact h
  · dsimp only
    apply each_mirror (selected_mirror processBattery_mirror s.impl.firstRun)
    apply each_mirror (selected_mirror (processJoint_mirror eng) s.impl.firstRun)
    apply each_mirror (selected_mirror (processCollision_mirror eng) s.impl.firstRun)
    apply each_mirror (selected_mirror (processLink_mirror eng) s.impl.firstRun)
    apply each_mirror (selected_mirror (processModel_mirror eng) s.impl.firstRun)
    apply each_mirror (selected_mirror (processWorld_mirror eng) s.impl.firstRun)
    exact h

theorem batteryState_mirror (st : State) (e : Entity)
    (h : ReverseMapsMirror st.impl) : ReverseMapsMirror (batteryState st e).impl := by
  unfold batteryState
  repeat' (first | split | dsimp only)
  all_goals exact h

theorem handleJointState_mirror (v : EngineView) (st : State) (e : Entity)
    (h : ReverseMapsMirror st.impl) : ReverseMapsMirror (handleJointState v st e).impl := by
  unfold handleJointState
  repeat' (first | split | dsimp only [State.emit])
  all_goals exact h

theorem linkWrench_mirror (st : State) (e : Entity)
    (h : ReverseMapsMirror st.impl) : ReverseMapsMirror (linkWrench st e).impl := by
  unfold linkWrench
  repeat' (first | split | dsimp only [State.emit])
  all_goals exact h

theorem linkWrenchWithDuration_mirror (info : UpdateInfo) (st : State) (e : Entity)
    (h : ReverseMapsMirror st.impl) :
    ReverseMapsMirror (linkWrenchWithDuration info st e).impl := by
  unfold linkWrenchWithDuration
  repeat' (first | split | dsimp only [State.emit])
  all_goals exact h

theorem processWorldPoseCmd_mirror (v : EngineView) (st : State) (e : Entity)
    (h : ReverseMapsMirror st.impl) : ReverseMapsMirror (processWorldPoseCmd v st e).impl := by
  unfold processWorldPoseCmd
  repeat' (first | split | dsimp only [State.emit])
  all_goals exact h

theorem processWorldVelocityCmd_mirror (v : EngineView) (st : State) (e : Entity)
    (h : ReverseMapsMirror st.impl) :
    ReverseMapsMirror (processWorldVelocityCmd v st e).impl := by
  unfold processWorldVelocityCmd
  repeat' (first | split | dsimp only [State.emit])
  all_goals exact h

theorem UpdatePhysics_mirror (v : EngineView) (info : UpdateInfo) (s : State)
    (h : ReverseMapsMirror s.impl) : ReverseMapsMirror (UpdatePhysics v info s).impl := by
  unfold UpdatePhysics
  split
  · exact h
  · dsimp only
    rw [(clearPendingCommands_frame _).1]
    apply each_mirror (processWorldVelocityCmd_mirror v)
    apply each_mirror (processWorldPoseCmd_mirror v)
    split
    · apply each_mirror (linkWrenchWithDuration_mirror info)
      apply each_mirror linkWrench_mirror
      apply each_mirror (handleJointState_mirror v)
      exact each_mirror batteryState_mirror s h
    · apply each_mirror linkWrench_mirror
      apply each_mirror (handleJointState_mirror v)
      exact each_mirror batteryState_mirror s h

theorem RemovePhysicsEntities_mirror (s : State) (h : ReverseMapsMirror s.impl) :
    ReverseMapsMirror (RemovePhysicsEntities s).impl := by
  unfold RemovePhysicsEntities
  split
  · exact h
  · exact each_mirror (fun st e hst => (removeModel_spec st e hst).2.2.1) s h

/-- The reverse maps mirror the forward maps in the empty registry, and a tick
keeps it so: the property holds in every state the bridge can reach. -/
theorem Update_mirror (eng : Engine) (uninit : Nat → Option ExtraContactData)
    (info : UpdateInfo) (s : State) (h : ReverseMapsMirror s.impl) :
    ReverseMapsMirror (Update eng uninit info s).impl := by
  have h0 : ReverseMapsMirror (s.each (setSimulatedTime info)).impl := by
    rw [(each_frame (setSimulatedTime_frame info) s ⟨rfl, rfl⟩).1]; exact h
  unfold Update
  dsimp only
  split
  · apply RemovePhysicsEntities_mirror
    rw [(UpdateSim_frame _ _ _ _).1]
    split
    · have := UpdatePhysics_mirror
        (eng.view (CreatePhysicsEntities eng (s.each (setSimulatedTime info))).calls) info _
        (CreatePhysicsEntities_mirror eng _ h0)
      unfold Step
      split
      · exact this
      · exact this
    · exact UpdatePhysics_mirror _ info _ (CreatePhysicsEntities_mirror eng _ h0)
  · exact h0

theorem mirror_empty : ReverseMapsMirror ({} : Impl) :=
  ⟨fun _ _ h => (by cases h), fun _ _ h => (by cases h)⟩

theorem overlapCalls_not_velocityCommand (setter : Nat → Scalar → EngineCall)
    (hs : ∀ i x j' i' x', setter i x ≠ EngineCall.SetVelocityCommand j' i' x')
    (data : List Scalar) (dofs : Nat) (j' i' : Nat) (x' : Scalar) :
    EngineCall.SetVelocityCommand j' i' x' ∉ overlapCalls setter data dofs := by
  intro h
  unfold overlapCalls at h
  obtain ⟨i, _, hi⟩ := List.mem_map.mp h
  exact hs _ _ _ _ _ hi

/-- C1. A registered joint of a model that is not off, carrying a velocity reset
and a velocity command: the visit of the joint sets the velocity from the reset
over the overlap of its length and the DOF count, then applies the position
reset and the force command if present, and sends no velocity command; the
engine log of `UpdatePhysics` is these per-joint calls in enumeration order,
followed by calls that address no joint. -/
theorem C1_velocity_reset_wins (v : EngineView) (info : UpdateInfo) (s : State) (e : Entity)
    (j : JointPtr) (reset cmd : List Scalar) (hf : s.fault = none)
    (hjoint : s.ecm.joint e = true) (hname : (s.ecm.name e).isSome = true)
    (hreg : s.impl.entityJointMap e = some j)
    (hon : ((s.each batteryState).impl.entityOffMap (s.ecm.parentOf e)).getD false = false)
    (hreset : s.ecm.jointVelocityReset e = some reset)
    (hcmd : s.ecm.jointVelocityCmd e = some cmd) :
    jointCalls v (s.each batteryState) e =
        (List.range (min reset.length (v.GetDegreesOfFreedom j))).map
            (fun i => EngineCall.SetVelocity j i (reset.getD i 0)) ++
          (match s.ecm.jointPositionReset e with
            | some p => overlapCalls (EngineCall.SetPosition j) p (v.GetDegreesOfFreedom j)
            | none => []) ++
          (match s.ecm.jointForceCmd e with
            | some f => overlapCalls (EngineCall.SetForce j) f (v.GetDegreesOfFreedom j)
            | none => []) ∧
      (∀ j' i x, EngineCall.SetVelocityCommand j' i x ∉ jointCalls v (s.each batteryState) e) ∧
      ∃ rest, (UpdatePhysics v info s).calls =
          s.calls ++ s.ecm.entities.flatMap (jointCalls v (s.each batteryState)) ++ rest ∧
        ∀ c ∈ rest, c.onJoint = false := by
  have hB := each_field (fun x : State => (x.ecm, x.calls, x.fault, x.impl.entityJointMap,
    x.impl.entityLinkMap)) batteryState_frame s
  simp only [Prod.mk.injEq] at hB
  obtain ⟨b1, _, _, b4, _⟩ := hB
  have hcalls : jointCalls v (s.each batteryState) e =
      (List.range (min reset.length (v.GetDegreesOfFreedom j))).map
            (fun i => EngineCall.SetVelocity j i (reset.getD i 0)) ++
          (match s.ecm.jointPositionReset e with
            | some p => overlapCalls (EngineCall.SetPosition j) p (v.GetDegreesOfFreedom j)
            | none => []) ++
          (match s.ecm.jointForceCmd e with
            | some f => overlapCalls (EngineCall.SetForce j) f (v.GetDegreesOfFreedom j)
            | none => []) := by
    unfold jointCalls
    rw [b1, b4, hreg]
    simp only [hjoint, hname, Bool.and_self, if_true, hon, Bool.false_eq_true, if_false]
    unfold jointCommandCalls
    simp only [hreset, hcmd]
    cases hfc : s.ecm.jointForceCmd e <;> cases hpr : s.ecm.jointPositionReset e <;>
      simp [overlapCalls]
  refine ⟨hcalls, ?_, UpdatePhysics_joint_log v info s hf⟩
  intro j' i x hmem
  rw [hcalls] at hmem
  simp only [List.mem_append] at hmem
  rcases hmem with (h | h) | h
  · obtain ⟨_, _, hi⟩ := List.mem_map.mp h
    cases hi
  · split at h
    · exact overlapCalls_not_velocityCommand _ (fun _ _ _ _ _ hh => by cases hh) _ _ _ _ _ h
    · cases h
  · split at h
    · exact overlapCalls_not_velocityCommand _ (fun _ _ _ _ _ hh => by cases hh) _ _ _ _ _ h
    · cases h

/-- The velocity reset wins on the joint of `resetExample`, which carries a
velocity reset and a velocity command. -/
theorem C1_witness :
    jointCalls stillView (resetExample.each batteryState) 4 =
        (List.range (min [3, 4].length (stillView.GetDegreesOfFreedom 9))).map
            (fun i => EngineCall.SetVelocity 9 i (([3, 4] : List Scalar).getD i 0)) ++
          (match resetExample.ecm.jointPositionReset 4 with
            | some p => overlapCalls (EngineCall.SetPosition 9) p (stillView.GetDegreesOfFreedom 9)
            | none => []) ++
          (match resetExample.ecm.jointForceCmd 4 with
            | some f => overlapCalls (EngineCall.SetForce 9) f (stillView.GetDegreesOfFreedom 9)
            | none => []) ∧
      (∀ j' i x,
        EngineCall.SetVelocityCommand j' i x ∉ jointCalls stillView (resetExample.each batteryState) 4) ∧
      ∃ rest, (UpdatePhysics stillView ⟨1, 10, false⟩ resetExample).calls =
          resetExample.calls ++
            resetExample.ecm.entities.flatMap (jointCalls stillView (resetExample.each batteryState)) ++
            rest ∧
        ∀ c ∈ rest, c.onJoint = false :=
  C1_velocity_reset_wins stillView ⟨1, 10, false⟩ resetExample 4 9 [3, 4] [8, 8] rfl rfl rfl rfl
    (by decide) rfl rfl

/-- C2, as amended. A registered joint of a model that owns a drained battery
after which no charged battery of the same model is enumerated: the visit of
the joint sets force 0 and velocity command 0 on every DOF, whatever commands
and resets the joint carries. -/
theorem C2_drained_model_joints_zeroed (v : EngineView) (info : UpdateInfo) (s : State)
    (e m b : Entity) (j : JointPtr) (soc : Scalar) (pre post : List Entity)
    (hf : s.fault = none) (hjoint : s.ecm.joint e = true)
    (hname : (s.ecm.name e).isSome = true) (hreg : s.impl.entityJointMap e = some j)
    (hpar : s.ecm.parentOf e = m) (hent : s.ecm.entities = pre ++ b :: post)
    (hb : s.ecm.batterySoC b = some soc) (hsoc : soc ≤ 0) (hbpar : s.ecm.parentOf b = m)
    (hpost : ∀ b' ∈ post, s.ecm.parentOf b' = m → ∀ x, s.ecm.batterySoC b' = some x → x ≤ 0) :
    jointCalls v (s.each batteryState) e =
        (List.range (v.GetDegreesOfFreedom j)).flatMap
          (fun i => [EngineCall.SetForce j i 0, EngineCall.SetVelocityCommand j i 0]) ∧
      ∃ rest, (UpdatePhysics v info s).calls =
          s.calls ++ s.ecm.entities.flatMap (jointCalls v (s.each batteryState)) ++ rest ∧
        ∀ c ∈ rest, c.onJoint = false := by
  have hB := each_field (fun x : State => (x.ecm, x.calls, x.fault, x.impl.entityJointMap,
    x.impl.entityLinkMap)) batteryState_frame s
  simp only [Prod.mk.injEq] at hB
  obtain ⟨b1, _, _, b4, _⟩ := hB
  have hoff := batteryState_marks_off s hf m b soc pre post hent hb hsoc hbpar hpost
  refine ⟨?_, UpdatePhysics_joint_log v info s hf⟩
  unfold jointCalls
  rw [b1, b4, hreg, hpar, hoff]
  simp [hjoint, hname, batteryOffCalls]

/-- The joint of `drainedExample`, whose model owns one drained battery, is zeroed. -/
theorem C2_witness :
    jointCalls stillView (drainedExample.each batteryState) 4 =
        (List.range (stillView.GetDegreesOfFreedom 9)).flatMap
          (fun i => [EngineCall.SetForce 9 i 0, EngineCall.SetVelocityCommand 9 i 0]) ∧
      ∃ rest, (UpdatePhysics stillView ⟨1, 10, false⟩ drainedExample).calls =
          drainedExample.calls ++
            drainedExample.ecm.entities.flatMap
              (jointCalls stillView (drainedExample.each batteryState)) ++ rest ∧
        ∀ c ∈ rest, c.onJoint = false :=
  C2_drained_model_joints_zeroed stillView ⟨1, 10, false⟩ drainedExample 4 1 2 9 0 [1] [4] rfl rfl
    rfl rfl rfl rfl rfl (by decide) rfl (by decide)

/-- C2 fails as stated: model 1 owns battery 2 whose state of charge is 0, yet
the force command of its registered joint 4 is applied and no zero is set,
because battery 3 of the same model is charged and enumerated later. -/
theorem C2_counterexample :
    twoBatteriesExample.ecm.parentOf 2 = 1 ∧ twoBatteriesExample.ecm.batterySoC 2 = some 0 ∧
      twoBatteriesExample.ecm.parentOf 4 = 1 ∧
      twoBatteriesExample.impl.entityJointMap 4 = some 9 ∧
      (UpdatePhysics stillView ⟨1, 10, false⟩ twoBatteriesExample).calls =
        [EngineCall.SetForce 9 0 7, EngineCall.SetForce 9 1 7] := by
  decide

theorem totalWrench_fold (ws : List WrenchWithDuration) (acc : Wrench) :
    (ws.foldl (fun acc w => (⟨acc.force + w.wrench.force, acc.torque + w.wrench.torque⟩ : Wrench))
        acc).force = (ws.map (fun w => w.wrench.force)).foldl (fun a b => a + b) acc.force ∧
      (ws.foldl (fun acc w => (⟨acc.force + w.wrench.force, acc.torque + w.wrench.torque⟩ : Wrench))
        acc).torque = (ws.map (fun w => w.wrench.torque)).foldl (fun a b => a + b) acc.torque := by
  induction ws generalizing acc with
  | nil => exact ⟨rfl, rfl⟩
  | cons w ws ih => simp only [List.foldl_cons, List.map_cons]; exact ih _

theorem cleanExpired_eq (ws : List WrenchWithDuration) (t : Duration) :
    cleanExpired ws t = ws.filter (fun w => decide (t ≤ w.expiration)) := by
  unfold cleanExpired
  apply List.filter_congr
  intro w _
  unfold WrenchWithDuration.expired
  by_cases h : w.expiration < t
  · simp [h, not_le.mpr h]
  · simp [h, not_lt.mp h]

/-- C3, as amended. On a tick that is not paused the engine log of
`UpdatePhysics` is: the joint calls, the wrenches without duration, then for
every entity one force and one torque call built from its wrenches with
duration, then calls to free groups. For a registered link the force and the
torque are the sums over all stored contributions, expired ones included, each
once; afterwards the component holds the contributions that have not expired. -/
theorem C3_total_applied_then_cleaned (v : EngineView) (info : UpdateInfo) (s : State)
    (hf : s.fault = none) (hnd : s.ecm.entities.Nodup) (hp : info.paused = false) :
    (∃ rest, (UpdatePhysics v info s).calls =
        s.calls ++ s.ecm.entities.flatMap (jointCalls v (s.each batteryState)) ++
          s.ecm.entities.flatMap (linkWrenchCalls s) ++
          s.ecm.entities.flatMap (linkWrenchWithDurationCalls s) ++ rest ∧
      ∀ c ∈ rest, c.onFreeGroup = true) ∧
    ∀ e ∈ s.ecm.entities, ∀ ws l, s.ecm.externalWorldWrenchCmdWithDuration e = some ws →
      s.impl.entityLinkMap e = some l →
      linkWrenchWithDurationCalls s e =
          [EngineCall.AddExternalForce l
              ((ws.map (fun w => w.wrench.force)).foldl (fun a b => a + b) Vector3d.Zero),
            EngineCall.AddExternalTorque l
              ((ws.map (fun w => w.wrench.torque)).foldl (fun a b => a + b) Vector3d.Zero)] ∧
        (UpdatePhysics v info s).ecm.externalWorldWrenchCmdWithDuration e =
          some (ws.filter (fun w => decide (info.simTime ≤ w.expiration))) := by
  obtain ⟨h1, h2⟩ := UpdatePhysics_log v info s hf hnd hp
  refine ⟨h1, ?_⟩
  intro e he ws l hws hl
  constructor
  · unfold linkWrenchWithDurationCalls
    rw [hws, hl]
    dsimp only
    unfold totalWrench
    rw [(totalWrench_fold ws _).1, (totalWrench_fold ws _).2]
  · rw [h2 e he]
    unfold cleanedWrenches
    rw [hws, hl]
    dsimp only
    rw [cleanExpired_eq]

/-- The tick of `expiredExample` at simulated time 10 applies the stored total and
then cleans the component. -/
theorem C3_witness :
    (∃ rest, (UpdatePhysics stillView ⟨1, 10, false⟩ expiredExample).calls =
        expiredExample.calls ++
          expiredExample.ecm.entities.flatMap
            (jointCalls stillView (expiredExample.each batteryState)) ++
          expiredExample.ecm.entities.flatMap (linkWrenchCalls expiredExample) ++
          expiredExample.ecm.entities.flatMap (linkWrenchWithDurationCalls expiredExample) ++ rest ∧
      ∀ c ∈ rest, c.onFreeGroup = true) ∧
    ∀ e ∈ expiredExample.ecm.entities, ∀ ws l,
      expiredExample.ecm.externalWorldWrenchCmdWithDuration e = some ws →
      expiredExample.impl.entityLinkMap e = some l →
      linkWrenchWithDurationCalls expiredExample e =
          [EngineCall.AddExternalForce l
              ((ws.map (fun w => w.wrench.force)).foldl (fun a b => a + b) Vector3d.Zero),
            EngineCall.AddExternalTorque l
              ((ws.map (fun w => w.wrench.torque)).foldl (fun a b => a + b) Vector3d.Zero)] ∧
        (UpdatePhysics stillView ⟨1, 10, false⟩ expiredExample).ecm.externalWorldWrenchCmdWithDuration
            e = some (ws.filter (fun w => decide ((10 : Duration) ≤ w.expiration))) :=
  C3_total_applied_then_cleaned stillView ⟨1, 10, false⟩ expiredExample rfl (by decide) rfl

/-- C3 fails as stated: the only contribution of link 5 expired at time 5, the
tick runs at simulated time 10, and its force is still added to the engine;
the sum over the contributions that have not expired is zero. -/
theorem C3_counterexample :
    expiredExample.ecm.externalWorldWrenchCmdWithDuration 5 =
        some [⟨⟨⟨1, 0, 0⟩, ⟨0, 0, 0⟩⟩, 5⟩] ∧
      (⟨⟨⟨1, 0, 0⟩, ⟨0, 0, 0⟩⟩, 5⟩ : WrenchWithDuration).expired 10 = true ∧
      (UpdatePhysics stillView ⟨1, 10, false⟩ expiredExample).calls =
        [EngineCall.AddExternalForce 7 ⟨1, 0, 0⟩, EngineCall.AddExternalTorque 7 ⟨0, 0, 0⟩] ∧
      totalWrench (cleanExpired [⟨⟨⟨1, 0, 0⟩, ⟨0, 0, 0⟩⟩, 5⟩] 10) = ⟨⟨0, 0, 0⟩, ⟨0, 0, 0⟩⟩ := by
  decide

/-- C4. A model entity that is reported as removed and is registered in
`entityModelMap`, in a registry whose reverse maps mirror the forward maps:
after `RemovePhysicsEntities` the model has no entry, none of its child links
has a forward entry or is the value of a reverse entry, none of the collision
children of those links has a forward entry or is the value of a reverse
entry, and none of its child joints has an entry. -/
theorem C4_removed_model_is_reaped (s : State) (m : Entity) (hf : s.fault = none)
    (hinv : ReverseMapsMirror s.impl) (hm : m ∈ s.ecm.entities)
    (hrem : s.ecm.removed m = true) (hmodel : s.ecm.model m = true)
    (hreg : s.impl.entityModelMap m ≠ none) :
    (RemovePhysicsEntities s).impl.entityModelMap m = none ∧
      (∀ l ∈ s.ecm.ChildrenByComponents m s.ecm.link,
        (RemovePhysicsEntities s).impl.entityLinkMap l = none ∧
          (∀ h, (RemovePhysicsEntities s).impl.linkEntityMap h ≠ some l) ∧
          ∀ c ∈ s.ecm.ChildrenByComponents l s.ecm.collision,
            (RemovePhysicsEntities s).impl.entityCollisionMap c = none ∧
              ∀ h, (RemovePhysicsEntities s).impl.collisionEntityMap h ≠ some c) ∧
      ∀ j ∈ s.ecm.ChildrenByComponents m s.ecm.joint,
        (RemovePhysicsEntities s).impl.entityJointMap j = none := by
  have key := reap_fold s.ecm m hrem hmodel s.ecm.entities s rfl hf hinv (Or.inl ⟨hreg, hm⟩)
  have hR : RemovePhysicsEntities s =
      s.ecm.entities.foldl (fun x e => if x.fault.isSome then x else removeModel x e) s := by
    unfold RemovePhysicsEntities State.each
    simp [hf]
  rw [hR]
  obtain ⟨hmir, hdone⟩ := key
  refine ⟨hdone.1, ?_, hdone.2.2⟩
  intro l hl
  obtain ⟨h1, h2⟩ := hdone.2.1 l hl
  refine ⟨h1, ?_, ?_⟩
  · intro h hh
    have := hmir.1 h l hh
    rw [h1] at this
    exact Option.noConfusion this
  · intro c hc
    refine ⟨h2 c hc, ?_⟩
    intro h hh
    have := hmir.2 h c hh
    rw [h2 c hc] at this
    exact Option.noConfusion this

theorem reapExample_mirror : ReverseMapsMirror reapExample.impl := by
  constructor
  · intro h e he
    simp only [reapExample] at he ⊢
    split at he
    · rename_i hh; cases he; simp [hh]
    · cases he
  · intro h e he
    simp only [reapExample] at he ⊢
    split at he
    · rename_i hh; cases he; simp [hh]
    · cases he

/-- The removed model 1 of `reapExample` is reaped with its link, collision and
joint. -/
theorem C4_witness :
    (RemovePhysicsEntities reapExample).impl.entityModelMap 1 = none ∧
      (∀ l ∈ reapExample.ecm.ChildrenByComponents 1 reapExample.ecm.link,
        (RemovePhysicsEntities reapExample).impl.entityLinkMap l = none ∧
          (∀ h, (RemovePhysicsEntities reapExample).impl.linkEntityMap h ≠ some l) ∧
          ∀ c ∈ reapExample.ecm.ChildrenByComponents l reapExample.ecm.collision,
            (RemovePhysicsEntities reapExample).impl.entityCollisionMap c = none ∧
              ∀ h, (RemovePhysicsEntities reapExample).impl.collisionEntityMap h ≠ some c) ∧
      ∀ j ∈ reapExample.ecm.ChildrenByComponents 1 reapExample.ecm.joint,
        (RemovePhysicsEntities reapExample).impl.entityJointMap j = none :=
  C4_removed_model_is_reaped reapExample 1 rfl reapExample_mirror (by decide) rfl rfl (by decide)

theorem Vector3d.neg_neg (v : Vector3d) : - -v = v := by
  cases v
  show Vector3d.neg (Vector3d.neg _) = _
  simp [Vector3d.neg]

/-- The wrench and normal entries of the two requesters of one pair are
negations of each other. -/
theorem polarised_antisymmetric (impl : Impl) (ecm : ECM) (a b : Entity) (hab : a ≠ b)
    (q : List AllContactData)
    (h : ∀ c ∈ q, impl.collisionEntityMap c.point.collision1 = some a ∨
      impl.collisionEntityMap c.point.collision1 = some b) :
    (q.filterMap (fun c => c.extra.map (polarisedWrench impl ecm b a c))).map
        (fun w => w.body_1_wrench.force) =
      (q.filterMap (fun c => c.extra.map (polarisedWrench impl ecm a b c))).map
        (fun w => -w.body_1_wrench.force) ∧
    q.filterMap (fun c => c.extra.map (polarisedNormal impl b c)) =
      (q.filterMap (fun c => c.extra.map (polarisedNormal impl a c))).map (fun n => -n) := by
  induction q with
  | nil => exact ⟨rfl, rfl⟩
  | cons c q ih =>
    obtain ⟨i1, i2⟩ := ih (fun c' hc' => h c' (List.mem_cons_of_mem _ hc'))
    have hc := h c (List.mem_cons_self _ _)
    cases hx : c.extra with
    | none => simp only [List.filterMap_cons, hx, Option.map_none']; exact ⟨i1, i2⟩
    | some x =>
      simp only [List.filterMap_cons, hx, Option.map_some', List.map_cons, i1, i2]
      rcases hc with hc | hc
      · have hne : ¬ some a = some b := fun hh => hab (Option.some.inj hh)
        simp [polarisedWrench, polarisedNormal, hc, hne]
      · have hne : ¬ some b = some a := fun hh => hab (Option.some.inj hh).symm
        simp [polarisedWrench, polarisedNormal, hc, hne, Vector3d.neg_neg]

/-- C5. Two distinct instrumented collision entities, on a tick on which
contact data is requested, the world is registered and no failure occurs: to
every record that the report of `a` holds for partner `b` corresponds a record
that the report of `b` holds for partner `a`, with the same points and depths,
and with body-1 forces and normals negated, point by point. -/
theorem C5_contact_reports_antisymmetric (v : EngineView)
    (uninit : Nat → Option ExtraContactData) (s : State) (w : WorldPtr) (a b : Entity)
    (hf : s.fault = none) (hreq : s.ecm.contactSensorDataType = true)
    (hworld : s.ecm.EntityByComponents s.ecm.world ≠ kNullEntity)
    (hreg : AMap.find s.impl.entityWorldMap (s.ecm.EntityByComponents s.ecm.world) = some w)
    (hok : (UpdateCollisions v uninit s).fault = none) (hab : a ≠ b)
    (ha : a ∈ s.ecm.entities) (hac : s.ecm.collision a = true)
    (had : (s.ecm.contactSensorData a).isSome = true)
    (hb : b ∈ s.ecm.entities) (hbc : s.ecm.collision b = true)
    (hbd : (s.ecm.contactSensorData b).isSome = true) :
    ∃ ra rb, (UpdateCollisions v uninit s).ecm.contactSensorData a = some ra ∧
      (UpdateCollisions v uninit s).ecm.contactSensorData b = some rb ∧
      ∀ recA ∈ ra, recA.collision2 = b →
        ∃ recB ∈ rb, recB.collision1 = b ∧ recB.collision2 = a ∧
          recB.position = recA.position ∧ recB.depth = recA.depth ∧
          recB.wrench.map (fun x => x.body_1_wrench.force) =
            recA.wrench.map (fun x => -x.body_1_wrench.force) ∧
          recB.normal = recA.normal.map (fun n => -n) := by
  obtain ⟨hrep, _⟩ := UpdateCollisions_report v uninit s w hf hreq hworld hreg hok
  have hg := groupContacts_grouped s.impl uninit (v.GetContactsFromLastStep w)
  refine ⟨_, _, hrep a ha hac had, hrep b hb hbc hbd, ?_⟩
  intro recA hrecA hcol
  unfold expectedReport at hrecA
  obtain ⟨⟨p, q⟩, hpq, rfl⟩ := List.mem_map.mp hrecA
  have hp : p = b := hcol
  subst hp
  -- the contacts of the pair are filed under both orders
  cases hfa : AMap.find (groupContacts s.impl uninit (v.GetContactsFromLastStep w)) a with
  | none => rw [hfa] at hpq; cases hpq
  | some innerA =>
    rw [hfa] at hpq
    simp only [Option.getD_some] at hpq
    have hnd := hg.keys.2 a innerA (AMap.mem_of_find _ _ _ hfa)
    have hl : lookup2 (groupContacts s.impl uninit (v.GetContactsFromLastStep w)) a p = some q := by
      unfold lookup2
      rw [hfa]
      exact AMap.find_of_mem _ hnd _ _ hpq
    have hl' := hl
    rw [hg.symm a p hab] at hl'
    unfold lookup2 at hl'
    cases hfb : AMap.find (groupContacts s.impl uninit (v.GetContactsFromLastStep w)) p with
    | none => rw [hfb] at hl'; cases hl'
    | some innerB =>
      rw [hfb] at hl'
      simp only [Option.some_bind] at hl'
      have hmem := AMap.mem_of_find _ _ _ hl'
      refine ⟨expectedContact s.impl s.ecm p a q, ?_, rfl, rfl, rfl, rfl, ?_⟩
      · unfold expectedReport
        rw [hfb]
        exact List.mem_map.mpr ⟨(a, q), hmem, rfl⟩
      · have hends : ∀ c ∈ q, s.impl.collisionEntityMap c.point.collision1 = some a ∨
            s.impl.collisionEntityMap c.point.collision1 = some p := by
          intro c hc
          rcases hg.ends a p q hl c hc with h | h
          · exact Or.inl h.1
          · exact Or.inr h.1
        exact polarised_antisymmetric s.impl s.ecm a p hab q hends

/-- The reports of the entities 3 and 4 of `contactExample` are antisymmetric. -/
theorem C5_witness :
    ∃ ra rb,
      (UpdateCollisions (contactView oneContact) uninitNull contactExample).ecm.contactSensorData 3
        = some ra ∧
      (UpdateCollisions (contactView oneContact) uninitNull contactExample).ecm.contactSensorData 4
        = some rb ∧
      ∀ recA ∈ ra, recA.collision2 = 4 →
        ∃ recB ∈ rb, recB.collision1 = 4 ∧ recB.collision2 = 3 ∧
          recB.position = recA.position ∧ recB.depth = recA.depth ∧
          recB.wrench.map (fun x => x.body_1_wrench.force) =
            recA.wrench.map (fun x => -x.body_1_wrench.force) ∧
          recB.normal = recA.normal.map (fun n => -n) :=
  C5_contact_reports_antisymmetric (contactView oneContact) uninitNull contactExample 100 3 4 rfl
    rfl (by decide) (by decide) (by decide) (by decide) (by decide) rfl rfl (by decide) rfl rfl

theorem lookup2_fileContact (impl : Impl) (uninit : Nat → Option ExtraContactData)
    (m : AMap Entity EntityContactMap) (ic : Nat × ContactComposite) (a b : Entity) :
    (lookup2 (fileContact impl uninit m ic) a b).getD [] =
      (lookup2 m a b).getD [] ++ filedUnder impl uninit a b ic := by
  unfold fileContact filedUnder filedAs
  cases h1 : impl.collisionEntityMap ic.2.point.collision1 with
  | none => simp
  | some c1 =>
    cases h2 : impl.collisionEntityMap ic.2.point.collision2 with
    | none => simp
    | some c2 =>
      dsimp only
      rw [lookup2_pushContact, lookup2_pushContact, lookup2_pushContact]
      simp only [Option.some.injEq, storedContact]
      by_cases hA : a = c1 ∧ b = c2
      · by_cases hB : a = c2 ∧ b = c1
        · obtain ⟨rfl, rfl⟩ := hA
          obtain ⟨h, -⟩ := hB
          subst h
          simp
        · have hB' : ¬ (c2 = a ∧ c1 = b) := fun h => hB ⟨h.1.symm, h.2.symm⟩
          have hA' : c1 = a ∧ c2 = b := ⟨hA.1.symm, hA.2.symm⟩
          obtain ⟨rfl, rfl⟩ := hA
          simp [hB, hB']
      · have hA' : ¬ (c1 = a ∧ c2 = b) := fun h => hA ⟨h.1.symm, h.2.symm⟩
        by_cases hB : a = c2 ∧ b = c1
        · have hB' : c2 = a ∧ c1 = b := ⟨hB.1.symm, hB.2.symm⟩
          have hne : ¬ (c2 = c1 ∧ c1 = c2) := fun h => hA ⟨hB.1.trans h.1, hB.2.trans h.2⟩
          obtain ⟨rfl, rfl⟩ := hB
          simp [hA, hA', hne]
        · have hB' : ¬ (c2 = a ∧ c1 = b) := fun h => hB ⟨h.1.symm, h.2.symm⟩
          simp [hA, hA', hB, hB']
          intro h h2
          exact hB' ⟨h2, h⟩

theorem lookup2_fileContacts (impl : Impl) (uninit : Nat → Option ExtraContactData)
    (ics : List (Nat × ContactComposite)) (m : AMap Entity EntityContactMap) (a b : Entity) :
    (lookup2 (ics.foldl (fileContact impl uninit) m) a b).getD [] =
      (lookup2 m a b).getD [] ++ ics.flatMap (filedUnder impl uninit a b) := by
  induction ics generalizing m with
  | nil => simp
  | cons ic rest ih =>
    rw [List.foldl_cons, ih, lookup2_fileContact, List.flatMap_cons, List.append_assoc]

theorem filedUnder_length (impl : Impl) (uninit : Nat → Option ExtraContactData) (a b : Entity)
    (ics : List (Nat × ContactComposite)) :
    (ics.flatMap (filedUnder impl uninit a b)).length =
      (ics.map Prod.snd).countP (filedAs impl a b) +
        (ics.map Prod.snd).countP (filedAs impl b a) := by
  induction ics with
  | nil => rfl
  | cons ic rest ih =>
    rw [List.flatMap_cons, List.length_append, ih, List.map_cons, List.countP_cons,
      List.countP_cons]
    unfold filedUnder
    cases filedAs impl a b ic.2 <;> cases filedAs impl b a ic.2 <;> simp <;> omega

theorem filedUnder_extended (impl : Impl) (uninit : Nat → Option ExtraContactData)
    (a b : Entity) (ics : List (Nat × ContactComposite)) :
    (ics.map Prod.snd).countP (fun cc => filedAs impl a b cc && cc.extra.isSome) +
        (ics.map Prod.snd).countP (fun cc => filedAs impl b a cc && cc.extra.isSome) ≤
      (ics.flatMap (filedUnder impl uninit a b)).countP (fun c => c.extra.isSome) := by
  induction ics with
  | nil => simp
  | cons ic rest ih =>
    rw [List.flatMap_cons, List.countP_append, List.map_cons, List.countP_cons,
      List.countP_cons]
    have key : (if (filedAs impl a b ic.2 && ic.2.extra.isSome) = true then 1 else 0) +
        (if (filedAs impl b a ic.2 && ic.2.extra.isSome) = true then 1 else 0) ≤
        (filedUnder impl uninit a b ic).countP (fun c => c.extra.isSome) := by
      unfold filedUnder storedContact
      cases filedAs impl a b ic.2 <;> cases filedAs impl b a ic.2 <;>
        cases ic.2.extra <;> simp
    omega

theorem filterMap_extra_length {β : Type} (f : AllContactData → ExtraContactData → β)
    (q : List AllContactData) :
    (q.filterMap (fun c => c.extra.map (f c))).length = q.countP (fun c => c.extra.isSome) := by
  induction q with
  | nil => rfl
  | cons c rest ih =>
    rw [List.countP_cons, ← ih]
    cases h : c.extra <;> simp [List.filterMap_cons, h]

theorem NoEmptyEntry.pushContact (m : AMap Entity EntityContactMap) (a b : Entity)
    (x : AllContactData) (h : NoEmptyEntry m) : NoEmptyEntry (pushContact m a b x) := by
  intro a' inner hm b' q hq
  unfold Physics.pushContact at hm
  rcases mem_upsert _ _ _ _ _ _ hm with h1 | ⟨-, h1⟩
  · exact h a' inner h1 b' q hq
  · rw [h1] at hq
    rcases mem_upsert _ _ _ _ _ _ hq with h2 | ⟨-, h2⟩
    · cases hf : AMap.find m a with
      | none => rw [hf] at h2; cases h2
      | some old =>
        rw [hf] at h2
        exact h a old (AMap.mem_of_find _ _ _ hf) b' q h2
    · rw [h2]
      simp

theorem NoEmptyEntry.fileContacts (impl : Impl) (uninit : Nat → Option ExtraContactData)
    (ics : List (Nat × ContactComposite)) (m : AMap Entity EntityContactMap)
    (h : NoEmptyEntry m) : NoEmptyEntry (ics.foldl (fileContact impl uninit) m) := by
  induction ics generalizing m with
  | nil => exact h
  | cons ic rest ih =>
    rw [List.foldl_cons]
    apply ih
    unfold fileContact
    split
    · exact NoEmptyEntry.pushContact _ _ _ _ (NoEmptyEntry.pushContact _ _ _ _ h)
    · exact h

theorem groupContacts_filed (impl : Impl) (uninit : Nat → Option ExtraContactData)
    (cs : List ContactComposite) (a b : Entity) :
    (lookup2 (groupContacts impl uninit cs) a b).getD [] =
      cs.enum.flatMap (filedUnder impl uninit a b) := by
  unfold groupContacts
  rw [lookup2_fileContacts]
  rfl

/-- C6 fails as stated: the engine reports one contact point, of collision 3
with itself and with extended data, and the record of 3 for partner 3 holds two
positions and two depths. -/
theorem C6_counterexample :
    selfContact.countP (filedAs selfContactExample.impl 3 3) = 1 ∧
      ((UpdateCollisions (contactView selfContact) uninitNull
          selfContactExample).ecm.contactSensorData 3).map
        (fun report => report.map (fun r => (r.collision2, r.position.length, r.depth.length))) =
        some [(3, 2, 2)] := by
  decide

/-- C6, as amended. An instrumented collision entity `E`, on a tick on which
contact data is requested, the world is registered and no failure occurs: the
report of `E` holds exactly one record per partner, a partner being an entity
with a raw contact point with `E` between registered shapes; every record has
`E` as first collision; its number of positions is the number of raw points
whose first shape belongs to `E` and second to the partner plus the number of
those whose first shape belongs to the partner and second to `E`, so that a
contact of `E` with itself counts twice; its depth, wrench and normal lists
have one length, at most the number of positions and at least the number of
those points, counted the same way, that carry extended data. -/
theorem C6_one_record_per_partner (v : EngineView) (uninit : Nat → Option ExtraContactData)
    (s : State) (w : WorldPtr) (E : Entity) (hf : s.fault = none)
    (hreq : s.ecm.contactSensorDataType = true)
    (hworld : s.ecm.EntityByComponents s.ecm.world ≠ kNullEntity)
    (hreg : AMap.find s.impl.entityWorldMap (s.ecm.EntityByComponents s.ecm.world) = some w)
    (hok : (UpdateCollisions v uninit s).fault = none)
    (hE : E ∈ s.ecm.entities) (hEc : s.ecm.collision E = true)
    (hEd : (s.ecm.contactSensorData E).isSome = true) :
    ∃ report, (UpdateCollisions v uninit s).ecm.contactSensorData E = some report ∧
      (report.map (fun r => r.collision2)).Nodup ∧
      (∀ p, (∃ r ∈ report, r.collision2 = p) ↔
        0 < (v.GetContactsFromLastStep w).countP (filedAs s.impl E p) +
          (v.GetContactsFromLastStep w).countP (filedAs s.impl p E)) ∧
      ∀ r ∈ report, r.collision1 = E ∧
        r.position.length =
          (v.GetContactsFromLastStep w).countP (filedAs s.impl E r.collision2) +
            (v.GetContactsFromLastStep w).countP (filedAs s.impl r.collision2 E) ∧
        r.depth.length = r.wrench.length ∧ r.wrench.length = r.normal.length ∧
        (v.GetContactsFromLastStep w).countP
            (fun cc => filedAs s.impl E r.collision2 cc && cc.extra.isSome) +
          (v.GetContactsFromLastStep w).countP
            (fun cc => filedAs s.impl r.collision2 E cc && cc.extra.isSome) ≤ r.depth.length ∧
        r.depth.length ≤ r.position.length := by
  obtain ⟨hrep, -⟩ := UpdateCollisions_report v uninit s w hf hreq hworld hreg hok
  refine ⟨_, hrep E hE hEc hEd, ?_⟩
  have hg := groupContacts_grouped s.impl uninit (v.GetContactsFromLastStep w)
  have hne : NoEmptyEntry (groupContacts s.impl uninit (v.GetContactsFromLastStep w)) :=
    NoEmptyEntry.fileContacts s.impl uninit _ [] (fun _ _ h => absurd h (List.not_mem_nil _))
  have hlen : ∀ p, ((lookup2 (groupContacts s.impl uninit (v.GetContactsFromLastStep w)) E
      p).getD []).length = (v.GetContactsFromLastStep w).countP (filedAs s.impl E p) +
        (v.GetContactsFromLastStep w).countP (filedAs s.impl p E) := by
    intro p
    rw [groupContacts_filed, filedUnder_length, List.enum_map_snd]
  have hext : ∀ p, (v.GetContactsFromLastStep w).countP
        (fun cc => filedAs s.impl E p cc && cc.extra.isSome) +
      (v.GetContactsFromLastStep w).countP
        (fun cc => filedAs s.impl p E cc && cc.extra.isSome) ≤
      ((lookup2 (groupContacts s.impl uninit (v.GetContactsFromLastStep w)) E
        p).getD []).countP (fun c => c.extra.isSome) := by
    intro p
    rw [groupContacts_filed]
    have := filedUnder_extended s.impl uninit E p (v.GetContactsFromLastStep w).enum
    rw [List.enum_map_snd] at this
    exact this
  unfold expectedReport
  cases hfE : AMap.find (groupContacts s.impl uninit (v.GetContactsFromLastStep w)) E with
  | none =>
    have hl : ∀ p, lookup2 (groupContacts s.impl uninit (v.GetContactsFromLastStep w)) E p
        = none := by
      intro p
      unfold lookup2
      rw [hfE]
      rfl
    refine ⟨List.nodup_nil, ?_, ?_⟩
    · intro p
      have := hlen p
      rw [hl p] at this
      constructor
      · rintro ⟨r, hr, -⟩
        cases hr
      · intro h
        rw [← this] at h
        cases h
    · intro r hr
      cases hr
  | some inner =>
    have hnd := hg.keys.2 E inner (AMap.mem_of_find _ _ _ hfE)
    have hl : ∀ p q, (p, q) ∈ inner →
        lookup2 (groupContacts s.impl uninit (v.GetContactsFromLastStep w)) E p = some q := by
      intro p q hpq
      unfold lookup2
      rw [hfE]
      exact AMap.find_of_mem _ hnd _ _ hpq
    simp only [Option.getD_some]
    refine ⟨?_, ?_, ?_⟩
    · rw [List.map_map]
      exact hnd
    · intro p
      constructor
      · rintro ⟨r, hr, rfl⟩
        obtain ⟨⟨p, q⟩, hpq, rfl⟩ := List.mem_map.mp hr
        have h1 := hlen p
        rw [hl p q hpq] at h1
        show 0 < (v.GetContactsFromLastStep w).countP (filedAs s.impl E p) +
          (v.GetContactsFromLastStep w).countP (filedAs s.impl p E)
        rw [← h1]
        exact List.length_pos.mpr (hne E inner (AMap.mem_of_find _ _ _ hfE) p q hpq)
      · intro h
        rw [← hlen p] at h
        have hmem : ∃ c, c ∈ (lookup2 (groupContacts s.impl uninit
            (v.GetContactsFromLastStep w)) E p).getD [] :=
          List.exists_mem_of_length_pos h
        obtain ⟨c, hc⟩ := hmem
        obtain ⟨q, hq, -⟩ := mem_getD_of_lookup2 _ _ _ _ hc
        unfold lookup2 at hq
        rw [hfE] at hq
        exact ⟨expectedContact s.impl s.ecm E p q,
          List.mem_map.mpr ⟨(p, q), AMap.mem_of_find _ _ _ hq, rfl⟩, rfl⟩
    · intro r hr
      obtain ⟨⟨p, q⟩, hpq, rfl⟩ := List.mem_map.mp hr
      have h1 := hlen p
      have h2 := hext p
      rw [hl p q hpq] at h1 h2
      simp only [Option.getD_some] at h1 h2
      refine ⟨rfl, ?_, ?_, ?_, ?_, ?_⟩
      · show (q.map _).length = (v.GetContactsFromLastStep w).countP (filedAs s.impl E p) +
          (v.GetContactsFromLastStep w).countP (filedAs s.impl p E)
        rw [List.length_map]
        exact h1
      · show (q.filterMap _).length = (q.filterMap _).length
        rw [filterMap_extra_length (fun _ x => x.depth),
          filterMap_extra_length (polarisedWrench s.impl s.ecm E p)]
      · show (q.filterMap _).length = (q.filterMap _).length
        rw [filterMap_extra_length (polarisedWrench s.impl s.ecm E p),
          filterMap_extra_length (polarisedNormal s.impl E)]
      · show (v.GetContactsFromLastStep w).countP
              (fun cc => filedAs s.impl E p cc && cc.extra.isSome) +
            (v.GetContactsFromLastStep w).countP
              (fun cc => filedAs s.impl p E cc && cc.extra.isSome) ≤ (q.filterMap _).length
        rw [filterMap_extra_length (fun _ x => x.depth)]
        exact h2
      · show (q.filterMap _).length ≤ (q.map _).length
        rw [filterMap_extra_length (fun _ x => x.depth), List.length_map]
        exact List.countP_le_length _

/-- The report of entity 3 of `contactExample` for two raw contact points with
entity 4, the second without extended data. -/
theorem C6_witness :
    ∃ report, (UpdateCollisions (contactView twoContacts) uninitNull
        contactExample).ecm.contactSensorData 3 = some report ∧
      (report.map (fun r => r.collision2)).Nodup ∧
      (∀ p, (∃ r ∈ report, r.collision2 = p) ↔
        0 < ((contactView twoContacts).GetContactsFromLastStep 100).countP
            (filedAs contactExample.impl 3 p) +
          ((contactView twoContacts).GetContactsFromLastStep 100).countP
            (filedAs contactExample.impl p 3)) ∧
      ∀ r ∈ report, r.collision1 = 3 ∧
        r.position.length =
          ((contactView twoContacts).GetContactsFromLastStep 100).countP
              (filedAs contactExample.impl 3 r.collision2) +
            ((contactView twoContacts).GetContactsFromLastStep 100).countP
              (filedAs contactExample.impl r.collision2 3) ∧
        r.depth.length = r.wrench.length ∧ r.wrench.length = r.normal.length ∧
        ((contactView twoContacts).GetContactsFromLastStep 100).countP
            (fun cc => filedAs contactExample.impl 3 r.collision2 cc && cc.extra.isSome) +
          ((contactView twoContacts).GetContactsFromLastStep 100).countP
            (fun cc => filedAs contactExample.impl r.collision2 3 cc && cc.extra.isSome) ≤
          r.depth.length ∧
        r.depth.length ≤ r.position.length :=
  C6_one_record_per_partner (contactView twoContacts) uninitNull contactExample 100 3 rfl rfl
    (by decide) (by decide) (by decide) (by decide) rfl rfl

/-- The member `extra` is read uninitialised: of two contact points only the
first carries extended data, yet the record holds two depths, two wrenches and
two normals when the indeterminate value of the second is the pointer of the
first. -/
theorem UpdateCollisions_reads_uninitialised_extra :
    (twoContacts.map (fun cc => cc.extra.isSome)) = [true, false] ∧
      (UpdateCollisions (contactView twoContacts) uninitStale
          contactExample).ecm.contactSensorData 3 =
        some [⟨3, 4, [⟨1, 2, 3⟩, ⟨4, 5, 6⟩], [⟨0, 0, 1⟩, ⟨0, 0, 1⟩], [2, 2],
          [⟨"a", "b", ⟨⟨5, 0, 0⟩, ⟨0, 0, 0⟩⟩, ⟨⟨-5, 0, 0⟩, ⟨0, 0, 0⟩⟩⟩,
            ⟨"a", "b", ⟨⟨5, 0, 0⟩, ⟨0, 0, 0⟩⟩, ⟨⟨-5, 0, 0⟩, ⟨0, 0, 0⟩⟩⟩]⟩] := by
  decide

/-- C7 fails as stated: entity 3 is the entity of the second shape of the raw
record, yet every body-1 force in its report is the raw force and every normal
the raw normal; nothing is negated, because 3 is also the entity of the first
shape. -/
theorem C7_counterexample :
    selfContactExample.impl.collisionEntityMap 30 = some 3 ∧
      (UpdateCollisions (contactView selfContact) uninitNull
          selfContactExample).ecm.contactSensorData 3 =
        some [⟨3, 3, [⟨1, 2, 3⟩, ⟨1, 2, 3⟩], [⟨0, 0, 1⟩, ⟨0, 0, 1⟩], [2, 2],
          [⟨"a", "a", ⟨⟨5, 0, 0⟩, ⟨0, 0, 0⟩⟩, ⟨⟨-5, 0, 0⟩, ⟨0, 0, 0⟩⟩⟩,
            ⟨"a", "a", ⟨⟨5, 0, 0⟩, ⟨0, 0, 0⟩⟩, ⟨⟨-5, 0, 0⟩, ⟨0, 0, 0⟩⟩⟩]⟩] := by
  decide

/-- C7, as amended. On a tick on which contact data is requested, the world is
registered and no failure occurs, the report of an instrumented collision
entity is the expected report; in it a contact point with extended data has the
raw force as body-1 force, its negation as body-2 force and the raw normal when
the requester is the entity of the first shape, and otherwise, the requester
then being the entity of the second shape, the negated force as body-1 force,
the raw force as body-2 force and the negated normal. -/
theorem C7_polarity_follows_first_shape (v : EngineView)
    (uninit : Nat → Option ExtraContactData) (s : State) (w : WorldPtr) (r : Entity)
    (hf : s.fault = none) (hreq : s.ecm.contactSensorDataType = true)
    (hworld : s.ecm.EntityByComponents s.ecm.world ≠ kNullEntity)
    (hreg : AMap.find s.impl.entityWorldMap (s.ecm.EntityByComponents s.ecm.world) = some w)
    (hok : (UpdateCollisions v uninit s).fault = none)
    (hr : r ∈ s.ecm.entities) (hrc : s.ecm.collision r = true)
    (hrd : (s.ecm.contactSensorData r).isSome = true) :
    (UpdateCollisions v uninit s).ecm.contactSensorData r =
        some (expectedReport s.impl s.ecm
          (groupContacts s.impl uninit (v.GetContactsFromLastStep w)) r) ∧
      ∀ p q, (p, q) ∈
          (AMap.find (groupContacts s.impl uninit (v.GetContactsFromLastStep w)) r).getD [] →
        ∀ c ∈ q, ∀ x, c.extra = some x →
          (s.impl.collisionEntityMap c.point.collision1 = some r →
            polarisedWrench s.impl s.ecm r p c x =
                ⟨(s.ecm.name r).getD "", (s.ecm.name p).getD "", ⟨x.force, Vector3d.Zero⟩,
                  ⟨-x.force, Vector3d.Zero⟩⟩ ∧
              polarisedNormal s.impl r c x = x.normal) ∧
          (s.impl.collisionEntityMap c.point.collision1 ≠ some r →
            s.impl.collisionEntityMap c.point.collision2 = some r ∧
              polarisedWrench s.impl s.ecm r p c x =
                ⟨(s.ecm.name r).getD "", (s.ecm.name p).getD "", ⟨-x.force, Vector3d.Zero⟩,
                  ⟨x.force, Vector3d.Zero⟩⟩ ∧
              polarisedNormal s.impl r c x = -x.normal) := by
  obtain ⟨hrep, _⟩ := UpdateCollisions_report v uninit s w hf hreq hworld hreg hok
  have hg := groupContacts_grouped s.impl uninit (v.GetContactsFromLastStep w)
  refine ⟨hrep r hr hrc hrd, ?_⟩
  intro p q hpq c hc x _
  constructor
  · intro h1
    simp [polarisedWrench, polarisedNormal, h1]
  · intro h1
    refine ⟨?_, by simp [polarisedWrench, polarisedNormal, h1]⟩
    cases hfa : AMap.find (groupContacts s.impl uninit (v.GetContactsFromLastStep w)) r with
    | none => rw [hfa] at hpq; cases hpq
    | some inner =>
      rw [hfa] at hpq
      simp only [Option.getD_some] at hpq
      have hnd := hg.keys.2 r inner (AMap.mem_of_find _ _ _ hfa)
      have hl : lookup2 (groupContacts s.impl uninit (v.GetContactsFromLastStep w)) r p
          = some q := by
        unfold lookup2
        rw [hfa]
        exact AMap.find_of_mem _ hnd _ _ hpq
      rcases hg.ends r p q hl c hc with h | h
      · exact absurd h.1 h1
      · exact h.2

/-- The polarity rule on the report of entity 3 of `contactExample`. -/
theorem C7_witness :
    (UpdateCollisions (contactView oneContact) uninitNull contactExample).ecm.contactSensorData 4 =
        some (expectedReport contactExample.impl contactExample.ecm
          (groupContacts contactExample.impl uninitNull
            ((contactView oneContact).GetContactsFromLastStep 100)) 4) ∧
      ∀ p q, (p, q) ∈
          (AMap.find (groupContacts contactExample.impl uninitNull
            ((contactView oneContact).GetContactsFromLastStep 100)) 4).getD [] →
        ∀ c ∈ q, ∀ x, c.extra = some x →
          (contactExample.impl.collisionEntityMap c.point.collision1 = some 4 →
            polarisedWrench contactExample.impl contactExample.ecm 4 p c x =
                ⟨(contactExample.ecm.name 4).getD "", (contactExample.ecm.name p).getD "",
                  ⟨x.force, Vector3d.Zero⟩, ⟨-x.force, Vector3d.Zero⟩⟩ ∧
              polarisedNormal contactExample.impl 4 c x = x.normal) ∧
          (contactExample.impl.collisionEntityMap c.point.collision1 ≠ some 4 →
            contactExample.impl.collisionEntityMap c.point.collision2 = some 4 ∧
              polarisedWrench contactExample.impl contactExample.ecm 4 p c x =
                ⟨(contactExample.ecm.name 4).getD "", (contactExample.ecm.name p).getD "",
                  ⟨-x.force, Vector3d.Zero⟩, ⟨x.force, Vector3d.Zero⟩⟩ ∧
              polarisedNormal contactExample.impl 4 c x = -x.normal) :=
  C7_polarity_follows_first_shape (contactView oneContact) uninitNull contactExample 100 4 rfl rfl
    (by decide) (by decide) (by decide) (by decide) rfl rfl

/-- C8 fails as stated: contact data is requested and the engine reports no
contact, yet after the tick entity 3 still holds the report of an earlier tick,
because no world entity exists and `UpdateCollisions` returns early. -/
theorem C8_counterexample :
    noWorldExample.ecm.contactSensorDataType = true ∧
      (∀ w, (contactView []).GetContactsFromLastStep w = []) ∧
      (UpdateCollisions (contactView []) uninitNull noWorldExample).fault = none ∧
      (UpdateCollisions (contactView []) uninitNull noWorldExample).ecm.contactSensorData 3 =
        some [⟨3, 4, [⟨1, 2, 3⟩], [], [], []⟩] :=
  ⟨rfl, fun _ => rfl, by decide, by decide⟩

/-- C8, as amended. On a tick on which contact data is requested, the world
entity exists and is registered and no failure occurs, the report of an
instrumented collision entity is the expected report of the contacts of this
tick; it is the same whatever the reports held before; and it is empty when no
raw contact involves the entity. -/
theorem C8_report_rebuilt_each_tick (v : EngineView) (uninit : Nat → Option ExtraContactData)
    (s : State) (w : WorldPtr) (r : Entity) (hf : s.fault = none)
    (hreq : s.ecm.contactSensorDataType = true)
    (hworld : s.ecm.EntityByComponents s.ecm.world ≠ kNullEntity)
    (hreg : AMap.find s.impl.entityWorldMap (s.ecm.EntityByComponents s.ecm.world) = some w)
    (hok : (UpdateCollisions v uninit s).fault = none)
    (hr : r ∈ s.ecm.entities) (hrc : s.ecm.collision r = true)
    (hrd : (s.ecm.contactSensorData r).isSome = true) :
    (UpdateCollisions v uninit s).ecm.contactSensorData r =
        some (expectedReport s.impl s.ecm
          (groupContacts s.impl uninit (v.GetContactsFromLastStep w)) r) ∧
      (∀ before : FMap Entity Contacts,
        (∀ e, (before e).isSome = (s.ecm.contactSensorData e).isSome) →
        (UpdateCollisions v uninit
          { s with ecm := { s.ecm with contactSensorData := before } }).fault = none →
        (UpdateCollisions v uninit
          { s with ecm := { s.ecm with contactSensorData := before } }).ecm.contactSensorData r =
          (UpdateCollisions v uninit s).ecm.contactSensorData r) ∧
      ((∀ cc ∈ v.GetContactsFromLastStep w,
          s.impl.collisionEntityMap cc.point.collision1 ≠ some r ∧
            s.impl.collisionEntityMap cc.point.collision2 ≠ some r) →
        (UpdateCollisions v uninit s).ecm.contactSensorData r = some []) := by
  obtain ⟨hrep, _⟩ := UpdateCollisions_report v uninit s w hf hreq hworld hreg hok
  refine ⟨hrep r hr hrc hrd, ?_, ?_⟩
  · intro before hdom hok'
    obtain ⟨hrep', _⟩ := UpdateCollisions_report v uninit
      { s with ecm := { s.ecm with contactSensorData := before } } w hf hreq hworld hreg hok'
    rw [hrep r hr hrc hrd]
    have := hrep' r hr hrc ((hdom r).trans hrd)
    rw [this]
    rfl
  · intro hnone
    rw [hrep r hr hrc hrd]
    unfold expectedReport
    rw [groupContacts_no_contact s.impl uninit _ r hnone]
    rfl

/-- The report of entity 3 of `contactExample` is rebuilt from the contacts of the
tick. -/
theorem C8_witness :
    (UpdateCollisions (contactView oneContact) uninitNull contactExample).ecm.contactSensorData 3 =
        some (expectedReport contactExample.impl contactExample.ecm
          (groupContacts contactExample.impl uninitNull
            ((contactView oneContact).GetContactsFromLastStep 100)) 3) ∧
      (∀ before : FMap Entity Contacts,
        (∀ e, (before e).isSome = (contactExample.ecm.contactSensorData e).isSome) →
        (UpdateCollisions (contactView oneContact) uninitNull
          { contactExample with
            ecm := { contactExample.ecm with contactSensorData := before } }).fault = none →
        (UpdateCollisions (contactView oneContact) uninitNull
          { contactExample with
            ecm := { contactExample.ecm with contactSensorData := before }
              }).ecm.contactSensorData 3 =
          (UpdateCollisions (contactView oneContact) uninitNull
            contactExample).ecm.contactSensorData 3) ∧
      ((∀ cc ∈ (contactView oneContact).GetContactsFromLastStep 100,
          contactExample.impl.collisionEntityMap cc.point.collision1 ≠ some 3 ∧
            contactExample.impl.collisionEntityMap cc.point.collision2 ≠ some 3) →
        (UpdateCollisions (contactView oneContact) uninitNull
          contactExample).ecm.contactSensorData 3 = some []) :=
  C8_report_rebuilt_each_tick (contactView oneContact) uninitNull contactExample 100 3 rfl rfl
    (by decide) (by decide) (by decide) (by decide) rfl rfl

theorem UpdateSim_ends_with_collisions (v : EngineView) (uninit : Nat → Option ExtraContactData)
    (info : UpdateInfo) (s : State) : ∃ s', UpdateSim v uninit info s = UpdateCollisions v uninit s' := by
  unfold UpdateSim
  by_cases hf : s.fault.isSome = true
  · refine ⟨s, ?_⟩
    rw [if_pos hf]
    unfold UpdateCollisions
    rw [if_pos hf]
  · rw [if_neg hf]
    exact ⟨_, rfl⟩

/-- C9. With an engine available, a tick is `CreatePhysicsEntities`, then
`UpdatePhysics`, then `Step` unless paused, then `UpdateSim`, which ends with
`UpdateCollisions`, then `RemovePhysicsEntities`; the registry that enters the
reaper still holds every entry the tick started with; and the engine log of
the tick is construction calls, then command calls, then step calls, then
removal calls, the read-back seeing the log without any removal. -/
theorem C9_phases_in_fixed_order (eng : Engine) (uninit : Nat → Option ExtraContactData)
    (info : UpdateInfo) (s : State) (he : s.impl.engine = true) :
    let s1 := CreatePhysicsEntities eng (s.each (setSimulatedTime info))
    let s2 := UpdatePhysics (eng.view s1.calls) info s1
    let s3 := if (!info.paused) = true then Step info.dt s2 else s2
    let s4 := UpdateSim (eng.view s3.calls) uninit info s3
    Update eng uninit info s = RemovePhysicsEntities s4 ∧
      (∃ s', s4 = UpdateCollisions (eng.view s3.calls) uninit s') ∧
      RegistryLE s.impl s4.impl ∧
      ∃ a b c d, s1.calls = s.calls ++ a ∧ s2.calls = s.calls ++ a ++ b ∧
        s3.calls = s.calls ++ a ++ b ++ c ∧ s4.calls = s.calls ++ a ++ b ++ c ∧
        (Update eng uninit info s).calls = s.calls ++ a ++ b ++ c ++ d ∧
        (∀ x ∈ a, x.kind = CallKind.construct) ∧ (∀ x ∈ b, x.kind = CallKind.command) ∧
        (∀ x ∈ c, x.kind = CallKind.step) ∧ (∀ x ∈ d, x.kind = CallKind.remove) := by
  intro s1 s2 s3 s4
  refine ⟨Update_eq eng uninit info s he, UpdateSim_ends_with_collisions _ _ _ _, ?_, ?_⟩
  · have h0 := (each_frame (setSimulatedTime_frame info) s ⟨rfl, rfl⟩).1
    have h1 := (CreatePhysicsEntities_advance eng (s.each (setSimulatedTime info))).1
    have h2 := (UpdatePhysics_advance (eng.view s1.calls) info s1).1
    have h3 : RegistryLE s2.impl s3.impl := by
      show RegistryLE s2.impl (if (!info.paused) = true then Step info.dt s2 else s2).impl
      split
      · exact (Step_advance info.dt s2).1
      · exact RegistryLE.registry_refl _
    have h4 := (UpdateSim_frame (eng.view s3.calls) uninit info s3).1
    rw [h0] at h1
    have h5 : RegistryLE s3.impl s4.impl := by
      show RegistryLE s3.impl (UpdateSim (eng.view s3.calls) uninit info s3).impl
      rw [h4]; exact RegistryLE.registry_refl _
    exact ((h1.registry_trans h2).registry_trans h3).registry_trans h5
  · obtain ⟨a, b, c, d, h1, h2, h3, h4, k⟩ := Update_calls eng uninit info s he
    refine ⟨a, b, c, d, h2, h3, h4, ?_, h1, k⟩
    exact ((UpdateSim_frame (eng.view s3.calls) uninit info s3).2).trans h4

/-- The phases of one tick of `tickExample`. -/
theorem C9_witness :
    let s1 := CreatePhysicsEntities (tickEngine stillView) (tickExample.each (setSimulatedTime ⟨-5, 10, false⟩))
    let s2 := UpdatePhysics ((tickEngine stillView).view s1.calls) ⟨-5, 10, false⟩ s1
    let s3 := if (!(⟨-5, 10, false⟩ : UpdateInfo).paused) = true then Step (-5) s2 else s2
    let s4 := UpdateSim ((tickEngine stillView).view s3.calls) uninitNull ⟨-5, 10, false⟩ s3
    Update (tickEngine stillView) uninitNull ⟨-5, 10, false⟩ tickExample = RemovePhysicsEntities s4 ∧
      (∃ s', s4 = UpdateCollisions ((tickEngine stillView).view s3.calls) uninitNull s') ∧
      RegistryLE tickExample.impl s4.impl ∧
      ∃ a b c d, s1.calls = tickExample.calls ++ a ∧ s2.calls = tickExample.calls ++ a ++ b ∧
        s3.calls = tickExample.calls ++ a ++ b ++ c ∧
        s4.calls = tickExample.calls ++ a ++ b ++ c ∧
        (Update (tickEngine stillView) uninitNull ⟨-5, 10, false⟩ tickExample).calls =
          tickExample.calls ++ a ++ b ++ c ++ d ∧
        (∀ x ∈ a, x.kind = CallKind.construct) ∧ (∀ x ∈ b, x.kind = CallKind.command) ∧
        (∀ x ∈ c, x.kind = CallKind.step) ∧ (∀ x ∈ d, x.kind = CallKind.remove) :=
  C9_phases_in_fixed_order (tickEngine stillView) uninitNull ⟨-5, 10, false⟩ tickExample rfl

theorem filter_step_of_kind (l : List EngineCall) (k : CallKind) (hk : k ≠ CallKind.step)
    (h : ∀ x ∈ l, x.kind = k) : l.filter (fun x => decide (x.kind = CallKind.step)) = [] := by
  rw [List.filter_eq_nil_iff]
  intro x hx
  simp [h x hx, hk]

theorem filter_step_of_step (l : List EngineCall) (h : ∀ x ∈ l, x.kind = CallKind.step) :
    l.filter (fun x => decide (x.kind = CallKind.step)) = l := by
  rw [List.filter_eq_self]
  intro x hx
  simp [h x hx]

theorem fault_of_later (f : State → State) (s : State) (hskip : s.fault.isSome = true → f s = s)
    (h : (f s).fault = none) : s.fault = none := by
  cases hs : s.fault with
  | none => rfl
  | some x =>
    have := hskip (by simp [hs])
    rw [this, hs] at h
    cases h

/-- C10. With an engine available and a tick that ends without failure,
whatever the time delta: materialisation, commands, read-back and reaping run
whether or not the tick is paused; when it is paused no step call is sent; when
it is not, the step calls of the tick are one call per registered world, in the
order of the world map, each with the given delta. -/
theorem C10_worlds_stepped_once_unless_paused (eng : Engine)
    (uninit : Nat → Option ExtraContactData) (info : UpdateInfo) (s : State)
    (he : s.impl.engine = true) (hok : (Update eng uninit info s).fault = none) :
    let s1 := CreatePhysicsEntities eng (s.each (setSimulatedTime info))
    let s2 := UpdatePhysics (eng.view s1.calls) info s1
    (info.paused = true →
      Update eng uninit info s =
          RemovePhysicsEntities (UpdateSim (eng.view s2.calls) uninit info s2) ∧
        (Update eng uninit info s).calls.filter (fun x => decide (x.kind = CallKind.step)) =
          s.calls.filter (fun x => decide (x.kind = CallKind.step))) ∧
    (info.paused = false →
      Update eng uninit info s =
          RemovePhysicsEntities
            (UpdateSim (eng.view (Step info.dt s2).calls) uninit info (Step info.dt s2)) ∧
        (Step info.dt s2).calls =
          s2.calls ++ s2.impl.entityWorldMap.map (fun world => EngineCall.Step world.2 info.dt) ∧
        (Update eng uninit info s).calls.filter (fun x => decide (x.kind = CallKind.step)) =
          s.calls.filter (fun x => decide (x.kind = CallKind.step)) ++
            s2.impl.entityWorldMap.map (fun world => EngineCall.Step world.2 info.dt)) := by
  intro s1 s2
  have hU := Update_eq eng uninit info s he
  obtain ⟨a, b, c, d, h1, _, h3, h4, ka, kb, kc, kd⟩ := Update_calls eng uninit info s he
  have hfilter : (Update eng uninit info s).calls.filter
      (fun x => decide (x.kind = CallKind.step)) =
      s.calls.filter (fun x => decide (x.kind = CallKind.step)) ++ c := by
    rw [h1]
    simp only [List.filter_append]
    rw [filter_step_of_kind a _ (by decide) ka, filter_step_of_kind b _ (by decide) kb,
      filter_step_of_kind d _ (by decide) kd, filter_step_of_step c kc]
    simp
  constructor
  · intro hp
    have hs3 : (if (!info.paused) = true then Step info.dt s2 else s2) = s2 := by simp [hp]
    rw [hs3] at hU h4
    refine ⟨hU, ?_⟩
    have hc : c = [] := by
      have : s2.calls = s2.calls ++ c := by
        conv_rhs => rw [h3]
        exact h4
      exact (List.self_eq_append_right.mp this)
    rw [hfilter, hc, List.append_nil]
  · intro hp
    have hs3 : (if (!info.paused) = true then Step info.dt s2 else s2) = Step info.dt s2 := by
      simp [hp]
    rw [hs3] at hU h4
    -- the tick did not fail, hence the command phase did not
    have hf4 : (UpdateSim (eng.view (Step info.dt s2).calls) uninit info (Step info.dt s2)).fault
        = none := by
      apply fault_of_later RemovePhysicsEntities
      · intro h; unfold RemovePhysicsEntities; rw [if_pos h]
      · rw [← hU]; exact hok
    have hf3 : (Step info.dt s2).fault = none := by
      apply fault_of_later (UpdateSim (eng.view (Step info.dt s2).calls) uninit info)
      · intro h; unfold UpdateSim; rw [if_pos h]
      · exact hf4
    have hf2 : s2.fault = none := by
      apply fault_of_later (Step info.dt)
      · intro h; unfold Step; rw [if_pos h]
      · exact hf3
    have hstep : (Step info.dt s2).calls =
        s2.calls ++ s2.impl.entityWorldMap.map (fun world => EngineCall.Step world.2 info.dt) := by
      unfold Step
      rw [if_neg (by simp [hf2])]
      rfl
    refine ⟨hU, hstep, ?_⟩
    have hc : c = s2.impl.entityWorldMap.map (fun world => EngineCall.Step world.2 info.dt) := by
      have : s2.calls ++ c =
          s2.calls ++ s2.impl.entityWorldMap.map (fun world => EngineCall.Step world.2 info.dt) := by
        rw [← hstep, h4, h3]
      exact List.append_cancel_left this
    rw [hfilter, hc]

/-- One tick of `tickExample` with the negative delta -5 sends one step call per
world. -/
theorem C10_witness :
    let s1 := CreatePhysicsEntities (tickEngine stillView)
      (tickExample.each (setSimulatedTime ⟨-5, 10, false⟩))
    let s2 := UpdatePhysics ((tickEngine stillView).view s1.calls) ⟨-5, 10, false⟩ s1
    ((⟨-5, 10, false⟩ : UpdateInfo).paused = true →
      Update (tickEngine stillView) uninitNull ⟨-5, 10, false⟩ tickExample =
          RemovePhysicsEntities
            (UpdateSim ((tickEngine stillView).view s2.calls) uninitNull ⟨-5, 10, false⟩ s2) ∧
        (Update (tickEngine stillView) uninitNull ⟨-5, 10, false⟩ tickExample).calls.filter
            (fun x => decide (x.kind = CallKind.step)) =
          tickExample.calls.filter (fun x => decide (x.kind = CallKind.step))) ∧
    ((⟨-5, 10, false⟩ : UpdateInfo).paused = false →
      Update (tickEngine stillView) uninitNull ⟨-5, 10, false⟩ tickExample =
          RemovePhysicsEntities
            (UpdateSim ((tickEngine stillView).view (Step (-5) s2).calls) uninitNull
              ⟨-5, 10, false⟩ (Step (-5) s2)) ∧
        (Step (-5) s2).calls =
          s2.calls ++ s2.impl.entityWorldMap.map (fun world => EngineCall.Step world.2 (-5)) ∧
        (Update (tickEngine stillView) uninitNull ⟨-5, 10, false⟩ tickExample).calls.filter
            (fun x => decide (x.kind = CallKind.step)) =
          tickExample.calls.filter (fun x => decide (x.kind = CallKind.step)) ++
            s2.impl.entityWorldMap.map (fun world => EngineCall.Step world.2 (-5))) :=
  C10_worlds_stepped_once_unless_paused (tickEngine stillView) uninitNull ⟨-5, 10, false⟩
    tickExample rfl (by decide)

theorem overlapCalls_eq_enum (setter : Nat → Scalar → EngineCall) (data : List Scalar)
    (dofs : Nat) :
    overlapCalls setter data dofs = (data.take dofs).enum.map (fun ix => setter ix.1 ix.2) := by
  unfold overlapCalls
  apply List.ext_getElem
  · simp [Nat.min_comm]
  · intro i h1 h2
    simp only [List.length_map, List.length_range] at h1
    have hi : i < data.length := lt_of_lt_of_le h1 (Nat.min_le_left _ _)
    simp [List.getD_eq_getElem, hi]

theorem callsOf_append (k : Setter) (a b : List EngineCall) :
    callsOf k (a ++ b) = callsOf k a ++ callsOf k b := by
  unfold callsOf
  exact List.filter_append _ _

theorem callsOf_overlap (k k' : Setter) (j : JointPtr) (data : List Scalar) (dofs : Nat) :
    callsOf k (overlapCalls (k'.call j) data dofs) =
      if k = k' then overlapCalls (k'.call j) data dofs else [] := by
  unfold callsOf overlapCalls
  by_cases h : k = k'
  · subst h
    rw [if_pos rfl]
    apply List.filter_eq_self.mpr
    intro c hc
    obtain ⟨i, -, rfl⟩ := List.mem_map.mp hc
    cases k <;> rfl
  · rw [if_neg h]
    apply List.filter_eq_nil_iff.mpr
    intro c hc
    obtain ⟨i, -, rfl⟩ := List.mem_map.mp hc
    cases k <;> cases k' <;> first | exact absurd rfl h | simp [Setter.call, EngineCall.setter]

theorem callsOf_nil (k : Setter) : callsOf k [] = [] := rfl

theorem callsOf_setVelocity (k : Setter) (j : JointPtr) (data : List Scalar) (dofs : Nat) :
    callsOf k (overlapCalls (EngineCall.SetVelocity j) data dofs) =
      if k = Setter.velocity then overlapCalls (EngineCall.SetVelocity j) data dofs else [] :=
  callsOf_overlap k Setter.velocity j data dofs

theorem callsOf_setPosition (k : Setter) (j : JointPtr) (data : List Scalar) (dofs : Nat) :
    callsOf k (overlapCalls (EngineCall.SetPosition j) data dofs) =
      if k = Setter.position then overlapCalls (EngineCall.SetPosition j) data dofs else [] :=
  callsOf_overlap k Setter.position j data dofs

theorem callsOf_setForce (k : Setter) (j : JointPtr) (data : List Scalar) (dofs : Nat) :
    callsOf k (overlapCalls (EngineCall.SetForce j) data dofs) =
      if k = Setter.force then overlapCalls (EngineCall.SetForce j) data dofs else [] :=
  callsOf_overlap k Setter.force j data dofs

theorem callsOf_setVelocityCommand (k : Setter) (j : JointPtr) (data : List Scalar)
    (dofs : Nat) :
    callsOf k (overlapCalls (EngineCall.SetVelocityCommand j) data dofs) =
      if k = Setter.velocityCommand then overlapCalls (EngineCall.SetVelocityCommand j) data dofs
      else [] :=
  callsOf_overlap k Setter.velocityCommand j data dofs

theorem jointCommandCalls_callsOf (v : EngineView) (ecm : ECM) (e : Entity) (j : JointPtr)
    (k : Setter) :
    callsOf k (jointCommandCalls v ecm e j) =
      match jointInput ecm e k with
      | some input =>
        if inputApplied ecm e k then
          (input.take (v.GetDegreesOfFreedom j)).enum.map (fun ix => k.call j ix.1 ix.2)
        else []
      | none => [] := by
  unfold jointCommandCalls
  simp only [callsOf_append]
  cases hvr : ecm.jointVelocityReset e <;> cases hpr : ecm.jointPositionReset e <;>
    cases hfc : ecm.jointForceCmd e <;> cases hvc : ecm.jointVelocityCmd e <;>
    simp only [callsOf_nil, callsOf_setVelocity, callsOf_setPosition, callsOf_setForce,
      callsOf_setVelocityCommand] <;>
    cases k <;>
    simp [jointInput, inputApplied, hvr, hpr, hfc, hvc, overlapCalls_eq_enum, Setter.call]

theorem overlapCalls_target (k : Setter) (j : JointPtr) (data : List Scalar) (dofs : Nat) :
    ∀ c ∈ overlapCalls (k.call j) data dofs, ∃ i, c.target = some (j, i) ∧ i < dofs := by
  intro c hc
  unfold overlapCalls at hc
  obtain ⟨i, hi, rfl⟩ := List.mem_map.mp hc
  have hlt : i < dofs := lt_of_lt_of_le (List.mem_range.mp hi) (Nat.min_le_right _ _)
  exact ⟨i, by cases k <;> rfl, hlt⟩

theorem jointCommandCalls_target (v : EngineView) (ecm : ECM) (e : Entity) (j : JointPtr) :
    ∀ c ∈ jointCommandCalls v ecm e j,
      ∃ i, c.target = some (j, i) ∧ i < v.GetDegreesOfFreedom j := by
  intro c hc
  unfold jointCommandCalls at hc
  simp only [List.mem_append] at hc
  rcases hc with (hc | hc) | hc
  · split at hc
    · exact overlapCalls_target Setter.velocity j _ _ c hc
    · cases hc
  · split at hc
    · exact overlapCalls_target Setter.position j _ _ c hc
    · cases hc
  · split at hc
    · exact overlapCalls_target Setter.force j _ _ c hc
    · split at hc
      · split at hc
        · cases hc
        · exact overlapCalls_target Setter.velocityCommand j _ _ c hc
      · cases hc

theorem batteryOffCalls_target (v : EngineView) (j : JointPtr) :
    ∀ c ∈ batteryOffCalls v j, ∃ i, c.target = some (j, i) ∧ i < v.GetDegreesOfFreedom j := by
  intro c hc
  unfold batteryOffCalls at hc
  obtain ⟨i, hi, hc⟩ := List.mem_flatMap.mp hc
  have hlt := List.mem_range.mp hi
  simp only [List.mem_cons, List.mem_singleton, List.not_mem_nil, or_false] at hc
  rcases hc with rfl | rfl
  · exact ⟨i, rfl, hlt⟩
  · exact ⟨i, rfl, hlt⟩

/-- C11 fails as stated: the joint carries a force command and a velocity
command of two entries and has two DOFs, and the velocity-command setter is
called for no index. -/
theorem C11_counterexample :
    forceAndVelocityExample.ecm.jointVelocityCmd 4 = some [8, 8] ∧
      stillView.GetDegreesOfFreedom 9 = 2 ∧
      (UpdatePhysics stillView ⟨1, 10, false⟩ forceAndVelocityExample).calls =
        [EngineCall.SetForce 9 0 7, EngineCall.SetForce 9 1 7] := by
  decide

/-- C11, as amended. A registered joint with handle `j`. When its model is not
off, the calls of each setter sent for the joint are: for an input that is
applied (a reset or the force command, or the velocity command next to no
force command and no velocity reset), one call per entry of the input among its
first `d` entries, in order, with that index and that entry, `d` being the DOF
count; none for an input that is absent or not applied. Whether off or not,
every call sent for the joint addresses `j` at an index below `d`. The engine
log of `UpdatePhysics` is these per-joint calls in enumeration order, followed
by calls that address no joint. -/
theorem C11_inputs_applied_over_overlap (v : EngineView) (info : UpdateInfo) (s : State)
    (e : Entity) (j : JointPtr) (hf : s.fault = none) (hjoint : s.ecm.joint e = true)
    (hname : (s.ecm.name e).isSome = true) (hreg : s.impl.entityJointMap e = some j) :
    (((s.each batteryState).impl.entityOffMap (s.ecm.parentOf e)).getD false = false →
      ∀ k, callsOf k (jointCalls v (s.each batteryState) e) =
        match jointInput s.ecm e k with
        | some input =>
          if inputApplied s.ecm e k then
            (input.take (v.GetDegreesOfFreedom j)).enum.map (fun ix => k.call j ix.1 ix.2)
          else []
        | none => []) ∧
    (∀ c ∈ jointCalls v (s.each batteryState) e,
      ∃ i, c.target = some (j, i) ∧ i < v.GetDegreesOfFreedom j) ∧
    ∃ rest, (UpdatePhysics v info s).calls =
        s.calls ++ s.ecm.entities.flatMap (jointCalls v (s.each batteryState)) ++ rest ∧
      ∀ c ∈ rest, c.onJoint = false := by
  have hB := each_field (fun x : State => (x.ecm, x.calls, x.fault, x.impl.entityJointMap,
    x.impl.entityLinkMap)) batteryState_frame s
  simp only [Prod.mk.injEq] at hB
  obtain ⟨b1, _, _, b4, _⟩ := hB
  refine ⟨?_, ?_, UpdatePhysics_joint_log v info s hf⟩
  · intro hon k
    have hcalls : jointCalls v (s.each batteryState) e = jointCommandCalls v s.ecm e j := by
      unfold jointCalls
      rw [b1, b4, hreg]
      simp only [hjoint, hname, Bool.and_self, if_true, hon, Bool.false_eq_true, if_false]
    rw [hcalls]
    exact jointCommandCalls_callsOf v s.ecm e j k
  · intro c hc
    unfold jointCalls at hc
    rw [b1, b4, hreg] at hc
    simp only [hjoint, hname, Bool.and_self, if_true] at hc
    split at hc
    · exact batteryOffCalls_target v j c hc
    · exact jointCommandCalls_target v s.ecm e j c hc

/-- The force command of three entries on the two-DOF joint of
`longForceExample` is applied over its first two entries. -/
theorem C11_witness :
    (((longForceExample.each batteryState).impl.entityOffMap
        (longForceExample.ecm.parentOf 4)).getD false = false →
      ∀ k, callsOf k (jointCalls stillView (longForceExample.each batteryState) 4) =
        match jointInput longForceExample.ecm 4 k with
        | some input =>
          if inputApplied longForceExample.ecm 4 k then
            (input.take (stillView.GetDegreesOfFreedom 9)).enum.map
              (fun ix => k.call 9 ix.1 ix.2)
          else []
        | none => []) ∧
    (∀ c ∈ jointCalls stillView (longForceExample.each batteryState) 4,
      ∃ i, c.target = some (9, i) ∧ i < stillView.GetDegreesOfFreedom 9) ∧
    ∃ rest, (UpdatePhysics stillView ⟨1, 10, false⟩ longForceExample).calls =
        longForceExample.calls ++
          longForceExample.ecm.entities.flatMap
            (jointCalls stillView (longForceExample.each batteryState)) ++ rest ∧
      ∀ c ∈ rest, c.onJoint = false :=
  C11_inputs_applied_over_overlap stillView ⟨1, 10, false⟩ longForceExample 4 9 rfl rfl rfl rfl

/-- C12. A registered joint of a model that is not off, carrying a force
command and a velocity command: the visit of the joint applies the resets that
are present and then sets the force from the command over the overlap of its
length and the DOF count; it sends no velocity command; the engine log of
`UpdatePhysics` is these per-joint calls in enumeration order, followed by
calls that address no joint. -/
theorem C12_force_command_wins (v : EngineView) (info : UpdateInfo) (s : State) (e : Entity)
    (j : JointPtr) (force cmd : List Scalar) (hf : s.fault = none)
    (hjoint : s.ecm.joint e = true) (hname : (s.ecm.name e).isSome = true)
    (hreg : s.impl.entityJointMap e = some j)
    (hon : ((s.each batteryState).impl.entityOffMap (s.ecm.parentOf e)).getD false = false)
    (hforce : s.ecm.jointForceCmd e = some force)
    (hcmd : s.ecm.jointVelocityCmd e = some cmd) :
    callsOf Setter.force (jointCalls v (s.each batteryState) e) =
        (List.range (min force.length (v.GetDegreesOfFreedom j))).map
          (fun i => EngineCall.SetForce j i (force.getD i 0)) ∧
      callsOf Setter.velocityCommand (jointCalls v (s.each batteryState) e) = [] ∧
      (∀ j' i x, EngineCall.SetVelocityCommand j' i x ∉ jointCalls v (s.each batteryState) e) ∧
      ∃ rest, (UpdatePhysics v info s).calls =
          s.calls ++ s.ecm.entities.flatMap (jointCalls v (s.each batteryState)) ++ rest ∧
        ∀ c ∈ rest, c.onJoint = false := by
  have hB := each_field (fun x : State => (x.ecm, x.calls, x.fault, x.impl.entityJointMap,
    x.impl.entityLinkMap)) batteryState_frame s
  simp only [Prod.mk.injEq] at hB
  obtain ⟨b1, _, _, b4, _⟩ := hB
  have hcalls : jointCalls v (s.each batteryState) e = jointCommandCalls v s.ecm e j := by
    unfold jointCalls
    rw [b1, b4, hreg]
    simp only [hjoint, hname, Bool.and_self, if_true, hon, Bool.false_eq_true, if_false]
  have hF := jointCommandCalls_callsOf v s.ecm e j Setter.force
  have hV := jointCommandCalls_callsOf v s.ecm e j Setter.velocityCommand
  simp only [jointInput, inputApplied, hforce, hcmd, Option.isNone_some, Bool.false_and,
    Bool.false_eq_true, if_false, if_true] at hF hV
  refine ⟨?_, ?_, ?_, UpdatePhysics_joint_log v info s hf⟩
  · rw [hcalls, hF, ← overlapCalls_eq_enum]
    rfl
  · rw [hcalls, hV]
  · intro j' i x hmem
    have : EngineCall.SetVelocityCommand j' i x ∈
        callsOf Setter.velocityCommand (jointCalls v (s.each batteryState) e) := by
      unfold callsOf
      exact List.mem_filter.mpr ⟨hmem, by simp [EngineCall.setter]⟩
    rw [hcalls, hV] at this
    cases this

/-- The force command wins on the joint of `forceAndVelocityExample`. -/
theorem C12_witness :
    callsOf Setter.force
        (jointCalls stillView (forceAndVelocityExample.each batteryState) 4) =
        (List.range (min [7, 7].length (stillView.GetDegreesOfFreedom 9))).map
          (fun i => EngineCall.SetForce 9 i (([7, 7] : List Scalar).getD i 0)) ∧
      callsOf Setter.velocityCommand
        (jointCalls stillView (forceAndVelocityExample.each batteryState) 4) = [] ∧
      (∀ j' i x, EngineCall.SetVelocityCommand j' i x ∉
        jointCalls stillView (forceAndVelocityExample.each batteryState) 4) ∧
      ∃ rest, (UpdatePhysics stillView ⟨1, 10, false⟩ forceAndVelocityExample).calls =
          forceAndVelocityExample.calls ++
            forceAndVelocityExample.ecm.entities.flatMap
              (jointCalls stillView (forceAndVelocityExample.each batteryState)) ++ rest ∧
        ∀ c ∈ rest, c.onJoint = false :=
  C12_force_command_wins stillView ⟨1, 10, false⟩ forceAndVelocityExample 4 9 [7, 7] [8, 8]
    rfl rfl rfl rfl (by decide) rfl rfl

theorem each_pointwise {α : Type} (get : State → FMap Entity α) (upd : Option α → Option α)
    (visit : State → Entity → State)
    (hv : ∀ st e e', get (visit st e) e' = if e' = e then upd (get st e) else get st e')
    (hfault : ∀ st e, (visit st e).fault = st.fault) (hidem : ∀ x, upd (upd x) = upd x)
    (es : List Entity) (st : State) (hf : st.fault = none) (e' : Entity) :
    get (es.foldl (fun x e => if x.fault.isSome then x else visit x e) st) e' =
      if e' ∈ es then upd (get st e') else get st e' := by
  induction es generalizing st with
  | nil => simp
  | cons e es ih =>
    rw [List.foldl_cons, if_neg (by simp [hf]), ih (visit st e) ((hfault st e).trans hf), hv]
    by_cases h1 : e' = e
    · subst h1
      by_cases h2 : e' ∈ es
      · simp [h2, hidem]
      · simp [h2]
    · by_cases h2 : e' ∈ es
      · simp [h1, h2]
      · simp [h1, h2]

theorem fillZero_idem (d : List Scalar) : fillZero (fillZero d) = fillZero d := by
  unfold fillZero
  simp

theorem clearJointPositionReset_at (st : State) (e e' : Entity) :
    (clearJointPositionReset st e).ecm.jointPositionReset e' =
      if e' = e then none else st.ecm.jointPositionReset e' := by
  unfold clearJointPositionReset
  cases h : st.ecm.jointPositionReset e with
  | none =>
    by_cases he : e' = e
    · subst he; simp [h]
    · simp [he]
  | some x =>
    by_cases he : e' = e
    · subst he; simp [FMap.erase]
    · simp [FMap.erase, he]

theorem clearJointVelocityReset_at (st : State) (e e' : Entity) :
    (clearJointVelocityReset st e).ecm.jointVelocityReset e' =
      if e' = e then none else st.ecm.jointVelocityReset e' := by
  unfold clearJointVelocityReset
  cases h : st.ecm.jointVelocityReset e with
  | none =>
    by_cases he : e' = e
    · subst he; simp [h]
    · simp [he]
  | some x =>
    by_cases he : e' = e
    · subst he; simp [FMap.erase]
    · simp [FMap.erase, he]

theorem clearJointForceCmd_at (st : State) (e e' : Entity) :
    (clearJointForceCmd st e).ecm.jointForceCmd e' =
      if e' = e then (st.ecm.jointForceCmd e).map fillZero else st.ecm.jointForceCmd e' := by
  unfold clearJointForceCmd
  cases h : st.ecm.jointForceCmd e with
  | none =>
    by_cases he : e' = e
    · subst he; simp [h]
    · simp [he]
  | some x =>
    by_cases he : e' = e
    · subst he; simp [FMap.set]
    · simp [FMap.set, he]

theorem clearJointVelocityCmd_at (st : State) (e e' : Entity) :
    (clearJointVelocityCmd st e).ecm.jointVelocityCmd e' =
      if e' = e then (st.ecm.jointVelocityCmd e).map fillZero
      else st.ecm.jointVelocityCmd e' := by
  unfold clearJointVelocityCmd
  cases h : st.ecm.jointVelocityCmd e with
  | none =>
    by_cases he : e' = e
    · subst he; simp [h]
    · simp [he]
  | some x =>
    by_cases he : e' = e
    · subst he; simp [FMap.set]
    · simp [FMap.set, he]

theorem clearExternalWorldWrenchCmd_at (st : State) (e e' : Entity) :
    (clearExternalWorldWrenchCmd st e).ecm.externalWorldWrenchCmd e' =
      if e' = e then (st.ecm.externalWorldWrenchCmd e).map (fun _ => Wrench.cleared)
      else st.ecm.externalWorldWrenchCmd e' := by
  unfold clearExternalWorldWrenchCmd
  cases h : st.ecm.externalWorldWrenchCmd e with
  | none =>
    by_cases he : e' = e
    · subst he; simp [h]
    · simp [he]
  | some x =>
    by_cases he : e' = e
    · subst he; simp [FMap.set]
    · simp [FMap.set, he]

theorem writeWorldOutputs_shape (fd : FrameData3d) (ecm : ECM) (e : Entity) :
    ∃ a b c d f ch, writeWorldOutputs fd ecm e =
      { ecm with
        worldPose := a, worldLinearVelocity := b, worldAngularVelocity := c,
        worldLinearAcceleration := d, worldAngularAcceleration := f, changed := ch } := by
  unfold writeWorldOutputs
  repeat' (first | split | dsimp only [ECM.SetChanged])
  all_goals exact ⟨_, _, _, _, _, _, rfl⟩

theorem writeBodyOutputs_shape (fd : FrameData3d) (ecm : ECM) (e : Entity) :
    ∃ a b c d ch, writeBodyOutputs fd ecm e =
      { ecm with
        linearVelocity := a, angularVelocity := b, linearAcceleration := c,
        angularAcceleration := d, changed := ch } := by
  unfold writeBodyOutputs
  repeat' (first | split | dsimp only [ECM.SetChanged])
  all_goals exact ⟨_, _, _, _, _, rfl⟩

theorem linkOutputs_shape (st : State) (ecm1 : ECM)
    (h1 : ∃ p ch, ecm1 = { st.ecm with pose := p, changed := ch }) (fd : FrameData3d)
    (e : Entity) :
    ∃ p a b c d f a' b' c' d' ch,
      ({ st with ecm := writeBodyOutputs fd (writeWorldOutputs fd ecm1 e) e } : State) =
      { st with ecm := { st.ecm with
        pose := p, worldPose := a, worldLinearVelocity := b, worldAngularVelocity := c,
        worldLinearAcceleration := d, worldAngularAcceleration := f,
        linearVelocity := a', angularVelocity := b', linearAcceleration := c',
        angularAcceleration := d', changed := ch } } := by
  obtain ⟨p, ch, rfl⟩ := h1
  obtain ⟨a, b, c, d, f, ch2, h2⟩ := writeWorldOutputs_shape fd
    { st.ecm with pose := p, changed := ch } e
  rw [h2]
  obtain ⟨a', b', c', d', ch3, h3⟩ := writeBodyOutputs_shape fd
    { st.ecm with
      pose := p, worldPose := a, worldLinearVelocity := b, worldAngularVelocity := c,
      worldLinearAcceleration := d, worldAngularAcceleration := f, changed := ch2 } e
  rw [h3]
  exact ⟨_, _, _, _, _, _, _, _, _, _, _, rfl⟩

theorem updateLinkPose_shape (v : EngineView) (st : State) (e : Entity) :
    ∃ p a b c d f a' b' c' d' ch, updateLinkPose v st e =
      { st with ecm := { st.ecm with
        pose := p, worldPose := a, worldLinearVelocity := b, worldAngularVelocity := c,
        worldLinearAcceleration := d, worldAngularAcceleration := f,
        linearVelocity := a', angularVelocity := b', linearAcceleration := c',
        angularAcceleration := d', changed := ch } } := by
  unfold updateLinkPose
  have triv : ∃ p a b c d f a' b' c' d' ch, st =
      { st with ecm := { st.ecm with
        pose := p, worldPose := a, worldLinearVelocity := b, worldAngularVelocity := c,
        worldLinearAcceleration := d, worldAngularAcceleration := f,
        linearVelocity := a', angularVelocity := b', linearAcceleration := c',
        angularAcceleration := d', changed := ch } } := ⟨_, _, _, _, _, _, _, _, _, _, _, rfl⟩
  split
  · split
    · split
      · exact triv
      · split
        · split
          · exact triv
          · dsimp only
            apply linkOutputs_shape
            split
            · exact ⟨_, _, rfl⟩
            · exact ⟨_, _, rfl⟩
        · exact triv
    · exact triv
  · exact triv

theorem updateLinkPose_cleared (v : EngineView) (st : State) (e : Entity) :
    clearedFields (updateLinkPose v st e) = clearedFields st := by
  obtain ⟨p, a, b, c, d, f, a', b', c', d', ch, h⟩ := updateLinkPose_shape v st e
  rw [h]
  rfl

theorem updateJointForce_cleared (info : UpdateInfo) (st : State) (e : Entity) :
    clearedFields (updateJointForce info st e) = clearedFields st := by
  unfold updateJointForce
  repeat' (first | split | dsimp only)
  all_goals rfl

theorem updateOffsetWorldPose_cleared (v : EngineView) (st : State) (e : Entity) :
    clearedFields (updateOffsetWorldPose v st e) = clearedFields st := by
  unfold updateOffsetWorldPose
  repeat' (first | split | dsimp only)
  all_goals rfl

theorem updateOffsetWorldLinearVelocity_cleared (v : EngineView) (st : State) (e : Entity) :
    clearedFields (updateOffsetWorldLinearVelocity v st e) = clearedFields st := by
  unfold updateOffsetWorldLinearVelocity
  repeat' (first | split | dsimp only)
  all_goals rfl

theorem updateOffsetAngularVelocity_cleared (v : EngineView) (st : State) (e : Entity) :
    clearedFields (updateOffsetAngularVelocity v st e) = clearedFields st := by
  unfold updateOffsetAngularVelocity
  repeat' (first | split | dsimp only)
  all_goals rfl

theorem updateOffsetLinearAcceleration_cleared (v : EngineView) (st : State) (e : Entity) :
    clearedFields (updateOffsetLinearAcceleration v st e) = clearedFields st := by
  unfold updateOffsetLinearAcceleration
  repeat' (first | split | dsimp only)
  all_goals rfl

theorem each_clear {α β : Type} (get : State → FMap Entity α) (rest : State → β)
    (upd : Option α → Option α) (visit : State → Entity → State)
    (hv : ∀ st e e', get (visit st e) e' = if e' = e then upd (get st e) else get st e')
    (hrest : ∀ st e, rest (visit st e) = rest st)
    (hfault : ∀ st e, (visit st e).fault = st.fault) (hidem : ∀ x, upd (upd x) = upd x)
    (s : State) (hf : s.fault = none) :
    (∀ e', get (s.each visit) e' = if e' ∈ s.ecm.entities then upd (get s e') else get s e') ∧
      rest (s.each visit) = rest s ∧ (s.each visit).fault = none :=
  ⟨fun e' => each_pointwise get upd visit hv hfault hidem s.ecm.entities s hf e',
    each_field rest hrest s, (each_field (fun x => x.fault) hfault s).trans hf⟩

theorem clearJointPositionReset_rest (st : State) (e : Entity) :
    (fun x : State => (x.ecm.jointVelocityReset, x.ecm.jointForceCmd, x.ecm.jointVelocityCmd,
      x.ecm.externalWorldWrenchCmd, x.ecm.entities, x.fault)) (clearJointPositionReset st e) =
      (st.ecm.jointVelocityReset, st.ecm.jointForceCmd, st.ecm.jointVelocityCmd,
        st.ecm.externalWorldWrenchCmd, st.ecm.entities, st.fault) := by
  unfold clearJointPositionReset
  repeat' (first | split | dsimp only)

theorem clearJointVelocityReset_rest (st : State) (e : Entity) :
    (fun x : State => (x.ecm.jointPositionReset, x.ecm.jointForceCmd, x.ecm.jointVelocityCmd,
      x.ecm.externalWorldWrenchCmd, x.ecm.entities, x.fault)) (clearJointVelocityReset st e) =
      (st.ecm.jointPositionReset, st.ecm.jointForceCmd, st.ecm.jointVelocityCmd,
        st.ecm.externalWorldWrenchCmd, st.ecm.entities, st.fault) := by
  unfold clearJointVelocityReset
  repeat' (first | split | dsimp only)

theorem clearJointForceCmd_rest (st : State) (e : Entity) :
    (fun x : State => (x.ecm.jointPositionReset, x.ecm.jointVelocityReset,
      x.ecm.jointVelocityCmd, x.ecm.externalWorldWrenchCmd, x.ecm.entities, x.fault))
      (clearJointForceCmd st e) =
      (st.ecm.jointPositionReset, st.ecm.jointVelocityReset, st.ecm.jointVelocityCmd,
        st.ecm.externalWorldWrenchCmd, st.ecm.entities, st.fault) := by
  unfold clearJointForceCmd
  repeat' (first | split | dsimp only)

theorem clearExternalWorldWrenchCmd_rest (st : State) (e : Entity) :
    (fun x : State => (x.ecm.jointPositionReset, x.ecm.jointVelocityReset,
      x.ecm.jointForceCmd, x.ecm.jointVelocityCmd, x.ecm.entities, x.fault))
      (clearExternalWorldWrenchCmd st e) =
      (st.ecm.jointPositionReset, st.ecm.jointVelocityReset, st.ecm.jointForceCmd,
        st.ecm.jointVelocityCmd, st.ecm.entities, st.fault) := by
  unfold clearExternalWorldWrenchCmd
  repeat' (first | split | dsimp only)

theorem clearJointVelocityCmd_rest (st : State) (e : Entity) :
    (fun x : State => (x.ecm.jointPositionReset, x.ecm.jointVelocityReset,
      x.ecm.jointForceCmd, x.ecm.externalWorldWrenchCmd, x.ecm.entities, x.fault))
      (clearJointVelocityCmd st e) =
      (st.ecm.jointPositionReset, st.ecm.jointVelocityReset, st.ecm.jointForceCmd,
        st.ecm.externalWorldWrenchCmd, st.ecm.entities, st.fault) := by
  unfold clearJointVelocityCmd
  repeat' (first | split | dsimp only)

theorem updateJointPosition_cleared (v : EngineView) (st : State) (e : Entity) :
    clearedFields (updateJointPosition v st e) = clearedFields st := by
  unfold updateJointPosition
  repeat' (first | split | dsimp only)
  all_goals rfl

theorem updateJointVelocity_cleared (v : EngineView) (st : State) (e : Entity) :
    clearedFields (updateJointVelocity v st e) = clearedFields st := by
  unfold updateJointVelocity
  repeat' (first | split | dsimp only)
  all_goals rfl

theorem writeContacts_commands (m : AMap Entity EntityContactMap) (st : State) (e : Entity) :
    commandFields (writeContacts m st e) = commandFields st := by
  unfold writeContacts
  repeat' (first | split | dsimp only)
  all_goals rfl

theorem UpdateCollisions_commands (v : EngineView) (uninit : Nat → Option ExtraContactData)
    (s : State) : commandFields (UpdateCollisions v uninit s) = commandFields s := by
  unfold UpdateCollisions
  repeat' (first | split | dsimp only)
  all_goals first
    | rfl
    | exact each_field commandFields (writeContacts_commands _) s

theorem UpdateSim_commands (v : EngineView) (uninit : Nat → Option ExtraContactData)
    (info : UpdateInfo) (s : State) (hf : s.fault = none) (e : Entity)
    (he : e ∈ s.ecm.entities) :
    (UpdateSim v uninit info s).ecm.jointPositionReset e = none ∧
      (UpdateSim v uninit info s).ecm.jointVelocityReset e = none ∧
      (UpdateSim v uninit info s).ecm.jointForceCmd e = (s.ecm.jointForceCmd e).map fillZero ∧
      (UpdateSim v uninit info s).ecm.jointVelocityCmd e =
        (s.ecm.jointVelocityCmd e).map fillZero ∧
      (UpdateSim v uninit info s).ecm.externalWorldWrenchCmd e =
        (s.ecm.externalWorldWrenchCmd e).map (fun _ => Wrench.cleared) := by
  unfold UpdateSim
  rw [if_neg (by simp [hf])]
  dsimp only
  have h1 := each_field clearedFields (updateLinkPose_cleared v) s
  have h2 := each_field clearedFields (updateJointForce_cleared info) (s.each (updateLinkPose v))
  have h3 := each_field clearedFields (updateOffsetWorldPose_cleared v)
    ((s.each (updateLinkPose v)).each (updateJointForce info))
  have h4 := each_field clearedFields (updateOffsetWorldLinearVelocity_cleared v)
    (((s.each (updateLinkPose v)).each (updateJointForce info)).each (updateOffsetWorldPose v))
  have h5 := each_field clearedFields (updateOffsetAngularVelocity_cleared v)
    ((((s.each (updateLinkPose v)).each (updateJointForce info)).each
      (updateOffsetWorldPose v)).each (updateOffsetWorldLinearVelocity v))
  have h6 := each_field clearedFields (updateOffsetLinearAcceleration_cleared v)
    (((((s.each (updateLinkPose v)).each (updateJointForce info)).each
      (updateOffsetWorldPose v)).each (updateOffsetWorldLinearVelocity v)).each
      (updateOffsetAngularVelocity v))
  generalize ((((((s.each (updateLinkPose v)).each (updateJointForce info)).each
      (updateOffsetWorldPose v)).each (updateOffsetWorldLinearVelocity v)).each
      (updateOffsetAngularVelocity v)).each (updateOffsetLinearAcceleration v)) = s6 at *
  have h06 : clearedFields s6 = clearedFields s := by rw [h6, h5, h4, h3, h2, h1]
  clear h1 h2 h3 h4 h5 h6
  unfold clearedFields at h06
  simp only [Prod.mk.injEq] at h06
  obtain ⟨a1, a2, a3, a4, a5, a6, a7⟩ := h06
  obtain ⟨p1, r1, f1⟩ := each_clear (fun x => x.ecm.jointPositionReset)
    (fun x : State => (x.ecm.jointVelocityReset, x.ecm.jointForceCmd, x.ecm.jointVelocityCmd, x.ecm.externalWorldWrenchCmd, x.ecm.entities, x.fault))
    (fun _ => none)
    clearJointPositionReset clearJointPositionReset_at clearJointPositionReset_rest
    (fun st e => congrArg (fun t => t.2.2.2.2.2) (clearJointPositionReset_rest st e))
    (fun _ => rfl) s6 (a7.trans hf)
  generalize s6.each clearJointPositionReset = s7 at *
  simp only [Prod.mk.injEq] at r1
  obtain ⟨b2, b3, b4, b5, b6, _⟩ := r1
  obtain ⟨p2, r2, f2⟩ := each_clear (fun x => x.ecm.jointVelocityReset)
    (fun x : State => (x.ecm.jointPositionReset, x.ecm.jointForceCmd, x.ecm.jointVelocityCmd, x.ecm.externalWorldWrenchCmd, x.ecm.entities, x.fault))
    (fun _ => none)
    clearJointVelocityReset clearJointVelocityReset_at clearJointVelocityReset_rest
    (fun st e => congrArg (fun t => t.2.2.2.2.2) (clearJointVelocityReset_rest st e))
    (fun _ => rfl) s7 f1
  generalize s7.each clearJointVelocityReset = s8 at *
  simp only [Prod.mk.injEq] at r2
  obtain ⟨c1, c3, c4, c5, c6, _⟩ := r2
  obtain ⟨p3, r3, f3⟩ := each_clear (fun x => x.ecm.jointForceCmd)
    (fun x : State => (x.ecm.jointPositionReset, x.ecm.jointVelocityReset, x.ecm.jointVelocityCmd, x.ecm.externalWorldWrenchCmd, x.ecm.entities, x.fault))
    (Option.map fillZero)
    clearJointForceCmd clearJointForceCmd_at clearJointForceCmd_rest
    (fun st e => congrArg (fun t => t.2.2.2.2.2) (clearJointForceCmd_rest st e))
    (fun x => by cases x <;> simp [fillZero_idem]) s8 f2
  generalize s8.each clearJointForceCmd = s9 at *
  simp only [Prod.mk.injEq] at r3
  obtain ⟨d1, d2, d4, d5, d6, _⟩ := r3
  obtain ⟨p4, r4, f4⟩ := each_clear (fun x => x.ecm.externalWorldWrenchCmd)
    (fun x : State => (x.ecm.jointPositionReset, x.ecm.jointVelocityReset, x.ecm.jointForceCmd, x.ecm.jointVelocityCmd, x.ecm.entities, x.fault))
    (Option.map (fun _ => Wrench.cleared))
    clearExternalWorldWrenchCmd clearExternalWorldWrenchCmd_at clearExternalWorldWrenchCmd_rest
    (fun st e => congrArg (fun t => t.2.2.2.2.2) (clearExternalWorldWrenchCmd_rest st e))
    (fun x => by cases x <;> rfl) s9 f3
  generalize s9.each clearExternalWorldWrenchCmd = s10 at *
  simp only [Prod.mk.injEq] at r4
  obtain ⟨e1, e2, e3, e4, e6, _⟩ := r4
  obtain ⟨p5, r5, f5⟩ := each_clear (fun x => x.ecm.jointVelocityCmd)
    (fun x : State => (x.ecm.jointPositionReset, x.ecm.jointVelocityReset, x.ecm.jointForceCmd, x.ecm.externalWorldWrenchCmd, x.ecm.entities, x.fault))
    (Option.map fillZero)
    clearJointVelocityCmd clearJointVelocityCmd_at clearJointVelocityCmd_rest
    (fun st e => congrArg (fun t => t.2.2.2.2.2) (clearJointVelocityCmd_rest st e))
    (fun x => by cases x <;> simp [fillZero_idem]) s10 f4
  generalize s10.each clearJointVelocityCmd = s11 at *
  simp only [Prod.mk.injEq] at r5
  obtain ⟨g1, g2, g3, g5, g6, _⟩ := r5
  have k1 := each_field clearedFields (updateJointPosition_cleared v) s11
  have k2 := each_field clearedFields (updateJointVelocity_cleared v)
    (s11.each (updateJointPosition v))
  have k3 := UpdateCollisions_commands v uninit
    ((s11.each (updateJointPosition v)).each (updateJointVelocity v))
  generalize UpdateCollisions v uninit
    ((s11.each (updateJointPosition v)).each (updateJointVelocity v)) = s14 at *
  generalize (s11.each (updateJointPosition v)).each (updateJointVelocity v) = s13 at *
  rw [k1] at k2
  unfold clearedFields at k2
  unfold commandFields at k3
  simp only [Prod.mk.injEq] at k2 k3
  obtain ⟨m1, m2, m3, m4, m5, _, _⟩ := k2
  obtain ⟨n1, n2, n3, n4, n5⟩ := k3
  have he6 : e ∈ s6.ecm.entities := a6 ▸ he
  have he7 : e ∈ s7.ecm.entities := b6 ▸ he6
  have he8 : e ∈ s8.ecm.entities := c6 ▸ he7
  have he9 : e ∈ s9.ecm.entities := d6 ▸ he8
  have he10 : e ∈ s10.ecm.entities := e6 ▸ he9
  refine ⟨?_, ?_, ?_, ?_, ?_⟩
  · rw [n1, m1, g1, e1, d1, c1, p1, if_pos he6]
  · rw [n2, m2, g2, e2, d2, p2, if_pos he7]
  · rw [n3, m3, g3, e3, p3, if_pos he8, c3, b3, a3]
  · rw [n4, m4, p5, if_pos he10, e4, d4, c4, b4, a4]
  · rw [n5, m5, g5, p4, if_pos he9, d5, c5, b5, a5]

theorem collect_fold (has : ECM → Entity → Bool) (es : List Entity) (st : State)
    (acc : List Entity) (hf : st.fault = none) :
    es.foldl (collect has) (st, acc) = (st, acc ++ es.filter (has st.ecm)) := by
  induction es generalizing acc with
  | nil => simp
  | cons e es ih =>
    rw [List.foldl_cons]
    have hstep : collect has (st, acc) e =
        if has st.ecm e = true then (st, acc ++ [e]) else (st, acc) := by
      unfold collect
      simp [hf]
    rw [hstep]
    by_cases h : has st.ecm e = true
    · rw [if_pos h, ih, List.filter_cons_of_pos h, List.append_assoc]
      rfl
    · rw [if_neg h, ih, List.filter_cons_of_neg h]

theorem removeWorldPoseCmd_at (es : List Entity) (s : State) (e : Entity) :
    (removeWorldPoseCmd s es).ecm.worldPoseCmd e =
        (if e ∈ es then none else s.ecm.worldPoseCmd e) ∧
      (removeWorldPoseCmd s es).ecm.worldVelocityCmd = s.ecm.worldVelocityCmd := by
  unfold removeWorldPoseCmd
  induction es generalizing s with
  | nil => simp
  | cons x es ih =>
    rw [List.foldl_cons]
    obtain ⟨h1, h2⟩ := ih { s with ecm := { s.ecm with worldPoseCmd := FMap.erase s.ecm.worldPoseCmd x } }
    refine ⟨?_, h2⟩
    rw [h1]
    by_cases hx : e = x
    · subst hx
      by_cases he : e ∈ es
      · simp [he]
      · simp [he, FMap.erase]
    · by_cases he : e ∈ es
      · simp [he]
      · simp [he, hx, FMap.erase]

theorem removeWorldVelocityCmd_at (es : List Entity) (s : State) (e : Entity) :
    (removeWorldVelocityCmd s es).ecm.worldVelocityCmd e =
        (if e ∈ es then none else s.ecm.worldVelocityCmd e) ∧
      (removeWorldVelocityCmd s es).ecm.worldPoseCmd = s.ecm.worldPoseCmd := by
  unfold removeWorldVelocityCmd
  induction es generalizing s with
  | nil => simp
  | cons x es ih =>
    rw [List.foldl_cons]
    obtain ⟨h1, h2⟩ := ih { s with ecm := { s.ecm with worldVelocityCmd := FMap.erase s.ecm.worldVelocityCmd x } }
    refine ⟨?_, h2⟩
    rw [h1]
    by_cases hx : e = x
    · subst hx
      by_cases he : e ∈ es
      · simp [he]
      · simp [he, FMap.erase]
    · by_cases he : e ∈ es
      · simp [he]
      · simp [he, hx, FMap.erase]

theorem isSome_or_none {α : Type} (x : Option α) (h : ¬ (x.isSome = true)) : x = none := by
  cases x with
  | none => rfl
  | some v => exact absurd rfl h

theorem clearPendingCommands_eq (s : State) (hf : s.fault = none) :
    clearPendingCommands s =
      removeWorldVelocityCmd
        (removeWorldPoseCmd s (s.ecm.entities.filter (fun e => (s.ecm.worldPoseCmd e).isSome)))
        ((removeWorldPoseCmd s
            (s.ecm.entities.filter (fun e => (s.ecm.worldPoseCmd e).isSome))).ecm.entities.filter
          (fun e => ((removeWorldPoseCmd s
            (s.ecm.entities.filter (fun e => (s.ecm.worldPoseCmd e).isSome))).ecm.worldVelocityCmd
              e).isSome)) := by
  unfold clearPendingCommands
  rw [if_neg (by simp [hf])]
  dsimp only
  rw [collect_fold _ _ _ _ hf]
  dsimp only [List.nil_append]
  rw [collect_fold _ _ _ _ (((removeWorldPoseCmd_frame s _).2.2.1).trans hf)]
  rfl

theorem clearPendingCommands_clears (s : State) (hf : s.fault = none) (e : Entity)
    (he : e ∈ s.ecm.entities) :
    (clearPendingCommands s).ecm.worldPoseCmd e = none ∧
      (clearPendingCommands s).ecm.worldVelocityCmd e = none := by
  rw [clearPendingCommands_eq s hf]
  have hen := (removeWorldPoseCmd_frame s
    (s.ecm.entities.filter (fun e => (s.ecm.worldPoseCmd e).isSome))).2.2.2
  have hp := (removeWorldPoseCmd_at
    (s.ecm.entities.filter (fun e => (s.ecm.worldPoseCmd e).isSome)) s e).1
  generalize removeWorldPoseCmd s
    (s.ecm.entities.filter (fun e => (s.ecm.worldPoseCmd e).isSome)) = s2 at *
  constructor
  · rw [(removeWorldVelocityCmd_at _ _ e).2, hp]
    by_cases h : (s.ecm.worldPoseCmd e).isSome = true
    · rw [if_pos (List.mem_filter.mpr ⟨he, h⟩)]
    · split
      · rfl
      · exact isSome_or_none _ h
  · rw [(removeWorldVelocityCmd_at _ _ e).1]
    by_cases h : (s2.ecm.worldVelocityCmd e).isSome = true
    · have hm : e ∈ List.filter (fun e => (s2.ecm.worldVelocityCmd e).isSome) s2.ecm.entities :=
        List.mem_filter.mpr ⟨hen ▸ he, h⟩
      rw [if_pos hm]
    · split
      · rfl
      · exact isSome_or_none _ h

theorem processWorldPoseCmd_shape (v : EngineView) (st : State) (e : Entity) :
    ∃ p ch cs f, processWorldPoseCmd v st e =
      { st with ecm := { st.ecm with pose := p, changed := ch }, calls := cs, fault := f } := by
  unfold processWorldPoseCmd
  repeat' (first | split | dsimp only [State.emit, ECM.SetChanged])
  all_goals exact ⟨_, _, _, _, rfl⟩

theorem processWorldVelocityCmd_shape (v : EngineView) (st : State) (e : Entity) :
    ∃ cs, processWorldVelocityCmd v st e = { st with calls := cs } := by
  unfold processWorldVelocityCmd
  repeat' (first | split | dsimp only [State.emit])
  all_goals exact ⟨_, rfl⟩

theorem batteryState_commandFrame (st : State) (e : Entity) :
    (fun x : State => (commandFrame x, x.ecm.pose, x.ecm.changed, x.fault)) (batteryState st e) =
      (commandFrame st, st.ecm.pose, st.ecm.changed, st.fault) := by
  unfold batteryState
  repeat' (first | split | dsimp only)
  all_goals rfl

theorem handleJointState_commandFrame (v : EngineView) (st : State) (e : Entity) :
    (fun x : State => (commandFrame x, x.ecm.pose, x.ecm.changed, x.fault))
        (handleJointState v st e) =
      (commandFrame st, st.ecm.pose, st.ecm.changed, st.fault) := by
  unfold handleJointState
  repeat' (first | split | dsimp only [State.emit])
  all_goals rfl

theorem linkWrench_commandFrame (st : State) (e : Entity) :
    (fun x : State => (commandFrame x, x.ecm.pose, x.ecm.changed, x.fault)) (linkWrench st e) =
      (commandFrame st, st.ecm.pose, st.ecm.changed, st.fault) := by
  unfold linkWrench
  repeat' (first | split | dsimp only [State.emit])
  all_goals rfl

theorem linkWrenchWithDuration_commandFrame (info : UpdateInfo) (st : State) (e : Entity) :
    (fun x : State => (commandFrame x, x.ecm.pose, x.ecm.changed, x.fault))
        (linkWrenchWithDuration info st e) =
      (commandFrame st, st.ecm.pose, st.ecm.changed, st.fault) := by
  unfold linkWrenchWithDuration
  repeat' (first | split | dsimp only [State.emit])
  all_goals rfl

theorem processWorldPoseCmd_commandFrame (v : EngineView) (st : State) (e : Entity) :
    commandFrame (processWorldPoseCmd v st e) = commandFrame st := by
  obtain ⟨p, ch, cs, f, h⟩ := processWorldPoseCmd_shape v st e
  rw [h]
  rfl

theorem processWorldVelocityCmd_commandFrame (v : EngineView) (st : State) (e : Entity) :
    (fun x : State => (commandFrame x, x.ecm.pose, x.ecm.changed, x.fault))
        (processWorldVelocityCmd v st e) =
      (commandFrame st, st.ecm.pose, st.ecm.changed, st.fault) := by
  obtain ⟨cs, h⟩ := processWorldVelocityCmd_shape v st e
  rw [h]
  rfl

theorem UpdatePhysics_eq (v : EngineView) (info : UpdateInfo) (s : State)
    (hf : s.fault = none) :
    UpdatePhysics v info s =
      clearPendingCommands
        (((beforePoseCommands v info s).each (processWorldPoseCmd v)).each
          (processWorldVelocityCmd v)) := by
  unfold UpdatePhysics beforePoseCommands
  rw [if_neg (by simp [hf])]

theorem beforePoseCommands_frame (v : EngineView) (info : UpdateInfo) (s : State) :
    commandFrame (beforePoseCommands v info s) = commandFrame s ∧
      (beforePoseCommands v info s).ecm.pose = s.ecm.pose ∧
      (beforePoseCommands v info s).ecm.changed = s.ecm.changed ∧
      (beforePoseCommands v info s).fault = s.fault := by
  have h1 := each_field (fun x : State => (commandFrame x, x.ecm.pose, x.ecm.changed, x.fault))
    batteryState_commandFrame s
  have h2 := each_field (fun x : State => (commandFrame x, x.ecm.pose, x.ecm.changed, x.fault))
    (handleJointState_commandFrame v) (s.each batteryState)
  have h3 := each_field (fun x : State => (commandFrame x, x.ecm.pose, x.ecm.changed, x.fault))
    linkWrench_commandFrame ((s.each batteryState).each (handleJointState v))
  have h4 := each_field (fun x : State => (commandFrame x, x.ecm.pose, x.ecm.changed, x.fault))
    (linkWrenchWithDuration_commandFrame info)
    (((s.each batteryState).each (handleJointState v)).each linkWrench)
  have h : (fun x : State => (commandFrame x, x.ecm.pose, x.ecm.changed, x.fault))
      (beforePoseCommands v info s) = (commandFrame s, s.ecm.pose, s.ecm.changed, s.fault) := by
    unfold beforePoseCommands
    split
    · exact h4.trans (h3.trans (h2.trans h1))
    · exact h3.trans (h2.trans h1)
  simp only [Prod.mk.injEq] at h
  exact h

theorem afterCommands_frame (v : EngineView) (info : UpdateInfo) (s : State) :
    commandFrame (((beforePoseCommands v info s).each (processWorldPoseCmd v)).each
      (processWorldVelocityCmd v)) = commandFrame s := by
  have h1 := each_field commandFrame (processWorldPoseCmd_commandFrame v)
    (beforePoseCommands v info s)
  have h2 := each_field commandFrame
    (fun st e => congrArg (fun t => t.1) (processWorldVelocityCmd_commandFrame v st e))
    ((beforePoseCommands v info s).each (processWorldPoseCmd v))
  rw [h2, h1, (beforePoseCommands_frame v info s).1]

/-- C14. After an `UpdatePhysics` that is entered and left without failure,
paused or not, no entity of the store carries a `WorldPoseCmd` or a
`WorldVelocityCmd`, whatever the entity is and whether or not the command was
applied. -/
theorem C14_world_commands_removed (v : EngineView) (info : UpdateInfo) (s : State)
    (hf : s.fault = none) (hok : (UpdatePhysics v info s).fault = none) :
    ∀ e ∈ s.ecm.entities,
      (UpdatePhysics v info s).ecm.worldPoseCmd e = none ∧
        (UpdatePhysics v info s).ecm.worldVelocityCmd e = none := by
  intro e he
  rw [UpdatePhysics_eq v info s hf] at hok ⊢
  have hfr := afterCommands_frame v info s
  generalize ((beforePoseCommands v info s).each (processWorldPoseCmd v)).each
    (processWorldVelocityCmd v) = s6 at *
  have hf6 : s6.fault = none := ((clearPendingCommands_frame s6).2.2).symm.trans hok
  have hen : s6.ecm.entities = s.ecm.entities := congrArg (fun t => t.1) hfr
  exact clearPendingCommands_clears s6 hf6 e (hen ▸ he)

/-- The commands of `pendingExample` are removed on a paused tick, also from
the unregistered model and from the entity that is no model. -/
theorem C14_witness :
    ((UpdatePhysics stillView ⟨1, 10, true⟩ pendingExample).ecm.worldPoseCmd 3 = none ∧
        (UpdatePhysics stillView ⟨1, 10, true⟩ pendingExample).ecm.worldVelocityCmd 3 = none) ∧
      (UpdatePhysics stillView ⟨1, 10, true⟩ pendingExample).ecm.worldPoseCmd 4 = none ∧
        (UpdatePhysics stillView ⟨1, 10, true⟩ pendingExample).ecm.worldVelocityCmd 4 = none :=
  ⟨C14_world_commands_removed stillView ⟨1, 10, true⟩ pendingExample rfl (by decide) 3
      (by decide),
    C14_world_commands_removed stillView ⟨1, 10, true⟩ pendingExample rfl (by decide) 4
      (by decide)⟩

theorem foldl_visit_preserves {P : State → Prop} {visit : State → Entity → State}
    (h : ∀ st e, P st → P (visit st e)) (es : List Entity) (st : State) (hs : P st) :
    P (es.foldl (fun x e => if x.fault.isSome then x else visit x e) st) := by
  induction es generalizing st with
  | nil => exact hs
  | cons e es ih =>
    rw [List.foldl_cons]
    apply ih
    split
    · exact hs
    · exact h st e hs

theorem foldl_visit_others {α : Type} {visit : State → Entity → State} (get : State → α)
    (I : State → Prop) (e : Entity) (hI : ∀ st x, I st → I (visit st x))
    (hother : ∀ st x, I st → x ≠ e → get (visit st x) = get st) (es : List Entity)
    (he : e ∉ es) (st : State) (hst : I st) :
    get (es.foldl (fun x e => if x.fault.isSome then x else visit x e) st) = get st := by
  induction es generalizing st with
  | nil => rfl
  | cons x es ih =>
    rw [List.foldl_cons]
    have hx : x ≠ e := fun h => he (h ▸ List.mem_cons_self _ _)
    have he' : e ∉ es := fun h => he (List.mem_cons_of_mem _ h)
    split
    · exact ih he' st hst
    · rw [ih he' (visit st x) (hI st x hst), hother st x hst hx]

theorem foldl_visit_once {α : Type} {visit : State → Entity → State} (get : State → α)
    (I : State → Prop) (e : Entity) (hI : ∀ st x, I st → I (visit st x))
    (hother : ∀ st x, I st → x ≠ e → get (visit st x) = get st) (es : List Entity)
    (hnd : es.Nodup) (he : e ∈ es) (st : State) (hst : I st)
    (hok : (es.foldl (fun x e => if x.fault.isSome then x else visit x e) st).fault = none) :
    ∃ (st1 : State) (post : List Entity), I st1 ∧ get st1 = get st ∧ st1.fault = none ∧
      es.foldl (fun x e => if x.fault.isSome then x else visit x e) st =
        post.foldl (fun x e => if x.fault.isSome then x else visit x e) (visit st1 e) ∧
      get (es.foldl (fun x e => if x.fault.isSome then x else visit x e) st) =
        get (visit st1 e) := by
  induction es generalizing st with
  | nil => cases he
  | cons x es ih =>
    have hfst : st.fault = none := by
      cases hfs : st.fault with
      | none => rfl
      | some f =>
        rw [foldl_faulted visit (x :: es) st (by simp [hfs])] at hok
        rw [hfs] at hok
        cases hok
    rw [List.foldl_cons, if_neg (by simp [hfst])] at hok ⊢
    obtain ⟨hx, hnd'⟩ := List.nodup_cons.mp hnd
    by_cases hxe : x = e
    · subst hxe
      refine ⟨st, es, hst, rfl, hfst, rfl, ?_⟩
      exact foldl_visit_others get I x hI hother es hx (visit st x) (hI st x hst)
    · have he' : e ∈ es := by
        rcases List.mem_cons.mp he with h | h
        · exact absurd h.symm hxe
        · exact h
      obtain ⟨st1, post, i1, i2, i3, i4, i5⟩ := ih hnd' he' (visit st x) (hI st x hst) hok
      exact ⟨st1, post, i1, i2.trans (hother st x hst hxe), i3, i4, i5⟩

theorem processWorldPoseCmd_other (v : EngineView) (st : State) (e x : Entity) (hx : x ≠ e) :
    (processWorldPoseCmd v st e).ecm.pose x = st.ecm.pose x ∧
      ∀ t, (processWorldPoseCmd v st e).ecm.changed x t = st.ecm.changed x t := by
  unfold processWorldPoseCmd
  repeat' (first | split | dsimp only [State.emit, ECM.SetChanged])
  all_goals first
    | exact ⟨rfl, fun _ => rfl⟩
    | (constructor
       · simp [FMap.set, hx]
       · intro t
         simp [hx])

theorem processWorldPoseCmd_notModel (v : EngineView) (st : State) (e : Entity)
    (h : st.ecm.model e = false) : processWorldPoseCmd v st e = st := by
  unfold processWorldPoseCmd
  rw [if_neg (by simp [h])]

theorem removeWorldPoseCmd_shape (es : List Entity) (s : State) :
    ∃ a, removeWorldPoseCmd s es = { s with ecm := { s.ecm with worldPoseCmd := a } } := by
  unfold removeWorldPoseCmd
  induction es generalizing s with
  | nil => exact ⟨_, rfl⟩
  | cons x es ih =>
    rw [List.foldl_cons]
    obtain ⟨a, h⟩ := ih { s with ecm := { s.ecm with worldPoseCmd := FMap.erase s.ecm.worldPoseCmd x } }
    rw [h]
    exact ⟨_, rfl⟩

theorem removeWorldVelocityCmd_shape (es : List Entity) (s : State) :
    ∃ a, removeWorldVelocityCmd s es = { s with ecm := { s.ecm with worldVelocityCmd := a } } := by
  unfold removeWorldVelocityCmd
  induction es generalizing s with
  | nil => exact ⟨_, rfl⟩
  | cons x es ih =>
    rw [List.foldl_cons]
    obtain ⟨a, h⟩ := ih
      { s with ecm := { s.ecm with worldVelocityCmd := FMap.erase s.ecm.worldVelocityCmd x } }
    rw [h]
    exact ⟨_, rfl⟩

theorem clearPendingCommands_shape (s : State) :
    ∃ a b, clearPendingCommands s =
      { s with ecm := { s.ecm with worldPoseCmd := a, worldVelocityCmd := b } } := by
  unfold clearPendingCommands
  split
  · exact ⟨_, _, rfl⟩
  · dsimp only
    obtain ⟨a, h1⟩ := removeWorldPoseCmd_shape
      (s.ecm.entities.foldl (collect (fun ecm e => (ecm.worldPoseCmd e).isSome)) (s, [])).2 s
    rw [h1]
    obtain ⟨b, h2⟩ := removeWorldVelocityCmd_shape
      (({ s with ecm := { s.ecm with worldPoseCmd := a } } : State).ecm.entities.foldl
        (collect (fun ecm e => (ecm.worldVelocityCmd e).isSome))
        (({ s with ecm := { s.ecm with worldPoseCmd := a } } : State), [])).2
      { s with ecm := { s.ecm with worldPoseCmd := a } }
    rw [h2]
    exact ⟨_, _, rfl⟩

/-- What the pose commands of a tick leave on a model: its pose, the change
mark of the pose, and the calls sent. -/
theorem UpdatePhysics_after_pose_loop (v : EngineView) (info : UpdateInfo) (s : State)
    (hf : s.fault = none) :
    (UpdatePhysics v info s).ecm.pose =
        ((beforePoseCommands v info s).each (processWorldPoseCmd v)).ecm.pose ∧
      (UpdatePhysics v info s).ecm.changed =
        ((beforePoseCommands v info s).each (processWorldPoseCmd v)).ecm.changed ∧
      (UpdatePhysics v info s).fault =
        ((beforePoseCommands v info s).each (processWorldPoseCmd v)).fault ∧
      ∃ post, (UpdatePhysics v info s).calls =
        ((beforePoseCommands v info s).each (processWorldPoseCmd v)).calls ++ post := by
  rw [UpdatePhysics_eq v info s hf]
  have h1 := each_field (fun x : State => (commandFrame x, x.ecm.pose, x.ecm.changed, x.fault))
    (processWorldVelocityCmd_commandFrame v)
    ((beforePoseCommands v info s).each (processWorldPoseCmd v))
  obtain ⟨_, post, hc, _⟩ := each_advance (processWorldVelocityCmd_advance v)
    ((beforePoseCommands v info s).each (processWorldPoseCmd v))
  obtain ⟨a, b, h2⟩ := clearPendingCommands_shape
    (((beforePoseCommands v info s).each (processWorldPoseCmd v)).each
      (processWorldVelocityCmd v))
  rw [h2]
  simp only [Prod.mk.injEq] at h1
  exact ⟨h1.2.1, h1.2.2.1, h1.2.2.2, post, hc⟩

theorem processWorldPoseCmd_inv (v : EngineView) (s st : State) (x : Entity)
    (h : PoseLoopInv s st) : PoseLoopInv s (processWorldPoseCmd v st x) := by
  obtain ⟨h1, h2⟩ := h
  refine ⟨(processWorldPoseCmd_commandFrame v st x).trans h1, ?_⟩
  intro y hy
  have hm : st.ecm.model = s.ecm.model := congrArg (fun t => t.2.1) h1
  by_cases hx : st.ecm.model x = true
  · have hne : y ≠ x := by
      intro hyx
      rw [hyx, ← hm, hx] at hy
      cases hy
    rw [(processWorldPoseCmd_other v st x y hne).1]
    exact h2 y hy
  · rw [processWorldPoseCmd_notModel v st x (by simpa using hx)]
    exact h2 y hy

theorem processWorldPoseCmd_static (v : EngineView) (st : State) (e : Entity) (m : ModelPtr)
    (g : FreeGroupPtr) (l : Entity) (P c old : Pose3d) (hmodel : st.ecm.model e = true)
    (hcmd : st.ecm.worldPoseCmd e = some P) (hreg : st.impl.entityModelMap e = some m)
    (hg : v.FindFreeGroup m = some g) (hl : st.impl.linkEntityMap (v.CanonicalLink g) = some l)
    (hc : st.ecm.pose l = some c) (hstatic : st.ecm.static e = some true)
    (hpose : st.ecm.pose e = some old) :
    (processWorldPoseCmd v st e).ecm.pose e = some (P * c) ∧
      (processWorldPoseCmd v st e).ecm.changed e ComponentTypeId.Pose =
        (if pose3Eql (P * c) old then ComponentState.NoChange
          else ComponentState.OneTimeChange) ∧
      (processWorldPoseCmd v st e).calls = st.calls ++ [EngineCall.SetWorldPose g (P * c)] := by
  unfold processWorldPoseCmd
  simp only [hmodel, if_true, hcmd, hreg, hg, hl, hc, State.emit, hstatic, hpose,
    ECM.SetChanged, FMap.set, and_self]

theorem processWorldPoseCmd_noGroup (v : EngineView) (st : State) (e : Entity) (m : ModelPtr)
    (hreg : st.impl.entityModelMap e = some m)
    (hg : v.FindFreeGroup m = none ∨
      ∃ g, v.FindFreeGroup m = some g ∧ st.impl.linkEntityMap (v.CanonicalLink g) = none) :
    processWorldPoseCmd v st e = st := by
  unfold processWorldPoseCmd
  rcases hg with hg | ⟨g, hg, hl⟩
  · repeat' (first | split | dsimp only [State.emit])
    all_goals first
      | rfl
      | simp_all
  · repeat' (first | split | dsimp only [State.emit])
    all_goals first
      | rfl
      | simp_all

theorem poseLoop_at (v : EngineView) (info : UpdateInfo) (s : State) (e : Entity)
    (hnd : s.ecm.entities.Nodup) (he : e ∈ s.ecm.entities)
    (hok : ((beforePoseCommands v info s).each (processWorldPoseCmd v)).fault = none) :
    ∃ (st1 : State) (post : List Entity), PoseLoopInv s st1 ∧
      st1.ecm.pose e = s.ecm.pose e ∧
      st1.ecm.changed e ComponentTypeId.Pose = s.ecm.changed e ComponentTypeId.Pose ∧
      (beforePoseCommands v info s).each (processWorldPoseCmd v) =
        post.foldl (fun x e => if x.fault.isSome then x else processWorldPoseCmd v x e)
          (processWorldPoseCmd v st1 e) ∧
      ((beforePoseCommands v info s).each (processWorldPoseCmd v)).ecm.pose e =
        (processWorldPoseCmd v st1 e).ecm.pose e ∧
      ((beforePoseCommands v info s).each (processWorldPoseCmd v)).ecm.changed e
          ComponentTypeId.Pose =
        (processWorldPoseCmd v st1 e).ecm.changed e ComponentTypeId.Pose := by
  obtain ⟨b1, b2, b3, _⟩ := beforePoseCommands_frame v info s
  have hent : (beforePoseCommands v info s).ecm.entities = s.ecm.entities :=
    congrArg (fun t => t.1) b1
  have hbp : PoseLoopInv s (beforePoseCommands v info s) := ⟨b1, fun x _ => congrFun b2 x⟩
  have hother : ∀ st x, PoseLoopInv s st → x ≠ e →
      (fun y : State => (y.ecm.pose e, y.ecm.changed e ComponentTypeId.Pose))
        (processWorldPoseCmd v st x) =
      (fun y : State => (y.ecm.pose e, y.ecm.changed e ComponentTypeId.Pose)) st := by
    intro st x _ hx
    obtain ⟨h1, h2⟩ := processWorldPoseCmd_other v st x e (Ne.symm hx)
    exact Prod.ext h1 (h2 _)
  obtain ⟨st1, post, i1, i2, _, i4, i5⟩ := foldl_visit_once
    (fun y : State => (y.ecm.pose e, y.ecm.changed e ComponentTypeId.Pose)) (PoseLoopInv s) e
    (fun st x h => processWorldPoseCmd_inv v s st x h) hother
    (beforePoseCommands v info s).ecm.entities (hent ▸ hnd) (hent ▸ he)
    (beforePoseCommands v info s) hbp hok
  simp only [Prod.mk.injEq] at i2 i5
  exact ⟨st1, post, i1, i2.1.trans (congrFun b2 e), i2.2.trans (congrFun (congrFun b3 e) _), i4,
    i5.1, i5.2⟩

/-- The pose that a pose command leaves on a static model: the command composed
with the pose of the canonical link of the free group. -/
theorem UpdatePhysics_static_pose (v : EngineView) (info : UpdateInfo) (s : State)
    (e : Entity) (m : ModelPtr) (g : FreeGroupPtr) (l : Entity) (P c old : Pose3d)
    (hf : s.fault = none) (hok : (UpdatePhysics v info s).fault = none)
    (hnd : s.ecm.entities.Nodup) (he : e ∈ s.ecm.entities) (hmodel : s.ecm.model e = true)
    (hstatic : s.ecm.static e = some true) (hcmd : s.ecm.worldPoseCmd e = some P)
    (hpose : s.ecm.pose e = some old) (hreg : s.impl.entityModelMap e = some m)
    (hg : v.FindFreeGroup m = some g) (hl : s.impl.linkEntityMap (v.CanonicalLink g) = some l)
    (hlm : s.ecm.model l = false) (hc : s.ecm.pose l = some c) :
    (UpdatePhysics v info s).ecm.pose e = some (P * c) ∧
      (UpdatePhysics v info s).ecm.changed e ComponentTypeId.Pose =
        (if pose3Eql (P * c) old then ComponentState.NoChange
          else ComponentState.OneTimeChange) ∧
      EngineCall.SetWorldPose g (P * c) ∈ (UpdatePhysics v info s).calls := by
  obtain ⟨hp, hch, hfl, post, hcalls⟩ := UpdatePhysics_after_pose_loop v info s hf
  obtain ⟨st1, rest, ⟨i1, i2⟩, j1, _, j3, j4, j5⟩ := poseLoop_at v info s e hnd he (hfl ▸ hok)
  unfold commandFrame at i1
  simp only [Prod.mk.injEq] at i1
  obtain ⟨_, k2, k3, k4, _, k6, k7⟩ := i1
  obtain ⟨r1, r2, r3⟩ := processWorldPoseCmd_static v st1 e m g l P c old (k2 ▸ hmodel)
    (k4 ▸ hcmd) (k6 ▸ hreg) hg (k7 ▸ hl) ((i2 l hlm).trans hc) (k3 ▸ hstatic) (j1.trans hpose)
  refine ⟨?_, ?_, ?_⟩
  · rw [hp, j4, r1]
  · rw [hch, j5, r2]
  · rw [hcalls, j3]
    apply List.mem_append_left
    apply foldl_visit_preserves
      (P := fun st => EngineCall.SetWorldPose g (P * c) ∈ st.calls)
    · intro st x hst
      obtain ⟨_, p, hp', _⟩ := processWorldPoseCmd_advance v st x
      rw [hp']
      exact List.mem_append_left _ hst
    · rw [r3]
      simp

/-- Without a free group, or with a free group whose canonical link is not
registered, a pose command leaves the pose of the model and its mark alone. -/
theorem UpdatePhysics_pose_kept (v : EngineView) (info : UpdateInfo) (s : State)
    (e : Entity) (m : ModelPtr) (hf : s.fault = none)
    (hok : (UpdatePhysics v info s).fault = none) (hnd : s.ecm.entities.Nodup)
    (he : e ∈ s.ecm.entities) (hreg : s.impl.entityModelMap e = some m)
    (hg : v.FindFreeGroup m = none ∨
      ∃ g, v.FindFreeGroup m = some g ∧ s.impl.linkEntityMap (v.CanonicalLink g) = none) :
    (UpdatePhysics v info s).ecm.pose e = s.ecm.pose e ∧
      (UpdatePhysics v info s).ecm.changed e ComponentTypeId.Pose =
        s.ecm.changed e ComponentTypeId.Pose := by
  obtain ⟨hp, hch, hfl, _, _⟩ := UpdatePhysics_after_pose_loop v info s hf
  obtain ⟨st1, rest, ⟨i1, _⟩, j1, j2, _, j4, j5⟩ := poseLoop_at v info s e hnd he (hfl ▸ hok)
  unfold commandFrame at i1
  simp only [Prod.mk.injEq] at i1
  obtain ⟨_, _, _, _, _, k6, k7⟩ := i1
  have hskip := processWorldPoseCmd_noGroup v st1 e m (k6 ▸ hreg) (by rw [k7]; exact hg)
  rw [hskip] at j4 j5
  exact ⟨by rw [hp, j4, j1], by rw [hch, j5, j2]⟩

/-- C15 fails as stated: the registered static model 2 carries the pose command
`(1, 2, 3)` and a pose, the engine finds no free group for it, and after
`UpdatePhysics` its pose is still the origin and is not marked. -/
theorem C15_counterexample :
    staticExample.ecm.worldPoseCmd 2 = some ⟨⟨1, 2, 3⟩, Matrix3d.Identity⟩ ∧
      (UpdatePhysics stillView ⟨1, 10, false⟩ staticExample).ecm.pose 2 =
        some ⟨⟨0, 0, 0⟩, Matrix3d.Identity⟩ ∧
      (UpdatePhysics stillView ⟨1, 10, false⟩ staticExample).ecm.changed 2 ComponentTypeId.Pose =
        ComponentState.NoChange := by
  decide

/-- C15, as amended. A registered static model with a pose command `P` and a
pose, on an `UpdatePhysics` entered and left without failure. When the engine
finds a free group for the model whose canonical link is registered to a link
entity with pose `c`, the free group is sent the world pose `P * c`, the pose of
the model is overwritten, and it is marked as a one-time change when the
written pose differs from the previous one beyond the tolerance and as
unchanged otherwise. Without a free group, or with an unregistered canonical
link, the pose of the model and its mark stay as they were. -/
theorem C15_static_pose_overwritten (v : EngineView) (info : UpdateInfo) (s : State)
    (e : Entity) (m : ModelPtr) (P old : Pose3d) (hf : s.fault = none)
    (hok : (UpdatePhysics v info s).fault = none) (hnd : s.ecm.entities.Nodup)
    (he : e ∈ s.ecm.entities) (hmodel : s.ecm.model e = true)
    (hstatic : s.ecm.static e = some true) (hcmd : s.ecm.worldPoseCmd e = some P)
    (hpose : s.ecm.pose e = some old) (hreg : s.impl.entityModelMap e = some m) :
    (∀ g l c, v.FindFreeGroup m = some g →
      s.impl.linkEntityMap (v.CanonicalLink g) = some l → s.ecm.model l = false →
      s.ecm.pose l = some c →
      EngineCall.SetWorldPose g (P * c) ∈ (UpdatePhysics v info s).calls ∧
        ∃ new, (UpdatePhysics v info s).ecm.pose e = some new ∧
          (UpdatePhysics v info s).ecm.changed e ComponentTypeId.Pose =
            if pose3Eql new old then ComponentState.NoChange
            else ComponentState.OneTimeChange) ∧
    ((v.FindFreeGroup m = none ∨
        ∃ g, v.FindFreeGroup m = some g ∧ s.impl.linkEntityMap (v.CanonicalLink g) = none) →
      (UpdatePhysics v info s).ecm.pose e = some old ∧
        (UpdatePhysics v info s).ecm.changed e ComponentTypeId.Pose =
          s.ecm.changed e ComponentTypeId.Pose) := by
  constructor
  · intro g l c hg hl hlm hc
    obtain ⟨h1, h2, h3⟩ := UpdatePhysics_static_pose v info s e m g l P c old hf hok hnd he
      hmodel hstatic hcmd hpose hreg hg hl hlm hc
    exact ⟨h3, P * c, h1, h2⟩
  · intro hg
    obtain ⟨h1, h2⟩ := UpdatePhysics_pose_kept v info s e m hf hok hnd he hreg hg
    exact ⟨h1.trans hpose, h2⟩

/-- The pose command on the static model of `staticExample`, with the free
group of `groupView`. -/
theorem C15_witness :
    (∀ g l c, groupView.FindFreeGroup 20 = some g →
      staticExample.impl.linkEntityMap (groupView.CanonicalLink g) = some l →
      staticExample.ecm.model l = false → staticExample.ecm.pose l = some c →
      EngineCall.SetWorldPose g ((⟨⟨1, 2, 3⟩, Matrix3d.Identity⟩ : Pose3d) * c) ∈
          (UpdatePhysics groupView ⟨1, 10, false⟩ staticExample).calls ∧
        ∃ new, (UpdatePhysics groupView ⟨1, 10, false⟩ staticExample).ecm.pose 2 = some new ∧
          (UpdatePhysics groupView ⟨1, 10, false⟩ staticExample).ecm.changed 2
              ComponentTypeId.Pose =
            if pose3Eql new ⟨Vector3d.Zero, Matrix3d.Identity⟩ then ComponentState.NoChange
            else ComponentState.OneTimeChange) ∧
    ((groupView.FindFreeGroup 20 = none ∨
        ∃ g, groupView.FindFreeGroup 20 = some g ∧
          staticExample.impl.linkEntityMap (groupView.CanonicalLink g) = none) →
      (UpdatePhysics groupView ⟨1, 10, false⟩ staticExample).ecm.pose 2 =
          some ⟨Vector3d.Zero, Matrix3d.Identity⟩ ∧
        (UpdatePhysics groupView ⟨1, 10, false⟩ staticExample).ecm.changed 2
            ComponentTypeId.Pose =
          staticExample.ecm.changed 2 ComponentTypeId.Pose) :=
  C15_static_pose_overwritten groupView ⟨1, 10, false⟩ staticExample 2 20
    ⟨⟨1, 2, 3⟩, Matrix3d.Identity⟩ ⟨Vector3d.Zero, Matrix3d.Identity⟩ rfl (by decide)
    (by decide) (by decide) rfl rfl rfl rfl rfl

/-- The pose written on a static model is the command composed with the pose
of the canonical link, not the command: the command is `(1, 2, 3)`, the link
sits at `(0, 0, 1)` in the model, and the model ends at `(1, 2, 4)`. -/
theorem UpdatePhysics_static_pose_is_offset :
    staticExample.ecm.worldPoseCmd 2 = some ⟨⟨1, 2, 3⟩, Matrix3d.Identity⟩ ∧
      (UpdatePhysics groupView ⟨1, 10, false⟩ staticExample).ecm.pose 2 =
        some ⟨⟨1, 2, 4⟩, Matrix3d.Identity⟩ ∧
      (UpdatePhysics groupView ⟨1, 10, false⟩ staticExample).calls =
        [EngineCall.SetWorldPose 7 ⟨⟨1, 2, 4⟩, Matrix3d.Identity⟩] := by
  decide

theorem processWorld_shape (eng : Engine) (st : State) (e : Entity) :
    ∃ m cs, processWorld eng st e =
      { st with impl := { st.impl with entityWorldMap := m }, calls := cs } := by
  unfold processWorld
  repeat' (first | split | dsimp only [State.emit])
  all_goals exact ⟨_, _, rfl⟩

theorem processModel_shape (eng : Engine) (st : State) (e : Entity) :
    ∃ m cs, processModel eng st e =
      { st with impl := { st.impl with entityModelMap := m }, calls := cs } := by
  unfold processModel
  repeat' (first | split | dsimp only [State.emit])
  all_goals exact ⟨_, _, rfl⟩

theorem processLink_shape (eng : Engine) (st : State) (e : Entity) :
    ∃ m r cs, processLink eng st e =
      { st with impl := { st.impl with entityLinkMap := m, linkEntityMap := r }, calls := cs } := by
  unfold processLink
  repeat' (first | split | dsimp only [State.emit])
  all_goals exact ⟨_, _, _, rfl⟩

theorem processCollision_shape (eng : Engine) (st : State) (e : Entity) :
    ∃ m r cs, processCollision eng st e =
      { st with
        impl := { st.impl with entityCollisionMap := m, collisionEntityMap := r }, calls := cs } := by
  unfold processCollision registerCollision
  repeat' (first | split | dsimp only [State.emit])
  all_goals exact ⟨_, _, _, rfl⟩

theorem processJoint_shape (eng : Engine) (st : State) (e : Entity) :
    ∃ m cs, processJoint eng st e =
      { st with impl := { st.impl with entityJointMap := m }, calls := cs } := by
  unfold processJoint
  repeat' (first | split | dsimp only [State.emit])
  all_goals exact ⟨_, _, rfl⟩

theorem processBattery_shape (st : State) (e : Entity) :
    ∃ m, processBattery st e = { st with impl := { st.impl with entityOffMap := m } } := by
  unfold processBattery
  repeat' (first | split | dsimp only [State.emit])
  all_goals exact ⟨_, rfl⟩

theorem selected_field {α : Type} (f : State → α) {visit : State → Entity → State}
    (h : ∀ st e, f (visit st e) = f st) (all : Bool) (st : State) (e : Entity) :
    f (selected all visit st e) = f st := by
  unfold selected
  split
  · exact h st e
  · rfl

theorem CreatePhysicsEntities_passes (eng : Engine) (s : State) (hf : s.fault = none) :
    CreatePhysicsEntities eng s =
      (afterJoints eng s).each (selected s.impl.firstRun processBattery) := by
  unfold CreatePhysicsEntities afterJoints afterCollisions afterLinks afterModels afterWorlds
    createStart
  rw [if_neg (by simp [hf])]

theorem processWorld_rest (eng : Engine) (st : State) (e : Entity) :
    (fun x : State => (x.ecm, x.fault, x.impl.entityModelMap, x.impl.entityLinkMap, x.impl.linkEntityMap, x.impl.entityCollisionMap, x.impl.collisionEntityMap, x.impl.entityJointMap)) (processWorld eng st e) =
      (st.ecm, st.fault, st.impl.entityModelMap, st.impl.entityLinkMap, st.impl.linkEntityMap, st.impl.entityCollisionMap, st.impl.collisionEntityMap, st.impl.entityJointMap) := by
  obtain ⟨a0, a1, h⟩ := processWorld_shape eng st e
  rw [h]

theorem processModel_rest (eng : Engine) (st : State) (e : Entity) :
    (fun x : State => (x.ecm, x.fault, x.impl.entityWorldMap, x.impl.entityLinkMap, x.impl.linkEntityMap, x.impl.entityCollisionMap, x.impl.collisionEntityMap, x.impl.entityJointMap)) (processModel eng st e) =
      (st.ecm, st.fault, st.impl.entityWorldMap, st.impl.entityLinkMap, st.impl.linkEntityMap, st.impl.entityCollisionMap, st.impl.collisionEntityMap, st.impl.entityJointMap) := by
  obtain ⟨a0, a1, h⟩ := processModel_shape eng st e
  rw [h]

theorem processLink_rest (eng : Engine) (st : State) (e : Entity) :
    (fun x : State => (x.ecm, x.fault, x.impl.entityWorldMap, x.impl.entityModelMap, x.impl.entityCollisionMap, x.impl.collisionEntityMap, x.impl.entityJointMap)) (processLink eng st e) =
      (st.ecm, st.fault, st.impl.entityWorldMap, st.impl.entityModelMap, st.impl.entityCollisionMap, st.impl.collisionEntityMap, st.impl.entityJointMap) := by
  obtain ⟨a0, a1, a2, h⟩ := processLink_shape eng st e
  rw [h]

theorem processCollision_rest (eng : Engine) (st : State) (e : Entity) :
    (fun x : State => (x.ecm, x.fault, x.impl.entityWorldMap, x.impl.entityModelMap, x.impl.entityLinkMap, x.impl.linkEntityMap, x.impl.entityJointMap)) (processCollision eng st e) =
      (st.ecm, st.fault, st.impl.entityWorldMap, st.impl.entityModelMap, st.impl.entityLinkMap, st.impl.linkEntityMap, st.impl.entityJointMap) := by
  obtain ⟨a0, a1, a2, h⟩ := processCollision_shape eng st e
  rw [h]

theorem processJoint_rest (eng : Engine) (st : State) (e : Entity) :
    (fun x : State => (x.ecm, x.fault, x.impl.entityWorldMap, x.impl.entityModelMap, x.impl.entityLinkMap, x.impl.linkEntityMap, x.impl.entityCollisionMap, x.impl.collisionEntityMap)) (processJoint eng st e) =
      (st.ecm, st.fault, st.impl.entityWorldMap, st.impl.entityModelMap, st.impl.entityLinkMap, st.impl.linkEntityMap, st.impl.entityCollisionMap, st.impl.collisionEntityMap) := by
  obtain ⟨a0, a1, h⟩ := processJoint_shape eng st e
  rw [h]

theorem processBattery_rest (st : State) (e : Entity) :
    (fun x : State => (x.ecm, x.fault, x.impl.entityWorldMap, x.impl.entityModelMap, x.impl.entityLinkMap, x.impl.linkEntityMap, x.impl.entityCollisionMap, x.impl.collisionEntityMap, x.impl.entityJointMap)) (processBattery st e) =
      (st.ecm, st.fault, st.impl.entityWorldMap, st.impl.entityModelMap, st.impl.entityLinkMap, st.impl.linkEntityMap, st.impl.entityCollisionMap, st.impl.collisionEntityMap, st.impl.entityJointMap) := by
  obtain ⟨a0, h⟩ := processBattery_shape st e
  rw [h]

theorem Kept.kept_refl (fwd : Impl → FMap Entity Nat) (rev : Impl → FMap Nat Entity)
    (e : Entity) (a : Impl) : Kept fwd rev e a a := ⟨rfl, fun _ h => h⟩

theorem Kept.kept_trans {fwd : Impl → FMap Entity Nat} {rev : Impl → FMap Nat Entity}
    {e : Entity} {a b c : Impl} (h1 : Kept fwd rev e a b) (h2 : Kept fwd rev e b c) :
    Kept fwd rev e a c := ⟨h2.1.trans h1.1, fun h hh => h1.2 h (h2.2 h hh)⟩

theorem Kept.kept_of_eq {fwd : Impl → FMap Entity Nat} {rev : Impl → FMap Nat Entity}
    {e : Entity} {a b : Impl} (h1 : fwd b = fwd a) (h2 : rev b = rev a) : Kept fwd rev e a b :=
  ⟨congrFun h1 e, fun h hh => by rw [← h2]; exact hh⟩

theorem pass_kept (fwd : Impl → FMap Entity Nat) (rev : Impl → FMap Nat Entity) (e : Entity)
    (visit : State → Entity → State) (C : State → Prop)
    (hC : ∀ st x, C st → C (visit st x))
    (hother : ∀ st x, x ≠ e → Kept fwd rev e st.impl (visit st x).impl)
    (hself : ∀ st, C st → visit st e = st) (s : State) (hs : C s) :
    Kept fwd rev e s.impl (s.each visit).impl := by
  have := @each_preserves (fun st => C st ∧ Kept fwd rev e s.impl st.impl) visit
    (fun st x hst => by
      refine ⟨hC st x hst.1, ?_⟩
      by_cases hx : x = e
      · rw [hx, hself st hst.1]
        exact hst.2
      · exact hst.2.kept_trans (hother st x hx)) s ⟨hs, Kept.kept_refl _ _ _ _⟩
  exact this.2

theorem insert_other {V : Type} (m : FMap Entity V) (x e : Entity) (v : V) (hx : x ≠ e) :
    FMap.insert m x v e = m e := by
  unfold FMap.insert
  rw [if_neg (Ne.symm hx)]

theorem rev_insert_other (r : FMap Nat Entity) (h h' : Nat) (x e : Entity) (hx : x ≠ e)
    (hh : FMap.insert r h x h' = some e) : r h' = some e := by
  unfold FMap.insert at hh
  split at hh
  · rename_i heq
    split at hh
    · rename_i old hold
      rw [heq, hold]
      exact hh
    · exact absurd (Option.some.inj hh) hx
  · exact hh

theorem processModel_other (eng : Engine) (st : State) (x e : Entity) (hx : x ≠ e) :
    Kept (fun i => i.entityModelMap) noReverse e st.impl (processModel eng st x).impl := by
  unfold processModel
  repeat' (first | split | dsimp only [State.emit])
  all_goals first
    | exact Kept.kept_refl _ _ _ _
    | exact ⟨insert_other _ _ _ _ hx, fun _ h => h⟩

theorem processLink_other (eng : Engine) (st : State) (x e : Entity) (hx : x ≠ e) :
    Kept (fun i => i.entityLinkMap) (fun i => i.linkEntityMap) e st.impl
      (processLink eng st x).impl := by
  unfold processLink
  repeat' (first | split | dsimp only [State.emit])
  all_goals first
    | exact Kept.kept_refl _ _ _ _
    | exact ⟨insert_other _ _ _ _ hx, fun _ h => rev_insert_other _ _ _ _ _ hx h⟩

theorem processCollision_other (eng : Engine) (st : State) (x e : Entity) (hx : x ≠ e) :
    Kept (fun i => i.entityCollisionMap) (fun i => i.collisionEntityMap) e st.impl
      (processCollision eng st x).impl := by
  unfold processCollision registerCollision
  repeat' (first | split | dsimp only [State.emit])
  all_goals first
    | exact Kept.kept_refl _ _ _ _
    | exact ⟨insert_other _ _ _ _ hx, fun _ h => rev_insert_other _ _ _ _ _ hx h⟩

theorem processJoint_other (eng : Engine) (st : State) (x e : Entity) (hx : x ≠ e) :
    Kept (fun i => i.entityJointMap) noReverse e st.impl (processJoint eng st x).impl := by
  unfold processJoint
  repeat' (first | split | dsimp only [State.emit])
  all_goals first
    | exact Kept.kept_refl _ _ _ _
    | exact ⟨insert_other _ _ _ _ hx, fun _ h => h⟩

theorem selected_other {fwd : Impl → FMap Entity Nat} {rev : Impl → FMap Nat Entity}
    {visit : State → Entity → State} {e : Entity}
    (h : ∀ st x, x ≠ e → Kept fwd rev e st.impl (visit st x).impl) (all : Bool) (st : State)
    (x : Entity) (hx : x ≠ e) : Kept fwd rev e st.impl (selected all visit st x).impl := by
  unfold selected
  split
  · exact h st x hx
  · exact Kept.kept_refl _ _ _ _

theorem processModel_skip (eng : Engine) (st : State) (e p : Entity)
    (hp : st.ecm.parentEntity e = some p) (hn : AMap.find st.impl.entityWorldMap p = none) :
    processModel eng st e = st := by
  unfold processModel
  repeat' (first | split | dsimp only [State.emit])
  all_goals first
    | rfl
    | simp_all

theorem processLink_skip (eng : Engine) (st : State) (e p : Entity)
    (hp : st.ecm.parentEntity e = some p) (hn : st.impl.entityModelMap p = none) :
    processLink eng st e = st := by
  unfold processLink
  repeat' (first | split | dsimp only [State.emit])
  all_goals first
    | rfl
    | simp_all

theorem processCollision_skip (eng : Engine) (st : State) (e p : Entity)
    (hp : st.ecm.parentEntity e = some p) (hn : st.impl.entityLinkMap p = none) :
    processCollision eng st e = st := by
  unfold processCollision
  repeat' (first | split | dsimp only [State.emit])
  all_goals first
    | rfl
    | simp_all

theorem processJoint_skip (eng : Engine) (st : State) (e p : Entity)
    (hp : st.ecm.parentEntity e = some p) (hn : st.impl.entityModelMap p = none) :
    processJoint eng st e = st := by
  unfold processJoint
  repeat' (first | split | dsimp only [State.emit])
  all_goals first
    | rfl
    | simp_all

theorem passWorld_rest (eng : Engine) (s : State) :
    (fun x : State => (x.ecm, x.fault, x.impl.entityModelMap, x.impl.entityLinkMap, x.impl.linkEntityMap, x.impl.entityCollisionMap, x.impl.collisionEntityMap, x.impl.entityJointMap))
        (afterWorlds eng s) =
      (fun x : State => (x.ecm, x.fault, x.impl.entityModelMap, x.impl.entityLinkMap, x.impl.linkEntityMap, x.impl.entityCollisionMap, x.impl.collisionEntityMap, x.impl.entityJointMap))
        (createStart s) :=
  each_field (fun x : State => (x.ecm, x.fault, x.impl.entityModelMap, x.impl.entityLinkMap, x.impl.linkEntityMap, x.impl.entityCollisionMap, x.impl.collisionEntityMap, x.impl.entityJointMap))
    (selected_field (fun x : State => (x.ecm, x.fault, x.impl.entityModelMap, x.impl.entityLinkMap, x.impl.linkEntityMap, x.impl.entityCollisionMap, x.impl.collisionEntityMap, x.impl.entityJointMap))
      (processWorld_rest eng) s.impl.firstRun) _

theorem passModel_rest (eng : Engine) (s : State) :
    (fun x : State => (x.ecm, x.fault, x.impl.entityWorldMap, x.impl.entityLinkMap, x.impl.linkEntityMap, x.impl.entityCollisionMap, x.impl.collisionEntityMap, x.impl.entityJointMap))
        (afterModels eng s) =
      (fun x : State => (x.ecm, x.fault, x.impl.entityWorldMap, x.impl.entityLinkMap, x.impl.linkEntityMap, x.impl.entityCollisionMap, x.impl.collisionEntityMap, x.impl.entityJointMap))
        (afterWorlds eng s) :=
  each_field (fun x : State => (x.ecm, x.fault, x.impl.entityWorldMap, x.impl.entityLinkMap, x.impl.linkEntityMap, x.impl.entityCollisionMap, x.impl.collisionEntityMap, x.impl.entityJointMap))
    (selected_field (fun x : State => (x.ecm, x.fault, x.impl.entityWorldMap, x.impl.entityLinkMap, x.impl.linkEntityMap, x.impl.entityCollisionMap, x.impl.collisionEntityMap, x.impl.entityJointMap))
      (processModel_rest eng) s.impl.firstRun) _

theorem passLink_rest (eng : Engine) (s : State) :
    (fun x : State => (x.ecm, x.fault, x.impl.entityWorldMap, x.impl.entityModelMap, x.impl.entityCollisionMap, x.impl.collisionEntityMap, x.impl.entityJointMap))
        (afterLinks eng s) =
      (fun x : State => (x.ecm, x.fault, x.impl.entityWorldMap, x.impl.entityModelMap, x.impl.entityCollisionMap, x.impl.collisionEntityMap, x.impl.entityJointMap))
        (afterModels eng s) :=
  each_field (fun x : State => (x.ecm, x.fault, x.impl.entityWorldMap, x.impl.entityModelMap, x.impl.entityCollisionMap, x.impl.collisionEntityMap, x.impl.entityJointMap))
    (selected_field (fun x : State => (x.ecm, x.fault, x.impl.entityWorldMap, x.impl.entityModelMap, x.impl.entityCollisionMap, x.impl.collisionEntityMap, x.impl.entityJointMap))
      (processLink_rest eng) s.impl.firstRun) _

theorem passCollision_rest (eng : Engine) (s : State) :
    (fun x : State => (x.ecm, x.fault, x.impl.entityWorldMap, x.impl.entityModelMap, x.impl.entityLinkMap, x.impl.linkEntityMap, x.impl.entityJointMap))
        (afterCollisions eng s) =
      (fun x : State => (x.ecm, x.fault, x.impl.entityWorldMap, x.impl.entityModelMap, x.impl.entityLinkMap, x.impl.linkEntityMap, x.impl.entityJointMap))
        (afterLinks eng s) :=
  each_field (fun x : State => (x.ecm, x.fault, x.impl.entityWorldMap, x.impl.entityModelMap, x.impl.entityLinkMap, x.impl.linkEntityMap, x.impl.entityJointMap))
    (selected_field (fun x : State => (x.ecm, x.fault, x.impl.entityWorldMap, x.impl.entityModelMap, x.impl.entityLinkMap, x.impl.linkEntityMap, x.impl.entityJointMap))
      (processCollision_rest eng) s.impl.firstRun) _

theorem passJoint_rest (eng : Engine) (s : State) :
    (fun x : State => (x.ecm, x.fault, x.impl.entityWorldMap, x.impl.entityModelMap, x.impl.entityLinkMap, x.impl.linkEntityMap, x.impl.entityCollisionMap, x.impl.collisionEntityMap))
        (afterJoints eng s) =
      (fun x : State => (x.ecm, x.fault, x.impl.entityWorldMap, x.impl.entityModelMap, x.impl.entityLinkMap, x.impl.linkEntityMap, x.impl.entityCollisionMap, x.impl.collisionEntityMap))
        (afterCollisions eng s) :=
  each_field (fun x : State => (x.ecm, x.fault, x.impl.entityWorldMap, x.impl.entityModelMap, x.impl.entityLinkMap, x.impl.linkEntityMap, x.impl.entityCollisionMap, x.impl.collisionEntityMap))
    (selected_field (fun x : State => (x.ecm, x.fault, x.impl.entityWorldMap, x.impl.entityModelMap, x.impl.entityLinkMap, x.impl.linkEntityMap, x.impl.entityCollisionMap, x.impl.collisionEntityMap))
      (processJoint_rest eng) s.impl.firstRun) _

theorem passBattery_rest (eng : Engine) (s : State) :
    (fun x : State => (x.ecm, x.fault, x.impl.entityWorldMap, x.impl.entityModelMap, x.impl.entityLinkMap, x.impl.linkEntityMap, x.impl.entityCollisionMap, x.impl.collisionEntityMap, x.impl.entityJointMap))
        ((afterJoints eng s).each (selected s.impl.firstRun processBattery)) =
      (fun x : State => (x.ecm, x.fault, x.impl.entityWorldMap, x.impl.entityModelMap, x.impl.entityLinkMap, x.impl.linkEntityMap, x.impl.entityCollisionMap, x.impl.collisionEntityMap, x.impl.entityJointMap))
        (afterJoints eng s) :=
  each_field (fun x : State => (x.ecm, x.fault, x.impl.entityWorldMap, x.impl.entityModelMap, x.impl.entityLinkMap, x.impl.linkEntityMap, x.impl.entityCollisionMap, x.impl.collisionEntityMap, x.impl.entityJointMap))
    (selected_field (fun x : State => (x.ecm, x.fault, x.impl.entityWorldMap, x.impl.entityModelMap, x.impl.entityLinkMap, x.impl.linkEntityMap, x.impl.entityCollisionMap, x.impl.collisionEntityMap, x.impl.entityJointMap))
      processBattery_rest s.impl.firstRun) _

theorem keptModel (eng : Engine) (s : State) (e : Entity) (C : State → Prop)
    (hC : ∀ st x, C st → C (selected s.impl.firstRun (processModel eng) st x))
    (hself : ∀ st, C st → selected s.impl.firstRun (processModel eng) st e = st)
    (hs : C (afterWorlds eng s)) (hf : s.fault = none) :
    Kept (fun i => i.entityModelMap) noReverse e s.impl (CreatePhysicsEntities eng s).impl := by
  rw [CreatePhysicsEntities_passes eng s hf]
  have hWorld := passWorld_rest eng s
  simp only [Prod.mk.injEq] at hWorld
  have kWorld : Kept (fun i => i.entityModelMap) noReverse e (createStart s).impl (afterWorlds eng s).impl :=
    Kept.kept_of_eq hWorld.2.2.1 rfl
  have hModel := passModel_rest eng s
  simp only [Prod.mk.injEq] at hModel
  have kModel : Kept (fun i => i.entityModelMap) noReverse e (afterWorlds eng s).impl (afterModels eng s).impl :=
    pass_kept _ _ e _ C hC (fun st x hx => selected_other (fun st x hx => processModel_other eng st x e hx) _ st x hx) hself _ hs
  have hLink := passLink_rest eng s
  simp only [Prod.mk.injEq] at hLink
  have kLink : Kept (fun i => i.entityModelMap) noReverse e (afterModels eng s).impl (afterLinks eng s).impl :=
    Kept.kept_of_eq hLink.2.2.2.1 rfl
  have hCollision := passCollision_rest eng s
  simp only [Prod.mk.injEq] at hCollision
  have kCollision : Kept (fun i => i.entityModelMap) noReverse e (afterLinks eng s).impl (afterCollisions eng s).impl :=
    Kept.kept_of_eq hCollision.2.2.2.1 rfl
  have hJoint := passJoint_rest eng s
  simp only [Prod.mk.injEq] at hJoint
  have kJoint : Kept (fun i => i.entityModelMap) noReverse e (afterCollisions eng s).impl (afterJoints eng s).impl :=
    Kept.kept_of_eq hJoint.2.2.2.1 rfl
  have hBattery := passBattery_rest eng s
  simp only [Prod.mk.injEq] at hBattery
  have kBattery : Kept (fun i => i.entityModelMap) noReverse e (afterJoints eng s).impl ((afterJoints eng s).each (selected s.impl.firstRun processBattery)).impl :=
    Kept.kept_of_eq hBattery.2.2.2.1 rfl
  have k0 : Kept (fun i => i.entityModelMap) noReverse e s.impl (createStart s).impl := Kept.kept_of_eq rfl rfl
  exact ((((((k0.kept_trans kWorld).kept_trans kModel).kept_trans kLink).kept_trans kCollision).kept_trans
    kJoint).kept_trans kBattery)

theorem keptLink (eng : Engine) (s : State) (e : Entity) (C : State → Prop)
    (hC : ∀ st x, C st → C (selected s.impl.firstRun (processLink eng) st x))
    (hself : ∀ st, C st → selected s.impl.firstRun (processLink eng) st e = st)
    (hs : C (afterModels eng s)) (hf : s.fault = none) :
    Kept (fun i => i.entityLinkMap) (fun i => i.linkEntityMap) e s.impl (CreatePhysicsEntities eng s).impl := by
  rw [CreatePhysicsEntities_passes eng s hf]
  have hWorld := passWorld_rest eng s
  simp only [Prod.mk.injEq] at hWorld
  have kWorld : Kept (fun i => i.entityLinkMap) (fun i => i.linkEntityMap) e (createStart s).impl (afterWorlds eng s).impl :=
    Kept.kept_of_eq hWorld.2.2.2.1 hWorld.2.2.2.2.1
  have hModel := passModel_rest eng s
  simp only [Prod.mk.injEq] at hModel
  have kModel : Kept (fun i => i.entityLinkMap) (fun i => i.linkEntityMap) e (afterWorlds eng s).impl (afterModels eng s).impl :=
    Kept.kept_of_eq hModel.2.2.2.1 hModel.2.2.2.2.1
  have hLink := passLink_rest eng s
  simp only [Prod.mk.injEq] at hLink
  have kLink : Kept (fun i => i.entityLinkMap) (fun i => i.linkEntityMap) e (afterModels eng s).impl (afterLinks eng s).impl :=
    pass_kept _ _ e _ C hC (fun st x hx => selected_other (fun st x hx => processLink_other eng st x e hx) _ st x hx) hself _ hs
  have hCollision := passCollision_rest eng s
  simp only [Prod.mk.injEq] at hCollision
  have kCollision : Kept (fun i => i.entityLinkMap) (fun i => i.linkEntityMap) e (afterLinks eng s).impl (afterCollisions eng s).impl :=
    Kept.kept_of_eq hCollision.2.2.2.2.1 hCollision.2.2.2.2.2.1
  have hJoint := passJoint_rest eng s
  simp only [Prod.mk.injEq] at hJoint
  have kJoint : Kept (fun i => i.entityLinkMap) (fun i => i.linkEntityMap) e (afterCollisions eng s).impl (afterJoints eng s).impl :=
    Kept.kept_of_eq hJoint.2.2.2.2.1 hJoint.2.2.2.2.2.1
  have hBattery := passBattery_rest eng s
  simp only [Prod.mk.injEq] at hBattery
  have kBattery : Kept (fun i => i.entityLinkMap) (fun i => i.linkEntityMap) e (afterJoints eng s).impl ((afterJoints eng s).each (selected s.impl.firstRun processBattery)).impl :=
    Kept.kept_of_eq hBattery.2.2.2.2.1 hBattery.2.2.2.2.2.1
  have k0 : Kept (fun i => i.entityLinkMap) (fun i => i.linkEntityMap) e s.impl (createStart s).impl := Kept.kept_of_eq rfl rfl
  exact ((((((k0.kept_trans kWorld).kept_trans kModel).kept_trans kLink).kept_trans kCollision).kept_trans
    kJoint).kept_trans kBattery)

theorem keptCollision (eng : Engine) (s : State) (e : Entity) (C : State → Prop)
    (hC : ∀ st x, C st → C (selected s.impl.firstRun (processCollision eng) st x))
    (hself : ∀ st, C st → selected s.impl.firstRun (processCollision eng) st e = st)
    (hs : C (afterLinks eng s)) (hf : s.fault = none) :
    Kept (fun i => i.entityCollisionMap) (fun i => i.collisionEntityMap) e s.impl (CreatePhysicsEntities eng s).impl := by
  rw [CreatePhysicsEntities_passes eng s hf]
  have hWorld := passWorld_rest eng s
  simp only [Prod.mk.injEq] at hWorld
  have kWorld : Kept (fun i => i.entityCollisionMap) (fun i => i.collisionEntityMap) e (createStart s).impl (afterWorlds eng s).impl :=
    Kept.kept_of_eq hWorld.2.2.2.2.2.1 hWorld.2.2.2.2.2.2.1
  have hModel := passModel_rest eng s
  simp only [Prod.mk.injEq] at hModel
  have kModel : Kept (fun i => i.entityCollisionMap) (fun i => i.collisionEntityMap) e (afterWorlds eng s).impl (afterModels eng s).impl :=
    Kept.kept_of_eq hModel.2.2.2.2.2.1 hModel.2.2.2.2.2.2.1
  have hLink := passLink_rest eng s
  simp only [Prod.mk.injEq] at hLink
  have kLink : Kept (fun i => i.entityCollisionMap) (fun i => i.collisionEntityMap) e (afterModels eng s).impl (afterLinks eng s).impl :=
    Kept.kept_of_eq hLink.2.2.2.2.1 hLink.2.2.2.2.2.1
  have hCollision := passCollision_rest eng s
  simp only [Prod.mk.injEq] at hCollision
  have kCollision : Kept (fun i => i.entityCollisionMap) (fun i => i.collisionEntityMap) e (afterLinks eng s).impl (afterCollisions eng s).impl :=
    pass_kept _ _ e _ C hC (fun st x hx => selected_other (fun st x hx => processCollision_other eng st x e hx) _ st x hx) hself _ hs
  have hJoint := passJoint_rest eng s
  simp only [Prod.mk.injEq] at hJoint
  have kJoint : Kept (fun i => i.entityCollisionMap) (fun i => i.collisionEntityMap) e (afterCollisions eng s).impl (afterJoints eng s).impl :=
    Kept.kept_of_eq hJoint.2.2.2.2.2.2.1 hJoint.2.2.2.2.2.2.2
  have hBattery := passBattery_rest eng s
  simp only [Prod.mk.injEq] at hBattery
  have kBattery : Kept (fun i => i.entityCollisionMap) (fun i => i.collisionEntityMap) e (afterJoints eng s).impl ((afterJoints eng s).each (selected s.impl.firstRun processBattery)).impl :=
    Kept.kept_of_eq hBattery.2.2.2.2.2.2.1 hBattery.2.2.2.2.2.2.2.1
  have k0 : Kept (fun i => i.entityCollisionMap) (fun i => i.collisionEntityMap) e s.impl (createStart s).impl := Kept.kept_of_eq rfl rfl
  exact ((((((k0.kept_trans kWorld).kept_trans kModel).kept_trans kLink).kept_trans kCollision).kept_trans
    kJoint).kept_trans kBattery)

theorem keptJoint (eng : Engine) (s : State) (e : Entity) (C : State → Prop)
    (hC : ∀ st x, C st → C (selected s.impl.firstRun (processJoint eng) st x))
    (hself : ∀ st, C st → selected s.impl.firstRun (processJoint eng) st e = st)
    (hs : C (afterCollisions eng s)) (hf : s.fault = none) :
    Kept (fun i => i.entityJointMap) noReverse e s.impl (CreatePhysicsEntities eng s).impl := by
  rw [CreatePhysicsEntities_passes eng s hf]
  have hWorld := passWorld_rest eng s
  simp only [Prod.mk.injEq] at hWorld
  have kWorld : Kept (fun i => i.entityJointMap) noReverse e (createStart s).impl (afterWorlds eng s).impl :=
    Kept.kept_of_eq hWorld.2.2.2.2.2.2.2 rfl
  have hModel := passModel_rest eng s
  simp only [Prod.mk.injEq] at hModel
  have kModel : Kept (fun i => i.entityJointMap) noReverse e (afterWorlds eng s).impl (afterModels eng s).impl :=
    Kept.kept_of_eq hModel.2.2.2.2.2.2.2 rfl
  have hLink := passLink_rest eng s
  simp only [Prod.mk.injEq] at hLink
  have kLink : Kept (fun i => i.entityJointMap) noReverse e (afterModels eng s).impl (afterLinks eng s).impl :=
    Kept.kept_of_eq hLink.2.2.2.2.2.2 rfl
  have hCollision := passCollision_rest eng s
  simp only [Prod.mk.injEq] at hCollision
  have kCollision : Kept (fun i => i.entityJointMap) noReverse e (afterLinks eng s).impl (afterCollisions eng s).impl :=
    Kept.kept_of_eq hCollision.2.2.2.2.2.2 rfl
  have hJoint := passJoint_rest eng s
  simp only [Prod.mk.injEq] at hJoint
  have kJoint : Kept (fun i => i.entityJointMap) noReverse e (afterCollisions eng s).impl (afterJoints eng s).impl :=
    pass_kept _ _ e _ C hC (fun st x hx => selected_other (fun st x hx => processJoint_other eng st x e hx) _ st x hx) hself _ hs
  have hBattery := passBattery_rest eng s
  simp only [Prod.mk.injEq] at hBattery
  have kBattery : Kept (fun i => i.entityJointMap) noReverse e (afterJoints eng s).impl ((afterJoints eng s).each (selected s.impl.firstRun processBattery)).impl :=
    Kept.kept_of_eq hBattery.2.2.2.2.2.2.2.2 rfl
  have k0 : Kept (fun i => i.entityJointMap) noReverse e s.impl (createStart s).impl := Kept.kept_of_eq rfl rfl
  exact ((((((k0.kept_trans kWorld).kept_trans kModel).kept_trans kLink).kept_trans kCollision).kept_trans
    kJoint).kept_trans kBattery)

theorem passes_ecm (eng : Engine) (s : State) :
    (afterWorlds eng s).ecm = s.ecm ∧ (afterModels eng s).ecm = s.ecm ∧
      (afterLinks eng s).ecm = s.ecm ∧ (afterCollisions eng s).ecm = s.ecm := by
  have hWorld := passWorld_rest eng s
  have hModel := passModel_rest eng s
  have hLink := passLink_rest eng s
  have hCollision := passCollision_rest eng s
  simp only [Prod.mk.injEq] at hWorld hModel hLink hCollision
  have h1 : (afterWorlds eng s).ecm = s.ecm := hWorld.1
  have h2 : (afterModels eng s).ecm = s.ecm := hModel.1.trans h1
  have h3 : (afterLinks eng s).ecm = s.ecm := hLink.1.trans h2
  exact ⟨h1, h2, h3, hCollision.1.trans h3⟩

theorem final_parent_maps (eng : Engine) (s : State) (hf : s.fault = none) :
    (CreatePhysicsEntities eng s).impl.entityWorldMap = (afterWorlds eng s).impl.entityWorldMap ∧
      (CreatePhysicsEntities eng s).impl.entityModelMap =
        (afterModels eng s).impl.entityModelMap ∧
      (CreatePhysicsEntities eng s).impl.entityModelMap =
        (afterCollisions eng s).impl.entityModelMap ∧
      (CreatePhysicsEntities eng s).impl.entityLinkMap =
        (afterLinks eng s).impl.entityLinkMap := by
  rw [CreatePhysicsEntities_passes eng s hf]
  have hModel := passModel_rest eng s
  have hLink := passLink_rest eng s
  have hCollision := passCollision_rest eng s
  have hJoint := passJoint_rest eng s
  have hBattery := passBattery_rest eng s
  simp only [Prod.mk.injEq] at hModel hLink hCollision hJoint hBattery
  obtain ⟨_, _, m3, _⟩ := hModel
  obtain ⟨_, _, l3, l4, _⟩ := hLink
  obtain ⟨_, _, c3, c4, c5, _⟩ := hCollision
  obtain ⟨_, _, j3, j4, j5, _⟩ := hJoint
  obtain ⟨_, _, b3, b4, b5, _⟩ := hBattery
  exact ⟨b3.trans (j3.trans (c3.trans (l3.trans m3))), b4.trans (j4.trans (c4.trans l4)),
    b4.trans j4, b5.trans (j5.trans c5)⟩

theorem selected_skip {visit : State → Entity → State} (all : Bool) (st : State) (e : Entity)
    (h : visit st e = st) : selected all visit st e = st := by
  unfold selected
  split
  · exact h
  · rfl

theorem selected_notNew {visit : State → Entity → State} (st : State) (e : Entity)
    (h : st.ecm.newlyCreated e = false) : selected false visit st e = st := by
  unfold selected
  rw [if_neg (by simp [h])]

/-- A child whose parent is unregistered at the end of the materialisation keeps
the entries it had. -/
theorem child_of_unregistered_parent (eng : Engine) (s : State) (e p : Entity)
    (hf : s.fault = none) (hpar : s.ecm.parentEntity e = some p) :
    (AMap.find (CreatePhysicsEntities eng s).impl.entityWorldMap p = none →
      Kept (fun i => i.entityModelMap) noReverse e s.impl (CreatePhysicsEntities eng s).impl) ∧
    ((CreatePhysicsEntities eng s).impl.entityModelMap p = none →
      Kept (fun i => i.entityLinkMap) (fun i => i.linkEntityMap) e s.impl
          (CreatePhysicsEntities eng s).impl ∧
        Kept (fun i => i.entityJointMap) noReverse e s.impl
          (CreatePhysicsEntities eng s).impl) ∧
    ((CreatePhysicsEntities eng s).impl.entityLinkMap p = none →
      Kept (fun i => i.entityCollisionMap) (fun i => i.collisionEntityMap) e s.impl
        (CreatePhysicsEntities eng s).impl) := by
  obtain ⟨e1, e2, e3, e4⟩ := passes_ecm eng s
  obtain ⟨f1, f2, f3, f4⟩ := final_parent_maps eng s hf
  refine ⟨?_, ?_, ?_⟩
  · intro hn
    rw [f1] at hn
    apply keptModel eng s e
      (fun st => AMap.find st.impl.entityWorldMap p = none ∧ st.ecm.parentEntity e = some p)
    · intro st x hst
      have h := selected_field (fun y : State => (y.ecm, y.impl.entityWorldMap))
        (fun st e => by
          have := processModel_rest eng st e
          simp only [Prod.mk.injEq] at this
          exact Prod.ext this.1 this.2.2.1) s.impl.firstRun st x
      simp only [Prod.mk.injEq] at h
      rw [h.1, h.2]
      exact hst
    · intro st hst
      exact selected_skip _ st e (processModel_skip eng st e p hst.2 hst.1)
    · exact ⟨hn, by rw [e1]; exact hpar⟩
    · exact hf
  · intro hn
    constructor
    · rw [f2] at hn
      apply keptLink eng s e
        (fun st => st.impl.entityModelMap p = none ∧ st.ecm.parentEntity e = some p)
      · intro st x hst
        have h := selected_field (fun y : State => (y.ecm, y.impl.entityModelMap))
          (fun st e => by
            have := processLink_rest eng st e
            simp only [Prod.mk.injEq] at this
            exact Prod.ext this.1 this.2.2.2.1) s.impl.firstRun st x
        simp only [Prod.mk.injEq] at h
        rw [h.1, h.2]
        exact hst
      · intro st hst
        exact selected_skip _ st e (processLink_skip eng st e p hst.2 hst.1)
      · exact ⟨hn, by rw [e2]; exact hpar⟩
      · exact hf
    · rw [f3] at hn
      apply keptJoint eng s e
        (fun st => st.impl.entityModelMap p = none ∧ st.ecm.parentEntity e = some p)
      · intro st x hst
        have h := selected_field (fun y : State => (y.ecm, y.impl.entityModelMap))
          (fun st e => by
            have := processJoint_rest eng st e
            simp only [Prod.mk.injEq] at this
            exact Prod.ext this.1 this.2.2.2.1) s.impl.firstRun st x
        simp only [Prod.mk.injEq] at h
        rw [h.1, h.2]
        exact hst
      · intro st hst
        exact selected_skip _ st e (processJoint_skip eng st e p hst.2 hst.1)
      · exact ⟨hn, by rw [e4]; exact hpar⟩
      · exact hf
  · intro hn
    rw [f4] at hn
    apply keptCollision eng s e
      (fun st => st.impl.entityLinkMap p = none ∧ st.ecm.parentEntity e = some p)
    · intro st x hst
      have h := selected_field (fun y : State => (y.ecm, y.impl.entityLinkMap))
        (fun st e => by
          have := processCollision_rest eng st e
          simp only [Prod.mk.injEq] at this
          exact Prod.ext this.1 this.2.2.2.2.1) s.impl.firstRun st x
      simp only [Prod.mk.injEq] at h
      rw [h.1, h.2]
      exact hst
    · intro st hst
      exact selected_skip _ st e (processCollision_skip eng st e p hst.2 hst.1)
    · exact ⟨hn, by rw [e3]; exact hpar⟩
    · exact hf

/-- An entity that is not newly created keeps its entries on every run of the
materializer after the first. -/
theorem not_new_not_visited (eng : Engine) (s : State) (e : Entity) (hf : s.fault = none)
    (hall : s.impl.firstRun = false) (hnew : s.ecm.newlyCreated e = false) :
    Kept (fun i => i.entityModelMap) noReverse e s.impl (CreatePhysicsEntities eng s).impl ∧
      Kept (fun i => i.entityLinkMap) (fun i => i.linkEntityMap) e s.impl
        (CreatePhysicsEntities eng s).impl ∧
      Kept (fun i => i.entityCollisionMap) (fun i => i.collisionEntityMap) e s.impl
        (CreatePhysicsEntities eng s).impl ∧
      Kept (fun i => i.entityJointMap) noReverse e s.impl (CreatePhysicsEntities eng s).impl := by
  obtain ⟨e1, e2, e3, e4⟩ := passes_ecm eng s
  refine ⟨?_, ?_, ?_, ?_⟩
  · apply keptModel eng s e (fun st => st.ecm.newlyCreated e = false)
    · intro st x hst
      have h := selected_field (fun y : State => y.ecm)
        (fun st e => congrArg (fun t => t.1) (processModel_rest eng st e)) s.impl.firstRun st x
      rw [h]
      exact hst
    · intro st hst
      rw [hall]
      exact selected_notNew st e hst
    · rw [e1]
      exact hnew
    · exact hf
  · apply keptLink eng s e (fun st => st.ecm.newlyCreated e = false)
    · intro st x hst
      have h := selected_field (fun y : State => y.ecm)
        (fun st e => congrArg (fun t => t.1) (processLink_rest eng st e)) s.impl.firstRun st x
      rw [h]
      exact hst
    · intro st hst
      rw [hall]
      exact selected_notNew st e hst
    · rw [e2]
      exact hnew
    · exact hf
  · apply keptCollision eng s e (fun st => st.ecm.newlyCreated e = false)
    · intro st x hst
      have h := selected_field (fun y : State => y.ecm)
        (fun st e => congrArg (fun t => t.1) (processCollision_rest eng st e))
        s.impl.firstRun st x
      rw [h]
      exact hst
    · intro st hst
      rw [hall]
      exact selected_notNew st e hst
    · rw [e3]
      exact hnew
    · exact hf
  · apply keptJoint eng s e (fun st => st.ecm.newlyCreated e = false)
    · intro st x hst
      have h := selected_field (fun y : State => y.ecm)
        (fun st e => congrArg (fun t => t.1) (processJoint_rest eng st e)) s.impl.firstRun st x
      rw [h]
      exact hst
    · intro st hst
      rw [hall]
      exact selected_notNew st e hst
    · rw [e4]
      exact hnew
    · exact hf

/-- C16 fails as stated: on the first tick the link 3 is skipped because its
parent model 2 is not registered; on the next tick the model is registered, the
link is no longer newly created, and the materializer neither constructs nor
registers it. -/
theorem C16_counterexample :
    (CreatePhysicsEntities (tickEngine stillView) orphanExample).impl.entityLinkMap 3 = none ∧
      adoptedStore.newlyCreated 3 = false ∧
      (CreatePhysicsEntities (tickEngine stillView)
        { CreatePhysicsEntities (tickEngine stillView) orphanExample with
          ecm := adoptedStore }).impl.entityModelMap 2 = some 201 ∧
      (CreatePhysicsEntities (tickEngine stillView)
        { CreatePhysicsEntities (tickEngine stillView) orphanExample with
          ecm := adoptedStore }).impl.entityLinkMap 3 = none ∧
      (CreatePhysicsEntities (tickEngine stillView)
        { CreatePhysicsEntities (tickEngine stillView) orphanExample with
          ecm := adoptedStore }).calls =
        [EngineCall.ConstructWorld "w" ⟨0, 0, -10⟩,
          EngineCall.ConstructModel 100 ⟨"m", ⟨Vector3d.Zero, Matrix3d.Identity⟩, false⟩] := by
  decide

/-- C16, as amended. An entity whose parent, as named by its `ParentEntity`
component, is unregistered at the end of a run of the materializer (hence when
the entity is visited) keeps its registry entries in that run: as a model when
the parent is no registered world, as a link and as a joint when the parent is
no registered model, as a collision when the parent is no registered link. On
every run after the first, an entity that is not newly created is not visited
and keeps its entries, whether or not its parent is registered by then. -/
theorem C16_unregistered_parent_skips_child (eng : Engine) (s : State) (e p : Entity)
    (hpar : s.ecm.parentEntity e = some p) :
    (AMap.find (CreatePhysicsEntities eng s).impl.entityWorldMap p = none →
      Kept (fun i => i.entityModelMap) noReverse e s.impl (CreatePhysicsEntities eng s).impl) ∧
    ((CreatePhysicsEntities eng s).impl.entityModelMap p = none →
      Kept (fun i => i.entityLinkMap) (fun i => i.linkEntityMap) e s.impl
          (CreatePhysicsEntities eng s).impl ∧
        Kept (fun i => i.entityJointMap) noReverse e s.impl
          (CreatePhysicsEntities eng s).impl) ∧
    ((CreatePhysicsEntities eng s).impl.entityLinkMap p = none →
      Kept (fun i => i.entityCollisionMap) (fun i => i.collisionEntityMap) e s.impl
        (CreatePhysicsEntities eng s).impl) ∧
    (s.impl.firstRun = false → s.ecm.newlyCreated e = false →
      Kept (fun i => i.entityModelMap) noReverse e s.impl (CreatePhysicsEntities eng s).impl ∧
        Kept (fun i => i.entityLinkMap) (fun i => i.linkEntityMap) e s.impl
          (CreatePhysicsEntities eng s).impl ∧
        Kept (fun i => i.entityCollisionMap) (fun i => i.collisionEntityMap) e s.impl
          (CreatePhysicsEntities eng s).impl ∧
        Kept (fun i => i.entityJointMap) noReverse e s.impl
          (CreatePhysicsEntities eng s).impl) := by
  cases hf : s.fault with
  | some f =>
    have hC : CreatePhysicsEntities eng s = s := by
      unfold CreatePhysicsEntities
      rw [if_pos (by simp [hf])]
    rw [hC]
    exact ⟨fun _ => Kept.kept_refl _ _ _ _,
      fun _ => ⟨Kept.kept_refl _ _ _ _, Kept.kept_refl _ _ _ _⟩,
      fun _ => Kept.kept_refl _ _ _ _,
      fun _ _ => ⟨Kept.kept_refl _ _ _ _, Kept.kept_refl _ _ _ _, Kept.kept_refl _ _ _ _,
        Kept.kept_refl _ _ _ _⟩⟩
  | none =>
    obtain ⟨h1, h2, h3⟩ := child_of_unregistered_parent eng s e p hf hpar
    exact ⟨h1, h2, h3, fun hall hnew => not_new_not_visited eng s e hf hall hnew⟩

/-- The link of `orphanExample`, whose parent model is not registered, keeps
its (absent) entries on the first run. -/
theorem C16_witness :
    (AMap.find (CreatePhysicsEntities (tickEngine stillView) orphanExample).impl.entityWorldMap 2
        = none →
      Kept (fun i => i.entityModelMap) noReverse 3 orphanExample.impl
        (CreatePhysicsEntities (tickEngine stillView) orphanExample).impl) ∧
    ((CreatePhysicsEntities (tickEngine stillView) orphanExample).impl.entityModelMap 2 = none →
      Kept (fun i => i.entityLinkMap) (fun i => i.linkEntityMap) 3 orphanExample.impl
          (CreatePhysicsEntities (tickEngine stillView) orphanExample).impl ∧
        Kept (fun i => i.entityJointMap) noReverse 3 orphanExample.impl
          (CreatePhysicsEntities (tickEngine stillView) orphanExample).impl) ∧
    ((CreatePhysicsEntities (tickEngine stillView) orphanExample).impl.entityLinkMap 2 = none →
      Kept (fun i => i.entityCollisionMap) (fun i => i.collisionEntityMap) 3 orphanExample.impl
        (CreatePhysicsEntities (tickEngine stillView) orphanExample).impl) ∧
    (orphanExample.impl.firstRun = false → orphanExample.ecm.newlyCreated 3 = false →
      Kept (fun i => i.entityModelMap) noReverse 3 orphanExample.impl
          (CreatePhysicsEntities (tickEngine stillView) orphanExample).impl ∧
        Kept (fun i => i.entityLinkMap) (fun i => i.linkEntityMap) 3 orphanExample.impl
          (CreatePhysicsEntities (tickEngine stillView) orphanExample).impl ∧
        Kept (fun i => i.entityCollisionMap) (fun i => i.collisionEntityMap) 3
          orphanExample.impl
          (CreatePhysicsEntities (tickEngine stillView) orphanExample).impl ∧
        Kept (fun i => i.entityJointMap) noReverse 3 orphanExample.impl
          (CreatePhysicsEntities (tickEngine stillView) orphanExample).impl) :=
  C16_unregistered_parent_skips_child (tickEngine stillView) orphanExample 3 2 rfl

theorem exact_insert (fwd : FMap Entity Nat) (rev : FMap Nat Entity) (e : Entity) (h : Nat)
    (hinv : ∀ x y, fwd x = some y ↔ rev y = some x) (hfe : fwd e = none)
    (hrh : rev h = none) :
    ∀ x y, FMap.insert fwd e h x = some y ↔ FMap.insert rev h e y = some x := by
  intro x y
  unfold FMap.insert
  rw [hfe, hrh]
  by_cases hx : x = e
  · by_cases hy : y = h
    · simp [hx, hy]
    · subst hx
      simp only [if_true, hy, if_false]
      constructor
      · intro hh
        exact absurd (Option.some.inj hh).symm hy
      · intro hh
        rw [(hinv x y).mpr hh] at hfe
        cases hfe
  · by_cases hy : y = h
    · subst hy
      simp only [hx, if_false, if_true]
      constructor
      · intro hh
        rw [(hinv x y).mp hh] at hrh
        cases hrh
      · intro hh
        exact absurd (Option.some.inj hh).symm hx
    · simp only [hx, hy, if_false]
      exact hinv x y

theorem exact_erase (fwd : FMap Entity Nat) (rev : FMap Nat Entity) (c : Entity) (h : Nat)
    (hinv : ∀ x y, fwd x = some y ↔ rev y = some x) (hc : fwd c = some h) :
    ∀ x y, FMap.erase fwd c x = some y ↔ FMap.erase rev h y = some x := by
  intro x y
  unfold FMap.erase
  by_cases hx : x = c
  · by_cases hy : y = h
    · simp [hx, hy]
    · subst hx
      simp only [if_true, hy, if_false]
      constructor
      · intro hh
        cases hh
      · intro hh
        have := (hinv x y).mpr hh
        rw [hc] at this
        exact absurd (Option.some.inj this).symm hy
  · by_cases hy : y = h
    · subst hy
      simp only [hx, if_false, if_true]
      constructor
      · intro hh
        have h1 := (hinv x y).mp hh
        have h2 := (hinv c y).mp hc
        rw [h1] at h2
        exact absurd (Option.some.inj h2) hx
      · intro hh
        cases hh
    · simp only [hx, hy, if_false]
      exact hinv x y

theorem erase_absent {V : Type} (m : FMap Entity V) (c : Entity) (hc : m c = none) :
    FMap.erase m c = m := by
  funext x
  unfold FMap.erase
  by_cases hx : x = c
  · rw [if_pos hx, hx, hc]
  · rw [if_neg hx]

theorem InverseInv.of_frame {eng : Engine} {s s' : State} (h : InverseInv eng s)
    (h1 : s'.impl.entityLinkMap = s.impl.entityLinkMap)
    (h2 : s'.impl.linkEntityMap = s.impl.linkEntityMap)
    (h3 : s'.impl.entityCollisionMap = s.impl.entityCollisionMap)
    (h4 : s'.impl.collisionEntityMap = s.impl.collisionEntityMap)
    (h5 : ∃ post, s'.calls = s.calls ++ post) : InverseInv eng s' := by
  obtain ⟨⟨i1, i2⟩, t1, t2⟩ := h
  obtain ⟨post, hp⟩ := h5
  refine ⟨⟨?_, ?_⟩, ?_, ?_⟩
  · rw [h1, h2]; exact i1
  · rw [h3, h4]; exact i2
  · intro h e hh
    rw [h2] at hh
    obtain ⟨c, m, l, hc, he⟩ := t1 h e hh
    exact ⟨c, m, l, by rw [hp, List.length_append]; omega, he⟩
  · intro h e hh
    rw [h4] at hh
    obtain ⟨c, hc, he⟩ := t2 h e hh
    exact ⟨c, by rw [hp, List.length_append]; omega, he⟩

theorem processWorld_inverse (eng : Engine) (st : State) (e : Entity)
    (h : InverseInv eng st) : InverseInv eng (processWorld eng st e) := by
  obtain ⟨_, post, hp, _⟩ := processWorld_advance eng st e
  have hr := processWorld_rest eng st e
  simp only [Prod.mk.injEq] at hr
  exact h.of_frame hr.2.2.2.1 hr.2.2.2.2.1 hr.2.2.2.2.2.1 hr.2.2.2.2.2.2.1 ⟨post, hp⟩

theorem processModel_inverse (eng : Engine) (st : State) (e : Entity)
    (h : InverseInv eng st) : InverseInv eng (processModel eng st e) := by
  obtain ⟨_, post, hp, _⟩ := processModel_advance eng st e
  have hr := processModel_rest eng st e
  simp only [Prod.mk.injEq] at hr
  exact h.of_frame hr.2.2.2.1 hr.2.2.2.2.1 hr.2.2.2.2.2.1 hr.2.2.2.2.2.2.1 ⟨post, hp⟩

theorem processJoint_inverse (eng : Engine) (st : State) (e : Entity)
    (h : InverseInv eng st) : InverseInv eng (processJoint eng st e) := by
  obtain ⟨_, post, hp, _⟩ := processJoint_advance eng st e
  have hr := processJoint_rest eng st e
  simp only [Prod.mk.injEq] at hr
  exact h.of_frame hr.2.2.2.2.1 hr.2.2.2.2.2.1 hr.2.2.2.2.2.2.1 hr.2.2.2.2.2.2.2 ⟨post, hp⟩

theorem processBattery_inverse (eng : Engine) (st : State) (e : Entity)
    (h : InverseInv eng st) : InverseInv eng (processBattery st e) := by
  obtain ⟨_, post, hp, _⟩ := processBattery_advance st e
  have hr := processBattery_rest st e
  simp only [Prod.mk.injEq] at hr
  exact h.of_frame hr.2.2.2.2.1 hr.2.2.2.2.2.1 hr.2.2.2.2.2.2.1 hr.2.2.2.2.2.2.2.1 ⟨post, hp⟩

theorem link_fresh (eng : Engine) (hd : DistinctHandles eng) (st : State)
    (h : InverseInv eng st) (m : ModelPtr) (l : SdfLink) :
    st.impl.linkEntityMap (eng.ConstructLink st.calls m l) = none := by
  cases hh : st.impl.linkEntityMap (eng.ConstructLink st.calls m l) with
  | none => rfl
  | some e =>
    obtain ⟨c, m', l', hc, he⟩ := h.2.1 _ e hh
    have := hd.1 _ _ _ _ _ _ he
    omega

theorem processLink_inverse (eng : Engine) (hd : DistinctHandles eng) (st : State)
    (e : Entity) (h : InverseInv eng st) : InverseInv eng (processLink eng st e) := by
  unfold processLink
  repeat' (first | split | dsimp only [State.emit])
  all_goals first
    | exact h
    | (rename_i hfree _ modelPtrPhys _
       refine ⟨⟨?_, h.1.2⟩, ?_, ?_⟩
       · exact exact_insert _ _ _ _ h.1.1 hfree (link_fresh eng hd st h _ _)
       · intro h' e' hh
         dsimp only at hh ⊢
         unfold FMap.insert at hh
         split at hh
         · rename_i heq
           exact ⟨st.calls, _, _, by simp, heq⟩
         · obtain ⟨c, m, l, hc, he⟩ := h.2.1 h' e' hh
           exact ⟨c, m, l, by rw [List.length_append]; omega, he⟩
       · intro h' e' hh
         obtain ⟨c, hc, he⟩ := h.2.2 h' e' hh
         exact ⟨c, by dsimp only; rw [List.length_append]; omega, he⟩)

theorem registerCollision_inverse (eng : Engine) (st : State) (e : Entity) (p : ShapePtr)
    (call : EngineCall) (h : InverseInv eng st) (hfree : st.impl.entityCollisionMap e = none)
    (hfresh : st.impl.collisionEntityMap p = none)
    (htr : (∃ l x, p = eng.ConstructCollision st.calls l x) ∨
      ∃ l n m q k, p = eng.AttachMeshShape st.calls l n m q k) :
    InverseInv eng (registerCollision st e p call) := by
  unfold registerCollision
  refine ⟨⟨h.1.1, ?_⟩, ?_, ?_⟩
  · exact exact_insert _ _ _ _ h.1.2 hfree hfresh
  · intro h' e' hh
    obtain ⟨c, m, l, hc, he⟩ := h.2.1 h' e' hh
    exact ⟨c, m, l, by dsimp only; rw [List.length_append]; omega, he⟩
  · intro h' e' hh
    dsimp only at hh ⊢
    unfold FMap.insert at hh
    split at hh
    · rename_i heq
      exact ⟨st.calls, by simp, heq ▸ htr⟩
    · obtain ⟨c, hc, he⟩ := h.2.2 h' e' hh
      exact ⟨c, by rw [List.length_append]; omega, he⟩

theorem shape_fresh (eng : Engine) (hd : DistinctHandles eng) (st : State)
    (h : InverseInv eng st) (p : ShapePtr)
    (htr : (∃ l x, p = eng.ConstructCollision st.calls l x) ∨
      ∃ l n m q k, p = eng.AttachMeshShape st.calls l n m q k) :
    st.impl.collisionEntityMap p = none := by
  cases hh : st.impl.collisionEntityMap p with
  | none => rfl
  | some e =>
    obtain ⟨c, hc, he⟩ := h.2.2 _ e hh
    obtain ⟨_, d2, d3, d4⟩ := hd
    rcases htr with ⟨l, x, hp⟩ | ⟨l, n, m, q, k, hp⟩
    · rcases he with ⟨l', x', hp'⟩ | ⟨l', n', m', q', k', hp'⟩
      · have := d2 _ _ _ _ _ _ (hp.symm.trans hp')
        omega
      · have := d4 _ _ _ _ _ _ _ _ _ (hp.symm.trans hp')
        omega
    · rcases he with ⟨l', x', hp'⟩ | ⟨l', n', m', q', k', hp'⟩
      · have := d4 _ _ _ _ _ _ _ _ _ (hp'.symm.trans hp)
        omega
      · have := d3 _ _ _ _ _ _ _ _ _ _ _ _ (hp.symm.trans hp')
        omega

theorem processCollision_inverse (eng : Engine) (hd : DistinctHandles eng) (st : State)
    (e : Entity) (h : InverseInv eng st) : InverseInv eng (processCollision eng st e) := by
  unfold processCollision
  repeat' (first | split | dsimp only [State.emit])
  all_goals first
    | exact h
    | (apply registerCollision_inverse eng st e _ _ h
       · assumption
       · exact shape_fresh eng hd st h _ (Or.inr ⟨_, _, _, _, _, rfl⟩)
       · exact Or.inr ⟨_, _, _, _, _, rfl⟩)
    | (apply registerCollision_inverse eng st e _ _ h
       · assumption
       · exact shape_fresh eng hd st h _ (Or.inl ⟨_, _, rfl⟩)
       · exact Or.inl ⟨_, _, rfl⟩)

theorem selected_inverse {eng : Engine} {visit : State → Entity → State}
    (h : ∀ st e, InverseInv eng st → InverseInv eng (visit st e)) (all : Bool) (st : State)
    (e : Entity) (hst : InverseInv eng st) : InverseInv eng (selected all visit st e) := by
  unfold selected
  split
  · exact h st e hst
  · exact hst

theorem CreatePhysicsEntities_inverse (eng : Engine) (hd : DistinctHandles eng) (s : State)
    (h : InverseInv eng s) : InverseInv eng (CreatePhysicsEntities eng s) := by
  unfold CreatePhysicsEntities
  split
  · exact h
  · dsimp only
    have h0 : InverseInv eng { s with impl := { s.impl with firstRun := false } } := h
    refine each_preserves (P := InverseInv eng)
      (selected_inverse (processBattery_inverse eng) _) _ ?_
    refine each_preserves (P := InverseInv eng)
      (selected_inverse (processJoint_inverse eng) _) _ ?_
    refine each_preserves (P := InverseInv eng)
      (selected_inverse (processCollision_inverse eng hd) _) _ ?_
    refine each_preserves (P := InverseInv eng)
      (selected_inverse (processLink_inverse eng hd) _) _ ?_
    refine each_preserves (P := InverseInv eng)
      (selected_inverse (processModel_inverse eng) _) _ ?_
    exact each_preserves (P := InverseInv eng)
      (selected_inverse (processWorld_inverse eng) _) _ h0

theorem RevShrinks.shrinks_refl (a : Impl) : RevShrinks a a := ⟨fun _ _ h => h, fun _ _ h => h⟩

theorem RevShrinks.shrinks_trans {a b c : Impl} (h1 : RevShrinks a b) (h2 : RevShrinks b c) :
    RevShrinks a c :=
  ⟨fun h e hh => h1.1 h e (h2.1 h e hh), fun h e hh => h1.2 h e (h2.2 h e hh)⟩

theorem removeCollision_exact (impl : Impl) (c : Entity) (h : ExactInverse impl) :
    ExactInverse (removeCollision impl c) ∧ RevShrinks impl (removeCollision impl c) := by
  unfold removeCollision
  split
  · rename_i shape hs
    refine ⟨⟨h.1, exact_erase _ _ _ _ h.2 hs⟩, fun _ _ hh => hh, ?_⟩
    intro h' e hh
    exact (FMap.erase_some _ _ _ _ hh).2
  · exact ⟨h, RevShrinks.shrinks_refl _⟩

theorem removeCollisions_exact (cs : List Entity) (impl : Impl) (h : ExactInverse impl) :
    ExactInverse (cs.foldl removeCollision impl) ∧
      RevShrinks impl (cs.foldl removeCollision impl) := by
  induction cs generalizing impl with
  | nil => exact ⟨h, RevShrinks.shrinks_refl _⟩
  | cons c cs ih =>
    rw [List.foldl_cons]
    obtain ⟨h1, h2⟩ := removeCollision_exact impl c h
    obtain ⟨h3, h4⟩ := ih _ h1
    exact ⟨h3, h2.shrinks_trans h4⟩

theorem removeLink_exact (ecm : ECM) (impl : Impl) (l : Entity) (h : ExactInverse impl) :
    ExactInverse (removeLink ecm impl l) ∧ RevShrinks impl (removeLink ecm impl l) := by
  unfold removeLink
  obtain ⟨h1, h2⟩ := removeCollisions_exact (ecm.ChildrenByComponents l ecm.collision) impl h
  generalize (ecm.ChildrenByComponents l ecm.collision).foldl removeCollision impl = impl1 at *
  dsimp only
  cases hl : impl1.entityLinkMap l with
  | none =>
    dsimp only
    rw [erase_absent _ _ hl]
    exact ⟨h1, h2⟩
  | some linkPhys =>
    dsimp only
    refine ⟨⟨exact_erase _ _ _ _ h1.1 hl, h1.2⟩, ?_⟩
    refine h2.shrinks_trans ⟨?_, fun _ _ hh => hh⟩
    intro h' e hh
    exact (FMap.erase_some _ _ _ _ hh).2

theorem removeLinks_exact (ecm : ECM) (ls : List Entity) (impl : Impl)
    (h : ExactInverse impl) :
    ExactInverse (ls.foldl (removeLink ecm) impl) ∧
      RevShrinks impl (ls.foldl (removeLink ecm) impl) := by
  induction ls generalizing impl with
  | nil => exact ⟨h, RevShrinks.shrinks_refl _⟩
  | cons l ls ih =>
    rw [List.foldl_cons]
    obtain ⟨h1, h2⟩ := removeLink_exact ecm impl l h
    obtain ⟨h3, h4⟩ := ih _ h1
    exact ⟨h3, h2.shrinks_trans h4⟩

theorem removeJoints_exact (js : List Entity) (impl : Impl) (h : ExactInverse impl) :
    ExactInverse (js.foldl removeJoint impl) ∧ RevShrinks impl (js.foldl removeJoint impl) := by
  induction js generalizing impl with
  | nil => exact ⟨h, RevShrinks.shrinks_refl _⟩
  | cons j js ih =>
    rw [List.foldl_cons]
    have h1 : ExactInverse (removeJoint impl j) := h
    obtain ⟨h3, h4⟩ := ih _ h1
    exact ⟨h3, h4⟩

theorem removeModel_inverse (eng : Engine) (st : State) (e : Entity)
    (h : InverseInv eng st) : InverseInv eng (removeModel st e) := by
  unfold removeModel
  split
  · split
    · rename_i modelPhys _
      obtain ⟨h1, h2⟩ := removeLinks_exact st.ecm (st.ecm.ChildrenByComponents e st.ecm.link)
        st.impl h.1
      obtain ⟨h3, h4⟩ := removeJoints_exact (st.ecm.ChildrenByComponents e st.ecm.joint) _ h1
      have hsh := h2.shrinks_trans h4
      refine ⟨h3, ?_, ?_⟩
      · intro h' e' hh
        obtain ⟨c, m, l, hc, he⟩ := h.2.1 h' e' (hsh.1 h' e' hh)
        exact ⟨c, m, l, by dsimp only; rw [List.length_append]; omega, he⟩
      · intro h' e' hh
        obtain ⟨c, hc, he⟩ := h.2.2 h' e' (hsh.2 h' e' hh)
        exact ⟨c, by dsimp only; rw [List.length_append]; omega, he⟩
    · exact h
  · exact h

theorem RemovePhysicsEntities_inverse (eng : Engine) (s : State) (h : InverseInv eng s) :
    InverseInv eng (RemovePhysicsEntities s) := by
  unfold RemovePhysicsEntities
  split
  · exact h
  · exact each_preserves (P := InverseInv eng) (removeModel_inverse eng) s h

theorem Reachable.inverseInv {eng : Engine} (hd : DistinctHandles eng) {s : State}
    (h : Reachable eng s) : InverseInv eng s := by
  induction h with
  | empty ecm =>
    refine ⟨⟨fun _ _ => ⟨fun h => ?_, fun h => ?_⟩, fun _ _ => ⟨fun h => ?_, fun h => ?_⟩⟩,
      fun _ _ h => ?_, fun _ _ h => ?_⟩
    all_goals cases h
  | create _ ih => exact CreatePhysicsEntities_inverse eng hd _ ih
  | remove _ ih => exact RemovePhysicsEntities_inverse eng _ ih
  | other _ h1 h2 h3 h4 h5 ih => exact ih.of_frame h1 h2 h3 h4 h5

theorem UpdatePhysics_linkMaps (v : EngineView) (info : UpdateInfo) (s : State) :
    linkMaps (UpdatePhysics v info s) = linkMaps s := by
  have hb : ∀ st e, linkMaps (batteryState st e) = linkMaps st := by
    intro st e
    unfold batteryState
    repeat' (first | split | dsimp only)
    all_goals rfl
  have hj : ∀ st e, linkMaps (handleJointState v st e) = linkMaps st := by
    intro st e
    unfold handleJointState
    repeat' (first | split | dsimp only [State.emit])
    all_goals rfl
  have hw : ∀ st e, linkMaps (linkWrench st e) = linkMaps st := by
    intro st e
    unfold linkWrench
    repeat' (first | split | dsimp only [State.emit])
    all_goals rfl
  have hd : ∀ st e, linkMaps (linkWrenchWithDuration info st e) = linkMaps st := by
    intro st e
    unfold linkWrenchWithDuration
    repeat' (first | split | dsimp only [State.emit])
    all_goals rfl
  have hp : ∀ st e, linkMaps (processWorldPoseCmd v st e) = linkMaps st := by
    intro st e
    unfold processWorldPoseCmd
    repeat' (first | split | dsimp only [State.emit])
    all_goals rfl
  have hv : ∀ st e, linkMaps (processWorldVelocityCmd v st e) = linkMaps st := by
    intro st e
    unfold processWorldVelocityCmd
    repeat' (first | split | dsimp only [State.emit])
    all_goals rfl
  unfold UpdatePhysics
  split
  · rfl
  · dsimp only
    have hc : ∀ x, linkMaps (clearPendingCommands x) = linkMaps x := by
      intro x
      unfold linkMaps
      rw [(clearPendingCommands_frame x).1]
    rw [hc, each_field linkMaps hv, each_field linkMaps hp]
    split
    · rw [each_field linkMaps hd, each_field linkMaps hw, each_field linkMaps hj,
        each_field linkMaps hb]
    · rw [each_field linkMaps hw, each_field linkMaps hj, each_field linkMaps hb]

/-- A whole tick leads from a reachable state to a reachable state. -/
theorem Reachable.tick {eng : Engine} {s : State} (h : Reachable eng s)
    (uninit : Nat → Option ExtraContactData) (info : UpdateInfo) :
    Reachable eng (Update eng uninit info s) := by
  unfold Update
  dsimp only
  have h0 : Reachable eng (s.each (setSimulatedTime info)) := by
    have hfr := each_frame (setSimulatedTime_frame info) s ⟨rfl, rfl⟩
    exact Reachable.other h (by rw [hfr.1]) (by rw [hfr.1]) (by rw [hfr.1]) (by rw [hfr.1])
      ⟨[], by rw [hfr.2, List.append_nil]⟩
  generalize s.each (setSimulatedTime info) = s0 at *
  split
  · have h1 := Reachable.create h0
    generalize CreatePhysicsEntities eng s0 = s1 at *
    have h2 : Reachable eng (UpdatePhysics (eng.view s1.calls) info s1) := by
      have hm := UpdatePhysics_linkMaps (eng.view s1.calls) info s1
      unfold linkMaps at hm
      simp only [Prod.mk.injEq] at hm
      obtain ⟨_, post, hp, _⟩ := UpdatePhysics_advance (eng.view s1.calls) info s1
      exact Reachable.other h1 hm.1 hm.2.1 hm.2.2.1 hm.2.2.2 ⟨post, hp⟩
    generalize UpdatePhysics (eng.view s1.calls) info s1 = s2 at *
    have h3 : Reachable eng (if (!info.paused) = true then Step info.dt s2 else s2) := by
      split
      · have hst : ∃ post, (Step info.dt s2).calls = s2.calls ++ post ∧
            (Step info.dt s2).impl = s2.impl := by
          unfold Step
          split
          · exact ⟨[], (List.append_nil _).symm, rfl⟩
          · exact ⟨_, rfl, rfl⟩
        obtain ⟨post, hp, hi⟩ := hst
        exact Reachable.other h2 (by rw [hi]) (by rw [hi]) (by rw [hi]) (by rw [hi]) ⟨post, hp⟩
      · exact h2
    generalize (if (!info.paused) = true then Step info.dt s2 else s2) = s3 at *
    have h4 : Reachable eng (UpdateSim (eng.view s3.calls) uninit info s3) := by
      have hfr := UpdateSim_frame (eng.view s3.calls) uninit info s3
      exact Reachable.other h3 (by rw [hfr.1]) (by rw [hfr.1]) (by rw [hfr.1]) (by rw [hfr.1])
        ⟨[], by rw [hfr.2, List.append_nil]⟩
    exact Reachable.remove h4
  · exact h0

theorem distinctEngine_distinct : DistinctHandles distinctEngine := by
  refine ⟨?_, ?_, ?_, ?_⟩
  · intro c c' _ _ _ _ h
    exact h
  · intro c c' _ _ _ _ h
    have h' : 2 * c.length = 2 * c'.length := h
    omega
  · intro c c' _ _ _ _ _ _ _ _ _ _ h
    have h' : 2 * c.length + 1 = 2 * c'.length + 1 := h
    omega
  · intro c c' _ _ _ _ _ _ _ h
    have h' : 2 * c.length = 2 * c'.length + 1 := h
    omega

theorem sceneRemoval_reachable : Reachable distinctEngine sceneRemoval := by
  have h : Reachable distinctEngine
      (Update distinctEngine uninitNull ⟨1, 1, false⟩ { ecm := sceneStore }) :=
    Reachable.tick (Reachable.empty sceneStore) uninitNull ⟨1, 1, false⟩
  have hi : sceneRemoval.impl
      = (Update distinctEngine uninitNull ⟨1, 1, false⟩ { ecm := sceneStore }).impl := rfl
  have hc : sceneRemoval.calls
      = (Update distinctEngine uninitNull ⟨1, 1, false⟩ { ecm := sceneStore }).calls := rfl
  exact Reachable.other h (by rw [hi]) (by rw [hi]) (by rw [hi]) (by rw [hi])
    ⟨[], by rw [hc, List.append_nil]⟩

/-- C17. In every state reachable from the empty registry through the
materializer and the reaper (and the steps in between that leave the link and
collision maps alone), with an engine that returns a distinct handle for each
constructed object: an entity maps to a link handle exactly when that handle
maps back to the entity, and the same for collisions and shapes. -/
theorem C17_reverse_maps_are_inverses (eng : Engine) (s : State) (hd : DistinctHandles eng)
    (hr : Reachable eng s) :
    (∀ e h, s.impl.entityLinkMap e = some h ↔ s.impl.linkEntityMap h = some e) ∧
      (∀ e h, s.impl.entityCollisionMap e = some h ↔ s.impl.collisionEntityMap h = some e) :=
  (hr.inverseInv hd).1

/-- The registry after two ticks on `sceneStore`, the second with the model
requested for removal. -/
theorem C17_witness :
    (∀ e h,
      (Update distinctEngine uninitNull ⟨1, 2, false⟩ sceneRemoval).impl.entityLinkMap e = some h ↔
      (Update distinctEngine uninitNull ⟨1, 2, false⟩ sceneRemoval).impl.linkEntityMap h
        = some e) ∧
    (∀ e h,
      (Update distinctEngine uninitNull ⟨1, 2, false⟩ sceneRemoval).impl.entityCollisionMap e
        = some h ↔
      (Update distinctEngine uninitNull ⟨1, 2, false⟩ sceneRemoval).impl.collisionEntityMap h
        = some e) :=
  C17_reverse_maps_are_inverses distinctEngine _ distinctEngine_distinct
    (Reachable.tick sceneRemoval_reachable uninitNull ⟨1, 2, false⟩)

theorem UpdateSim_eq (v : EngineView) (uninit : Nat → Option ExtraContactData)
    (info : UpdateInfo) (s : State) (hf : s.fault = none) :
    UpdateSim v uninit info s = UpdateCollisions v uninit (beforeCollisions v info s) := by
  unfold UpdateSim beforeCollisions readBackVisitors
  rw [if_neg (by simp [hf])]
  simp only [List.foldl_cons, List.foldl_nil]

theorem passes_field {α : Type} (f : State → α) (vs : List (State → Entity → State))
    (h : ∀ visit ∈ vs, ∀ st e, f (visit st e) = f st) (s : State) :
    f (vs.foldl (fun st visit => st.each visit) s) = f s := by
  induction vs generalizing s with
  | nil => rfl
  | cons visit vs ih =>
    rw [List.foldl_cons, ih (fun w hw => h w (List.mem_cons_of_mem _ hw)),
      each_field f (h visit (List.mem_cons_self _ _))]

theorem readBackVisitors_cases (v : EngineView) (info : UpdateInfo)
    (P : (State → Entity → State) → Prop) (h1 : P (updateJointForce info))
    (h2 : P (updateOffsetWorldPose v)) (h3 : P (updateOffsetWorldLinearVelocity v))
    (h4 : P (updateOffsetAngularVelocity v)) (h5 : P (updateOffsetLinearAcceleration v))
    (h6 : P clearJointPositionReset) (h7 : P clearJointVelocityReset)
    (h8 : P clearJointForceCmd) (h9 : P clearExternalWorldWrenchCmd)
    (h10 : P clearJointVelocityCmd) (h11 : P (updateJointPosition v))
    (h12 : P (updateJointVelocity v)) : ∀ visit ∈ readBackVisitors v info, P visit := by
  intro visit hv
  simp only [readBackVisitors, List.mem_cons, List.mem_singleton, List.not_mem_nil,
    or_false] at hv
  rcases hv with rfl | rfl | rfl | rfl | rfl | rfl | rfl | rfl | rfl | rfl | rfl | rfl
  all_goals assumption

/-- C18. The first tick over `bareWorldExample`, a store with contact data
requested whose world entity carries no gravity, ends in a hard failure: the
materialiser visits only the worlds that carry a name and a gravity, so the
world is not registered; `UpdateCollisions` finds the world entity, and the
lookup `entityWorldMap.at(worldEntity)`, which the source takes not to throw,
fails with `out_of_range`. -/
theorem C18_unregistered_world_lookup_fails :
    bareWorldExample.fault = none ∧
      bareWorldExample.ecm.EntityByComponents bareWorldExample.ecm.world = 1 ∧
      bareWorldExample.ecm.gravity 1 = none ∧
      AMap.find (CreatePhysicsEntities (tickEngine stillView) bareWorldExample).impl.entityWorldMap
        1 = none ∧
      (UpdateCollisions stillView uninitNull
        (CreatePhysicsEntities (tickEngine stillView) bareWorldExample)).fault =
        some Fault.outOfRange ∧
      (Update (tickEngine stillView) uninitNull ⟨1, 1, false⟩ bareWorldExample).fault =
        some Fault.outOfRange := by
  decide

/-- Two further unguarded accesses. A registered canonical link that has lost
its pose makes the pose command of its model fail, and a registered collision
that has lost its name makes the contact report fail. -/
theorem Update_null_pointer_failures :
    (Update (tickEngine groupView) uninitNull ⟨1, 1, false⟩ lostPoseExample).fault =
        some Fault.nullDereference ∧
      (Update (tickEngine (contactView oneContact)) uninitNull ⟨1, 1, false⟩
        lostNameExample).fault = some Fault.nullDereference := by
  decide

theorem Vector3d.vec_add_def (a b : Vector3d) : a + b = ⟨a.x + b.x, a.y + b.y, a.z + b.z⟩ := rfl

theorem Vector3d.vec_neg_def (a : Vector3d) : -a = ⟨-a.x, -a.y, -a.z⟩ := rfl

theorem Pose3d.pose_mul_def (a b : Pose3d) :
    a * b = ⟨a.pos + a.rot.mulVec b.pos, a.rot.mul b.rot⟩ := rfl

theorem Pose3d.pose_add_def (a b : Pose3d) : a + b = b * a := rfl

theorem Matrix3d.mul_eq_identity (a b : Matrix3d) (h : a.mul b = Matrix3d.Identity) :
    (a.r0.x * b.r0.x + a.r0.y * b.r1.x + a.r0.z * b.r2.x = 1 ∧
      a.r0.x * b.r0.y + a.r0.y * b.r1.y + a.r0.z * b.r2.y = 0 ∧
      a.r0.x * b.r0.z + a.r0.y * b.r1.z + a.r0.z * b.r2.z = 0) ∧
    (a.r1.x * b.r0.x + a.r1.y * b.r1.x + a.r1.z * b.r2.x = 0 ∧
      a.r1.x * b.r0.y + a.r1.y * b.r1.y + a.r1.z * b.r2.y = 1 ∧
      a.r1.x * b.r0.z + a.r1.y * b.r1.z + a.r1.z * b.r2.z = 0) ∧
    (a.r2.x * b.r0.x + a.r2.y * b.r1.x + a.r2.z * b.r2.x = 0 ∧
      a.r2.x * b.r0.y + a.r2.y * b.r1.y + a.r2.z * b.r2.y = 0 ∧
      a.r2.x * b.r0.z + a.r2.y * b.r1.z + a.r2.z * b.r2.z = 1) := by
  have h0 := congrArg Matrix3d.r0 h
  have h1 := congrArg Matrix3d.r1 h
  have h2 := congrArg Matrix3d.r2 h
  exact ⟨⟨congrArg Vector3d.x h0, congrArg Vector3d.y h0, congrArg Vector3d.z h0⟩,
    ⟨congrArg Vector3d.x h1, congrArg Vector3d.y h1, congrArg Vector3d.z h1⟩,
    ⟨congrArg Vector3d.x h2, congrArg Vector3d.y h2, congrArg Vector3d.z h2⟩⟩

theorem Pose3d.ext_components (a b : Pose3d) (h1 : a.pos.x = b.pos.x) (h2 : a.pos.y = b.pos.y)
    (h3 : a.pos.z = b.pos.z) (h4 : a.rot.r0.x = b.rot.r0.x) (h5 : a.rot.r0.y = b.rot.r0.y)
    (h6 : a.rot.r0.z = b.rot.r0.z) (h7 : a.rot.r1.x = b.rot.r1.x) (h8 : a.rot.r1.y = b.rot.r1.y)
    (h9 : a.rot.r1.z = b.rot.r1.z) (h10 : a.rot.r2.x = b.rot.r2.x)
    (h11 : a.rot.r2.y = b.rot.r2.y) (h12 : a.rot.r2.z = b.rot.r2.z) : a = b := by
  obtain ⟨⟨_, _, _⟩, ⟨⟨_, _, _⟩, ⟨_, _, _⟩, ⟨_, _, _⟩⟩⟩ := a
  obtain ⟨⟨_, _, _⟩, ⟨⟨_, _, _⟩, ⟨_, _, _⟩, ⟨_, _, _⟩⟩⟩ := b
  simp only at h1 h2 h3 h4 h5 h6 h7 h8 h9 h10 h11 h12
  subst h1 h2 h3 h4 h5 h6 h7 h8 h9 h10 h11 h12
  rfl

theorem Pose3d.mul_inverse_mul (W l : Pose3d)
    (h : l.rot.transpose.mul l.rot = Matrix3d.Identity) : (l.Inverse + W) * l = W := by
  obtain ⟨⟨h00, h01, h02⟩, ⟨h10, h11, h12⟩, ⟨h20, h21, h22⟩⟩ :=
    Matrix3d.mul_eq_identity _ _ h
  simp only [Matrix3d.transpose] at h00 h01 h02 h10 h11 h12 h20 h21 h22
  apply Pose3d.ext_components
  all_goals simp only [Pose3d.pose_add_def, Pose3d.pose_mul_def, Pose3d.Inverse, Vector3d.vec_add_def,
    Vector3d.vec_neg_def, Matrix3d.mul, Matrix3d.mulVec, Matrix3d.transpose, Matrix3d.dot]
  · ring
  · ring
  · ring
  · linear_combination W.rot.r0.x * h00 + W.rot.r0.y * h10 + W.rot.r0.z * h20
  · linear_combination W.rot.r0.x * h01 + W.rot.r0.y * h11 + W.rot.r0.z * h21
  · linear_combination W.rot.r0.x * h02 + W.rot.r0.y * h12 + W.rot.r0.z * h22
  · linear_combination W.rot.r1.x * h00 + W.rot.r1.y * h10 + W.rot.r1.z * h20
  · linear_combination W.rot.r1.x * h01 + W.rot.r1.y * h11 + W.rot.r1.z * h21
  · linear_combination W.rot.r1.x * h02 + W.rot.r1.y * h12 + W.rot.r1.z * h22
  · linear_combination W.rot.r2.x * h00 + W.rot.r2.y * h10 + W.rot.r2.z * h20
  · linear_combination W.rot.r2.x * h01 + W.rot.r2.y * h11 + W.rot.r2.z * h21
  · linear_combination W.rot.r2.x * h02 + W.rot.r2.y * h12 + W.rot.r2.z * h22

theorem Pose3d.mul_mul_inverse (W m : Pose3d)
    (h : m.rot.mul m.rot.transpose = Matrix3d.Identity) : m * (W + m.Inverse) = W := by
  obtain ⟨⟨h00, h01, h02⟩, ⟨h10, h11, h12⟩, ⟨h20, h21, h22⟩⟩ :=
    Matrix3d.mul_eq_identity _ _ h
  simp only [Matrix3d.transpose] at h00 h01 h02 h10 h11 h12 h20 h21 h22
  apply Pose3d.ext_components
  all_goals simp only [Pose3d.pose_add_def, Pose3d.pose_mul_def, Pose3d.Inverse, Vector3d.vec_add_def,
    Vector3d.vec_neg_def, Matrix3d.mul, Matrix3d.mulVec, Matrix3d.transpose, Matrix3d.dot]
  · linear_combination (W.pos.x - m.pos.x) * h00 + (W.pos.y - m.pos.y) * h01 +
      (W.pos.z - m.pos.z) * h02
  · linear_combination (W.pos.x - m.pos.x) * h10 + (W.pos.y - m.pos.y) * h11 +
      (W.pos.z - m.pos.z) * h12
  · linear_combination (W.pos.x - m.pos.x) * h20 + (W.pos.y - m.pos.y) * h21 +
      (W.pos.z - m.pos.z) * h22
  · linear_combination W.rot.r0.x * h00 + W.rot.r1.x * h01 + W.rot.r2.x * h02
  · linear_combination W.rot.r0.y * h00 + W.rot.r1.y * h01 + W.rot.r2.y * h02
  · linear_combination W.rot.r0.z * h00 + W.rot.r1.z * h01 + W.rot.r2.z * h02
  · linear_combination W.rot.r0.x * h10 + W.rot.r1.x * h11 + W.rot.r2.x * h12
  · linear_combination W.rot.r0.y * h10 + W.rot.r1.y * h11 + W.rot.r2.y * h12
  · linear_combination W.rot.r0.z * h10 + W.rot.r1.z * h11 + W.rot.r2.z * h12
  · linear_combination W.rot.r0.x * h20 + W.rot.r1.x * h21 + W.rot.r2.x * h22
  · linear_combination W.rot.r0.y * h20 + W.rot.r1.y * h21 + W.rot.r2.y * h22
  · linear_combination W.rot.r0.z * h20 + W.rot.r1.z * h21 + W.rot.r2.z * h22

theorem writeWorldOutputs_pose (fd : FrameData3d) (ecm : ECM) (e : Entity) :
    (fun c : ECM => (c.pose, fun x => c.changed x ComponentTypeId.Pose, c.link, c.canonicalLink,
      c.parentEntity, c.static, c.entities)) (writeWorldOutputs fd ecm e) =
    (ecm.pose, fun x => ecm.changed x ComponentTypeId.Pose, ecm.link, ecm.canonicalLink,
      ecm.parentEntity, ecm.static, ecm.entities) := by
  unfold writeWorldOutputs
  repeat' (first | split | dsimp only)
  all_goals simp [ECM.SetChanged]

theorem writeBodyOutputs_pose (fd : FrameData3d) (ecm : ECM) (e : Entity) :
    (fun c : ECM => (c.pose, fun x => c.changed x ComponentTypeId.Pose, c.link, c.canonicalLink,
      c.parentEntity, c.static, c.entities)) (writeBodyOutputs fd ecm e) =
    (ecm.pose, fun x => ecm.changed x ComponentTypeId.Pose, ecm.link, ecm.canonicalLink,
      ecm.parentEntity, ecm.static, ecm.entities) := by
  unfold writeBodyOutputs
  repeat' (first | split | dsimp only)
  all_goals simp [ECM.SetChanged]

/-- One visit of the pass over the links, as far as the poses go. -/
theorem updateLinkPose_poseView (v : EngineView) (st : State) (e : Entity) :
    poseView (updateLinkPose v st e) =
      match linkPoseWrite v st e with
      | none => poseView st
      | some tp =>
        (FMap.set st.ecm.pose tp.1 tp.2,
          fun x => if x = tp.1 then ComponentState.PeriodicChange
            else st.ecm.changed x ComponentTypeId.Pose,
          st.fault, st.ecm.link, st.ecm.canonicalLink, st.ecm.parentEntity, st.ecm.static,
          st.ecm.entities, st.impl.entityLinkMap) := by
  have hout : ∀ (fd : FrameData3d) (c : ECM),
      poseView { st with ecm := writeBodyOutputs fd (writeWorldOutputs fd c e) e } =
        (c.pose, fun x => c.changed x ComponentTypeId.Pose, st.fault, c.link, c.canonicalLink,
          c.parentEntity, c.static, c.entities, st.impl.entityLinkMap) := by
    intro fd c
    have h1 := writeWorldOutputs_pose fd c e
    have h2 := writeBodyOutputs_pose fd (writeWorldOutputs fd c e) e
    simp only [Prod.mk.injEq] at h1 h2
    unfold poseView
    simp only [Prod.mk.injEq]
    exact ⟨h2.1.trans h1.1, h2.2.1.trans h1.2.1, trivial, h2.2.2.1.trans h1.2.2.1,
      h2.2.2.2.1.trans h1.2.2.2.1, h2.2.2.2.2.1.trans h1.2.2.2.2.1,
      h2.2.2.2.2.2.1.trans h1.2.2.2.2.2.1, h2.2.2.2.2.2.2.trans h1.2.2.2.2.2.2, trivial⟩
  unfold updateLinkPose linkPoseWrite
  by_cases hl : st.ecm.link e = true
  swap
  · simp only [hl]
    rfl
  simp only [hl, if_true]
  cases hp : st.ecm.pose e with
  | none => rfl
  | some pose =>
    cases hpar : st.ecm.parentEntity e with
    | none => rfl
    | some parent =>
      dsimp only
      by_cases hs : st.ecm.static parent = some true
      · simp only [hs, if_true]
      simp only [hs, if_false]
      cases hreg : st.impl.entityLinkMap e with
      | none => rfl
      | some linkPhys =>
        dsimp only
        cases hpp : st.ecm.pose parent with
        | none => rfl
        | some parentPose =>
          dsimp only
          rw [hout]
          by_cases hc : st.ecm.canonicalLink e = true
          · simp only [hc, if_true, ECM.SetChanged]
            simp
          · simp only [hc]
            simp [ECM.SetChanged]

theorem UpdateCollisions_field {α : Type} (f : State → α) (v : EngineView)
    (uninit : Nat → Option ExtraContactData) (s : State)
    (hcon : ∀ m st e, f (writeContacts m st e) = f st)
    (hfault : ∀ (st : State) x, f { st with fault := x } = f st) :
    f (UpdateCollisions v uninit s) = f s := by
  unfold UpdateCollisions
  split
  · rfl
  · split
    · rfl
    · dsimp only
      split
      · rfl
      · split
        · exact hfault _ _
        · exact each_field f (hcon _) _

/-- A projection of the state that the visitors after the pass over the links
and the contact phase leave alone has after `UpdateSim` the value it has after
the pass over the links. -/
theorem UpdateSim_field {α : Type} (f : State → α) (v : EngineView)
    (uninit : Nat → Option ExtraContactData) (info : UpdateInfo) (s : State)
    (hvis : ∀ visit ∈ readBackVisitors v info, ∀ st e, f (visit st e) = f st)
    (hcon : ∀ m st e, f (writeContacts m st e) = f st)
    (hfault : ∀ (st : State) x, f { st with fault := x } = f st) (hf : s.fault = none) :
    f (UpdateSim v uninit info s) = f (s.each (updateLinkPose v)) := by
  rw [UpdateSim_eq v uninit info s hf, UpdateCollisions_field f v uninit _ hcon hfault]
  unfold beforeCollisions
  exact passes_field f _ hvis _

theorem UpdateSim_posePart (v : EngineView) (uninit : Nat → Option ExtraContactData)
    (info : UpdateInfo) (s : State) (hf : s.fault = none) :
    posePart (UpdateSim v uninit info s) = posePart (s.each (updateLinkPose v)) := by
  apply UpdateSim_field posePart v uninit info s _ _ (fun _ _ => rfl) hf
  · apply readBackVisitors_cases
    all_goals
      intro st e
      first
        | unfold updateJointForce
        | unfold updateOffsetWorldPose
        | unfold updateOffsetWorldLinearVelocity
        | unfold updateOffsetAngularVelocity
        | unfold updateOffsetLinearAcceleration
        | unfold clearJointPositionReset
        | unfold clearJointVelocityReset
        | unfold clearJointForceCmd
        | unfold clearExternalWorldWrenchCmd
        | unfold clearJointVelocityCmd
        | unfold updateJointPosition
        | unfold updateJointVelocity
      repeat' (first | split | dsimp only)
      all_goals rfl
  · intro m st e
    unfold writeContacts
    repeat' (first | split | dsimp only)
    all_goals rfl

theorem updateLinkPose_linkFrame (v : EngineView) (st : State) (e : Entity) :
    linkFrame (updateLinkPose v st e) = linkFrame st := by
  have h := updateLinkPose_poseView v st e
  unfold linkFrame
  cases hw : linkPoseWrite v st e with
  | none =>
    rw [hw] at h
    exact congrArg (fun t => t.2.2) h
  | some tp =>
    rw [hw] at h
    exact congrArg (fun t => t.2.2) h

/-- The pose and the change mark of the pose of `y` after one visit. -/
theorem updateLinkPose_at (v : EngineView) (st : State) (e y : Entity) :
    (updateLinkPose v st e).ecm.pose y =
        (match linkPoseWrite v st e with
          | some tp => if y = tp.1 then some tp.2 else st.ecm.pose y
          | none => st.ecm.pose y) ∧
      (updateLinkPose v st e).ecm.changed y ComponentTypeId.Pose =
        (match linkPoseWrite v st e with
          | some tp => if y = tp.1 then ComponentState.PeriodicChange
            else st.ecm.changed y ComponentTypeId.Pose
          | none => st.ecm.changed y ComponentTypeId.Pose) := by
  have h := updateLinkPose_poseView v st e
  cases hw : linkPoseWrite v st e with
  | none =>
    rw [hw] at h
    exact ⟨congrFun (congrArg (fun t => t.1) h) y, congrFun (congrArg (fun t => t.2.1) h) y⟩
  | some tp =>
    rw [hw] at h
    exact ⟨congrFun (congrArg (fun t => t.1) h) y, congrFun (congrArg (fun t => t.2.1) h) y⟩

theorem linkPoseWrite_target (v : EngineView) (st : State) (e : Entity) (tp : Entity × Pose3d)
    (h : linkPoseWrite v st e = some tp) :
    writesPose st.ecm e tp.1 = true ∧ (st.ecm.pose tp.1).isSome = true := by
  unfold linkPoseWrite at h
  unfold writesPose
  by_cases hl : st.ecm.link e = true
  swap
  · simp [hl] at h
  simp only [hl, if_true] at h
  cases hp : st.ecm.pose e with
  | none => simp [hp] at h
  | some pose =>
    cases hpar : st.ecm.parentEntity e with
    | none => simp [hp, hpar] at h
    | some parent =>
      simp only [hp, hpar] at h
      by_cases hs : st.ecm.static parent = some true
      · simp [hs] at h
      simp only [hs, if_false] at h
      cases hreg : st.impl.entityLinkMap e with
      | none => simp [hreg] at h
      | some linkPhys =>
        simp only [hreg] at h
        cases hpp : st.ecm.pose parent with
        | none => simp [hpp] at h
        | some parentPose =>
          simp only [hpp] at h
          by_cases hc : st.ecm.canonicalLink e = true
          · simp only [hc, if_true, Option.some.injEq] at h
            subst h
            simp [hl, hc, hpar, hpp]
          · simp only [hc, Bool.false_eq_true, if_false, Option.some.injEq] at h
            subst h
            simp [hl, hc, hp]

theorem linkFold_frame (v : EngineView) (es : List Entity) (st : State) :
    linkFrame (es.foldl (fun x e => if x.fault.isSome then x else updateLinkPose v x e) st) =
      linkFrame st :=
  foldl_visit_preserves (P := fun x => linkFrame x = linkFrame st)
    (fun x e hx => (updateLinkPose_linkFrame v x e).trans hx) es st rfl

theorem linkFold_present (v : EngineView) (y : Entity) (es : List Entity) (st : State)
    (h : (st.ecm.pose y).isSome = true) :
    ((es.foldl (fun x e => if x.fault.isSome then x else updateLinkPose v x e) st).ecm.pose
      y).isSome = true := by
  apply foldl_visit_preserves (P := fun x => (x.ecm.pose y).isSome = true) _ es st h
  intro x e hx
  rw [(updateLinkPose_at v x e y).1]
  cases hw : linkPoseWrite v x e with
  | none => exact hx
  | some tp =>
    dsimp only
    split
    · rfl
    · exact hx

/-- Visits of links that do not write the pose of `y` leave the pose of `y` and
its change mark as they are. -/
theorem linkFold_untouched (v : EngineView) (s : State) (y : Entity) (es : List Entity)
    (st : State) (hfr : linkFrame st = linkFrame s)
    (h : ∀ x ∈ es, writesPose s.ecm x y = false) :
    (es.foldl (fun x e => if x.fault.isSome then x else updateLinkPose v x e) st).ecm.pose y =
        st.ecm.pose y ∧
      (es.foldl (fun x e => if x.fault.isSome then x
        else updateLinkPose v x e) st).ecm.changed y ComponentTypeId.Pose =
        st.ecm.changed y ComponentTypeId.Pose := by
  induction es generalizing st with
  | nil => exact ⟨rfl, rfl⟩
  | cons x es ih =>
    rw [List.foldl_cons]
    have hx := h x (List.mem_cons_self _ _)
    have hes : ∀ x' ∈ es, writesPose s.ecm x' y = false :=
      fun x' hx' => h x' (List.mem_cons_of_mem _ hx')
    split
    · exact ih st hfr hes
    · obtain ⟨i1, i2⟩ := ih (updateLinkPose v st x) ((updateLinkPose_linkFrame v st x).trans hfr)
        hes
      obtain ⟨a1, a2⟩ := updateLinkPose_at v st x y
      rw [i1, i2, a1, a2]
      cases hw : linkPoseWrite v st x with
      | none => exact ⟨rfl, rfl⟩
      | some tp =>
        have ht := (linkPoseWrite_target v st x tp hw).1
        have hne : y ≠ tp.1 := by
          intro hy
          rw [← hy] at ht
          have hsame : writesPose st.ecm x y = writesPose s.ecm x y := by
            unfold linkFrame at hfr
            simp only [Prod.mk.injEq] at hfr
            unfold writesPose
            rw [hfr.2.1, hfr.2.2.1, hfr.2.2.2.1]
          rw [hsame, hx] at ht
          cases ht
        simp only [hne, if_false]
        exact ⟨trivial, trivial⟩

theorem writesPose_iff (ecm : ECM) (x y : Entity) :
    writesPose ecm x y = true ↔
      ecm.link x = true ∧ ((x = y ∧ ecm.canonicalLink x = false) ∨
        (ecm.parentEntity x = some y ∧ ecm.canonicalLink x = true)) := by
  unfold writesPose
  simp

/-- No visit of another link writes the pose of a link, when no link is the
parent of a link. -/
theorem link_pose_untouched (ecm : ECM) (L x : Entity) (hlink : ecm.link L = true)
    (hparents : ∀ x p, ecm.link x = true → ecm.parentEntity x = some p → ecm.link p = false)
    (hx : x ≠ L) : writesPose ecm x L = false := by
  apply Bool.eq_false_iff.mpr
  intro h
  obtain ⟨h1, h2 | h2⟩ := (writesPose_iff ecm x L).mp h
  · exact hx h2.1
  · have := hparents x L h1 h2.1
    rw [hlink] at this
    cases this

theorem split_at_member (es : List Entity) (L : Entity) (hnd : es.Nodup) (hL : L ∈ es) :
    ∃ pre post, es = pre ++ L :: post ∧ L ∉ pre ∧ L ∉ post := by
  obtain ⟨pre, post, h⟩ := List.append_of_mem hL
  refine ⟨pre, post, h, ?_, ?_⟩
  · intro hp
    rw [h] at hnd
    have := (List.nodup_append.mp hnd).2.2
    exact this hp (List.mem_cons_self _ _) 
  · intro hp
    rw [h] at hnd
    have := (List.nodup_append.mp hnd).2.1
    exact (List.nodup_cons.mp this).1 hp

/-- The pass over the links at a canonical link `L` of the model `M`: the pose of
the model is the world pose of the link composed with the inverse of the pose of
the link, the pose of the link stays, and the pose of the model is marked. -/
theorem linkPass_canonical (v : EngineView) (s : State) (L M : Entity) (h : LinkPtr)
    (l m0 : Pose3d) (hf : s.fault = none) (hnd : s.ecm.entities.Nodup)
    (hL : L ∈ s.ecm.entities) (hlink : s.ecm.link L = true)
    (hcan : s.ecm.canonicalLink L = true) (hreg : s.impl.entityLinkMap L = some h)
    (hpose : s.ecm.pose L = some l) (hpar : s.ecm.parentEntity L = some M)
    (hstatic : s.ecm.static M ≠ some true) (hM : s.ecm.pose M = some m0)
    (hparents : ∀ x p, s.ecm.link x = true → s.ecm.parentEntity x = some p →
      s.ecm.link p = false)
    (hone : ∀ x ∈ s.ecm.entities, s.ecm.link x = true → s.ecm.canonicalLink x = true →
      s.ecm.parentEntity x = some M → x = L) :
    (s.each (updateLinkPose v)).ecm.pose M =
        some ((v.FrameDataRelativeToWorld h).pose * l.Inverse) ∧
      (s.each (updateLinkPose v)).ecm.pose L = some l ∧
      (s.each (updateLinkPose v)).ecm.changed M ComponentTypeId.Pose =
        ComponentState.PeriodicChange ∧
      linkFrame (s.each (updateLinkPose v)) = linkFrame s := by
  obtain ⟨pre, post, hsplit, hpre, hpost⟩ := split_at_member _ L hnd hL
  have hMlink : s.ecm.link M = false := hparents L M hlink hpar
  have hLM : L ≠ M := by
    intro hc
    rw [hc, hMlink] at hlink
    cases hlink
  unfold State.each
  rw [hsplit, List.foldl_append, List.foldl_cons]
  -- before the visit of the link
  have f1 := linkFold_frame v pre s
  have u1 := linkFold_untouched v s L pre s rfl
    (fun x hx => link_pose_untouched s.ecm L x hlink hparents (fun hc => hpre (hc ▸ hx)))
  have p1 := linkFold_present v M pre s (by rw [hM]; rfl)
  generalize pre.foldl (fun x e => if x.fault.isSome then x else updateLinkPose v x e) s = st1
    at f1 u1 p1 ⊢
  have f1' := f1
  unfold linkFrame at f1'
  simp only [Prod.mk.injEq] at f1'
  obtain ⟨g1, g2, g3, g4, g5, g6, g7⟩ := f1'
  rw [if_neg (by simp [g1, hf])]
  -- the visit of the link
  obtain ⟨m1, hm1⟩ := Option.isSome_iff_exists.mp p1
  have hw : linkPoseWrite v st1 L =
      some (M, l.Inverse + (v.FrameDataRelativeToWorld h).pose) := by
    unfold linkPoseWrite
    rw [g2, g3, g4, g5, g7, u1.1]
    simp only [hlink, hpose, hpar, hstatic, hreg, hm1, hcan, if_true, if_false]
  have a2M := updateLinkPose_at v st1 L M
  have a2L := updateLinkPose_at v st1 L L
  rw [hw] at a2M a2L
  simp only [if_true, hLM, if_false] at a2M a2L
  have f2 := (updateLinkPose_linkFrame v st1 L).trans f1
  -- after the visit of the link
  have u2L := linkFold_untouched v s L post (updateLinkPose v st1 L) f2
    (fun x hx => link_pose_untouched s.ecm L x hlink hparents (fun hc => hpost (hc ▸ hx)))
  have u2M := linkFold_untouched v s M post (updateLinkPose v st1 L) f2
    (fun x hx => by
      apply Bool.eq_false_iff.mpr
      intro hwx
      obtain ⟨h1, h2 | h2⟩ := (writesPose_iff s.ecm x M).mp hwx
      · rw [h2.1, hMlink] at h1
        cases h1
      · have hxe : x ∈ s.ecm.entities := by
          rw [hsplit]
          exact List.mem_append_right _ (List.mem_cons_of_mem _ hx)
        exact hpost (hone x hxe h1 h2.2 h2.1 ▸ hx))
  have f3 := linkFold_frame v post (updateLinkPose v st1 L)
  refine ⟨?_, ?_, ?_, f3.trans f2⟩
  · rw [u2M.1, a2M.1]
    rfl
  · rw [u2L.1, a2L.1, u1.1, hpose]
  · rw [u2M.2, a2M.2]

/-- The pass over the links at a link `L` of the model `M` that is not
canonical, when no canonical link of the model is enumerated after it: the pose
of the link is the inverse of the pose of the model composed with the world
pose of the link. -/
theorem linkPass_noncanonical (v : EngineView) (s : State) (L M : Entity) (h : LinkPtr)
    (l0 m0 : Pose3d) (pre post : List Entity) (hf : s.fault = none)
    (hnd : s.ecm.entities.Nodup) (hsplit : s.ecm.entities = pre ++ L :: post)
    (hlink : s.ecm.link L = true) (hcan : s.ecm.canonicalLink L = false)
    (hreg : s.impl.entityLinkMap L = some h) (hpose : s.ecm.pose L = some l0)
    (hpar : s.ecm.parentEntity L = some M) (hstatic : s.ecm.static M ≠ some true)
    (hM : s.ecm.pose M = some m0)
    (hparents : ∀ x p, s.ecm.link x = true → s.ecm.parentEntity x = some p →
      s.ecm.link p = false)
    (hafter : ∀ x ∈ post, ¬ (s.ecm.link x = true ∧ s.ecm.canonicalLink x = true ∧
      s.ecm.parentEntity x = some M)) :
    ∃ m, (s.each (updateLinkPose v)).ecm.pose M = some m ∧
      (s.each (updateLinkPose v)).ecm.pose L =
        some (m.Inverse * (v.FrameDataRelativeToWorld h).pose) ∧
      (s.each (updateLinkPose v)).ecm.changed L ComponentTypeId.Pose =
        ComponentState.PeriodicChange := by
  have hnd' := hnd
  rw [hsplit] at hnd'
  have hpre : L ∉ pre := fun hp =>
    (List.nodup_append.mp hnd').2.2 hp (List.mem_cons_self _ _)
  have hpost : L ∉ post := (List.nodup_cons.mp (List.nodup_append.mp hnd').2.1).1
  have hMlink : s.ecm.link M = false := hparents L M hlink hpar
  have hLM : L ≠ M := by
    intro hc
    rw [hc, hMlink] at hlink
    cases hlink
  unfold State.each
  rw [hsplit, List.foldl_append, List.foldl_cons]
  have f1 := linkFold_frame v pre s
  have u1 := linkFold_untouched v s L pre s rfl
    (fun x hx => link_pose_untouched s.ecm L x hlink hparents (fun hc => hpre (hc ▸ hx)))
  have p1 := linkFold_present v M pre s (by rw [hM]; rfl)
  generalize pre.foldl (fun x e => if x.fault.isSome then x else updateLinkPose v x e) s = st1
    at f1 u1 p1 ⊢
  have f1' := f1
  unfold linkFrame at f1'
  simp only [Prod.mk.injEq] at f1'
  obtain ⟨g1, g2, g3, g4, g5, g6, g7⟩ := f1'
  rw [if_neg (by simp [g1, hf])]
  obtain ⟨m, hm⟩ := Option.isSome_iff_exists.mp p1
  have hw : linkPoseWrite v st1 L =
      some (L, (v.FrameDataRelativeToWorld h).pose + m.Inverse) := by
    unfold linkPoseWrite
    rw [g2, g3, g4, g5, g7, u1.1]
    simp only [hlink, hpose, hpar, hstatic, hreg, hm, hcan, if_true, if_false,
      Bool.false_eq_true]
  have a2M := updateLinkPose_at v st1 L M
  have a2L := updateLinkPose_at v st1 L L
  rw [hw] at a2M a2L
  simp only [if_true, Ne.symm hLM, if_false] at a2M a2L
  have f2 := (updateLinkPose_linkFrame v st1 L).trans f1
  have u2L := linkFold_untouched v s L post (updateLinkPose v st1 L) f2
    (fun x hx => link_pose_untouched s.ecm L x hlink hparents (fun hc => hpost (hc ▸ hx)))
  have u2M := linkFold_untouched v s M post (updateLinkPose v st1 L) f2
    (fun x hx => by
      apply Bool.eq_false_iff.mpr
      intro hwx
      obtain ⟨h1, h2 | h2⟩ := (writesPose_iff s.ecm x M).mp hwx
      · rw [h2.1, hMlink] at h1
        cases h1
      · exact hafter x hx ⟨h1, h2.2, h2.1⟩)
  refine ⟨m, ?_, ?_, ?_⟩
  · rw [u2M.1, a2M.1, hm]
  · rw [u2L.1, a2L.1]
    rfl
  · rw [u2L.2, a2L.2]

/-- The marker and the parent of every entity after the read-back. -/
theorem UpdateSim_linkTags (v : EngineView) (uninit : Nat → Option ExtraContactData)
    (info : UpdateInfo) (s : State) (hf : s.fault = none) :
    (UpdateSim v uninit info s).ecm.canonicalLink = s.ecm.canonicalLink ∧
      (UpdateSim v uninit info s).ecm.parentEntity = s.ecm.parentEntity := by
  have key : (fun x : State => (x.ecm.canonicalLink, x.ecm.parentEntity))
      (UpdateSim v uninit info s) =
      (fun x : State => (x.ecm.canonicalLink, x.ecm.parentEntity))
        (s.each (updateLinkPose v)) := by
    apply UpdateSim_field (fun x : State => (x.ecm.canonicalLink, x.ecm.parentEntity)) v uninit
      info s _ _ (fun _ _ => rfl) hf
    · apply readBackVisitors_cases
      all_goals
        intro st e
        first
          | unfold updateJointForce
          | unfold updateOffsetWorldPose
          | unfold updateOffsetWorldLinearVelocity
          | unfold updateOffsetAngularVelocity
          | unfold updateOffsetLinearAcceleration
          | unfold clearJointPositionReset
          | unfold clearJointVelocityReset
          | unfold clearJointForceCmd
          | unfold clearExternalWorldWrenchCmd
          | unfold clearJointVelocityCmd
          | unfold updateJointPosition
          | unfold updateJointVelocity
        repeat' (first | split | dsimp only)
    · intro m st e
      unfold writeContacts
      repeat' (first | split | dsimp only)
  have hfr := linkFold_frame v s.ecm.entities s
  unfold linkFrame at hfr
  simp only [Prod.mk.injEq] at hfr key
  unfold State.each at key
  exact ⟨key.1.trans hfr.2.2.1, key.2.trans hfr.2.2.2.1⟩

/-- C19. A registered canonical link `L` of a non-static model `M` that has a
pose, in a store that enumerates every entity once, in which no link is the
parent of a link and `L` is the only canonical link of `M`: after `UpdateSim`
the pose of `M` is the world pose of `L` composed with the inverse of the pose
of `L`, so that (the pose of `L` being a rigid transform) the pose of `M`
composed with the pose of `L` is the world pose of `L`; the pose of `L` is
unchanged and the pose of `M` is marked as a periodic change. -/
theorem C19_model_pose_follows_canonical_link (v : EngineView)
    (uninit : Nat → Option ExtraContactData) (info : UpdateInfo) (s : State) (L M : Entity)
    (h : LinkPtr) (l m0 : Pose3d) (hf : s.fault = none) (hnd : s.ecm.entities.Nodup)
    (hL : L ∈ s.ecm.entities) (hlink : s.ecm.link L = true)
    (hcan : s.ecm.canonicalLink L = true) (hreg : s.impl.entityLinkMap L = some h)
    (hpose : s.ecm.pose L = some l) (hpar : s.ecm.parentEntity L = some M)
    (hstatic : s.ecm.static M ≠ some true) (hM : s.ecm.pose M = some m0)
    (hrot : l.rot.transpose.mul l.rot = Matrix3d.Identity)
    (hparents : ∀ x p, s.ecm.link x = true → s.ecm.parentEntity x = some p →
      s.ecm.link p = false)
    (hone : ∀ x ∈ s.ecm.entities, s.ecm.link x = true → s.ecm.canonicalLink x = true →
      s.ecm.parentEntity x = some M → x = L) :
    (UpdateSim v uninit info s).ecm.pose M =
        some ((v.FrameDataRelativeToWorld h).pose * l.Inverse) ∧
      ((v.FrameDataRelativeToWorld h).pose * l.Inverse) * l =
        (v.FrameDataRelativeToWorld h).pose ∧
      (UpdateSim v uninit info s).ecm.pose L = some l ∧
      (UpdateSim v uninit info s).ecm.changed M ComponentTypeId.Pose =
        ComponentState.PeriodicChange := by
  have hp := UpdateSim_posePart v uninit info s hf
  unfold posePart at hp
  simp only [Prod.mk.injEq] at hp
  obtain ⟨c1, c2, c3, _⟩ := linkPass_canonical v s L M h l m0 hf hnd hL hlink hcan hreg hpose
    hpar hstatic hM hparents hone
  rw [hp.1, hp.2]
  exact ⟨c1, Pose3d.mul_inverse_mul _ l hrot, c2, c3⟩

/-- The read-back on `linksExample`: the model follows its canonical link. -/
theorem C19_witness :
    (UpdateSim movedView uninitNull ⟨1, 1, false⟩ linksExample).ecm.pose 2 =
        some ((movedView.FrameDataRelativeToWorld 30).pose *
          (⟨⟨0, 0, 1⟩, quarterTurn⟩ : Pose3d).Inverse) ∧
      ((movedView.FrameDataRelativeToWorld 30).pose *
          (⟨⟨0, 0, 1⟩, quarterTurn⟩ : Pose3d).Inverse) * ⟨⟨0, 0, 1⟩, quarterTurn⟩ =
        (movedView.FrameDataRelativeToWorld 30).pose ∧
      (UpdateSim movedView uninitNull ⟨1, 1, false⟩ linksExample).ecm.pose 3 =
        some ⟨⟨0, 0, 1⟩, quarterTurn⟩ ∧
      (UpdateSim movedView uninitNull ⟨1, 1, false⟩ linksExample).ecm.changed 2
        ComponentTypeId.Pose = ComponentState.PeriodicChange :=
  C19_model_pose_follows_canonical_link movedView uninitNull ⟨1, 1, false⟩ linksExample 3 2 30
    ⟨⟨0, 0, 1⟩, quarterTurn⟩ ⟨Vector3d.Zero, Matrix3d.Identity⟩ rfl (by decide) (by decide) rfl
    rfl rfl rfl rfl (by decide) rfl (by decide)
    (fun x p h1 h2 => by
      simp only [linksExample, Bool.or_eq_true, decide_eq_true_eq] at h1 h2 ⊢
      rw [if_pos h1] at h2
      cases h2
      decide)
    (by decide)

/-- C20 fails as stated: in `lateCanonicalExample` the link 4 is enumerated
before the canonical link 3; after `UpdateSim` the model is at `(1, 0, -1)`
turned back by a quarter, the link 4 holds its world pose `(1, 1, 0)` relative
to the origin, and the pose of the model composed with the pose of the link is
not the world pose of the link. -/
theorem C20_counterexample :
    (UpdateSim movedView uninitNull ⟨1, 1, false⟩ lateCanonicalExample).ecm.pose 2 =
        some ⟨⟨1, 0, -1⟩, quarterTurn.transpose⟩ ∧
      (UpdateSim movedView uninitNull ⟨1, 1, false⟩ lateCanonicalExample).ecm.pose 4 =
        some ⟨⟨1, 1, 0⟩, Matrix3d.Identity⟩ ∧
      (⟨⟨1, 0, -1⟩, quarterTurn.transpose⟩ : Pose3d) * ⟨⟨1, 1, 0⟩, Matrix3d.Identity⟩ ≠
        (movedView.FrameDataRelativeToWorld 31).pose := by
  decide

/-- C20, as amended. A registered link `L` of a non-static model `M` that is
not canonical, in a store that enumerates every entity once and in which no
link is the parent of a link, when no canonical link of `M` is enumerated after
`L`: after `UpdateSim` the pose of `L` is the inverse of the final pose of `M`
composed with the world pose of `L`, it is marked as a periodic change, and
(the pose of `M` being a rigid transform) the pose of `M` composed with the pose
of `L` is the world pose of `L`. -/
theorem C20_link_pose_relative_to_model (v : EngineView)
    (uninit : Nat → Option ExtraContactData) (info : UpdateInfo) (s : State) (L M : Entity)
    (h : LinkPtr) (l0 m0 : Pose3d) (pre post : List Entity) (hf : s.fault = none)
    (hnd : s.ecm.entities.Nodup) (hsplit : s.ecm.entities = pre ++ L :: post)
    (hlink : s.ecm.link L = true) (hcan : s.ecm.canonicalLink L = false)
    (hreg : s.impl.entityLinkMap L = some h) (hpose : s.ecm.pose L = some l0)
    (hpar : s.ecm.parentEntity L = some M) (hstatic : s.ecm.static M ≠ some true)
    (hM : s.ecm.pose M = some m0)
    (hparents : ∀ x p, s.ecm.link x = true → s.ecm.parentEntity x = some p →
      s.ecm.link p = false)
    (hafter : ∀ x ∈ post, ¬ (s.ecm.link x = true ∧ s.ecm.canonicalLink x = true ∧
      s.ecm.parentEntity x = some M)) :
    ∃ m, (UpdateSim v uninit info s).ecm.pose M = some m ∧
      (UpdateSim v uninit info s).ecm.pose L =
        some (m.Inverse * (v.FrameDataRelativeToWorld h).pose) ∧
      (UpdateSim v uninit info s).ecm.changed L ComponentTypeId.Pose =
        ComponentState.PeriodicChange ∧
      (m.rot.mul m.rot.transpose = Matrix3d.Identity →
        m * (m.Inverse * (v.FrameDataRelativeToWorld h).pose) =
          (v.FrameDataRelativeToWorld h).pose) := by
  have hp := UpdateSim_posePart v uninit info s hf
  unfold posePart at hp
  simp only [Prod.mk.injEq] at hp
  obtain ⟨m, c1, c2, c3⟩ := linkPass_noncanonical v s L M h l0 m0 pre post hf hnd hsplit hlink
    hcan hreg hpose hpar hstatic hM hparents hafter
  rw [hp.1, hp.2]
  exact ⟨m, c1, c2, c3, fun hrot => Pose3d.mul_mul_inverse _ m hrot⟩

/-- The read-back on `linksExample`, where the canonical link is enumerated
before the link 4. -/
theorem C20_witness :
    ∃ m, (UpdateSim movedView uninitNull ⟨1, 1, false⟩ linksExample).ecm.pose 2 = some m ∧
      (UpdateSim movedView uninitNull ⟨1, 1, false⟩ linksExample).ecm.pose 4 =
        some (m.Inverse * (movedView.FrameDataRelativeToWorld 31).pose) ∧
      (UpdateSim movedView uninitNull ⟨1, 1, false⟩ linksExample).ecm.changed 4
        ComponentTypeId.Pose = ComponentState.PeriodicChange ∧
      (m.rot.mul m.rot.transpose = Matrix3d.Identity →
        m * (m.Inverse * (movedView.FrameDataRelativeToWorld 31).pose) =
          (movedView.FrameDataRelativeToWorld 31).pose) :=
  C20_link_pose_relative_to_model movedView uninitNull ⟨1, 1, false⟩ linksExample 4 2 31
    ⟨Vector3d.Zero, Matrix3d.Identity⟩ ⟨Vector3d.Zero, Matrix3d.Identity⟩ [2, 3] [] rfl
    (by decide) rfl rfl rfl rfl rfl rfl (by decide) rfl
    (fun x p h1 h2 => by
      simp only [linksExample, Bool.or_eq_true, decide_eq_true_eq] at h1 h2 ⊢
      rw [if_pos h1] at h2
      cases h2
      decide)
    (by decide)

/-- C28. For a registered canonical link `L` of a non-static model `M`, under
the conditions of C19, the pose that `Link::position` and `Link::orientation`
compute right after `UpdateSim` is the world pose of the link that `UpdateSim`
read from the engine. -/
theorem C28_link_accessors_give_world_pose (v : EngineView)
    (uninit : Nat → Option ExtraContactData) (info : UpdateInfo) (s : State) (L M : Entity)
    (h : LinkPtr) (l m0 : Pose3d) (hf : s.fault = none) (hnd : s.ecm.entities.Nodup)
    (hL : L ∈ s.ecm.entities) (hlink : s.ecm.link L = true)
    (hcan : s.ecm.canonicalLink L = true) (hreg : s.impl.entityLinkMap L = some h)
    (hpose : s.ecm.pose L = some l) (hpar : s.ecm.parentEntity L = some M)
    (hstatic : s.ecm.static M ≠ some true) (hM : s.ecm.pose M = some m0)
    (hrot : l.rot.transpose.mul l.rot = Matrix3d.Identity)
    (hparents : ∀ x p, s.ecm.link x = true → s.ecm.parentEntity x = some p →
      s.ecm.link p = false)
    (hone : ∀ x ∈ s.ecm.entities, s.ecm.link x = true → s.ecm.canonicalLink x = true →
      s.ecm.parentEntity x = some M → x = L) :
    Link.position (UpdateSim v uninit info s).ecm L =
        some (v.FrameDataRelativeToWorld h).pose.pos ∧
      Link.orientation (UpdateSim v uninit info s).ecm L =
        some (v.FrameDataRelativeToWorld h).pose.rot := by
  have hp := UpdateSim_posePart v uninit info s hf
  unfold posePart at hp
  simp only [Prod.mk.injEq] at hp
  obtain ⟨c1, c2, _, _⟩ := linkPass_canonical v s L M h l m0 hf hnd hL hlink hcan hreg hpose
    hpar hstatic hM hparents hone
  obtain ⟨t1, t2⟩ := UpdateSim_linkTags v uninit info s hf
  have hlp : Link.linkPose (UpdateSim v uninit info s).ecm L =
      some (v.FrameDataRelativeToWorld h).pose := by
    unfold Link.linkPose
    rw [t1, t2, hp.1, hcan, hpar]
    simp only [Bool.not_true, Bool.false_eq_true, if_false, c1, c2]
    exact congrArg some (Pose3d.mul_inverse_mul _ l hrot)
  unfold Link.position Link.orientation
  rw [hlp]
  exact ⟨rfl, rfl⟩

/-- The accessors on `linksExample` right after the read-back. -/
theorem C28_witness :
    Link.position (UpdateSim movedView uninitNull ⟨1, 1, false⟩ linksExample).ecm 3 =
        some (movedView.FrameDataRelativeToWorld 30).pose.pos ∧
      Link.orientation (UpdateSim movedView uninitNull ⟨1, 1, false⟩ linksExample).ecm 3 =
        some (movedView.FrameDataRelativeToWorld 30).pose.rot :=
  C28_link_accessors_give_world_pose movedView uninitNull ⟨1, 1, false⟩ linksExample 3 2 30
    ⟨⟨0, 0, 1⟩, quarterTurn⟩ ⟨Vector3d.Zero, Matrix3d.Identity⟩ rfl (by decide) (by decide) rfl
    rfl rfl rfl rfl (by decide) rfl (by decide)
    (fun x p h1 h2 => by
      simp only [linksExample, Bool.or_eq_true, decide_eq_true_eq] at h1 h2 ⊢
      rw [if_pos h1] at h2
      cases h2
      decide)
    (by decide)

/-- C24. The accessors `Link::bodyLinearVelocity` and `Link::bodyAngularVelocity`
return the component `AngularAcceleration` of the link instead of
`LinearVelocity` and `AngularVelocity`; `Link::bodyLinearAcceleration` and
`Link::bodyAngularAcceleration` return `LinearAcceleration` and
`AngularAcceleration`. On `bodyExample` the two velocity accessors differ from
the components that the state reader writes for them. -/
theorem C24_body_velocity_accessors_read_angular_acceleration :
    (∀ ecm e, Link.bodyLinearVelocity ecm e = ecm.angularAcceleration e) ∧
      (∀ ecm e, Link.bodyAngularVelocity ecm e = ecm.angularAcceleration e) ∧
      (∀ ecm e, Link.bodyLinearAcceleration ecm e = ecm.linearAcceleration e) ∧
      (∀ ecm e, Link.bodyAngularAcceleration ecm e = ecm.angularAcceleration e) ∧
      Link.bodyLinearVelocity bodyExample 3 = some ⟨4, 4, 4⟩ ∧
      bodyExample.linearVelocity 3 = some ⟨1, 0, 0⟩ ∧
      Link.bodyAngularVelocity bodyExample 3 = some ⟨4, 4, 4⟩ ∧
      bodyExample.angularVelocity 3 = some ⟨0, 2, 0⟩ :=
  ⟨fun _ _ => rfl, fun _ _ => rfl, fun _ _ => rfl, fun _ _ => rfl, by decide, by decide,
    by decide, by decide⟩

theorem foldl_and_all (p : Entity → Bool) (cs : List Entity) (b : Bool) :
    cs.foldl (fun enabled c => enabled && p c) b = (b && cs.all p) := by
  induction cs generalizing b with
  | nil => simp
  | cons c cs ih => simp [List.foldl_cons, ih, Bool.and_assoc]

theorem all_false_of (g : Entity → Bool) (cs : List Entity) (h : ∀ c ∈ cs, g c = false) :
    cs.all g = if cs = [] then true else false := by
  cases cs with
  | nil => rfl
  | cons c cs => simp [h c (List.mem_cons_self _ _)]

theorem contactsEnabled_eq (ecm : ECM) (linkEntity : Entity) :
    Link.contactsEnabled ecm linkEntity =
      (Link.collisionEntities ecm linkEntity).all
        (fun c => (ecm.contactSensorData c).isSome) := by
  unfold Link.contactsEnabled
  rw [foldl_and_all]
  rfl

theorem collisionEntities_congr (a b : ECM) (h : SameCollisions a b) (linkEntity : Entity) :
    Link.collisionEntities b linkEntity = Link.collisionEntities a linkEntity := by
  obtain ⟨h1, h2, h3, h4⟩ := h
  unfold Link.collisionEntities ECM.ChildrenByComponents
  rw [h1, h2, h3, h4]

theorem foldl_create (cs : List Entity) (ecm : ECM) :
    SameCollisions ecm (cs.foldl (fun ecm c =>
        { ecm with contactSensorData := FMap.set ecm.contactSensorData c [] }) ecm) ∧
      ∀ y, (cs.foldl (fun ecm c =>
        { ecm with contactSensorData := FMap.set ecm.contactSensorData c [] })
          ecm).contactSensorData y =
        if y ∈ cs then some [] else ecm.contactSensorData y := by
  induction cs generalizing ecm with
  | nil => exact ⟨⟨rfl, rfl, rfl, rfl⟩, fun y => by simp⟩
  | cons c cs ih =>
    rw [List.foldl_cons]
    obtain ⟨i1, i2⟩ := ih { ecm with contactSensorData := FMap.set ecm.contactSensorData c [] }
    refine ⟨i1, ?_⟩
    intro y
    rw [i2]
    by_cases hy : y ∈ cs
    · simp [hy]
    · by_cases hc : y = c
      · simp [hc, FMap.set]
      · simp [hy, hc, FMap.set]

theorem foldl_remove (cs : List Entity) (ecm : ECM) :
    SameCollisions ecm (cs.foldl (fun ecm c =>
        { ecm with contactSensorData := FMap.erase ecm.contactSensorData c }) ecm) ∧
      ∀ y, (cs.foldl (fun ecm c =>
        { ecm with contactSensorData := FMap.erase ecm.contactSensorData c })
          ecm).contactSensorData y =
        if y ∈ cs then none else ecm.contactSensorData y := by
  induction cs generalizing ecm with
  | nil => exact ⟨⟨rfl, rfl, rfl, rfl⟩, fun y => by simp⟩
  | cons c cs ih =>
    rw [List.foldl_cons]
    obtain ⟨i1, i2⟩ := ih { ecm with contactSensorData := FMap.erase ecm.contactSensorData c }
    refine ⟨i1, ?_⟩
    intro y
    rw [i2]
    by_cases hy : y ∈ cs
    · simp [hy]
    · by_cases hc : y = c
      · simp [hc, FMap.erase]
      · simp [hy, hc, FMap.erase]

/-- C25 fails as stated: the link 3 of `collisionsExample` has no collision
entity, and after `enableContactDetection(false)` the accessor `contactsEnabled`
still returns `true`. -/
theorem C25_counterexample :
    Link.collisionEntities collisionsExample 3 = [] ∧
      Link.contactsEnabled (Link.enableContactDetection collisionsExample 3 false).1 3 = true := by
  decide

/-- C25, as amended. For a link with at least one collision entity and both
values of `enable`, and for a link without collision entity and `enable` true,
`contactsEnabled` after `enableContactDetection(enable)` returns `enable`; for a
link without collision entity it returns `true` whatever was requested. -/
theorem C25_contact_detection_round_trip (ecm : ECM) (linkEntity : Entity) (enable : Bool)
    (h : Link.collisionEntities ecm linkEntity ≠ [] ∨ enable = true) :
    Link.contactsEnabled (Link.enableContactDetection ecm linkEntity enable).1 linkEntity =
        enable ∧
      ∀ (other : Entity) (requested : Bool), Link.collisionEntities ecm other = [] →
        Link.contactsEnabled (Link.enableContactDetection ecm other requested).1 other = true := by
  have key : ∀ (l : Entity) (b : Bool),
      Link.contactsEnabled (Link.enableContactDetection ecm l b).1 l =
        if Link.collisionEntities ecm l = [] then true else b := by
    intro l b
    unfold Link.enableContactDetection
    by_cases h1 : (b && !Link.contactsEnabled ecm l) = true
    · rw [if_pos h1]
      obtain ⟨c1, c2⟩ := foldl_create (Link.collisionEntities ecm l) ecm
      rw [contactsEnabled_eq, collisionEntities_congr _ _ c1]
      have hb : b = true := by
        cases b
        · simp at h1
        · rfl
      have hall : (Link.collisionEntities ecm l).all (fun c =>
          ((List.foldl (fun ecm c =>
            { ecm with contactSensorData := FMap.set ecm.contactSensorData c [] }) ecm
            (Link.collisionEntities ecm l)).contactSensorData c).isSome) = true := by
        rw [List.all_eq_true]
        intro c hc
        rw [c2, if_pos hc]
        rfl
      dsimp only
      rw [hall, hb]
      split <;> rfl
    · rw [if_neg h1]
      by_cases h2 : (!b && Link.contactsEnabled ecm l) = true
      · rw [if_pos h2]
        obtain ⟨c1, c2⟩ := foldl_remove (Link.collisionEntities ecm l) ecm
        rw [contactsEnabled_eq, collisionEntities_congr _ _ c1]
        have hb : b = false := by
          cases b
          · rfl
          · simp at h2
        dsimp only
        rw [hb]
        apply all_false_of
        intro c hc
        rw [c2 c, if_pos hc]
        rfl
      · rw [if_neg h2]
        dsimp only
        have hce := contactsEnabled_eq ecm l
        cases hcs : Link.collisionEntities ecm l with
        | nil =>
          rw [hce, hcs]
          simp
        | cons c cs =>
          simp only [reduceCtorEq, if_false]
          cases b <;> cases hE : Link.contactsEnabled ecm l <;> simp [hE] at h1 h2 ⊢
  refine ⟨?_, ?_⟩
  · rw [key]
    rcases h with h | h
    · rw [if_neg h]
    · rw [h]
      split <;> rfl
  · intro other requested hno
    rw [key, if_pos hno]

/-- The link 5 of `collisionsExample`, with one collision entity out of two
carrying contact data, when contacts are switched off. -/
theorem C25_witness :
    Link.contactsEnabled (Link.enableContactDetection collisionsExample 5 false).1 5 = false ∧
      ∀ (other : Entity) (requested : Bool), Link.collisionEntities collisionsExample other = [] →
        Link.contactsEnabled
          (Link.enableContactDetection collisionsExample other requested).1 other = true :=
  C25_contact_detection_round_trip collisionsExample 5 false (Or.inl (by decide))

/-- C26. The visitors of the traversals over `JointPositionReset` and
`JointVelocityReset` remove the component of the visited entity while the
traversal is running, whereas the traversals over the world pose and velocity
commands leave the commands alone and only collect the entities, the removal
coming afterwards over the collected entities. -/
theorem C26_resets_removed_inside_their_traversal :
    (∀ st e, (clearJointPositionReset st e).ecm.jointPositionReset e = none) ∧
      (∀ st e, (clearJointVelocityReset st e).ecm.jointVelocityReset e = none) ∧
      (∀ v st e, (processWorldPoseCmd v st e).ecm.worldPoseCmd = st.ecm.worldPoseCmd) ∧
      (∀ v st e, (processWorldVelocityCmd v st e).ecm.worldVelocityCmd =
        st.ecm.worldVelocityCmd) ∧
      (∀ has acc e, (collect has acc e).1 = acc.1) ∧
      resetExample.ecm.jointVelocityReset 4 = some [3, 4] ∧
      (clearJointVelocityReset resetExample 4).ecm.jointVelocityReset 4 = none := by
  refine ⟨?_, ?_, ?_, ?_, ?_, by decide, by decide⟩
  · intro st e
    unfold clearJointPositionReset
    split
    · simp [FMap.erase]
    · assumption
  · intro st e
    unfold clearJointVelocityReset
    split
    · simp [FMap.erase]
    · assumption
  · intro v st e
    obtain ⟨p, ch, cs, f, h⟩ := processWorldPoseCmd_shape v st e
    rw [h]
  · intro v st e
    obtain ⟨cs, h⟩ := processWorldVelocityCmd_shape v st e
    rw [h]
  · intro has acc e
    unfold collect
    repeat' split
    all_goals rfl

/-- C27. Every raw contact filed under the pair `(E1, E2)` by the grouping of
`UpdateCollisions` satisfies the two polarity assertions: when `E1` is the
entity of its first shape, `E2` is the entity of its second shape, and
otherwise `E2` is the entity of its first shape; the loop over the contact
points never fails on an assertion. -/
theorem C27_polarity_assertions_hold (impl : Impl) (uninit : Nat → Option ExtraContactData)
    (allContacts : List ContactComposite) (E1 E2 : Entity) (q : List AllContactData)
    (h : lookup2 (groupContacts impl uninit allContacts) E1 E2 = some q) :
    ∀ c ∈ q,
      (impl.collisionEntityMap c.point.collision1 = some E1 →
        impl.collisionEntityMap c.point.collision2 = some E2) ∧
      (impl.collisionEntityMap c.point.collision1 ≠ some E1 →
        impl.collisionEntityMap c.point.collision1 = some E2) ∧
      ∀ ecm msg, addContactPoint impl ecm E1 E2 (Except.ok msg) c ≠
        Except.error Fault.assertion := by
  intro c hc
  have hends := (groupContacts_grouped impl uninit allContacts).ends E1 E2 q h c hc
  refine ⟨?_, ?_, ?_⟩
  · intro h1
    rcases hends with ⟨_, h2⟩ | ⟨h1', h2⟩
    · exact h2
    · rw [h1] at h1'
      cases h1'
      exact h2
  · intro h1
    rcases hends with ⟨h1', _⟩ | ⟨h1', _⟩
    · exact absurd h1' h1
    · exact h1'
  · intro ecm msg
    unfold addContactPoint
    cases hx : c.extra with
    | none => simp
    | some x =>
      cases hn1 : ecm.name E1 with
      | none => simp
      | some n1 =>
        cases hn2 : ecm.name E2 with
        | none => simp
        | some n2 =>
          rcases hends with ⟨h1, h2⟩ | ⟨h1, h2⟩
          · simp [h1, h2]
          · by_cases hab : E1 = E2
            · subst hab
              simp [h1, h2]
            · simp [h1, h2, hab]

/-- The contact of the shape 30 with itself is filed twice under the pair
`(3, 3)`, and the record satisfies the assertions. -/
theorem C27_witness :
    (selfContactExample.impl.collisionEntityMap
          (⟨⟨30, 30, ⟨1, 2, 3⟩⟩, some ⟨⟨5, 0, 0⟩, ⟨0, 0, 1⟩, 2⟩⟩ :
            AllContactData).point.collision1 = some 3 →
        selfContactExample.impl.collisionEntityMap
          (⟨⟨30, 30, ⟨1, 2, 3⟩⟩, some ⟨⟨5, 0, 0⟩, ⟨0, 0, 1⟩, 2⟩⟩ :
            AllContactData).point.collision2 = some 3) ∧
      (selfContactExample.impl.collisionEntityMap
          (⟨⟨30, 30, ⟨1, 2, 3⟩⟩, some ⟨⟨5, 0, 0⟩, ⟨0, 0, 1⟩, 2⟩⟩ :
            AllContactData).point.collision1 ≠ some 3 →
        selfContactExample.impl.collisionEntityMap
          (⟨⟨30, 30, ⟨1, 2, 3⟩⟩, some ⟨⟨5, 0, 0⟩, ⟨0, 0, 1⟩, 2⟩⟩ :
            AllContactData).point.collision1 = some 3) ∧
      ∀ ecm msg, addContactPoint selfContactExample.impl ecm 3 3 (Except.ok msg)
          ⟨⟨30, 30, ⟨1, 2, 3⟩⟩, some ⟨⟨5, 0, 0⟩, ⟨0, 0, 1⟩, 2⟩⟩ ≠
        Except.error Fault.assertion :=
  C27_polarity_assertions_hold selfContactExample.impl uninitNull selfContact 3 3
    [⟨⟨30, 30, ⟨1, 2, 3⟩⟩, some ⟨⟨5, 0, 0⟩, ⟨0, 0, 1⟩, 2⟩⟩,
      ⟨⟨30, 30, ⟨1, 2, 3⟩⟩, some ⟨⟨5, 0, 0⟩, ⟨0, 0, 1⟩, 2⟩⟩]
    (by decide) ⟨⟨30, 30, ⟨1, 2, 3⟩⟩, some ⟨⟨5, 0, 0⟩, ⟨0, 0, 1⟩, 2⟩⟩ (by decide)

theorem Vector3d.vec_add_assoc (a b c : Vector3d) : a + b + c = a + (b + c) := by
  cases a
  cases b
  cases c
  show Vector3d.add (Vector3d.add _ _) _ = Vector3d.add _ (Vector3d.add _ _)
  simp [Vector3d.add, add_assoc]

theorem Vector3d.vec_zero_add (a : Vector3d) : Vector3d.Zero + a = a := by
  cases a
  show Vector3d.add _ _ = _
  simp [Vector3d.add, Vector3d.Zero]

theorem foldl_contactWrenchPoint (o_L : Vector3d) (points : List BaseContactPoint)
    (F T : Vector3d) (htorque : ∀ p ∈ points, p.torque = Vector3d.Zero) :
    points.foldl (contactWrenchPoint (some o_L)) (some (F, T)) =
      some (F + sumVectors (points.map (fun p => p.force)),
        T + sumVectors (points.map (fun p => (p.position - o_L).Cross p.force))) := by
  induction points generalizing F T with
  | nil =>
    have hz : ∀ a : Vector3d, a + Vector3d.Zero = a := by
      intro a
      cases a
      show Vector3d.add _ _ = _
      simp [Vector3d.add, Vector3d.Zero]
    simp [sumVectors, hz]
  | cons p ps ih =>
    have hp := htorque p (List.mem_cons_self _ _)
    rw [List.foldl_cons]
    have hstep : contactWrenchPoint (some o_L) (some (F, T)) p =
        some (F + p.force, T + (p.position - o_L).Cross p.force) := by
      unfold contactWrenchPoint
      simp only [hp, if_true]
    rw [hstep, ih _ _ (fun p' hp' => htorque p' (List.mem_cons_of_mem _ hp'))]
    simp only [List.map_cons, sumVectors, List.foldr_cons, Vector3d.vec_add_assoc]

/-- C30. For every list of contacts whose points carry no torque, and with the
position of the link available, `Link::contactWrench` returns the six entries
of the sum of the forces of all contact points followed by the sum of the
moments `(point position - link position) x (point force)`; for a link with no
contacts it returns six zeros, whether or not the position is available. -/
theorem C30_contact_wrench_is_sum (o_L : Vector3d) (contacts : List BaseContact)
    (htorque : ∀ c ∈ contacts, ∀ p ∈ c.points, p.torque = Vector3d.Zero) :
    Link.contactWrench (some o_L) contacts = some (contactWrenchSum o_L contacts) ∧
      ∀ position, Link.contactWrench position [] = some [0, 0, 0, 0, 0, 0] := by
  refine ⟨?_, fun _ => rfl⟩
  have key : ∀ (cs : List BaseContact) (F T : Vector3d),
      (∀ c ∈ cs, ∀ p ∈ c.points, p.torque = Vector3d.Zero) →
      cs.foldl (fun acc contact => contact.points.foldl (contactWrenchPoint (some o_L)) acc)
        (some (F, T)) =
      some (F + sumVectors ((cs.flatMap (fun c => c.points)).map (fun p => p.force)),
        T + sumVectors ((cs.flatMap (fun c => c.points)).map
          (fun p => (p.position - o_L).Cross p.force))) := by
    intro cs
    induction cs with
    | nil =>
      intro F T _
      have hz : ∀ a : Vector3d, a + Vector3d.Zero = a := by
        intro a
        cases a
        show Vector3d.add _ _ = _
        simp [Vector3d.add, Vector3d.Zero]
      simp [sumVectors, hz]
    | cons c cs ih =>
      intro F T ht
      rw [List.foldl_cons, foldl_contactWrenchPoint o_L c.points F T
        (ht c (List.mem_cons_self _ _)), ih _ _ (fun c' hc' => ht c' (List.mem_cons_of_mem _ hc'))]
      have hsum : ∀ (xs ys : List Vector3d),
          sumVectors (xs ++ ys) = sumVectors xs + sumVectors ys := by
        intro xs ys
        induction xs with
        | nil => simp [sumVectors, Vector3d.vec_zero_add]
        | cons x xs ihx =>
          simp only [sumVectors, List.cons_append, List.foldr_cons] at ihx ⊢
          rw [ihx, Vector3d.vec_add_assoc]
      simp only [List.flatMap_cons, List.map_append, hsum, Vector3d.vec_add_assoc]
  unfold Link.contactWrench contactWrenchSum
  rw [key contacts _ _ htorque]
  simp only [Vector3d.vec_zero_add]

/-- The wrench of `wrenchExample` about the position `(0, 0, 1)`. -/
theorem C30_witness :
    Link.contactWrench (some ⟨0, 0, 1⟩) wrenchExample =
        some (contactWrenchSum ⟨0, 0, 1⟩ wrenchExample) ∧
      ∀ position, Link.contactWrench position [] = some [0, 0, 0, 0, 0, 0] :=
  C30_contact_wrench_is_sum ⟨0, 0, 1⟩ wrenchExample (by decide)

theorem readBack_split (v : EngineView) (info : UpdateInfo) (s : State)
    (pre post : List (State → Entity → State)) (w : State → Entity → State)
    (h : readBackVisitors v info = pre ++ w :: post) :
    beforeCollisions v info s =
      post.foldl (fun st visit => st.each visit)
        ((pre.foldl (fun st visit => st.each visit) (s.each (updateLinkPose v))).each w) := by
  unfold beforeCollisions
  rw [h, List.foldl_append, List.foldl_cons]

theorem foldl_push (data history : List Scalar) :
    data.foldl (fun h jointForce => h ++ [jointForce]) history = history ++ data := by
  induction data generalizing history with
  | nil => simp
  | cons d data ih => rw [List.foldl_cons, ih, List.append_assoc, List.singleton_append]

theorem updateJointForce_frame2 (info : UpdateInfo) (st : State) (x : Entity) :
    jointForceFrame (updateJointForce info st x) = jointForceFrame st := by
  unfold updateJointForce
  repeat' (first | split | dsimp only)
  all_goals rfl

theorem updateJointForce_other (info : UpdateInfo) (st : State) (x e : Entity) (hx : x ≠ e) :
    (fun y : State => (y.ecm.jointForce e, y.ecm.historyOfAppliedJointForces e))
        (updateJointForce info st x) =
      (st.ecm.jointForce e, st.ecm.historyOfAppliedJointForces e) := by
  have hne : e ≠ x := fun h => hx h.symm
  unfold updateJointForce
  repeat' (first | split | dsimp only)
  all_goals simp [FMap.set, hne]

theorem updateJointForce_at (info : UpdateInfo) (st : State) (e : Entity) (cmd : List Scalar)
    (hjoint : st.ecm.joint e = true) (hname : (st.ecm.name e).isSome = true)
    (hforce : (st.ecm.jointForce e).isSome = true) (hcmd : st.ecm.jointForceCmd e = some cmd) :
    (updateJointForce info st e).ecm.jointForce e = some cmd ∧
      (updateJointForce info st e).ecm.historyOfAppliedJointForces e =
        (st.ecm.historyOfAppliedJointForces e).map
          (fun history => if info.paused then history else history ++ cmd) := by
  obtain ⟨n, hn⟩ := Option.isSome_iff_exists.mp hname
  obtain ⟨f, hfo⟩ := Option.isSome_iff_exists.mp hforce
  unfold updateJointForce
  rw [if_pos hjoint]
  simp only [hn, hfo, hcmd]
  cases hh : st.ecm.historyOfAppliedJointForces e with
  | none => simp [FMap.set, hh]
  | some history =>
    cases hp : info.paused with
    | true => simp [FMap.set, hh]
    | false => simp [FMap.set, hh, foldl_push]

/-- The applied force and the history of a joint after `UpdateSim`. -/
theorem UpdateSim_jointForce (v : EngineView) (uninit : Nat → Option ExtraContactData)
    (info : UpdateInfo) (s : State) (e : Entity) (cmd : List Scalar) (hf : s.fault = none)
    (hnd : s.ecm.entities.Nodup) (he : e ∈ s.ecm.entities) (hjoint : s.ecm.joint e = true)
    (hname : (s.ecm.name e).isSome = true) (hforce : (s.ecm.jointForce e).isSome = true)
    (hcmd : s.ecm.jointForceCmd e = some cmd) :
    (UpdateSim v uninit info s).ecm.jointForce e = some cmd ∧
      (UpdateSim v uninit info s).ecm.historyOfAppliedJointForces e =
        (s.ecm.historyOfAppliedJointForces e).map
          (fun history => if info.paused then history else history ++ cmd) := by
  -- the pass over the links
  have hL : (fun x : State => (jointForceFrame x, jointForcePart x))
      (s.each (updateLinkPose v)) = (jointForceFrame s, jointForcePart s) := by
    apply each_field (fun x : State => (jointForceFrame x, jointForcePart x))
    intro st x
    obtain ⟨p, a, b, c, d, f, a', b', c', d', ch, h⟩ := updateLinkPose_shape v st x
    rw [h]
    rfl
  simp only [Prod.mk.injEq] at hL
  obtain ⟨l1, l2⟩ := hL
  -- the visitors after the force read-back, and the contact phase
  have hsplit : readBackVisitors v info = [] ++ updateJointForce info ::
      [updateOffsetWorldPose v, updateOffsetWorldLinearVelocity v,
        updateOffsetAngularVelocity v, updateOffsetLinearAcceleration v,
        clearJointPositionReset, clearJointVelocityReset, clearJointForceCmd,
        clearExternalWorldWrenchCmd, clearJointVelocityCmd, updateJointPosition v,
        updateJointVelocity v] := rfl
  have hU : jointForcePart (UpdateSim v uninit info s) =
      jointForcePart ((s.each (updateLinkPose v)).each (updateJointForce info)) := by
    rw [UpdateSim_eq v uninit info s hf, UpdateCollisions_field jointForcePart v uninit _
      (fun m st x => by
        unfold writeContacts
        repeat' (first | split | dsimp only)
        all_goals rfl)
      (fun _ _ => rfl),
      readBack_split v info s _ _ _ hsplit]
    apply passes_field jointForcePart
    simp only [List.forall_mem_cons, List.not_mem_nil, false_implies, implies_true, and_true]
    repeat' apply And.intro
    all_goals
      intro st x
      first
        | unfold updateOffsetWorldPose
        | unfold updateOffsetWorldLinearVelocity
        | unfold updateOffsetAngularVelocity
        | unfold updateOffsetLinearAcceleration
        | unfold clearJointPositionReset
        | unfold clearJointVelocityReset
        | unfold clearJointForceCmd
        | unfold clearExternalWorldWrenchCmd
        | unfold clearJointVelocityCmd
        | unfold updateJointPosition
        | unfold updateJointVelocity
      repeat' (first | split | dsimp only)
      all_goals rfl
  unfold jointForcePart at hU l2
  simp only [Prod.mk.injEq] at hU l2
  rw [hU.1, hU.2]
  -- the force read-back
  generalize s.each (updateLinkPose v) = sL at l1 l2 ⊢
  have hen : sL.ecm.entities = s.ecm.entities := congrArg (fun t => t.2.1) l1
  have hpres : ∀ st x, jointForceFrame st = jointForceFrame s →
      jointForceFrame (updateJointForce info st x) = jointForceFrame s :=
    fun st x hst => (updateJointForce_frame2 info st x).trans hst
  have hfin := foldl_visit_preserves (P := fun y => jointForceFrame y = jointForceFrame s)
    hpres sL.ecm.entities sL l1
  obtain ⟨st1, post, i1, i2, _, _, i5⟩ := foldl_visit_once
    (fun y : State => (y.ecm.jointForce e, y.ecm.historyOfAppliedJointForces e))
    (fun y => jointForceFrame y = jointForceFrame s) e hpres
    (fun st x _ hx => updateJointForce_other info st x e hx) sL.ecm.entities (hen ▸ hnd)
    (hen ▸ he) sL l1 ((congrArg (fun t => t.1) hfin).trans hf)
  simp only [Prod.mk.injEq] at i2 i5
  unfold jointForceFrame at i1
  simp only [Prod.mk.injEq] at i1
  obtain ⟨_, _, j3, j4, j5⟩ := i1
  obtain ⟨a1, a2⟩ := updateJointForce_at info st1 e cmd (by rw [j3]; exact hjoint)
    (by rw [j4]; exact hname) (by rw [i2.1, l2.1]; exact hforce) (by rw [j5]; exact hcmd)
  unfold State.each
  rw [i5.1, i5.2, a1, a2, i2.2, l2.2]
  exact ⟨rfl, rfl⟩

/-- C29. A joint with a name that carries a `JointForce` and a `JointForceCmd`,
in a store that enumerates every entity once: after `UpdateSim` the
`JointForce` is the value the command had when `UpdateSim` started, whatever
the two lengths, the command itself is zeroed, and an existing
`HistoryOfAppliedJointForces` has the entries of the command appended in order
when the tick is not paused and is as it was when the tick is paused. -/
theorem C29_joint_force_copied_from_command (v : EngineView)
    (uninit : Nat → Option ExtraContactData) (info : UpdateInfo) (s : State) (e : Entity)
    (cmd : List Scalar) (hf : s.fault = none) (hnd : s.ecm.entities.Nodup)
    (he : e ∈ s.ecm.entities) (hjoint : s.ecm.joint e = true)
    (hname : (s.ecm.name e).isSome = true) (hforce : (s.ecm.jointForce e).isSome = true)
    (hcmd : s.ecm.jointForceCmd e = some cmd) :
    (UpdateSim v uninit info s).ecm.jointForce e = some cmd ∧
      (UpdateSim v uninit info s).ecm.jointForceCmd e = some (fillZero cmd) ∧
      (∀ history, s.ecm.historyOfAppliedJointForces e = some history →
        (UpdateSim v uninit info s).ecm.historyOfAppliedJointForces e =
          some (if info.paused then history else history ++ cmd)) ∧
      (s.ecm.historyOfAppliedJointForces e = none →
        (UpdateSim v uninit info s).ecm.historyOfAppliedJointForces e = none) := by
  obtain ⟨h1, h2⟩ := UpdateSim_jointForce v uninit info s e cmd hf hnd he hjoint hname hforce hcmd
  have h3 := (UpdateSim_commands v uninit info s hf e he).2.2.1
  refine ⟨h1, ?_, ?_, ?_⟩
  · rw [h3, hcmd]
    rfl
  · intro history hh
    rw [h2, hh]
    rfl
  · intro hh
    rw [h2, hh]
    rfl

/-- The read-back on `forceExample`, not paused: the force `[1]` becomes the
command `[7, 8]` and the history `[5]` becomes `[5, 7, 8]`. -/
theorem C29_witness :
    (UpdateSim stillView uninitNull ⟨1, 10, false⟩ forceExample).ecm.jointForce 4 =
        some [7, 8] ∧
      (UpdateSim stillView uninitNull ⟨1, 10, false⟩ forceExample).ecm.jointForceCmd 4 =
        some (fillZero [7, 8]) ∧
      (∀ history, forceExample.ecm.historyOfAppliedJointForces 4 = some history →
        (UpdateSim stillView uninitNull ⟨1, 10, false⟩
          forceExample).ecm.historyOfAppliedJointForces 4 =
          some (if (⟨1, 10, false⟩ : UpdateInfo).paused then history
            else history ++ [7, 8])) ∧
      (forceExample.ecm.historyOfAppliedJointForces 4 = none →
        (UpdateSim stillView uninitNull ⟨1, 10, false⟩
          forceExample).ecm.historyOfAppliedJointForces 4 = none) :=
  C29_joint_force_copied_from_command stillView uninitNull ⟨1, 10, false⟩ forceExample 4 [7, 8]
    rfl (by decide) (by decide) rfl rfl rfl rfl

theorem resize_length (data : List Scalar) (n : Nat) : (resize data n).length = n := by
  unfold resize
  simp only [List.length_append, List.length_take, List.length_replicate]
  omega

theorem foldl_set_range (g : Nat → Scalar) (k : Nat) (l : List Scalar) (hk : k ≤ l.length) :
    (List.range k).foldl (fun d i => d.set i (g i)) l = (List.range k).map g ++ l.drop k := by
  induction k with
  | zero => simp
  | succ k ih =>
    have hlt : k < l.length := hk
    rw [List.range_succ, List.foldl_append, ih (Nat.le_of_lt hlt), List.map_append]
    simp only [List.foldl_cons, List.foldl_nil, List.map_cons, List.map_nil]
    rw [List.set_append]
    simp only [List.length_map, List.length_range, Nat.lt_irrefl, if_false, Nat.sub_self]
    rw [List.drop_eq_getElem_cons hlt, List.set_cons_zero, List.append_assoc,
      List.singleton_append]

theorem refreshJointData_eq (data : List Scalar) (dofs : Nat) (get : Nat → Scalar) :
    refreshJointData data dofs get = (List.range dofs).map get := by
  unfold refreshJointData
  rw [foldl_set_range get dofs (resize data dofs) (by rw [resize_length])]
  rw [List.drop_of_length_le (by rw [resize_length]), List.append_nil]

/-- The joint read-back enters its two last passes with the joints, the
registry, the positions and the velocities as `UpdateSim` found them. -/
theorem beforeJointState (v : EngineView) (info : UpdateInfo) (s : State) :
    (fun x : State => (jointFrame x, jointStatePart x))
        ([updateJointForce info, updateOffsetWorldPose v, updateOffsetWorldLinearVelocity v,
          updateOffsetAngularVelocity v, updateOffsetLinearAcceleration v,
          clearJointPositionReset, clearJointVelocityReset, clearJointForceCmd,
          clearExternalWorldWrenchCmd, clearJointVelocityCmd].foldl
            (fun st visit => st.each visit) (s.each (updateLinkPose v))) =
      (jointFrame s, jointStatePart s) := by
  refine (passes_field (fun x : State => (jointFrame x, jointStatePart x)) _ ?_ _).trans ?_
  swap
  · apply each_field (fun x : State => (jointFrame x, jointStatePart x))
    intro st x
    obtain ⟨p, a, b, c, d, f, a', b', c', d', ch, h⟩ := updateLinkPose_shape v st x
    rw [h]
    rfl
  · simp only [List.forall_mem_cons, List.not_mem_nil, false_implies, implies_true, and_true]
    repeat' apply And.intro
    all_goals
      intro st x
      first
        | unfold updateJointForce
        | unfold updateOffsetWorldPose
        | unfold updateOffsetWorldLinearVelocity
        | unfold updateOffsetAngularVelocity
        | unfold updateOffsetLinearAcceleration
        | unfold clearJointPositionReset
        | unfold clearJointVelocityReset
        | unfold clearJointForceCmd
        | unfold clearExternalWorldWrenchCmd
        | unfold clearJointVelocityCmd
      repeat' (first | split | dsimp only)
      all_goals rfl

theorem updateJointPosition_jointFrame (v : EngineView) (st : State) (x : Entity) :
    (fun y : State => (jointFrame y, y.ecm.jointVelocity)) (updateJointPosition v st x) =
      (jointFrame st, st.ecm.jointVelocity) := by
  unfold updateJointPosition
  repeat' (first | split | dsimp only)
  all_goals rfl

theorem updateJointVelocity_jointFrame (v : EngineView) (st : State) (x : Entity) :
    (fun y : State => (jointFrame y, y.ecm.jointPosition)) (updateJointVelocity v st x) =
      (jointFrame st, st.ecm.jointPosition) := by
  unfold updateJointVelocity
  repeat' (first | split | dsimp only)
  all_goals rfl

theorem updateJointPosition_other (v : EngineView) (st : State) (x e : Entity) (hx : x ≠ e) :
    (updateJointPosition v st x).ecm.jointPosition e = st.ecm.jointPosition e := by
  have hne : e ≠ x := fun h => hx h.symm
  unfold updateJointPosition
  repeat' (first | split | dsimp only)
  all_goals simp [FMap.set, hne]

theorem updateJointVelocity_other (v : EngineView) (st : State) (x e : Entity) (hx : x ≠ e) :
    (updateJointVelocity v st x).ecm.jointVelocity e = st.ecm.jointVelocity e := by
  have hne : e ≠ x := fun h => hx h.symm
  unfold updateJointVelocity
  repeat' (first | split | dsimp only)
  all_goals simp [FMap.set, hne]

theorem updateJointPosition_at (v : EngineView) (st : State) (e : Entity)
    (hjoint : st.ecm.joint e = true) :
    (updateJointPosition v st e).ecm.jointPosition e =
      match st.impl.entityJointMap e with
      | some j =>
        (st.ecm.jointPosition e).map
          (fun _ => (List.range (v.GetDegreesOfFreedom j)).map (v.GetPosition j))
      | none => st.ecm.jointPosition e := by
  unfold updateJointPosition
  rw [if_pos hjoint]
  cases hp : st.ecm.jointPosition e with
  | none =>
    dsimp only
    split <;> simp [hp]
  | some old =>
    dsimp only
    cases hj : st.impl.entityJointMap e with
    | none => simp [hp]
    | some j => simp [FMap.set, refreshJointData_eq]

theorem updateJointVelocity_at (v : EngineView) (st : State) (e : Entity)
    (hjoint : st.ecm.joint e = true) :
    (updateJointVelocity v st e).ecm.jointVelocity e =
      match st.impl.entityJointMap e with
      | some j =>
        (st.ecm.jointVelocity e).map
          (fun _ => (List.range (v.GetDegreesOfFreedom j)).map (v.GetVelocity j))
      | none => st.ecm.jointVelocity e := by
  unfold updateJointVelocity
  rw [if_pos hjoint]
  cases hp : st.ecm.jointVelocity e with
  | none =>
    dsimp only
    split <;> simp [hp]
  | some old =>
    dsimp only
    cases hj : st.impl.entityJointMap e with
    | none => simp [hp]
    | some j => simp [FMap.set, refreshJointData_eq]

/-- The position and the velocity of a joint after `UpdateSim`. -/
theorem UpdateSim_jointState (v : EngineView) (uninit : Nat → Option ExtraContactData)
    (info : UpdateInfo) (s : State) (e : Entity) (hf : s.fault = none)
    (hnd : s.ecm.entities.Nodup) (he : e ∈ s.ecm.entities) (hjoint : s.ecm.joint e = true) :
    (UpdateSim v uninit info s).ecm.jointPosition e =
        (match s.impl.entityJointMap e with
          | some j =>
            (s.ecm.jointPosition e).map
              (fun _ => (List.range (v.GetDegreesOfFreedom j)).map (v.GetPosition j))
          | none => s.ecm.jointPosition e) ∧
      (UpdateSim v uninit info s).ecm.jointVelocity e =
        (match s.impl.entityJointMap e with
          | some j =>
            (s.ecm.jointVelocity e).map
              (fun _ => (List.range (v.GetDegreesOfFreedom j)).map (v.GetVelocity j))
          | none => s.ecm.jointVelocity e) := by
  have hU : jointStatePart (UpdateSim v uninit info s) =
      jointStatePart (beforeCollisions v info s) := by
    rw [UpdateSim_eq v uninit info s hf]
    exact UpdateCollisions_field jointStatePart v uninit _
      (fun m st x => by
        unfold writeContacts
        repeat' (first | split | dsimp only)
        all_goals rfl)
      (fun _ _ => rfl)
  have hsplit : beforeCollisions v info s =
      ((([updateJointForce info, updateOffsetWorldPose v, updateOffsetWorldLinearVelocity v,
          updateOffsetAngularVelocity v, updateOffsetLinearAcceleration v,
          clearJointPositionReset, clearJointVelocityReset, clearJointForceCmd,
          clearExternalWorldWrenchCmd, clearJointVelocityCmd].foldl
            (fun st visit => st.each visit) (s.each (updateLinkPose v))).each
              (updateJointPosition v)).each (updateJointVelocity v)) := by
    unfold beforeCollisions readBackVisitors
    simp only [List.foldl_cons, List.foldl_nil]
  have h0 := beforeJointState v info s
  rw [hsplit] at hU
  generalize [updateJointForce info, updateOffsetWorldPose v, updateOffsetWorldLinearVelocity v,
    updateOffsetAngularVelocity v, updateOffsetLinearAcceleration v,
    clearJointPositionReset, clearJointVelocityReset, clearJointForceCmd,
    clearExternalWorldWrenchCmd, clearJointVelocityCmd].foldl
      (fun st visit => st.each visit) (s.each (updateLinkPose v)) = X at h0 hU
  simp only [Prod.mk.injEq] at h0
  obtain ⟨x1, x2⟩ := h0
  unfold jointStatePart at hU x2
  simp only [Prod.mk.injEq] at hU x2
  have hen : X.ecm.entities = s.ecm.entities := congrArg (fun t => t.2.1) x1
  -- the pass over the positions
  have pP : ∀ st x, jointFrame st = jointFrame s →
      jointFrame (updateJointPosition v st x) = jointFrame s :=
    fun st x hst => (congrArg (fun t => t.1) (updateJointPosition_jointFrame v st x)).trans hst
  have fP := each_field (fun y : State => (jointFrame y, y.ecm.jointVelocity))
    (updateJointPosition_jointFrame v) X
  simp only [Prod.mk.injEq] at fP
  have hfP : (X.each (updateJointPosition v)).fault = none :=
    (congrArg (fun t => t.1) (fP.1.trans x1)).trans hf
  obtain ⟨st1, _, i1, i2, _, _, i5⟩ := foldl_visit_once
    (fun y : State => y.ecm.jointPosition e) (fun y => jointFrame y = jointFrame s) e pP
    (fun st x _ hx => updateJointPosition_other v st x e hx) X.ecm.entities (hen ▸ hnd)
    (hen ▸ he) X x1 hfP
  have j1 : st1.ecm.joint = s.ecm.joint := congrArg (fun t => t.2.2.1) i1
  have aP := updateJointPosition_at v st1 e (by rw [j1]; exact hjoint)
  -- the pass over the velocities
  have pV : ∀ st x, jointFrame st = jointFrame s →
      jointFrame (updateJointVelocity v st x) = jointFrame s :=
    fun st x hst => (congrArg (fun t => t.1) (updateJointVelocity_jointFrame v st x)).trans hst
  have fV := each_field (fun y : State => (jointFrame y, y.ecm.jointPosition))
    (updateJointVelocity_jointFrame v) (X.each (updateJointPosition v))
  simp only [Prod.mk.injEq] at fV
  have hfV : ((X.each (updateJointPosition v)).each (updateJointVelocity v)).fault = none :=
    (congrArg (fun t => t.1) (fV.1.trans (fP.1.trans x1))).trans hf
  have henP : (X.each (updateJointPosition v)).ecm.entities = s.ecm.entities :=
    congrArg (fun t => t.2.1) (fP.1.trans x1)
  obtain ⟨st2, _, k1, k2, _, _, k5⟩ := foldl_visit_once
    (fun y : State => y.ecm.jointVelocity e) (fun y => jointFrame y = jointFrame s) e pV
    (fun st x _ hx => updateJointVelocity_other v st x e hx)
    (X.each (updateJointPosition v)).ecm.entities (henP ▸ hnd) (henP ▸ he)
    (X.each (updateJointPosition v)) (fP.1.trans x1) hfV
  have j2 : st2.ecm.joint = s.ecm.joint := congrArg (fun t => t.2.2.1) k1
  have aV := updateJointVelocity_at v st2 e (by rw [j2]; exact hjoint)
  have e1 : st1.impl.entityJointMap = s.impl.entityJointMap := congrArg (fun t => t.2.2.2) i1
  have e2 : st2.impl.entityJointMap = s.impl.entityJointMap := congrArg (fun t => t.2.2.2) k1
  refine ⟨?_, ?_⟩
  · have i5' : (X.each (updateJointPosition v)).ecm.jointPosition e =
        (updateJointPosition v st1 e).ecm.jointPosition e := i5
    rw [hU.1, fV.2, i5', aP, i2, e1, x2.1]
  · have k5' : ((X.each (updateJointPosition v)).each (updateJointVelocity v)).ecm.jointVelocity
        e = (updateJointVelocity v st2 e).ecm.jointVelocity e := k5
    rw [hU.2, k5', aV, k2, e2, fP.2, x2.2]

/-- C22. A joint in a store that enumerates every entity once. When the joint is
registered with handle `j` and carries a `JointPosition` (a `JointVelocity`),
after `UpdateSim` the component is the list of the engine positions
(velocities) of the DOFs `0 .. d - 1`, `d` being the DOF count, so it has length
`d` whatever its length was; when the joint is not registered the two
components are as they were. -/
theorem C22_joint_state_from_engine (v : EngineView) (uninit : Nat → Option ExtraContactData)
    (info : UpdateInfo) (s : State) (e : Entity) (hf : s.fault = none)
    (hnd : s.ecm.entities.Nodup) (he : e ∈ s.ecm.entities) (hjoint : s.ecm.joint e = true) :
    (∀ j old, s.impl.entityJointMap e = some j → s.ecm.jointPosition e = some old →
      (UpdateSim v uninit info s).ecm.jointPosition e =
          some ((List.range (v.GetDegreesOfFreedom j)).map (v.GetPosition j)) ∧
        ((List.range (v.GetDegreesOfFreedom j)).map (v.GetPosition j)).length =
          v.GetDegreesOfFreedom j) ∧
    (∀ j old, s.impl.entityJointMap e = some j → s.ecm.jointVelocity e = some old →
      (UpdateSim v uninit info s).ecm.jointVelocity e =
          some ((List.range (v.GetDegreesOfFreedom j)).map (v.GetVelocity j)) ∧
        ((List.range (v.GetDegreesOfFreedom j)).map (v.GetVelocity j)).length =
          v.GetDegreesOfFreedom j) ∧
    (s.impl.entityJointMap e = none →
      (UpdateSim v uninit info s).ecm.jointPosition e = s.ecm.jointPosition e ∧
        (UpdateSim v uninit info s).ecm.jointVelocity e = s.ecm.jointVelocity e) := by
  obtain ⟨h1, h2⟩ := UpdateSim_jointState v uninit info s e hf hnd he hjoint
  refine ⟨?_, ?_, ?_⟩
  · intro j old hj ho
    rw [h1, hj, ho]
    exact ⟨rfl, by simp⟩
  · intro j old hj ho
    rw [h2, hj, ho]
    exact ⟨rfl, by simp⟩
  · intro hj
    rw [h1, h2, hj]
    exact ⟨rfl, rfl⟩

/-- The read-back on `jointStateExample`: the position `[9]` of the registered
joint becomes the two engine positions. -/
theorem C22_witness :
    (∀ j old, jointStateExample.impl.entityJointMap 4 = some j →
      jointStateExample.ecm.jointPosition 4 = some old →
      (UpdateSim jointView uninitNull ⟨1, 10, false⟩ jointStateExample).ecm.jointPosition 4 =
          some ((List.range (jointView.GetDegreesOfFreedom j)).map (jointView.GetPosition j)) ∧
        ((List.range (jointView.GetDegreesOfFreedom j)).map (jointView.GetPosition j)).length =
          jointView.GetDegreesOfFreedom j) ∧
    (∀ j old, jointStateExample.impl.entityJointMap 4 = some j →
      jointStateExample.ecm.jointVelocity 4 = some old →
      (UpdateSim jointView uninitNull ⟨1, 10, false⟩ jointStateExample).ecm.jointVelocity 4 =
          some ((List.range (jointView.GetDegreesOfFreedom j)).map (jointView.GetVelocity j)) ∧
        ((List.range (jointView.GetDegreesOfFreedom j)).map (jointView.GetVelocity j)).length =
          jointView.GetDegreesOfFreedom j) ∧
    (jointStateExample.impl.entityJointMap 4 = none →
      (UpdateSim jointView uninitNull ⟨1, 10, false⟩ jointStateExample).ecm.jointPosition 4 =
          jointStateExample.ecm.jointPosition 4 ∧
        (UpdateSim jointView uninitNull ⟨1, 10, false⟩ jointStateExample).ecm.jointVelocity 4 =
          jointStateExample.ecm.jointVelocity 4) :=
  C22_joint_state_from_engine jointView uninitNull ⟨1, 10, false⟩ jointStateExample 4 rfl
    (by decide) (by decide) rfl

theorem FMap.refresh_at {V : Type} (m : FMap Entity V) (e : Entity) (v : V) (y : Entity) :
    FMap.refresh m e v y = if y = e then (m e).map (fun _ => v) else m y := by
  unfold FMap.refresh
  cases h : m e with
  | none =>
    by_cases hy : y = e
    · simp [hy, h]
    · simp [hy]
  | some old =>
    by_cases hy : y = e
    · simp [hy, FMap.set]
    · simp [hy, FMap.set]

theorem writeBodyOutputs_fields (fd : FrameData3d) (ecm : ECM) (e : Entity) :
    (fun c : ECM => (c.linearVelocity, c.angularVelocity, c.linearAcceleration,
      c.angularAcceleration)) (writeBodyOutputs fd ecm e) =
    (FMap.refresh ecm.linearVelocity e (fd.pose.rot.transpose.mulVec fd.linearVelocity),
      FMap.refresh ecm.angularVelocity e (fd.pose.rot.transpose.mulVec fd.angularVelocity),
      FMap.refresh ecm.linearAcceleration e
        (fd.pose.rot.transpose.mulVec fd.linearAcceleration),
      FMap.refresh ecm.angularAcceleration e
        (fd.pose.rot.transpose.mulVec fd.angularAcceleration)) := by
  cases h1 : ecm.linearVelocity e <;> cases h2 : ecm.angularVelocity e <;>
    cases h3 : ecm.linearAcceleration e <;> cases h4 : ecm.angularAcceleration e <;>
    simp only [writeBodyOutputs, FMap.refresh, h1, h2, h3, h4, ECM.SetChanged]

theorem writeWorldOutputs_body (fd : FrameData3d) (ecm : ECM) (e : Entity) :
    (fun c : ECM => (c.linearVelocity, c.angularVelocity, c.linearAcceleration,
      c.angularAcceleration)) (writeWorldOutputs fd ecm e) =
    (ecm.linearVelocity, ecm.angularVelocity, ecm.linearAcceleration,
      ecm.angularAcceleration) := by
  obtain ⟨a, b, c, d, f, ch, h⟩ := writeWorldOutputs_shape fd ecm e
  rw [h]

/-- One visit of the pass over the links, as far as the body-frame components
go. -/
theorem updateLinkPose_body (v : EngineView) (st : State) (e : Entity) :
    bodyFields (updateLinkPose v st e).ecm =
      match linkPoseWrite v st e, st.impl.entityLinkMap e with
      | some _, some linkPhys => bodyRefreshed (v.FrameDataRelativeToWorld linkPhys) st.ecm e
      | _, _ => bodyFields st.ecm := by
  have hout : ∀ (fd : FrameData3d) (c : ECM), bodyFields c = bodyFields st.ecm →
      bodyFields (writeBodyOutputs fd (writeWorldOutputs fd c e) e) =
        bodyRefreshed fd st.ecm e := by
    intro fd c hc
    have h1 := writeWorldOutputs_body fd c e
    have h2 := writeBodyOutputs_fields fd (writeWorldOutputs fd c e) e
    unfold bodyFields at hc ⊢
    unfold bodyRefreshed
    simp only [Prod.mk.injEq] at h1 h2 hc ⊢
    obtain ⟨a1, a2, a3, a4⟩ := h1
    obtain ⟨b1, b2, b3, b4⟩ := h2
    obtain ⟨c1, c2, c3, c4⟩ := hc
    rw [b1, b2, b3, b4, a1, a2, a3, a4, c1, c2, c3, c4]
    exact ⟨rfl, rfl, rfl, rfl⟩
  unfold updateLinkPose linkPoseWrite
  by_cases hl : st.ecm.link e = true
  swap
  · simp only [hl]
    rfl
  simp only [hl, if_true]
  cases hp : st.ecm.pose e with
  | none => rfl
  | some pose =>
    cases hpar : st.ecm.parentEntity e with
    | none => rfl
    | some parent =>
      dsimp only
      by_cases hs : st.ecm.static parent = some true
      · simp only [hs, if_true]
      simp only [hs, if_false]
      cases hreg : st.impl.entityLinkMap e with
      | none => rfl
      | some linkPhys =>
        dsimp only
        cases hpp : st.ecm.pose parent with
        | none => rfl
        | some parentPose =>
          dsimp only
          by_cases hc : st.ecm.canonicalLink e = true
          · simp only [hc, if_true]
            exact hout _ _ rfl
          · simp only [hc]
            exact hout _ _ rfl

theorem linkPoseWrite_isSome (v : EngineView) (st : State) (e M : Entity) (h : LinkPtr)
    (hlink : st.ecm.link e = true) (hpose : (st.ecm.pose e).isSome = true)
    (hpar : st.ecm.parentEntity e = some M) (hstatic : st.ecm.static M ≠ some true)
    (hreg : st.impl.entityLinkMap e = some h) (hM : (st.ecm.pose M).isSome = true) :
    (linkPoseWrite v st e).isSome = true := by
  obtain ⟨l, hl⟩ := Option.isSome_iff_exists.mp hpose
  obtain ⟨m, hm⟩ := Option.isSome_iff_exists.mp hM
  unfold linkPoseWrite
  simp only [hlink, hl, hpar, hstatic, hreg, hm, if_true, if_false]
  split <;> rfl

theorem passes_preserves (P : State → Prop) (vs : List (State → Entity → State))
    (h : ∀ visit ∈ vs, ∀ st e, P st → P (visit st e)) (s : State) (hs : P s) :
    P (vs.foldl (fun st visit => st.each visit) s) := by
  induction vs generalizing s with
  | nil => exact hs
  | cons visit vs ih =>
    rw [List.foldl_cons]
    exact ih (fun w hw => h w (List.mem_cons_of_mem _ hw)) _
      (each_preserves (h visit (List.mem_cons_self _ _)) s hs)

theorem updateLinkPose_body_other (v : EngineView) (st : State) (x L : Entity) (hx : x ≠ L) :
    bodyAt (updateLinkPose v st x) L = bodyAt st L := by
  have hb := updateLinkPose_body v st x
  have hne : L ≠ x := fun h => hx h.symm
  unfold bodyAt
  unfold bodyFields at hb
  split at hb
  · unfold bodyRefreshed at hb
    simp only [Prod.mk.injEq] at hb
    obtain ⟨b1, b2, b3, b4⟩ := hb
    rw [b1, b2, b3, b4, FMap.refresh_at, FMap.refresh_at, FMap.refresh_at, FMap.refresh_at]
    simp only [hne, if_false]
  · simp only [Prod.mk.injEq] at hb
    obtain ⟨b1, b2, b3, b4⟩ := hb
    rw [b1, b2, b3, b4]

theorem updateLinkPose_body_at (v : EngineView) (st : State) (L : Entity) (h : LinkPtr)
    (hw : (linkPoseWrite v st L).isSome = true) (hreg : st.impl.entityLinkMap L = some h) :
    bodyAt (updateLinkPose v st L) L = bodyFrom (v.FrameDataRelativeToWorld h) (bodyAt st L) := by
  have hb := updateLinkPose_body v st L
  obtain ⟨tp, htp⟩ := Option.isSome_iff_exists.mp hw
  rw [htp, hreg] at hb
  unfold bodyFields bodyRefreshed at hb
  simp only [Prod.mk.injEq] at hb
  obtain ⟨b1, b2, b3, b4⟩ := hb
  unfold bodyAt bodyFrom
  rw [b1, b2, b3, b4, FMap.refresh_at, FMap.refresh_at, FMap.refresh_at, FMap.refresh_at]
  simp only [if_true]

theorem updateLinkPose_present (v : EngineView) (st : State) (x y : Entity)
    (h : (st.ecm.pose y).isSome = true) : ((updateLinkPose v st x).ecm.pose y).isSome = true := by
  rw [(updateLinkPose_at v st x y).1]
  cases hw : linkPoseWrite v st x with
  | none => exact h
  | some tp =>
    dsimp only
    split
    · rfl
    · exact h

/-- The body-frame components of a link of a non-static model after the pass
over the links. -/
theorem linkPass_body (v : EngineView) (s : State) (L M : Entity) (h : LinkPtr)
    (hf : s.fault = none) (hnd : s.ecm.entities.Nodup) (hL : L ∈ s.ecm.entities)
    (hlink : s.ecm.link L = true) (hreg : s.impl.entityLinkMap L = some h)
    (hpose : (s.ecm.pose L).isSome = true) (hpar : s.ecm.parentEntity L = some M)
    (hstatic : s.ecm.static M ≠ some true) (hM : (s.ecm.pose M).isSome = true) :
    bodyAt (s.each (updateLinkPose v)) L =
      bodyFrom (v.FrameDataRelativeToWorld h) (bodyAt s L) := by
  have hI : ∀ st x, (linkFrame st = linkFrame s ∧ (st.ecm.pose L).isSome = true ∧
      (st.ecm.pose M).isSome = true) →
      (linkFrame (updateLinkPose v st x) = linkFrame s ∧
        ((updateLinkPose v st x).ecm.pose L).isSome = true ∧
        ((updateLinkPose v st x).ecm.pose M).isSome = true) :=
    fun st x hst => ⟨(updateLinkPose_linkFrame v st x).trans hst.1,
      updateLinkPose_present v st x L hst.2.1, updateLinkPose_present v st x M hst.2.2⟩
  have hfin := linkFold_frame v s.ecm.entities s
  obtain ⟨st1, post, ⟨i1, i2, i3⟩, i4, _, _, i5⟩ := foldl_visit_once
    (fun y : State => bodyAt y L)
    (fun st => linkFrame st = linkFrame s ∧ (st.ecm.pose L).isSome = true ∧
      (st.ecm.pose M).isSome = true) L hI
    (fun st x _ hx => updateLinkPose_body_other v st x L hx) s.ecm.entities hnd hL s
    ⟨rfl, hpose, hM⟩ ((congrArg (fun t => t.1) hfin).trans hf)
  unfold linkFrame at i1
  simp only [Prod.mk.injEq] at i1
  obtain ⟨_, g2, _, g4, g5, _, g7⟩ := i1
  have hw := linkPoseWrite_isSome v st1 L M h (by rw [g2]; exact hlink) i2
    (by rw [g4]; exact hpar) (by rw [g5]; exact hstatic) (by rw [g7]; exact hreg) i3
  have ha := updateLinkPose_body_at v st1 L h hw (by rw [g7]; exact hreg)
  have i5' : bodyAt (s.each (updateLinkPose v)) L = bodyAt (updateLinkPose v st1 L) L := i5
  rw [i5', ha, i4]

theorem readBack_bodyKept (v : EngineView) (info : UpdateInfo) (s0 : State) (L M : Entity)
    (target : Option Vector3d × Option Vector3d × Option Vector3d × Option Vector3d)
    (hpar : s0.ecm.parentEntity L = some M) (hmodel : s0.impl.entityLinkMap M = none) :
    ∀ visit ∈ readBackVisitors v info, ∀ st x, BodyKept s0 L target st →
      BodyKept s0 L target (visit st x) := by
  apply readBackVisitors_cases
  all_goals intro st x hk
  · unfold updateJointForce
    repeat' (first | split | dsimp only)
    all_goals exact hk
  · unfold updateOffsetWorldPose
    repeat' (first | split | dsimp only)
    all_goals exact hk
  · unfold updateOffsetWorldLinearVelocity
    repeat' (first | split | dsimp only)
    all_goals exact hk
  · obtain ⟨k1, k2, k3⟩ := hk
    unfold updateOffsetAngularVelocity
    repeat' (first | split | dsimp only)
    all_goals first
      | exact ⟨k1, k2, k3⟩
      | (refine ⟨k1, k2, ?_⟩
         rename_i parent _ hparent _ linkPhys hreg
         have hne : L ≠ x := by
           intro hc
           rw [← hc, k1, hpar] at hparent
           cases hparent
           rw [k2, hmodel] at hreg
           cases hreg
         rw [← k3]
         unfold bodyAt
         simp [FMap.set, hne])
  · obtain ⟨k1, k2, k3⟩ := hk
    unfold updateOffsetLinearAcceleration
    repeat' (first | split | dsimp only)
    all_goals first
      | exact ⟨k1, k2, k3⟩
      | (refine ⟨k1, k2, ?_⟩
         rename_i parent _ hparent _ linkPhys hreg
         have hne : L ≠ x := by
           intro hc
           rw [← hc, k1, hpar] at hparent
           cases hparent
           rw [k2, hmodel] at hreg
           cases hreg
         rw [← k3]
         unfold bodyAt
         simp [FMap.set, hne])
  · unfold clearJointPositionReset
    repeat' (first | split | dsimp only)
    all_goals exact hk
  · unfold clearJointVelocityReset
    repeat' (first | split | dsimp only)
    all_goals exact hk
  · unfold clearJointForceCmd
    repeat' (first | split | dsimp only)
    all_goals exact hk
  · unfold clearExternalWorldWrenchCmd
    repeat' (first | split | dsimp only)
    all_goals exact hk
  · unfold clearJointVelocityCmd
    repeat' (first | split | dsimp only)
    all_goals exact hk
  · unfold updateJointPosition
    repeat' (first | split | dsimp only)
    all_goals exact hk
  · unfold updateJointVelocity
    repeat' (first | split | dsimp only)
    all_goals exact hk

/-- The body-frame components of a registered link of a non-static model after
`UpdateSim`. -/
theorem UpdateSim_body (v : EngineView) (uninit : Nat → Option ExtraContactData)
    (info : UpdateInfo) (s : State) (L M : Entity) (h : LinkPtr)
    (hf : s.fault = none) (hnd : s.ecm.entities.Nodup) (hL : L ∈ s.ecm.entities)
    (hlink : s.ecm.link L = true) (hreg : s.impl.entityLinkMap L = some h)
    (hpose : (s.ecm.pose L).isSome = true) (hpar : s.ecm.parentEntity L = some M)
    (hstatic : s.ecm.static M ≠ some true) (hM : (s.ecm.pose M).isSome = true)
    (hmodel : s.impl.entityLinkMap M = none) :
    bodyAt (UpdateSim v uninit info s) L =
      bodyFrom (v.FrameDataRelativeToWorld h) (bodyAt s L) := by
  have h1 := linkPass_body v s L M h hf hnd hL hlink hreg hpose hpar hstatic hM
  have hfr := linkFold_frame v s.ecm.entities s
  unfold linkFrame at hfr
  simp only [Prod.mk.injEq] at hfr
  have h2 := passes_preserves (BodyKept s L (bodyFrom (v.FrameDataRelativeToWorld h) (bodyAt s L)))
    (readBackVisitors v info) (readBack_bodyKept v info s L M _ hpar hmodel)
    (s.each (updateLinkPose v)) ⟨hfr.2.2.2.1, hfr.2.2.2.2.2.2, h1⟩
  rw [UpdateSim_eq v uninit info s hf, UpdateCollisions_field (fun x => bodyAt x L) v uninit _
    (fun m st x => by
      unfold writeContacts
      repeat' (first | split | dsimp only)
      all_goals rfl)
    (fun _ _ => rfl)]
  exact h2.2.2

/-- C21 fails as stated: the registered link 3 of the static model of
`staticLinksExample` carries the body-frame linear velocity `(9, 9, 9)`; the
engine reports the world velocity `(3, 0, 0)` without rotation, and after
`UpdateSim` the component is still `(9, 9, 9)`. -/
theorem C21_counterexample :
    staticLinksExample.impl.entityLinkMap 3 = some 30 ∧
      (movedView.FrameDataRelativeToWorld 30).pose.rot.transpose.mulVec
        (movedView.FrameDataRelativeToWorld 30).linearVelocity = ⟨3, 0, 0⟩ ∧
      (UpdateSim movedView uninitNull ⟨1, 1, false⟩ staticLinksExample).ecm.linearVelocity 3 =
        some ⟨9, 9, 9⟩ := by
  decide

/-- C21, as amended. A registered link `L` with a pose, whose parent `M` has a
pose, is not static and is not itself registered as a link, in a store that
enumerates every entity once: after `UpdateSim` each of the body-frame
components `LinearVelocity`, `AngularVelocity`, `LinearAcceleration` and
`AngularAcceleration` that the link carries is the transpose of the world
rotation of the link applied to the corresponding world-frame quantity of its
frame data, and a component that the link does not carry is not created. -/
theorem C21_body_frame_components_rotated (v : EngineView)
    (uninit : Nat → Option ExtraContactData) (info : UpdateInfo) (s : State) (L M : Entity)
    (h : LinkPtr) (hf : s.fault = none) (hnd : s.ecm.entities.Nodup)
    (hL : L ∈ s.ecm.entities) (hlink : s.ecm.link L = true)
    (hreg : s.impl.entityLinkMap L = some h) (hpose : (s.ecm.pose L).isSome = true)
    (hpar : s.ecm.parentEntity L = some M) (hstatic : s.ecm.static M ≠ some true)
    (hM : (s.ecm.pose M).isSome = true) (hmodel : s.impl.entityLinkMap M = none) :
    (UpdateSim v uninit info s).ecm.linearVelocity L =
        (s.ecm.linearVelocity L).map (fun _ =>
          (v.FrameDataRelativeToWorld h).pose.rot.transpose.mulVec
            (v.FrameDataRelativeToWorld h).linearVelocity) ∧
      (UpdateSim v uninit info s).ecm.angularVelocity L =
        (s.ecm.angularVelocity L).map (fun _ =>
          (v.FrameDataRelativeToWorld h).pose.rot.transpose.mulVec
            (v.FrameDataRelativeToWorld h).angularVelocity) ∧
      (UpdateSim v uninit info s).ecm.linearAcceleration L =
        (s.ecm.linearAcceleration L).map (fun _ =>
          (v.FrameDataRelativeToWorld h).pose.rot.transpose.mulVec
            (v.FrameDataRelativeToWorld h).linearAcceleration) ∧
      (UpdateSim v uninit info s).ecm.angularAcceleration L =
        (s.ecm.angularAcceleration L).map (fun _ =>
          (v.FrameDataRelativeToWorld h).pose.rot.transpose.mulVec
            (v.FrameDataRelativeToWorld h).angularAcceleration) := by
  have hb := UpdateSim_body v uninit info s L M h hf hnd hL hlink hreg hpose hpar hstatic hM hmodel
  unfold bodyAt bodyFrom at hb
  simp only [Prod.mk.injEq] at hb
  exact hb

/-- The read-back on `linksExample`: the body-frame velocities of the link 3 are
those of the engine, its accelerations are not created. -/
theorem C21_witness :
    (UpdateSim movedView uninitNull ⟨1, 1, false⟩ linksExample).ecm.linearVelocity 3 =
        (linksExample.ecm.linearVelocity 3).map (fun _ =>
          (movedView.FrameDataRelativeToWorld 30).pose.rot.transpose.mulVec
            (movedView.FrameDataRelativeToWorld 30).linearVelocity) ∧
      (UpdateSim movedView uninitNull ⟨1, 1, false⟩ linksExample).ecm.angularVelocity 3 =
        (linksExample.ecm.angularVelocity 3).map (fun _ =>
          (movedView.FrameDataRelativeToWorld 30).pose.rot.transpose.mulVec
            (movedView.FrameDataRelativeToWorld 30).angularVelocity) ∧
      (UpdateSim movedView uninitNull ⟨1, 1, false⟩ linksExample).ecm.linearAcceleration 3 =
        (linksExample.ecm.linearAcceleration 3).map (fun _ =>
          (movedView.FrameDataRelativeToWorld 30).pose.rot.transpose.mulVec
            (movedView.FrameDataRelativeToWorld 30).linearAcceleration) ∧
      (UpdateSim movedView uninitNull ⟨1, 1, false⟩ linksExample).ecm.angularAcceleration 3 =
        (linksExample.ecm.angularAcceleration 3).map (fun _ =>
          (movedView.FrameDataRelativeToWorld 30).pose.rot.transpose.mulVec
            (movedView.FrameDataRelativeToWorld 30).angularAcceleration) :=
  C21_body_frame_components_rotated movedView uninitNull ⟨1, 1, false⟩ linksExample 3 2 30 rfl
    (by decide) (by decide) rfl rfl rfl rfl (by decide) rfl rfl

theorem ECM.within_refl (a : ECM) : ECM.Within a a := fun _ _ h => h

theorem ECM.within_trans {a b c : ECM} (h1 : ECM.Within a b) (h2 : ECM.Within b c) :
    ECM.Within a c := fun t e h => h2 t e (h1 t e h)

theorem FMap.set_isSome {V : Type} (m : FMap Entity V) (e : Entity) (v : V) (x : Entity)
    (h : (FMap.set m e v x).isSome = true) (he : (m e).isSome = true) :
    (m x).isSome = true := by
  unfold FMap.set at h
  by_cases hx : x = e
  · rw [hx]; exact he
  · rw [if_neg hx] at h; exact h

theorem FMap.erase_isSome {V : Type} (m : FMap Entity V) (e : Entity) (x : Entity)
    (h : (FMap.erase m e x).isSome = true) : (m x).isSome = true := by
  unfold FMap.erase at h
  by_cases hx : x = e
  · rw [if_pos hx] at h; exact absurd h (by simp)
  · rw [if_neg hx] at h; exact h

theorem FMap.refresh_isSome {V : Type} (m : FMap Entity V) (e : Entity) (v : V) (x : Entity)
    (h : (FMap.refresh m e v x).isSome = true) : (m x).isSome = true := by
  rw [FMap.refresh_at] at h
  by_cases hx : x = e
  · rw [if_pos hx] at h
    rw [hx]
    cases hm : m e with
    | none => rw [hm] at h; exact absurd h (by simp)
    | some _ => rfl
  · rw [if_neg hx] at h; exact h

theorem clearJointPositionReset_within (st : State) (e : Entity) :
    ECM.Within (clearJointPositionReset st e).ecm st.ecm := by
  unfold clearJointPositionReset
  split
  · intro t x
    cases t <;> first | exact id | exact FMap.erase_isSome _ _ _
  · exact ECM.within_refl _

theorem clearJointVelocityReset_within (st : State) (e : Entity) :
    ECM.Within (clearJointVelocityReset st e).ecm st.ecm := by
  unfold clearJointVelocityReset
  split
  · intro t x
    cases t <;> first | exact id | exact FMap.erase_isSome _ _ _
  · exact ECM.within_refl _

theorem clearJointForceCmd_within (st : State) (e : Entity) :
    ECM.Within (clearJointForceCmd st e).ecm st.ecm := by
  unfold clearJointForceCmd
  split
  · rename_i old hc
    intro t x
    cases t <;> first | exact id | exact fun h => FMap.set_isSome _ _ _ _ h (by rw [hc]; rfl)
  · exact ECM.within_refl _

theorem clearExternalWorldWrenchCmd_within (st : State) (e : Entity) :
    ECM.Within (clearExternalWorldWrenchCmd st e).ecm st.ecm := by
  unfold clearExternalWorldWrenchCmd
  repeat' (first | split | dsimp only)
  all_goals first
    | exact ECM.within_refl _
    | (intro t x
       cases t <;> first
         | exact id
         | exact fun h => FMap.set_isSome _ _ _ _ h (by simp [*]))

theorem clearJointVelocityCmd_within (st : State) (e : Entity) :
    ECM.Within (clearJointVelocityCmd st e).ecm st.ecm := by
  unfold clearJointVelocityCmd
  repeat' (first | split | dsimp only)
  all_goals first
    | exact ECM.within_refl _
    | (intro t x
       cases t <;> first
         | exact id
         | exact fun h => FMap.set_isSome _ _ _ _ h (by simp [*]))

theorem updateOffsetWorldPose_within (v : EngineView) (st : State) (e : Entity) :
    ECM.Within (updateOffsetWorldPose v st e).ecm st.ecm := by
  unfold updateOffsetWorldPose
  repeat' (first | split | dsimp only)
  all_goals first
    | exact ECM.within_refl _
    | (intro t x
       cases t <;> first
         | exact id
         | exact fun h => FMap.set_isSome _ _ _ _ h (by simp [*]))

theorem updateOffsetWorldLinearVelocity_within (v : EngineView) (st : State) (e : Entity) :
    ECM.Within (updateOffsetWorldLinearVelocity v st e).ecm st.ecm := by
  unfold updateOffsetWorldLinearVelocity
  repeat' (first | split | dsimp only)
  all_goals first
    | exact ECM.within_refl _
    | (intro t x
       cases t <;> first
         | exact id
         | exact fun h => FMap.set_isSome _ _ _ _ h (by simp [*]))

theorem updateOffsetAngularVelocity_within (v : EngineView) (st : State) (e : Entity) :
    ECM.Within (updateOffsetAngularVelocity v st e).ecm st.ecm := by
  unfold updateOffsetAngularVelocity
  repeat' (first | split | dsimp only)
  all_goals first
    | exact ECM.within_refl _
    | (intro t x
       cases t <;> first
         | exact id
         | exact fun h => FMap.set_isSome _ _ _ _ h (by simp [*]))

theorem updateOffsetLinearAcceleration_within (v : EngineView) (st : State) (e : Entity) :
    ECM.Within (updateOffsetLinearAcceleration v st e).ecm st.ecm := by
  unfold updateOffsetLinearAcceleration
  repeat' (first | split | dsimp only)
  all_goals first
    | exact ECM.within_refl _
    | (intro t x
       cases t <;> first
         | exact id
         | exact fun h => FMap.set_isSome _ _ _ _ h (by simp [*]))

theorem updateJointPosition_within (v : EngineView) (st : State) (e : Entity) :
    ECM.Within (updateJointPosition v st e).ecm st.ecm := by
  unfold updateJointPosition
  repeat' (first | split | dsimp only)
  all_goals first
    | exact ECM.within_refl _
    | (intro t x
       cases t <;> first
         | exact id
         | exact fun h => FMap.set_isSome _ _ _ _ h (by simp [*]))

theorem updateJointVelocity_within (v : EngineView) (st : State) (e : Entity) :
    ECM.Within (updateJointVelocity v st e).ecm st.ecm := by
  unfold updateJointVelocity
  repeat' (first | split | dsimp only)
  all_goals first
    | exact ECM.within_refl _
    | (intro t x
       cases t <;> first
         | exact id
         | exact fun h => FMap.set_isSome _ _ _ _ h (by simp [*]))

theorem writeContacts_within (m : AMap Entity EntityContactMap) (st : State) (e : Entity) :
    ECM.Within (writeContacts m st e).ecm st.ecm := by
  unfold writeContacts
  repeat' (first | split | dsimp only)
  all_goals first
    | exact ECM.within_refl _
    | (intro t x
       cases t <;> first
         | exact id
         | exact fun h => FMap.set_isSome _ _ _ _ h (by simp [*]))

theorem updateJointForce_within (info : UpdateInfo) (st : State) (e : Entity) :
    ECM.Within (updateJointForce info st e).ecm st.ecm := by
  unfold updateJointForce
  repeat' (first | split | dsimp only)
  all_goals first
    | exact ECM.within_refl _
    | (intro t x
       cases t <;> first
         | exact id
         | exact fun h => FMap.set_isSome _ _ _ _ h (by simp [*]))

theorem writeWorldOutputs_within (fd : FrameData3d) (c : ECM) (e : Entity) :
    ECM.Within (writeWorldOutputs fd c e) c := by
  cases h1 : c.worldPose e <;> cases h2 : c.worldLinearVelocity e <;>
    cases h3 : c.worldAngularVelocity e <;> cases h4 : c.worldLinearAcceleration e <;>
    cases h5 : c.worldAngularAcceleration e <;>
    simp only [writeWorldOutputs, h1, h2, h3, h4, h5, ECM.SetChanged] <;>
    intro t x <;>
    cases t <;> first
      | exact id
      | exact fun h => FMap.set_isSome _ _ _ _ h (by simp [*])

theorem writeBodyOutputs_within (fd : FrameData3d) (c : ECM) (e : Entity) :
    ECM.Within (writeBodyOutputs fd c e) c := by
  cases h1 : c.linearVelocity e <;> cases h2 : c.angularVelocity e <;>
    cases h3 : c.linearAcceleration e <;> cases h4 : c.angularAcceleration e <;>
    simp only [writeBodyOutputs, h1, h2, h3, h4, ECM.SetChanged] <;>
    intro t x <;>
    cases t <;> first
      | exact id
      | exact fun h => FMap.set_isSome _ _ _ _ h (by simp [*])

theorem updateLinkPose_within (v : EngineView) (st : State) (e : Entity) :
    ECM.Within (updateLinkPose v st e).ecm st.ecm := by
  unfold updateLinkPose
  have hout : ∀ (fd : FrameData3d) (c : ECM), ECM.Within c st.ecm →
      ECM.Within (writeBodyOutputs fd (writeWorldOutputs fd c e) e) st.ecm :=
    fun fd c hc =>
      ECM.within_trans (writeBodyOutputs_within fd _ e)
        (ECM.within_trans (writeWorldOutputs_within fd c e) hc)
  repeat' (first | split | dsimp only)
  all_goals first
    | exact ECM.within_refl _
    | (apply hout
       unfold ECM.SetChanged
       intro t x
       cases t <;> first
         | exact id
         | exact fun h => FMap.set_isSome _ _ _ _ h (by simp [*]))

theorem each_within (visit : State → Entity → State)
    (h : ∀ st e, ECM.Within (visit st e).ecm st.ecm) (s : State) :
    ECM.Within (s.each visit).ecm s.ecm :=
  @each_preserves (fun st => ECM.Within st.ecm s.ecm) visit
    (fun st e hst => ECM.within_trans (h st e) hst) s (ECM.within_refl _)

theorem UpdateCollisions_within (v : EngineView) (uninit : Nat → Option ExtraContactData)
    (s : State) : ECM.Within (UpdateCollisions v uninit s).ecm s.ecm := by
  unfold UpdateCollisions
  repeat' (first | split | dsimp only)
  all_goals first
    | exact ECM.within_refl _
    | exact each_within _ (writeContacts_within _) _

theorem beforeCollisions_within (v : EngineView) (info : UpdateInfo) (s : State) :
    ECM.Within (beforeCollisions v info s).ecm s.ecm := by
  unfold beforeCollisions
  apply passes_preserves (fun st => ECM.Within st.ecm s.ecm)
  · apply readBackVisitors_cases v info
      (fun visit => ∀ st e, ECM.Within st.ecm s.ecm → ECM.Within (visit st e).ecm s.ecm)
    · exact fun st e h => ECM.within_trans (updateJointForce_within info st e) h
    · exact fun st e h => ECM.within_trans (updateOffsetWorldPose_within v st e) h
    · exact fun st e h => ECM.within_trans (updateOffsetWorldLinearVelocity_within v st e) h
    · exact fun st e h => ECM.within_trans (updateOffsetAngularVelocity_within v st e) h
    · exact fun st e h => ECM.within_trans (updateOffsetLinearAcceleration_within v st e) h
    · exact fun st e h => ECM.within_trans (clearJointPositionReset_within st e) h
    · exact fun st e h => ECM.within_trans (clearJointVelocityReset_within st e) h
    · exact fun st e h => ECM.within_trans (clearJointForceCmd_within st e) h
    · exact fun st e h => ECM.within_trans (clearExternalWorldWrenchCmd_within st e) h
    · exact fun st e h => ECM.within_trans (clearJointVelocityCmd_within st e) h
    · exact fun st e h => ECM.within_trans (updateJointPosition_within v st e) h
    · exact fun st e h => ECM.within_trans (updateJointVelocity_within v st e) h
  · exact each_within _ (updateLinkPose_within v) s

theorem UpdateSim_within (v : EngineView) (uninit : Nat → Option ExtraContactData)
    (info : UpdateInfo) (s : State) : ECM.Within (UpdateSim v uninit info s).ecm s.ecm := by
  cases hf : s.fault with
  | some f =>
    have h : UpdateSim v uninit info s = s := by
      unfold UpdateSim
      rw [if_pos (by simp [hf])]
    rw [h]
    exact ECM.within_refl _
  | none =>
    rw [UpdateSim_eq v uninit info s hf]
    exact ECM.within_trans (UpdateCollisions_within v uninit _) (beforeCollisions_within v info s)

/-- C23. `UpdateSim` creates no component: every pair of an entity and a
component type that is in the store after `UpdateSim` was in the store before
it. -/
theorem C23_UpdateSim_creates_no_component (v : EngineView)
    (uninit : Nat → Option ExtraContactData) (info : UpdateInfo) (s : State)
    (t : ComponentKind) (e : Entity)
    (h : (UpdateSim v uninit info s).ecm.has t e = true) : s.ecm.has t e = true :=
  UpdateSim_within v uninit info s t e h

/-- The read-back on `linksExample`: the link 3 carries `LinearVelocity` after
`UpdateSim`, and carried it before. -/
theorem C23_witness :
    (UpdateSim movedView uninitNull ⟨1, 1, false⟩ linksExample).ecm.has
        ComponentKind.LinearVelocity 3 = true ∧
      linksExample.ecm.has ComponentKind.LinearVelocity 3 = true :=
  ⟨by decide,
    C23_UpdateSim_creates_no_component movedView uninitNull ⟨1, 1, false⟩ linksExample
      ComponentKind.LinearVelocity 3 (by decide)⟩

end Physics
